import Mathlib

/-!
# bake: parser and union lowering

A shallow embedding of `baker/parser.go`, `baker/scanner.go` and of the lowering
loop of `cmd/bake/main.go`.

* The `go/ast` nodes the program builds are inductive types that keep the field
  names of `go/ast`; fields the program never sets (`Doc`, `Obj`, ...) are left out.
* `token.Pos` and byte offsets are natural numbers; `token.NoPos` is `0`.
* A Go `panic` is the error branch of `Except Err`.
* Every Go loop and every recursive descent takes a `fuel` argument; running out of
  it is the separate error `Err.outOfFuel`, never a parse result.
-/

set_option autoImplicit false

/-! ## Tokens and positions of the standard library -/

/-- A Go `rune`; `text/scanner` returns token kinds as negative runes and any
other character as itself. -/
abbrev Rune := Int

namespace scanner

/-- Byte offset part of `scanner.Position` (file name, line and column are only
used for printing). -/
structure Position where
  Offset : Nat
deriving Repr, DecidableEq

/-- One result of `Scanner.Scan`: the rune it returns, the text `TokenText` then
returns, and the byte offset `Position.Offset` then holds (the start of the token). -/
structure Token where
  Tok : Rune
  Text : String
  Offset : Nat
deriving Repr, DecidableEq

/-- Go's `text/scanner.Scanner` (standard library), at the level of what it hands
to its caller. `src` is the sequence of tokens the coming calls of `Scan` deliver
on this source under the settings the caller makes between them; `srcLen` is the
offset reported at end of input. `Position` and `tokText` are what the last call of
`Scan` left; `IsIdentRune` is the field `SetSkipUntil` assigns (`none` is `nil`,
`some enders` the predicate that rejects exactly `enders`). -/
structure Scanner where
  src : List Token
  srcLen : Nat
  Position : Position
  tokText : String
  IsIdentRune : Option (List Rune)
deriving Repr, DecidableEq

def EOF : Rune := -1

/-- Go `Scan`: the next token, or `EOF` (with empty text, at `srcLen`) when none is left. -/
def Scanner.Scan (s : Scanner) : Rune × Scanner :=
  match s.src with
  | [] => (EOF, { s with Position := { Offset := s.srcLen }, tokText := "" })
  | t :: rest =>
    (t.Tok, { s with src := rest, Position := { Offset := t.Offset }, tokText := t.Text })

def Scanner.TokenText (s : Scanner) : String :=
  s.tokText

def Ident : Rune := -2
def Int : Rune := -3
def Float : Rune := -4
def Char : Rune := -5
def String : Rune := -6
def RawString : Rune := -7
def Comment : Rune := -8

end scanner

namespace token

/-- The `token.Token` values the program uses (`GenDecl.Tok`, `BasicLit.Kind`);
`ILLEGAL` is the zero value. -/
inductive Token where
  | ILLEGAL
  | INT
  | FLOAT
  | STRING
  | IMPORT
  | CONST
  | TYPE
  | VAR
deriving Repr, DecidableEq

end token

/-! ## The syntax tree (`go/ast` plus `baker.UnionType`) -/

namespace ast

structure Ident where
  NamePos : Nat
  Name : String
deriving Repr, DecidableEq

structure BasicLit where
  ValuePos : Nat
  Kind : token.Token
  Value : String
deriving Repr, DecidableEq

mutual
/-- Expressions and type expressions. `UnionType` is `baker.UnionType`; `Other`
stands for any `go/ast` expression that only `go/parser` can return, kept as its
source text. -/
inductive Expr where
  | Ident (id : Ident)
  | BasicLit (lit : BasicLit)
  | StarExpr (Star : Nat) (X : Expr)
  | SelectorExpr (X : Expr) (Sel : Ident)
  | CallExpr (Fun : Expr) (Lparen : Nat) (Args : List Expr) (Rparen : Nat)
  | StructType (Struct : Nat) (Fields : FieldList)
  | InterfaceType (Interface : Nat) (Methods : FieldList)
  | FuncType (Func : Nat) (Params : FieldList) (Results : Option FieldList)
  | UnionType (Union : Nat) (Types : List Expr)
  | Other (text : String)
inductive Field where
  | mk (Names : List Ident) (Typ : Expr)
inductive FieldList where
  | mk (Opening : Nat) (Lst : List Field) (Closing : Nat)
end

def Field.Names : Field → List Ident
  | .mk names _ => names

def Field.Typ : Field → Expr
  | .mk _ typ => typ

def FieldList.Lst : FieldList → List Field
  | .mk _ l _ => l

inductive Spec where
  | ImportSpec (Path : BasicLit)
  | ValueSpec (Names : List Ident) (Typ : Option Expr) (Values : List Expr)
  | TypeSpec (Name : Ident) (Typ : Expr)

structure GenDecl where
  TokPos : Nat
  Tok : token.Token
  Specs : List Spec

mutual
inductive Stmt where
  | DeclStmt (Decl : GenDecl)
  | ReturnStmt (Return : Nat) (Results : List Expr)
  | SwitchStmt (Switch : Nat) (Tag : Expr) (Body : BlockStmt)
  | ExprStmt (X : Expr)
  | CaseClause (Case : Nat) (Lst : List Expr) (Colon : Nat) (Body : List Stmt)
inductive BlockStmt where
  | mk (Lbrace : Nat) (Lst : List Stmt) (Rbrace : Nat)
end

def BlockStmt.Lst : BlockStmt → List Stmt
  | .mk _ l _ => l

structure FuncDecl where
  Recv : Option FieldList
  Name : Ident
  Typ : Expr
  Body : BlockStmt

inductive Decl where
  | GenDecl (d : GenDecl)
  | FuncDecl (d : FuncDecl)

structure File where
  Name : Option Ident
  Decls : List Decl

end ast

/-- How a run of the program can abort. -/
inductive Err where
  /-- Go `panic("oh no")`, `panic("wat")`. -/
  | panic (msg : String)
  /-- The panic of `expectLit`: wanted literal, literal found, scanner position. -/
  | wantLit (want got : String) (pos : scanner.Position)
  /-- The panic of `parseValue`: `go/parser` rejected the text. -/
  | parseValue (str : String)
  /-- Go runtime error: slice bounds out of range. -/
  | sliceBounds
  /-- Go runtime error: index out of range. -/
  | indexOutOfRange
  /-- The fuel of the model ran out (not a behaviour of the program). -/
  | outOfFuel
deriving Repr, DecidableEq

/-! ## Union lowering (`cmd/bake/main.go`, the loop over `file.Decls`) -/

namespace main

/-- The second loop of the helper type: `Field%d` fields, numbered from `i`. -/
def payloadFields : Nat → List ast.Expr → List ast.Field
  | _, [] => []
  | i, typ :: rest =>
    ast.Field.mk [{ NamePos := 0, Name := "Field" ++ toString i }] typ :: payloadFields (i + 1) rest

/-- The helper type appended for a union named `name` with members `typesList`. -/
def helperType (name : String) (typesList : List ast.Expr) : ast.Decl :=
  let list : List ast.Field :=
    [ast.Field.mk [{ NamePos := 0, Name := "Type" }] (.Ident { NamePos := 0, Name := name })]
  let list := list ++ payloadFields 0 typesList
  .GenDecl
    { TokPos := 0
      Tok := .TYPE
      Specs := [.TypeSpec { NamePos := 0, Name := "__" ++ name }
                  (.StructType 0 (.mk 0 list 0))] }

/-- One iteration of `for _, decl := range file.Decls`. `decl` is the element the
range loop hands out, `i` its index, `Decls` the current `file.Decls`. The
assignment `typeSpec.Type = ...` writes through the pointer stored at index `i`;
the declarations of a file are distinct nodes, so no other entry changes. The
`fmt.Printf` of the loop only prints. -/
def lowerDecl (decl : ast.Decl) (i : Nat) (Decls : List ast.Decl) : Except Err (List ast.Decl) :=
  match decl with
  | .FuncDecl _ => .ok Decls
  | .GenDecl genDecl =>
    if genDecl.Tok ≠ .TYPE then .ok Decls
    else
      match genDecl.Specs with
      | [] => .error .indexOutOfRange
      | .TypeSpec Name (.UnionType Union Types) :: specs =>
        let name := Name.Name
        let typesList := Types
        let Decls := Decls.set i
          (.GenDecl { genDecl with
            Specs := .TypeSpec Name (.InterfaceType Union (.mk 0 [] 0)) :: specs })
        .ok (Decls ++ [helperType name typesList])
      | _ :: _ => .ok Decls

/-- The range loop: `todo` is what is left of the slice the loop ranges over (the
value of `file.Decls` when the loop starts), `i` the index of its head. -/
def lowerLoop : List ast.Decl → Nat → List ast.Decl → Except Err (List ast.Decl)
  | [], _, Decls => .ok Decls
  | decl :: todo, i, Decls =>
    match lowerDecl decl i Decls with
    | .error e => .error e
    | .ok Decls => lowerLoop todo (i + 1) Decls

/-- The lowering block of `main`, on the declaration list of the parsed file. -/
def lowerUnions (Decls : List ast.Decl) : Except Err (List ast.Decl) :=
  lowerLoop Decls 0 Decls

end main


/-! ## The scanner wrapper and the parser (`baker/scanner.go`, `baker/parser.go`) -/

namespace baker

abbrev KeywordSemicolon : String := ";"
abbrev KeywordPkg : String := "pkg"
abbrev KeywordFn : String := "fn"
abbrev KeywordBegin : String := "begin"
abbrev KeywordEnd : String := "end"
abbrev KeywordPrintf : String := "printf"
abbrev KeywordImport : String := "import"
abbrev KeywordVar : String := "var"
abbrev KeywordReturn : String := "return"
abbrev KeywordType : String := "type"
abbrev KeywordSwitch : String := "switch"
abbrev KeywordCase : String := "case"
abbrev KeywordIf : String := "if"
abbrev KeywordStruct : String := "struct"
abbrev KeywordUnion : String := "union"
abbrev KeywordInterface : String := "interface"

structure GoScanner where
  scnr : scanner.Scanner
deriving Repr, DecidableEq

/-- Go `GoScanner.Init`: a fresh scanner over the source (here: over the tokens the
source scans to, and its length). -/
def GoScanner.Init (src : List scanner.Token) (srcLen : Nat) : GoScanner :=
  { scnr :=
      { src := src
        srcLen := srcLen
        Position := { Offset := 0 }
        tokText := ""
        IsIdentRune := none } }

/-- Go `GoScanner.SetSkipUntil(enders...)`. -/
def GoScanner.SetSkipUntil (s : GoScanner) (enders : List Rune) : GoScanner :=
  if enders.length = 0 then
    { s with scnr := { s.scnr with IsIdentRune := none } }
  else
    { s with scnr := { s.scnr with IsIdentRune := some enders } }

/-- The anonymous struct `Parser.Curr`. -/
structure Curr where
  Tok : Rune
  Lit : String
deriving Repr, DecidableEq

/-- The parser state. `FileSet` only serves printing, and `verbose` is set to
`false` by `NewParser` and never changed, so the logging branch of `next` is dead. -/
structure Parser where
  GoScanner : GoScanner
  File : ast.File
  Curr : Curr

/-- Go `p.GoScanner.scnr.Position`. -/
def Parser.Position (p : Parser) : scanner.Position :=
  p.GoScanner.scnr.Position

/-- Go `Parser.next`. The runes 59, 10 and 13 are `;`, line feed and carriage return. -/
def Parser.next (p : Parser) : Parser :=
  if p.Curr.Tok = scanner.EOF then p
  else
    let r := p.GoScanner.scnr.Scan
    let p : Parser :=
      { p with
        GoScanner := { p.GoScanner with scnr := r.2 }
        Curr := { Tok := r.1, Lit := r.2.TokenText } }
    if p.Curr.Tok = 59 ∨ p.Curr.Tok = 10 ∨ p.Curr.Tok = 13 then
      { p with Curr := { Tok := scanner.Ident, Lit := ";" } }
    else p

/-- Go `NewParser`, on the tokens and the length of the trimmed source. -/
def NewParser (src : List scanner.Token) (srcLen : Nat) : Parser :=
  Parser.next
    { GoScanner := GoScanner.Init src srcLen
      File := { Name := none, Decls := [] }
      Curr := { Tok := 0, Lit := "" } }

/-- Go `Parser.skipNewLines`. -/
def skipNewLines : Nat → Parser → Except Err Parser
  | 0, _ => .error .outOfFuel
  | fuel + 1, p =>
    if p.Curr.Lit = KeywordSemicolon then skipNewLines fuel p.next
    else .ok p

/-- Go `Parser.expectLit`. -/
def expectLit (p : Parser) (want : String) : Except Err (scanner.Position × Parser) :=
  let got := p.Curr.Lit
  if got ≠ want then .error (.wantLit want got p.Position)
  else
    let p := p.next
    .ok (p.Position, p)

/-- Go `Parser.expectSemicolon`. -/
def expectSemicolon (fuel : Nat) (p : Parser) : Except Err Parser :=
  if p.Curr.Tok = scanner.EOF then .ok p
  else do
    let (_, p) ← expectLit p KeywordSemicolon
    skipNewLines fuel p

/-- Go `Parser.parseIdent`. -/
def parseIdent (p : Parser) : Except Err (ast.Ident × Parser) :=
  let lit := p.Curr.Lit
  if p.Curr.Tok ≠ scanner.Ident then .error (.panic "oh no")
  else
    let p := p.next
    .ok ({ NamePos := p.Position.Offset + 1, Name := lit }, p)

/-- Go `Parser.parseString`. -/
def parseString (p : Parser) : Except Err ((String × scanner.Position) × Parser) :=
  let lit := p.Curr.Lit
  if p.Curr.Tok ≠ scanner.String then .error (.panic "oh no")
  else
    let p := p.next
    .ok ((lit, p.Position), p)

/-- The loop of `fromHereToEndOfLine`. -/
def fromHereToEndOfLine.loop : Nat → Parser → String → Except Err (String × Parser)
  | 0, _, _ => .error .outOfFuel
  | fuel + 1, p, str =>
    if p.Curr.Tok ≠ scanner.EOF ∧ p.Curr.Lit ≠ ";" then
      fromHereToEndOfLine.loop fuel p.next (str ++ p.Curr.Lit)
    else .ok (str, p)

/-- Go `Parser.fromHereToEndOfLine`. The enders are line feed, carriage return, `;`. -/
def fromHereToEndOfLine (fuel : Nat) (p : Parser) : Except Err (String × Parser) := do
  let str := ""
  let p := { p with GoScanner := p.GoScanner.SetSkipUntil [10, 13, 59] }
  let (str, p) ← fromHereToEndOfLine.loop fuel p str
  let p := { p with GoScanner := p.GoScanner.SetSkipUntil [] }
  return (str, p)

/-- The slice `str[:len(str)-1]`: a runtime panic on the empty string, else `str`
without its last byte. The result is given for a last character of one byte (the
`:` of a header); Go would cut a longer character in the middle. -/
def dropLastByte (str : String) : Except Err String :=
  if str.length = 0 then .error .sliceBounds
  else .ok (String.mk str.data.dropLast)

section
variable (ParseExpr : String → Option ast.Expr)

/-- Go `Parser.parseValue`. `ParseExpr` is `go/parser.ParseExpr` (standard library):
`none` when it returns an error. -/
def parseValue (pos : scanner.Position) (str : String) : Except Err ast.Expr :=
  match ParseExpr str with
  | none => .error (.parseValue str)
  | some (.BasicLit lit) => .ok (.BasicLit { lit with ValuePos := pos.Offset + lit.ValuePos })
  | some expr => .ok expr

/-- Go `Parser.parseValueToEndOfLine`. -/
def parseValueToEndOfLine (fuel : Nat) (p : Parser) : Except Err (ast.Expr × Parser) := do
  let pos := p.Position
  let (str, p) ← fromHereToEndOfLine fuel p
  let expr ← parseValue ParseExpr pos str
  let p ← expectSemicolon fuel p
  return (expr, p)

end

mutual

/-- Go `Parser.parseMethodSpec`. -/
def parseMethodSpec : Nat → Parser → Except Err (ast.Field × Parser)
  | 0, _ => .error .outOfFuel
  | fuel + 1, p => do
    let (ident, p) ← parseIdent p
    let (params, p) ← parseFieldList fuel p
    let (results, p) ← parseTypeList fuel p
    let p ← expectSemicolon fuel p
    return (.mk [ident] (.FuncType 0 params (some results)), p)

/-- The loop of `parseInterfaceType`. -/
def parseInterfaceType.loop : Nat → Parser → List ast.Field → Except Err (List ast.Field × Parser)
  | 0, _, _ => .error .outOfFuel
  | fuel + 1, p, list => do
    let p ← skipNewLines fuel p
    if p.Curr.Lit = KeywordEnd then return (list, p)
    else
      let (m, p) ← parseMethodSpec fuel p
      parseInterfaceType.loop fuel p (list ++ [m])

/-- Go `Parser.parseInterfaceType`. -/
def parseInterfaceType : Nat → Parser → Except Err (ast.Expr × Parser)
  | 0, _ => .error .outOfFuel
  | fuel + 1, p => do
    let (interfacePos, p) ← expectLit p KeywordInterface
    let lbrace := p.Position
    let (_, p) ← expectLit p KeywordBegin
    let (list, p) ← parseInterfaceType.loop fuel p []
    let rbrace := p.Position
    let (_, p) ← expectLit p KeywordEnd
    return (.InterfaceType (interfacePos.Offset + 1)
      (.mk (lbrace.Offset + 1) list (rbrace.Offset + 1)), p)

/-- The loop of `parseUnionType`. -/
def parseUnionType.loop : Nat → Parser → List ast.Expr → Except Err (List ast.Expr × Parser)
  | 0, _, _ => .error .outOfFuel
  | fuel + 1, p, list =>
    if p.Curr.Tok ≠ scanner.EOF ∧ p.Curr.Lit ≠ ";" then do
      let (typ, p) ← parseType fuel p
      let list := list ++ [typ]
      if p.Curr.Lit = "|" then
        let (_, p) ← expectLit p "|"
        parseUnionType.loop fuel p list
      else parseUnionType.loop fuel p list
    else .ok (list, p)

/-- Go `Parser.parseUnionType`. -/
def parseUnionType : Nat → Parser → Except Err (ast.Expr × Parser)
  | 0, _ => .error .outOfFuel
  | fuel + 1, p => do
    let (pos, p) ← expectLit p KeywordUnion
    let (_, p) ← expectLit p "="
    let (list, p) ← parseUnionType.loop fuel p []
    return (.UnionType (pos.Offset + 1) list, p)

/-- The loop of `parseStructType`. -/
def parseStructType.loop : Nat → Parser → List ast.Field → Except Err (List ast.Field × Parser)
  | 0, _, _ => .error .outOfFuel
  | fuel + 1, p, list => do
    let p ← skipNewLines fuel p
    if p.Curr.Lit = KeywordEnd then return (list, p)
    else
      let (f, p) ← parseArgParam fuel p
      parseStructType.loop fuel p (list ++ [f])

/-- Go `Parser.parseStructType`. -/
def parseStructType : Nat → Parser → Except Err (ast.Expr × Parser)
  | 0, _ => .error .outOfFuel
  | fuel + 1, p => do
    let (structPos, p) ← expectLit p KeywordStruct
    let lbrace := p.Position
    let (_, p) ← expectLit p KeywordBegin
    let (list, p) ← parseStructType.loop fuel p []
    let rbrace := p.Position
    let (_, p) ← expectLit p KeywordEnd
    return (.StructType (structPos.Offset + 1)
      (.mk (lbrace.Offset + 1) list (rbrace.Offset + 1)), p)

/-- Go `Parser.parseType`. -/
def parseType : Nat → Parser → Except Err (ast.Expr × Parser)
  | 0, _ => .error .outOfFuel
  | fuel + 1, p =>
    if p.Curr.Lit = "*" then do
      let star := p.Position
      let p := p.next
      let (X, p) ← parseType fuel p
      return (.StarExpr (star.Offset + 1) X, p)
    else if p.Curr.Lit = KeywordStruct then parseStructType fuel p
    else if p.Curr.Lit = KeywordUnion then parseUnionType fuel p
    else if p.Curr.Lit = KeywordInterface then parseInterfaceType fuel p
    else do
      let (ident, p) ← parseIdent p
      return (.Ident ident, p)

/-- Go `Parser.parseRetParam`. -/
def parseRetParam : Nat → Parser → Except Err (ast.Field × Parser)
  | 0, _ => .error .outOfFuel
  | fuel + 1, p => do
    let (typ, p) ← parseType fuel p
    return (.mk [] typ, p)

/-- Go `Parser.parseArgParam`. -/
def parseArgParam : Nat → Parser → Except Err (ast.Field × Parser)
  | 0, _ => .error .outOfFuel
  | fuel + 1, p => do
    let (ident, p) ← parseIdent p
    let (typ, p) ← parseType fuel p
    return (.mk [ident] typ, p)

/-- The loop of `parseFieldList`. -/
def parseFieldList.loop : Nat → Parser → List ast.Field → Except Err (List ast.Field × Parser)
  | 0, _, _ => .error .outOfFuel
  | fuel + 1, p, params =>
    if p.Curr.Lit = ")" then .ok (params, p)
    else do
      let (f, p) ← parseArgParam fuel p
      let params := params ++ [f]
      if p.Curr.Lit = "," then parseFieldList.loop fuel p.next params
      else parseFieldList.loop fuel p params

/-- Go `Parser.parseFieldList`. -/
def parseFieldList : Nat → Parser → Except Err (ast.FieldList × Parser)
  | 0, _ => .error .outOfFuel
  | fuel + 1, p => do
    let lparen := p.Position
    let (_, p) ← expectLit p "("
    let (params, p) ← parseFieldList.loop fuel p []
    let rparen := p.Position
    let (_, p) ← expectLit p ")"
    return (.mk (lparen.Offset + 1) params (rparen.Offset + 1), p)

/-- The loop of `parseTypeList`. -/
def parseTypeList.loop : Nat → Parser → List ast.Field → Except Err (List ast.Field × Parser)
  | 0, _, _ => .error .outOfFuel
  | fuel + 1, p, params =>
    if p.Curr.Lit = ")" then .ok (params, p)
    else do
      let (f, p) ← parseRetParam fuel p
      let params := params ++ [f]
      if p.Curr.Lit = "," then parseTypeList.loop fuel p.next params
      else parseTypeList.loop fuel p params

/-- Go `Parser.parseTypeList`. -/
def parseTypeList : Nat → Parser → Except Err (ast.FieldList × Parser)
  | 0, _ => .error .outOfFuel
  | fuel + 1, p => do
    let lparen := p.Position
    let (_, p) ← expectLit p "("
    let (params, p) ← parseTypeList.loop fuel p []
    let rparen := p.Position
    let (_, p) ← expectLit p ")"
    return (.mk (lparen.Offset + 1) params (rparen.Offset + 1), p)

end

/-- Go `Parser.parseExpr`. -/
def parseExpr (p : Parser) : Except Err (ast.Expr × Parser) :=
  let pos := p.Position
  if p.Curr.Tok = scanner.Int then
    .ok (.BasicLit { ValuePos := pos.Offset + 1, Kind := .INT, Value := p.Curr.Lit }, p.next)
  else if p.Curr.Tok = scanner.Float then
    .ok (.BasicLit { ValuePos := pos.Offset + 1, Kind := .FLOAT, Value := p.Curr.Lit }, p.next)
  else if p.Curr.Tok = scanner.String then
    .ok (.BasicLit { ValuePos := pos.Offset + 1, Kind := .STRING, Value := p.Curr.Lit }, p.next)
  else if p.Curr.Tok = scanner.Ident then
    .ok (.Ident { NamePos := pos.Offset + 1, Name := p.Curr.Lit }, p.next)
  else .error (.panic "oh no")

/-- One character of a string under `%q`. -/
def quoteChar (c : Char) : String :=
  if c = Char.ofNat 34 then String.mk [Char.ofNat 92, Char.ofNat 34]
  else if c = Char.ofNat 92 then String.mk [Char.ofNat 92, Char.ofNat 92]
  else if c = Char.ofNat 10 then String.mk [Char.ofNat 92, Char.ofNat 110]
  else if c = Char.ofNat 13 then String.mk [Char.ofNat 92, Char.ofNat 114]
  else if c = Char.ofNat 9 then String.mk [Char.ofNat 92, Char.ofNat 116]
  else String.mk [c]

/-- Go `fmt.Sprintf("%q", path)` (standard library): the path in double quotes, with
the double quote, the backslash, line feed, carriage return and tab escaped. Other
characters are copied, which is what Go does for every printable one. -/
def Sprintf_q (path : String) : String :=
  String.mk [Char.ofNat 34] ++ String.join (path.data.map quoteChar) ++ String.mk [Char.ofNat 34]

/-- The loop of `addImportDelc`: `true` when it returns at `// found`. -/
def addImportDelc.loop : List ast.Decl → String → Except Err Bool
  | [], _ => .ok false
  | .FuncDecl _ :: rest, q => addImportDelc.loop rest q
  | .GenDecl decl :: rest, q =>
    if decl.Tok ≠ .IMPORT then addImportDelc.loop rest q
    else
      match decl.Specs with
      | [] => .error .indexOutOfRange
      | .ImportSpec Path :: _ =>
        if Path.Value = q then .ok true
        else addImportDelc.loop rest q
      | _ :: _ => addImportDelc.loop rest q

/-- The declaration `addImportDelc` appends. -/
def importDecl (path : String) : ast.Decl :=
  .GenDecl
    { TokPos := 0
      Tok := .IMPORT
      Specs := [.ImportSpec { ValuePos := 0, Kind := .STRING, Value := Sprintf_q path }] }

/-- Go `Parser.addImportDelc`, on the declaration list it reads and writes. -/
def addImportDelc.decls (Decls : List ast.Decl) (path : String) : Except Err (List ast.Decl) := do
  if (← addImportDelc.loop Decls (Sprintf_q path)) then return Decls
  else return Decls ++ [importDecl path]

/-- Go `Parser.addImportDelc`. -/
def addImportDelc (p : Parser) (path : String) : Except Err Parser := do
  let Decls ← addImportDelc.decls p.File.Decls path
  return { p with File := { p.File with Decls := Decls } }

/-- The argument loop of `parseCallExpr`. -/
def parseCallExpr.loop : Nat → Parser → List ast.Expr → Except Err (List ast.Expr × Parser)
  | 0, _, _ => .error .outOfFuel
  | fuel + 1, p, args => do
    let (arg, p) ← parseExpr p
    let args := args ++ [arg]
    if p.Curr.Lit = "," then parseCallExpr.loop fuel p.next args
    else return (args, p)

/-- Go `Parser.parseCallExpr`. -/
def parseCallExpr (fuel : Nat) (p : Parser) : Except Err (ast.Expr × Parser) := do
  let (ident, p) ← parseIdent p
  let (fn, p) ←
    if ident.Name = "printf" then do
      let fn : ast.Expr :=
        .SelectorExpr (.Ident { NamePos := 0, Name := "fmt" }) { NamePos := 0, Name := "Printf" }
      let p ← addImportDelc p "fmt"
      pure (fn, p)
    else pure (ast.Expr.Ident ident, p)
  let lparen := p.Position
  let (_, p) ← expectLit p "("
  let (args, p) ← parseCallExpr.loop fuel p []
  let rparen := p.Position
  let (_, p) ← expectLit p ")"
  return (.CallExpr fn (lparen.Offset + 1) args (rparen.Offset + 1), p)

section
variable (ParseExpr : String → Option ast.Expr)

/-- Go `Parser.parseReturnStmt`. -/
def parseReturnStmt (fuel : Nat) (p : Parser) : Except Err (ast.Stmt × Parser) := do
  let (pos, p) ← expectLit p KeywordReturn
  let (val, p) ← parseValueToEndOfLine ParseExpr fuel p
  return (.ReturnStmt (pos.Offset + 1) [val], p)

/-- Go `Parser.parseVarDecl`. -/
def parseVarDecl (fuel : Nat) (p : Parser) : Except Err (ast.GenDecl × Parser) := do
  let (varPos, p) ← expectLit p KeywordVar
  let (varIdent, p) ← parseIdent p
  let (typ, val, p) ←
    if p.Curr.Lit = "=" then do
      let (_, p) ← expectLit p "="
      let (val, p) ← parseValueToEndOfLine ParseExpr fuel p
      pure ((none : Option ast.Expr), val, p)
    else do
      let (typ, p) ← parseType fuel p
      let (_, p) ← expectLit p "="
      let (val, p) ← parseValueToEndOfLine ParseExpr fuel p
      pure (some typ, val, p)
  return ({ TokPos := varPos.Offset + 1
            Tok := .VAR
            Specs := [.ValueSpec [varIdent] typ [val]] }, p)

mutual

/-- Go `Parser.parseCaseClause`. -/
def parseCaseClause : Nat → Parser → Except Err (ast.Stmt × Parser)
  | 0, _ => .error .outOfFuel
  | fuel + 1, p =>
    if p.Curr.Lit = "case" then do
      let pos := p.Position
      let p := p.next
      let exprPos := p.Position
      let (str, p) ← fromHereToEndOfLine fuel p
      let hdr ← dropLastByte str
      let expr ← parseValue ParseExpr exprPos hdr
      let exprs := [expr]
      let p ← expectSemicolon fuel p
      let colon := p.Position
      let (body, p) ← parseStmtsUntil fuel p [KeywordEnd, "case", "default"]
      return (.CaseClause (pos.Offset + 1) exprs (colon.Offset + 1) body, p)
    else if p.Curr.Lit = "default" then do
      let pos := p.Position
      let p := p.next
      let colon := p.Position
      let p := p.next
      let (body, p) ← parseStmtsUntil fuel p [KeywordEnd, "case", "default"]
      return (.CaseClause (pos.Offset + 1) [] (colon.Offset + 1) body, p)
    else .error (.panic "wat")

/-- The loop of `parseSwitchBody`. -/
def parseSwitchBody.loop : Nat → Parser → List ast.Stmt → Except Err (List ast.Stmt × Parser)
  | 0, _, _ => .error .outOfFuel
  | fuel + 1, p, list =>
    if p.Curr.Lit = "case" ∨ p.Curr.Lit = "default" then do
      let (c, p) ← parseCaseClause fuel p
      parseSwitchBody.loop fuel p (list ++ [c])
    else .ok (list, p)

/-- Go `Parser.parseSwitchBody`. -/
def parseSwitchBody : Nat → Parser → Except Err (ast.BlockStmt × Parser)
  | 0, _ => .error .outOfFuel
  | fuel + 1, p => do
    let lbrace := p.Position
    let (list, p) ← parseSwitchBody.loop fuel p []
    let rbrace := p.Position
    let (_, p) ← expectLit p KeywordEnd
    return (.mk (lbrace.Offset + 1) list (rbrace.Offset + 1), p)

/-- Go `Parser.parseSwitchStmt`. -/
def parseSwitchStmt : Nat → Parser → Except Err (ast.Stmt × Parser)
  | 0, _ => .error .outOfFuel
  | fuel + 1, p => do
    let (pos, p) ← expectLit p KeywordSwitch
    let exprPos := p.Position
    let (str, p) ← fromHereToEndOfLine fuel p
    let hdr ← dropLastByte str
    let tag ← parseValue ParseExpr exprPos hdr
    let p ← expectSemicolon fuel p
    let (body, p) ← parseSwitchBody fuel p
    return (.SwitchStmt (pos.Offset + 1) tag body, p)

/-- Go `Parser.parseStmt`. -/
def parseStmt : Nat → Parser → Except Err (ast.Stmt × Parser)
  | 0, _ => .error .outOfFuel
  | fuel + 1, p =>
    if p.Curr.Lit = KeywordVar then do
      let (decl, p) ← parseVarDecl ParseExpr fuel p
      return (.DeclStmt decl, p)
    else if p.Curr.Lit = KeywordReturn then parseReturnStmt ParseExpr fuel p
    else if p.Curr.Lit = KeywordSwitch then parseSwitchStmt fuel p
    else do
      let (call, p) ← parseCallExpr fuel p
      return (.ExprStmt call, p)

/-- Go `Parser.parseStmtsUntil`. -/
def parseStmtsUntil : Nat → Parser → List String → Except Err (List ast.Stmt × Parser)
  | 0, _, _ => .error .outOfFuel
  | fuel + 1, p, enders => do
    let p ← skipNewLines fuel p
    if p.Curr.Lit ∈ enders then return ([], p)
    else
      let (stmt, p) ← parseStmt fuel p
      let (list, p) ← parseStmtsUntil fuel p enders
      return (stmt :: list, p)

end

/-- Go `Parser.parseBody`. -/
def parseBody (fuel : Nat) (p : Parser) : Except Err (ast.BlockStmt × Parser) := do
  let lbrace := p.Position
  let (_, p) ← expectLit p KeywordBegin
  let (list, p) ← parseStmtsUntil ParseExpr fuel p [KeywordEnd]
  let rbrace := p.Position
  let (_, p) ← expectLit p KeywordEnd
  return (.mk (lbrace.Offset + 1) list (rbrace.Offset + 1), p)

/-- Go `Parser.parseTypeDecl`. -/
def parseTypeDecl (fuel : Nat) (p : Parser) : Except Err (ast.GenDecl × Parser) := do
  let (typePos, p) ← expectLit p KeywordType
  let (ident, p) ← parseIdent p
  let (typ, p) ← parseType fuel p
  let p ← expectSemicolon fuel p
  return ({ TokPos := typePos.Offset + 1
            Tok := .TYPE
            Specs := [.TypeSpec ident typ] }, p)

/-- Go `Parser.parseFuncDecl`. -/
def parseFuncDecl (fuel : Nat) (p : Parser) : Except Err (ast.FuncDecl × Parser) := do
  let (funcPos, p) ← expectLit p KeywordFn
  let (recv, p) ←
    if p.Curr.Lit = "(" then do
      let (recv, p) ← parseFieldList fuel p
      pure (some recv, p)
    else pure ((none : Option ast.FieldList), p)
  let (ident, p) ← parseIdent p
  let (params, p) ← parseFieldList fuel p
  let (body, p) ← parseBody ParseExpr fuel p
  let p ← expectSemicolon fuel p
  return ({ Recv := recv
            Name := ident
            Typ := .FuncType (funcPos.Offset + 1) params none
            Body := body }, p)

/-- Go `Parser.parseImportDecl`. -/
def parseImportDecl (fuel : Nat) (p : Parser) : Except Err (ast.GenDecl × Parser) := do
  let (importPos, p) ← expectLit p KeywordImport
  let ((path, pathPos), p) ← parseString p
  let p ← expectSemicolon fuel p
  return ({ TokPos := importPos.Offset + 1
            Tok := .IMPORT
            Specs := [.ImportSpec { ValuePos := pathPos.Offset + 1, Kind := .STRING, Value := path }] }, p)

/-- The `switch` in the loop of `ParseFile`: the declaration it assigns to `decl`,
or `none` at `break FOR`. -/
def ParseFile.decl (fuel : Nat) (p : Parser) : Except Err (Option (ast.Decl × Parser)) :=
  if p.Curr.Lit = KeywordVar then do
    let (decl, p) ← parseVarDecl ParseExpr fuel p
    return some (.GenDecl decl, p)
  else if p.Curr.Lit = KeywordImport then do
    let (decl, p) ← parseImportDecl fuel p
    return some (.GenDecl decl, p)
  else if p.Curr.Lit = KeywordFn then do
    let (decl, p) ← parseFuncDecl ParseExpr fuel p
    return some (.FuncDecl decl, p)
  else if p.Curr.Lit = KeywordType then do
    let (decl, p) ← parseTypeDecl fuel p
    return some (.GenDecl decl, p)
  else return none

/-- The loop of `ParseFile`. -/
def ParseFile.loop : Nat → Parser → Except Err Parser
  | 0, _ => .error .outOfFuel
  | fuel + 1, p =>
    if p.Curr.Tok ≠ scanner.EOF then
      match ParseFile.decl ParseExpr fuel p with
      | .error e => .error e
      | .ok none => .ok p
      | .ok (some (decl, p)) =>
        ParseFile.loop fuel { p with File := { p.File with Decls := p.File.Decls ++ [decl] } }
    else .ok p

/-- Go `Parser.ParseFile`; the state it leaves is returned next to `p.File`. -/
def ParseFile (fuel : Nat) (p : Parser) : Except Err (ast.File × Parser) := do
  let p ← skipNewLines fuel p
  let p := { p with File := { p.File with Name := some { NamePos := 0, Name := "main" } } }
  let p ← ParseFile.loop ParseExpr fuel p
  return (p.File, p)

end

end baker


/-! ## Vocabulary of the statements -/

namespace main

/-- A declaration the lowering loop rewrites: a `GenDecl` with token `TYPE` whose
first spec is a `TypeSpec` with a `UnionType` as its type. -/
def isUnionDecl : ast.Decl → Bool
  | .GenDecl { Tok := .TYPE, Specs := .TypeSpec _ (.UnionType _ _) :: _, .. } => true
  | _ => false

/-- The only way the loop can panic is `genDecl.Specs[0]` on a type declaration
without specs; `hasSpec` excludes it. Every declaration the parser builds has
exactly one spec. -/
def hasSpec : ast.Decl → Prop
  | .GenDecl g => g.Tok = .TYPE → g.Specs ≠ []
  | .FuncDecl _ => True

/-- A union declaration with its type replaced by the empty interface; any other
declaration as it is. -/
def markerOf : ast.Decl → ast.Decl
  | .GenDecl { TokPos := tp, Tok := .TYPE, Specs := .TypeSpec Name (.UnionType Union _) :: specs } =>
    .GenDecl
      { TokPos := tp, Tok := .TYPE
        Specs := .TypeSpec Name (.InterfaceType Union (.mk 0 [] 0)) :: specs }
  | d => d

/-- The helper type of a union declaration, nothing for any other declaration. -/
def helperOf? : ast.Decl → Option ast.Decl
  | .GenDecl { Tok := .TYPE, Specs := .TypeSpec Name (.UnionType _ Types) :: _, .. } =>
    some (helperType Name.Name Types)
  | _ => none

/-- A union declaration for the name `n`. -/
def isUnionNamed (n : String) : ast.Decl → Bool
  | .GenDecl { Tok := .TYPE, Specs := .TypeSpec Name (.UnionType _ _) :: _, .. } => Name.Name == n
  | _ => false

/-- A declaration whose first spec declares the type name `n`. -/
def declaresType (n : String) : ast.Decl → Bool
  | .GenDecl { Tok := .TYPE, Specs := .TypeSpec Name _ :: _, .. } => Name.Name == n
  | _ => false

end main

namespace baker

/-- A relation between parser states that every cursor movement respects: it is
reflexive and transitive, and holds across `next` and across `SetSkipUntil`. What
it relates across a function that only moves the cursor it relates across its
whole run. -/
structure CursorRel (R : Parser → Parser → Prop) : Prop where
  refl : ∀ p, R p p
  trans : ∀ {a b c : Parser}, R a b → R b c → R a c
  next : ∀ p : Parser, R p p.next
  skip : ∀ (p : Parser) (enders : List Rune),
    R p { p with GoScanner := p.GoScanner.SetSkipUntil enders }

/-- The cursor relation "the file under construction is the same". -/
def sameFile (p p' : Parser) : Prop :=
  p'.File = p.File

end baker

namespace ast

mutual
/-- A `UnionType` node occurs in the expression. -/
def Expr.hasUnion : Expr → Bool
  | .UnionType _ _ => true
  | .StarExpr _ X => X.hasUnion
  | .SelectorExpr X _ => X.hasUnion
  | .CallExpr Fun _ Args _ => Fun.hasUnion || Expr.anyHasUnion Args
  | .StructType _ Fields => Fields.hasUnion
  | .InterfaceType _ Methods => Methods.hasUnion
  | .FuncType _ Params none => Params.hasUnion
  | .FuncType _ Params (some Results) => Params.hasUnion || Results.hasUnion
  | .Ident _ => false
  | .BasicLit _ => false
  | .Other _ => false
def Expr.anyHasUnion : List Expr → Bool
  | [] => false
  | e :: es => e.hasUnion || Expr.anyHasUnion es
def Field.hasUnion : Field → Bool
  | .mk _ Typ => Typ.hasUnion
def Field.anyHasUnion : List Field → Bool
  | [] => false
  | f :: fs => f.hasUnion || Field.anyHasUnion fs
def FieldList.hasUnion : FieldList → Bool
  | .mk _ Lst _ => Field.anyHasUnion Lst
end

def Spec.hasUnion : Spec → Bool
  | .ImportSpec _ => false
  | .ValueSpec _ none Values => Expr.anyHasUnion Values
  | .ValueSpec _ (some Typ) Values => Typ.hasUnion || Expr.anyHasUnion Values
  | .TypeSpec _ Typ => Typ.hasUnion

def GenDecl.hasUnion (d : GenDecl) : Bool :=
  d.Specs.any Spec.hasUnion

mutual
def Stmt.hasUnion : Stmt → Bool
  | .DeclStmt Decl => Decl.hasUnion
  | .ReturnStmt _ Results => Expr.anyHasUnion Results
  | .SwitchStmt _ Tag Body => Tag.hasUnion || Body.hasUnion
  | .ExprStmt X => X.hasUnion
  | .CaseClause _ Lst _ Body => Expr.anyHasUnion Lst || Stmt.anyHasUnion Body
def Stmt.anyHasUnion : List Stmt → Bool
  | [] => false
  | s :: ss => s.hasUnion || Stmt.anyHasUnion ss
def BlockStmt.hasUnion : BlockStmt → Bool
  | .mk _ Lst _ => Stmt.anyHasUnion Lst
end

/-- A `UnionType` node is reachable from the declaration. -/
def Decl.hasUnion : Decl → Bool
  | .GenDecl d => d.hasUnion
  | .FuncDecl d =>
    (match d.Recv with
      | none => false
      | some r => r.hasUnion) || d.Typ.hasUnion || d.Body.hasUnion

end ast

namespace baker

/-- A declaration in which the scan of `addImportDelc` finds the quoted path `q`:
an import declaration whose first spec has the path literal `q`. -/
def importsPath (q : String) : ast.Decl → Bool
  | .GenDecl { Tok := .IMPORT, Specs := .ImportSpec Path :: _, .. } => Path.Value == q
  | _ => false

/-- The only way the scan of `addImportDelc` can panic is `decl.Specs[0]` on a
declaration with token `IMPORT` and no specs; `hasImportSpec` excludes it. -/
def hasImportSpec : ast.Decl → Prop
  | .GenDecl g => g.Tok = .IMPORT → g.Specs ≠ []
  | .FuncDecl _ => True

/-- The call target `parseCallExpr` puts in place of `printf`. -/
def isFmtPrintf : ast.Expr → Bool
  | .SelectorExpr (.Ident X) Sel => X.Name == "fmt" && Sel.Name == "Printf"
  | _ => false

/-- A call whose target is `fmt.Printf`. -/
def isPrintfCall : ast.Expr → Bool
  | .CallExpr Fun _ _ _ => isFmtPrintf Fun
  | _ => false

mutual
/-- The statement is, or contains in a switch, a call statement of `printf`. -/
def stmtCallsPrintf : ast.Stmt → Bool
  | .ExprStmt X => isPrintfCall X
  | .SwitchStmt _ _ Body => blockCallsPrintf Body
  | .CaseClause _ _ _ Body => stmtsCallPrintf Body
  | .DeclStmt _ => false
  | .ReturnStmt _ _ => false
def blockCallsPrintf : ast.BlockStmt → Bool
  | .mk _ Lst _ => stmtsCallPrintf Lst
def stmtsCallPrintf : List ast.Stmt → Bool
  | [] => false
  | s :: ss => stmtCallsPrintf s || stmtsCallPrintf ss
end

/-- The body of the declaration contains a call statement of `printf`. -/
def declCallsPrintf : ast.Decl → Bool
  | .FuncDecl f => blockCallsPrintf f.Body
  | .GenDecl _ => false

/-- What parsing does to the declaration list: with a `printf` call statement in
the parsed text (`b`), `addImportDelc("fmt")` has run on it; without, nothing. -/
def Registered (b : Bool) (D D' : List ast.Decl) : Prop :=
  if b then addImportDelc.decls D "fmt" = .ok D' else D' = D

/-- The declaration list of the unit, from the list `acc` so far and the
declarations `ds` parsed after it: before a declaration that calls `printf` is
appended, `addImportDelc("fmt")` has run. -/
def unitDecls : List ast.Decl → List ast.Decl → Except Err (List ast.Decl)
  | acc, [] => .ok acc
  | acc, d :: ds =>
    match (if declCallsPrintf d then addImportDelc.decls acc "fmt" else .ok acc) with
    | .error e => .error e
    | .ok acc => unitDecls (acc ++ [d]) ds

section
variable (ParseExpr : String → Option ast.Expr)

/-- The loop of `ParseFile` with a ghost result: the values of `decl` over its
iterations, in order. There is one for every top-level `var`, `import`, `fn` or
`type` keyword the loop dispatches on. -/
def ParseFile.parsed : Nat → Parser → Except Err (List ast.Decl)
  | 0, _ => .error .outOfFuel
  | fuel + 1, p =>
    if p.Curr.Tok ≠ scanner.EOF then
      match ParseFile.decl ParseExpr fuel p with
      | .error e => .error e
      | .ok none => .ok []
      | .ok (some (decl, p)) =>
        match ParseFile.parsed fuel
            { p with File := { p.File with Decls := p.File.Decls ++ [decl] } } with
        | .error e => .error e
        | .ok ds => .ok (decl :: ds)
    else .ok []

/-- The declarations `ParseFile` parses from the source, in source order. -/
def ParseFile.topLevel (fuel : Nat) (p : Parser) : Except Err (List ast.Decl) := do
  let p ← skipNewLines fuel p
  let p := { p with File := { p.File with Name := some { NamePos := 0, Name := "main" } } }
  ParseFile.parsed ParseExpr fuel p

end

end baker

namespace baker

/-- What parsing a piece of text does to the file under construction: the package
name stays, and the declaration list is `Registered`. -/
def Registers (b : Bool) (p p' : Parser) : Prop :=
  p'.File.Name = p.File.Name ∧ Registered b p.File.Decls p'.File.Decls

end baker

namespace baker

/-- Walking the parsed declarations in source order, one that holds a `printf`
call statement is met before any import of `"fmt"`: the case in which
`addImportDelc` appends its declaration. -/
def synthesizes : List ast.Decl → Bool
  | [] => false
  | d :: ds => declCallsPrintf d || (!importsPath (Sprintf_q "fmt") d && synthesizes ds)

end baker


/-! ## Example programs -/

namespace examples

/-- A stand-in for `go/parser.ParseExpr` on the simplest texts: a decimal integer
literal is a `BasicLit` at position 1, a name an `Ident` at position 1, the empty
text an error; any other text is kept as `Other`. -/
def ParseExpr (str : String) : Option ast.Expr :=
  if str.length = 0 then none
  else if str.data.all Char.isDigit then
    some (.BasicLit { ValuePos := 1, Kind := .INT, Value := str })
  else if str.data.all Char.isAlpha then
    some (.Ident { NamePos := 1, Name := str })
  else some (.Other str)

/-- The tokens of `type Shape union = Circle | Square;` (35 bytes). -/
def shapeSrc : List scanner.Token :=
  [ { Tok := scanner.Ident, Text := "type", Offset := 0 },
    { Tok := scanner.Ident, Text := "Shape", Offset := 5 },
    { Tok := scanner.Ident, Text := "union", Offset := 11 },
    { Tok := 61, Text := "=", Offset := 17 },
    { Tok := scanner.Ident, Text := "Circle", Offset := 19 },
    { Tok := 124, Text := "|", Offset := 26 },
    { Tok := scanner.Ident, Text := "Square", Offset := 28 },
    { Tok := 59, Text := ";", Offset := 34 } ]

/-- The declaration list `ParseFile` returns for `shapeSrc`. -/
def shapeDecls : List ast.Decl :=
  [ .GenDecl
      { TokPos := 6, Tok := .TYPE
        Specs := [.TypeSpec { NamePos := 12, Name := "Shape" }
          (.UnionType 18
            [.Ident { NamePos := 27, Name := "Circle" },
             .Ident { NamePos := 35, Name := "Square" }])] } ]

/-- The tokens of `type P *union = A;` (18 bytes). -/
def pointerSrc : List scanner.Token :=
  [ { Tok := scanner.Ident, Text := "type", Offset := 0 },
    { Tok := scanner.Ident, Text := "P", Offset := 5 },
    { Tok := 42, Text := "*", Offset := 7 },
    { Tok := scanner.Ident, Text := "union", Offset := 8 },
    { Tok := 61, Text := "=", Offset := 14 },
    { Tok := scanner.Ident, Text := "A", Offset := 16 },
    { Tok := 59, Text := ";", Offset := 17 } ]

/-- The tokens of the program of `TestParser` (108 bytes after trimming):

    fn greet(name string) begin
      printf("hello %s!\n", name)
    end

    fn main() begin
      greet("GopherCon")
    end
-/
def testSrc : List scanner.Token :=
  [ { Tok := scanner.Ident, Text := "fn", Offset := 0 },
    { Tok := scanner.Ident, Text := "greet", Offset := 3 },
    { Tok := 40, Text := "(", Offset := 8 },
    { Tok := scanner.Ident, Text := "name", Offset := 9 },
    { Tok := scanner.Ident, Text := "string", Offset := 14 },
    { Tok := 41, Text := ")", Offset := 20 },
    { Tok := scanner.Ident, Text := "begin", Offset := 22 },
    { Tok := 10, Text := "\n", Offset := 27 },
    { Tok := scanner.Ident, Text := "printf", Offset := 31 },
    { Tok := 40, Text := "(", Offset := 37 },
    { Tok := scanner.String, Text := "\"hello %s!\\n\"", Offset := 38 },
    { Tok := 44, Text := ",", Offset := 51 },
    { Tok := scanner.Ident, Text := "name", Offset := 53 },
    { Tok := 41, Text := ")", Offset := 57 },
    { Tok := 10, Text := "\n", Offset := 58 },
    { Tok := scanner.Ident, Text := "end", Offset := 60 },
    { Tok := 10, Text := "\n", Offset := 63 },
    { Tok := 10, Text := "\n", Offset := 64 },
    { Tok := scanner.Ident, Text := "fn", Offset := 66 },
    { Tok := scanner.Ident, Text := "main", Offset := 69 },
    { Tok := 40, Text := "(", Offset := 73 },
    { Tok := 41, Text := ")", Offset := 74 },
    { Tok := scanner.Ident, Text := "begin", Offset := 76 },
    { Tok := 10, Text := "\n", Offset := 81 },
    { Tok := scanner.Ident, Text := "greet", Offset := 85 },
    { Tok := 40, Text := "(", Offset := 90 },
    { Tok := scanner.String, Text := "\"GopherCon\"", Offset := 91 },
    { Tok := 41, Text := ")", Offset := 102 },
    { Tok := 10, Text := "\n", Offset := 103 },
    { Tok := scanner.Ident, Text := "end", Offset := 105 } ]

/-- The declaration `ParseFile` builds for `fn greet` of the test program. -/
def greetDecl : ast.Decl :=
  .FuncDecl
    { Recv := none
      Name := { NamePos := 9, Name := "greet" }
      Typ := .FuncType 4
        (.mk 9 [.mk [{ NamePos := 15, Name := "name" }]
                  (.Ident { NamePos := 21, Name := "string" })] 21) none
      Body := .mk 23
        [.ExprStmt
          (.CallExpr
            (.SelectorExpr (.Ident { NamePos := 0, Name := "fmt" })
              { NamePos := 0, Name := "Printf" })
            38
            [.BasicLit { ValuePos := 39, Kind := .STRING, Value := "\"hello %s!\\n\"" },
             .Ident { NamePos := 54, Name := "name" }]
            58)] 61 }

/-- The declaration `ParseFile` builds for `fn main` of the test program. -/
def mainDecl : ast.Decl :=
  .FuncDecl
    { Recv := none
      Name := { NamePos := 74, Name := "main" }
      Typ := .FuncType 70 (.mk 74 [] 75) none
      Body := .mk 77
        [.ExprStmt
          (.CallExpr (.Ident { NamePos := 91, Name := "greet" }) 91
            [.BasicLit { ValuePos := 92, Kind := .STRING, Value := "\"GopherCon\"" }]
            103)] 106 }

/-- The tokens of a program that calls `printf` and then imports `"fmt"` itself
(46 bytes): the three lines `fn main() begin`, `printf("x")`, `end`, and a fourth
line with the keyword `import` followed by `"fmt"`. -/
def printfThenImportSrc : List scanner.Token :=
  [ { Tok := scanner.Ident, Text := "fn", Offset := 0 },
    { Tok := scanner.Ident, Text := "main", Offset := 3 },
    { Tok := 40, Text := "(", Offset := 7 },
    { Tok := 41, Text := ")", Offset := 8 },
    { Tok := scanner.Ident, Text := "begin", Offset := 10 },
    { Tok := 10, Text := "\n", Offset := 15 },
    { Tok := scanner.Ident, Text := "printf", Offset := 18 },
    { Tok := 40, Text := "(", Offset := 24 },
    { Tok := scanner.String, Text := "\"x\"", Offset := 25 },
    { Tok := 41, Text := ")", Offset := 28 },
    { Tok := 10, Text := "\n", Offset := 29 },
    { Tok := scanner.Ident, Text := "end", Offset := 30 },
    { Tok := 10, Text := "\n", Offset := 33 },
    { Tok := scanner.Ident, Text := "import", Offset := 34 },
    { Tok := scanner.String, Text := "\"fmt\"", Offset := 41 } ]

/-- The tokens of a program whose body is a call without arguments (25 bytes):

    fn main() begin
      f()
    end
-/
def callNoArgsProgramSrc : List scanner.Token :=
  [ { Tok := scanner.Ident, Text := "fn", Offset := 0 },
    { Tok := scanner.Ident, Text := "main", Offset := 3 },
    { Tok := 40, Text := "(", Offset := 7 },
    { Tok := 41, Text := ")", Offset := 8 },
    { Tok := scanner.Ident, Text := "begin", Offset := 10 },
    { Tok := 10, Text := "\n", Offset := 15 },
    { Tok := scanner.Ident, Text := "f", Offset := 18 },
    { Tok := 40, Text := "(", Offset := 19 },
    { Tok := 41, Text := ")", Offset := 20 },
    { Tok := 10, Text := "\n", Offset := 21 },
    { Tok := scanner.Ident, Text := "end", Offset := 22 } ]

/-- The tokens of `f()` (3 bytes). -/
def callNoArgsSrc : List scanner.Token :=
  [ { Tok := scanner.Ident, Text := "f", Offset := 0 },
    { Tok := 40, Text := "(", Offset := 1 },
    { Tok := 41, Text := ")", Offset := 2 } ]

/-- The tokens of `var x = 5` (9 bytes). -/
def varSrc : List scanner.Token :=
  [ { Tok := scanner.Ident, Text := "var", Offset := 0 },
    { Tok := scanner.Ident, Text := "x", Offset := 4 },
    { Tok := 61, Text := "=", Offset := 6 },
    { Tok := scanner.Int, Text := "5", Offset := 8 } ]

/-- The tokens of `var x int = 5` (13 bytes). -/
def varTypedSrc : List scanner.Token :=
  [ { Tok := scanner.Ident, Text := "var", Offset := 0 },
    { Tok := scanner.Ident, Text := "x", Offset := 4 },
    { Tok := scanner.Ident, Text := "int", Offset := 6 },
    { Tok := 61, Text := "=", Offset := 10 },
    { Tok := scanner.Int, Text := "5", Offset := 12 } ]

/-- The declaration list `ParseFile` returns for `pointerSrc`. -/
def pointerDecls : List ast.Decl :=
  [ .GenDecl
      { TokPos := 6, Tok := .TYPE
        Specs := [.TypeSpec { NamePos := 8, Name := "P" }
          (.StarExpr 8 (.UnionType 15 [.Ident { NamePos := 18, Name := "A" }]))] } ]

/-- What the lowering makes of `shapeDecls`: the marker type `Shape` and the
carrier record `__Shape`. -/
def shapeLowered : List ast.Decl :=
  [ .GenDecl
      { TokPos := 6, Tok := .TYPE
        Specs := [.TypeSpec { NamePos := 12, Name := "Shape" }
          (.InterfaceType 18 (.mk 0 [] 0))] },
    .GenDecl
      { TokPos := 0, Tok := .TYPE
        Specs := [.TypeSpec { NamePos := 0, Name := "__Shape" }
          (.StructType 0 (.mk 0
            [ .mk [{ NamePos := 0, Name := "Type" }] (.Ident { NamePos := 0, Name := "Shape" }),
              .mk [{ NamePos := 0, Name := "Field0" }]
                (.Ident { NamePos := 27, Name := "Circle" }),
              .mk [{ NamePos := 0, Name := "Field1" }]
                (.Ident { NamePos := 35, Name := "Square" }) ] 0))] } ]

/-- The unit `ParseFile` returns for the test program. -/
def testFile : ast.File :=
  { Name := some { NamePos := 0, Name := "main" }
    Decls := [baker.importDecl "fmt", greetDecl, mainDecl] }

/-- The parser state at the end of a source of `srcLen` bytes, with `file` built. -/
def endState (srcLen : Nat) (file : ast.File) : baker.Parser :=
  { GoScanner :=
      { scnr :=
          { src := []
            srcLen := srcLen
            Position := { Offset := srcLen }
            tokText := ""
            IsIdentRune := none } }
    File := file
    Curr := { Tok := scanner.EOF, Lit := "" } }

/-- The declaration `parseVarDecl` returns for `var x = 5`. -/
def varDecl : ast.GenDecl :=
  { TokPos := 5
    Tok := .VAR
    Specs := [.ValueSpec [{ NamePos := 7, Name := "x" }] none
      [.BasicLit { ValuePos := 9, Kind := .INT, Value := "5" }]] }

/-- The declaration `parseVarDecl` returns for `var x int = 5`. -/
def varTypedDecl : ast.GenDecl :=
  { TokPos := 5
    Tok := .VAR
    Specs := [.ValueSpec [{ NamePos := 7, Name := "x" }]
      (some (.Ident { NamePos := 11, Name := "int" }))
      [.BasicLit { ValuePos := 13, Kind := .INT, Value := "5" }]] }

/-- The tokens of `greet("GopherCon")` (18 bytes). -/
def callSrc : List scanner.Token :=
  [ { Tok := scanner.Ident, Text := "greet", Offset := 0 },
    { Tok := 40, Text := "(", Offset := 5 },
    { Tok := scanner.String, Text := "\"GopherCon\"", Offset := 6 },
    { Tok := 41, Text := ")", Offset := 17 } ]

/-- The call `parseCallExpr` returns for `greet("GopherCon")`. -/
def greetCall : ast.Expr :=
  .CallExpr (.Ident { NamePos := 6, Name := "greet" }) 6
    [.BasicLit { ValuePos := 7, Kind := .STRING, Value := "\"GopherCon\"" }] 18

/-- The tokens of `()` (2 bytes). -/
def noParamsSrc : List scanner.Token :=
  [ { Tok := 40, Text := "(", Offset := 0 },
    { Tok := 41, Text := ")", Offset := 1 } ]

/-- A parser state with an empty file, as `NewParser` builds it. -/
def emptyFile : ast.File :=
  { Name := none, Decls := [] }

/-- The unit `ParseFile` returns for `shapeSrc`. -/
def shapeFile : ast.File :=
  { Name := some { NamePos := 0, Name := "main" }, Decls := shapeDecls }

end examples


/-! ## Vocabulary of the statements about the cursor -/

namespace baker

/-- The cursor is on a statement terminator: at end-of-input, or on the literal `;`
(which `next` also gives to a line break). It is the negation of the loop condition
of `fromHereToEndOfLine`. -/
def Parser.atTerminator (p : Parser) : Prop :=
  p.Curr.Tok = scanner.EOF ∨ p.Curr.Lit = ";"

/-- The state after `k` calls of `next`. -/
def Parser.advance (p : Parser) : Nat → Parser
  | 0 => p
  | k + 1 => p.next.advance k

/-- The literals of the `k` tokens from the cursor on, concatenated in order. -/
def lineText (p : Parser) : Nat → String
  | 0 => ""
  | k + 1 => p.Curr.Lit ++ lineText p.next k

end baker

namespace baker

/-- Two runs of one function differ at most in that the first ran out of fuel: the
first result is the fuel error, or the results are the same. -/
def FuelLe {α : Type} (x y : Except Err α) : Prop :=
  x = .error .outOfFuel ∨ x = y

end baker

namespace baker

/-- The member list of the grammar `type-expr ( "|" type-expr )* ";"`, read from the
state `p`: `UnionMembers p ts p'` says that the member types `ts` stand at `p`, one
after the other, each parsed by `parseType` from a token that is no terminator,
any two of them separated by a single `|`, and the last one followed by the `;` on
which `p'` stands. -/
inductive UnionMembers : Parser → List ast.Expr → Parser → Prop where
  | last {fuel : Nat} {p : Parser} {t : ast.Expr} {p' : Parser} :
      ¬ p.atTerminator → parseType fuel p = .ok (t, p') → p'.Curr.Lit = ";" →
      UnionMembers p [t] p'
  | cons {fuel : Nat} {p : Parser} {t : ast.Expr} {p1 : Parser} {ts : List ast.Expr}
      {p' : Parser} :
      ¬ p.atTerminator → parseType fuel p = .ok (t, p1) → p1.Curr.Lit = "|" →
      UnionMembers p1.next ts p' → UnionMembers p (t :: ts) p'

/-- What the loop of `parseUnionType` takes as a member list: member types parsed
by `parseType`, each followed by a `|` or by nothing, up to the first terminator
(`;` or end-of-input). -/
inductive UnionItems : Parser → List ast.Expr → Parser → Prop where
  | done {p : Parser} : p.atTerminator → UnionItems p [] p
  | item {fuel : Nat} {p : Parser} {t : ast.Expr} {p1 : Parser} {ts : List ast.Expr}
      {p' : Parser} :
      ¬ p.atTerminator → parseType fuel p = .ok (t, p1) →
      UnionItems (if p1.Curr.Lit = "|" then p1.next else p1) ts p' →
      UnionItems p (t :: ts) p'

end baker

namespace baker

/-- The cursor is at end-of-input: the token is `EOF` and, as `TokenText` is empty
there, the literal is the empty string. -/
def Parser.atEOF (p : Parser) : Prop :=
  p.Curr.Tok = scanner.EOF ∧ p.Curr.Lit = ""

section
variable (ParseExpr : String → Option ast.Expr)

/-- The header of a `switch` or of a `case`, from the state `p` after the keyword to
the state `q` after it: the text up to the end of the line, without its last
byte, is an expression for `go/parser`, and the terminator is consumed. These are
the steps of `parseSwitchStmt` (and of `parseCaseClause`) between the keyword and
the body. -/
def Header (p q : Parser) : Prop :=
  ∃ (fuel : Nat) (str : String) (p1 : Parser) (hdr : String) (e : ast.Expr),
    fromHereToEndOfLine fuel p = .ok (str, p1) ∧ dropLastByte str = .ok hdr ∧
    parseValue ParseExpr p.Position hdr = .ok e ∧ expectSemicolon fuel p1 = .ok q

/-- The part of `parseCaseClause` before the statements of the clause, from the
state `p` on `case` or `default` to the state `q` at the start of the body. -/
def ClauseHeader (p q : Parser) : Prop :=
  (p.Curr.Lit = "case" ∧ Header ParseExpr p.next q) ∨
  (p.Curr.Lit = "default" ∧ q = p.next.next)

/-- A statement list that runs into the end of the input: from `p`, statements that
`parseStmt` accepts follow one another (line breaks between them skipped), none of
them starting on one of `enders`, and after the last one the input ends. -/
inductive StmtsToEOF (enders : List String) : Parser → Prop where
  | eof {fuel : Nat} {p q : Parser} :
      skipNewLines fuel p = .ok q → q.atEOF → StmtsToEOF enders p
  | stmt {fuel : Nat} {p q : Parser} {s : ast.Stmt} {q' : Parser} :
      skipNewLines fuel p = .ok q → q.Curr.Lit ∉ enders →
      parseStmt ParseExpr fuel q = .ok (s, q') → StmtsToEOF enders q' →
      StmtsToEOF enders p

/-- A non-empty sequence of `case` and `default` clauses from `p` on: all but the
last are complete clauses (`parseCaseClause` accepts them), and the statement list
of the last one runs into the end of the input. -/
inductive ClausesToEOF : Parser → Prop where
  | last {p q : Parser} :
      ClauseHeader ParseExpr p q →
      StmtsToEOF ParseExpr [KeywordEnd, "case", "default"] q → ClausesToEOF p
  | clause {fuel : Nat} {p : Parser} {c : ast.Stmt} {q : Parser} :
      parseCaseClause ParseExpr fuel p = .ok (c, q) → ClausesToEOF q → ClausesToEOF p

end

end baker

namespace examples

/-- The tokens of a program that ends after the header of a `switch` (27 bytes):
the line `fn main() begin` and the line `switch x:`. The `:` is scanned with the
stop-at-delimiter mode on, which makes it an identifier token. -/
def switchNoClauseSrc : List scanner.Token :=
  [ { Tok := scanner.Ident, Text := "fn", Offset := 0 },
    { Tok := scanner.Ident, Text := "main", Offset := 3 },
    { Tok := 40, Text := "(", Offset := 7 },
    { Tok := 41, Text := ")", Offset := 8 },
    { Tok := scanner.Ident, Text := "begin", Offset := 10 },
    { Tok := 10, Text := "\n", Offset := 15 },
    { Tok := scanner.Ident, Text := "switch", Offset := 18 },
    { Tok := scanner.Ident, Text := "x", Offset := 25 },
    { Tok := scanner.Ident, Text := ":", Offset := 26 } ]

/-- The tokens of a program that ends in the first clause of a `switch` (46
bytes): the lines `fn main() begin`, `switch x:`, `case 1:` and `f(1)`. -/
def switchOneClauseSrc : List scanner.Token :=
  [ { Tok := scanner.Ident, Text := "fn", Offset := 0 },
    { Tok := scanner.Ident, Text := "main", Offset := 3 },
    { Tok := 40, Text := "(", Offset := 7 },
    { Tok := 41, Text := ")", Offset := 8 },
    { Tok := scanner.Ident, Text := "begin", Offset := 10 },
    { Tok := 10, Text := "\n", Offset := 15 },
    { Tok := scanner.Ident, Text := "switch", Offset := 18 },
    { Tok := scanner.Ident, Text := "x", Offset := 25 },
    { Tok := scanner.Ident, Text := ":", Offset := 26 },
    { Tok := 10, Text := "\n", Offset := 27 },
    { Tok := scanner.Ident, Text := "case", Offset := 30 },
    { Tok := scanner.Int, Text := "1", Offset := 35 },
    { Tok := scanner.Ident, Text := ":", Offset := 36 },
    { Tok := 10, Text := "\n", Offset := 37 },
    { Tok := scanner.Ident, Text := "f", Offset := 42 },
    { Tok := 40, Text := "(", Offset := 43 },
    { Tok := scanner.Int, Text := "1", Offset := 44 },
    { Tok := 41, Text := ")", Offset := 45 } ]

/-- The tokens of a program whose clause headers have no colon (77 bytes): the
lines `fn main() begin`, `switch x:`, `case 12`, `f(1)`, `default y`, `g(2)`,
`end`, `end`. -/
def noColonSrc : List scanner.Token :=
  [ { Tok := scanner.Ident, Text := "fn", Offset := 0 },
    { Tok := scanner.Ident, Text := "main", Offset := 3 },
    { Tok := 40, Text := "(", Offset := 7 },
    { Tok := 41, Text := ")", Offset := 8 },
    { Tok := scanner.Ident, Text := "begin", Offset := 10 },
    { Tok := 10, Text := "\n", Offset := 15 },
    { Tok := scanner.Ident, Text := "switch", Offset := 18 },
    { Tok := scanner.Ident, Text := "x", Offset := 25 },
    { Tok := scanner.Ident, Text := ":", Offset := 26 },
    { Tok := 10, Text := "\n", Offset := 27 },
    { Tok := scanner.Ident, Text := "case", Offset := 30 },
    { Tok := scanner.Int, Text := "12", Offset := 35 },
    { Tok := 10, Text := "\n", Offset := 37 },
    { Tok := scanner.Ident, Text := "f", Offset := 42 },
    { Tok := 40, Text := "(", Offset := 43 },
    { Tok := scanner.Int, Text := "1", Offset := 44 },
    { Tok := 41, Text := ")", Offset := 45 },
    { Tok := 10, Text := "\n", Offset := 46 },
    { Tok := scanner.Ident, Text := "default", Offset := 49 },
    { Tok := scanner.Ident, Text := "y", Offset := 57 },
    { Tok := 10, Text := "\n", Offset := 58 },
    { Tok := scanner.Ident, Text := "g", Offset := 63 },
    { Tok := 40, Text := "(", Offset := 64 },
    { Tok := scanner.Int, Text := "2", Offset := 65 },
    { Tok := 41, Text := ")", Offset := 66 },
    { Tok := 10, Text := "\n", Offset := 67 },
    { Tok := scanner.Ident, Text := "end", Offset := 70 },
    { Tok := 10, Text := "\n", Offset := 73 },
    { Tok := scanner.Ident, Text := "end", Offset := 74 } ]

/-- The tokens of a program whose `switch` has no header (28 bytes): the lines
`fn main() begin`, `switch` and `end`. -/
def switchBareSrc : List scanner.Token :=
  [ { Tok := scanner.Ident, Text := "fn", Offset := 0 },
    { Tok := scanner.Ident, Text := "main", Offset := 3 },
    { Tok := 40, Text := "(", Offset := 7 },
    { Tok := 41, Text := ")", Offset := 8 },
    { Tok := scanner.Ident, Text := "begin", Offset := 10 },
    { Tok := 10, Text := "\n", Offset := 15 },
    { Tok := scanner.Ident, Text := "switch", Offset := 18 },
    { Tok := 10, Text := "\n", Offset := 24 },
    { Tok := scanner.Ident, Text := "end", Offset := 25 } ]

/-- The tokens of a program that ends with the keyword `switch` (24 bytes): the
line `fn main() begin` and the line `switch`. -/
def switchAtEndSrc : List scanner.Token :=
  [ { Tok := scanner.Ident, Text := "fn", Offset := 0 },
    { Tok := scanner.Ident, Text := "main", Offset := 3 },
    { Tok := 40, Text := "(", Offset := 7 },
    { Tok := 41, Text := ")", Offset := 8 },
    { Tok := scanner.Ident, Text := "begin", Offset := 10 },
    { Tok := 10, Text := "\n", Offset := 15 },
    { Tok := scanner.Ident, Text := "switch", Offset := 18 } ]

/-- The tokens of a program whose `case` has no header (44 bytes): the lines
`fn main() begin`, `switch x:`, `case`, `end` and `end`. -/
def caseBareSrc : List scanner.Token :=
  [ { Tok := scanner.Ident, Text := "fn", Offset := 0 },
    { Tok := scanner.Ident, Text := "main", Offset := 3 },
    { Tok := 40, Text := "(", Offset := 7 },
    { Tok := 41, Text := ")", Offset := 8 },
    { Tok := scanner.Ident, Text := "begin", Offset := 10 },
    { Tok := 10, Text := "\n", Offset := 15 },
    { Tok := scanner.Ident, Text := "switch", Offset := 18 },
    { Tok := scanner.Ident, Text := "x", Offset := 25 },
    { Tok := scanner.Ident, Text := ":", Offset := 26 },
    { Tok := 10, Text := "\n", Offset := 27 },
    { Tok := scanner.Ident, Text := "case", Offset := 30 },
    { Tok := 10, Text := "\n", Offset := 34 },
    { Tok := scanner.Ident, Text := "end", Offset := 37 },
    { Tok := 10, Text := "\n", Offset := 40 },
    { Tok := scanner.Ident, Text := "end", Offset := 41 } ]

/-- The tokens of the two lines `type` and `int` (8 bytes). -/
def typeNewlineSrc : List scanner.Token :=
  [ { Tok := scanner.Ident, Text := "type", Offset := 0 },
    { Tok := 10, Text := "\n", Offset := 4 },
    { Tok := scanner.Ident, Text := "int", Offset := 5 } ]

/-- The tokens of the two lines `var x = 5` and `foo bar` (17 bytes). -/
def trailingSrc : List scanner.Token :=
  [ { Tok := scanner.Ident, Text := "var", Offset := 0 },
    { Tok := scanner.Ident, Text := "x", Offset := 4 },
    { Tok := 61, Text := "=", Offset := 6 },
    { Tok := scanner.Int, Text := "5", Offset := 8 },
    { Tok := 10, Text := "\n", Offset := 9 },
    { Tok := scanner.Ident, Text := "foo", Offset := 10 },
    { Tok := scanner.Ident, Text := "bar", Offset := 14 } ]

/-- The tokens of `union = ;` (9 bytes). -/
def unionEmptySrc : List scanner.Token :=
  [ { Tok := scanner.Ident, Text := "union", Offset := 0 },
    { Tok := 61, Text := "=", Offset := 6 },
    { Tok := 59, Text := ";", Offset := 8 } ]

/-- The tokens of `union = A B;` (12 bytes). -/
def unionJuxtaposedSrc : List scanner.Token :=
  [ { Tok := scanner.Ident, Text := "union", Offset := 0 },
    { Tok := 61, Text := "=", Offset := 6 },
    { Tok := scanner.Ident, Text := "A", Offset := 8 },
    { Tok := scanner.Ident, Text := "B", Offset := 10 },
    { Tok := 59, Text := ";", Offset := 11 } ]

/-- The tokens of `union = A | ;` (13 bytes). -/
def unionTrailingBarSrc : List scanner.Token :=
  [ { Tok := scanner.Ident, Text := "union", Offset := 0 },
    { Tok := 61, Text := "=", Offset := 6 },
    { Tok := scanner.Ident, Text := "A", Offset := 8 },
    { Tok := 124, Text := "|", Offset := 10 },
    { Tok := 59, Text := ";", Offset := 12 } ]

end examples

namespace examples

/-- The declaration `ParseFile` returns for `noColonSrc`. -/
def noColonDecl : ast.Decl :=
  .FuncDecl
    { Recv := none
      Name := { NamePos := 8, Name := "main" }
      Typ := .FuncType 4 (.mk 8 [] 9) none
      Body := .mk 11
        [.SwitchStmt 26 (.Ident { NamePos := 1, Name := "x" })
          (.mk 31
            [.CaseClause 31
               [.BasicLit { ValuePos := 36, Kind := .INT, Value := "1" }] 43
               [.ExprStmt
                 (.CallExpr (.Ident { NamePos := 44, Name := "f" }) 44
                   [.BasicLit { ValuePos := 45, Kind := .INT, Value := "1" }] 46)],
             .CaseClause 50 [] 58
               [.ExprStmt
                 (.CallExpr (.Ident { NamePos := 65, Name := "g" }) 65
                   [.BasicLit { ValuePos := 66, Kind := .INT, Value := "2" }] 67)]]
            71)] 75 }

/-- The declaration `ParseFile` returns for `typeNewlineSrc`. -/
def semicolonTypeDecl : ast.Decl :=
  .GenDecl
    { TokPos := 5, Tok := .TYPE
      Specs := [.TypeSpec { NamePos := 6, Name := ";" }
        (.Ident { NamePos := 9, Name := "int" })] }

/-- The state in which `ParseFile` stops on `trailingSrc`: the cursor on `foo`,
`bar` not scanned yet. -/
def trailingState : baker.Parser :=
  { GoScanner :=
      { scnr :=
          { src := [{ Tok := scanner.Ident, Text := "bar", Offset := 14 }]
            srcLen := 17
            Position := { Offset := 10 }
            tokText := "foo"
            IsIdentRune := none } }
    File := { Name := some { NamePos := 0, Name := "main" }, Decls := [.GenDecl varDecl] }
    Curr := { Tok := scanner.Ident, Lit := "foo" } }

end examples

namespace baker

/-- The number of tokens not yet consumed: the ones the scanner has still to
deliver and, unless the cursor is at end-of-input, the one under the cursor. -/
def Parser.remaining (p : Parser) : Nat :=
  p.GoScanner.scnr.src.length + (if p.Curr.Tok = scanner.EOF then 0 else 1)

/-- A state of the parser over a finite source as `text/scanner` scans it: `Scan`
returns `EOF` only when the source is used up, so no pending token is `EOF`, and
the literal at end-of-input is the empty `TokenText`. -/
def Parser.Scanned (p : Parser) : Prop :=
  (∀ t ∈ p.GoScanner.scnr.src, t.Tok ≠ scanner.EOF) ∧
  (p.Curr.Tok = scanner.EOF → p.Curr.Lit = "")

/-- A run that ends within its fuel on a state of a finite source: the result is
not the fuel error, and a returned state is again `Scanned` and has at least `d`
tokens fewer left than the bound `B`. -/
@[reducible] def Runs {α : Type} (B d : Nat) (x : Except Err (α × Parser)) : Prop :=
  x ≠ .error .outOfFuel ∧
  ∀ (r : α) (p' : Parser), x = .ok (r, p') → p'.Scanned ∧ p'.remaining + d ≤ B

/-- The same for a function that returns only the state. -/
@[reducible] def RunsS (B d : Nat) (x : Except Err Parser) : Prop :=
  x ≠ .error .outOfFuel ∧
  ∀ p' : Parser, x = .ok p' → p'.Scanned ∧ p'.remaining + d ≤ B

end baker


/-! ## Positions in the order the parser reads them -/

namespace ast

/-- The positions of a list of identifiers, in order. -/
def Ident.stampsAll : List Ident → List Nat
  | [] => []
  | i :: is => [i.NamePos] ++ Ident.stampsAll is

mutual
/-- The position fields of an expression in the order in which the parser reads
them from the scanner, which is the order of the fields in the source. -/
def Expr.stamps : Expr → List Nat
  | .Ident id => [id.NamePos]
  | .BasicLit lit => [lit.ValuePos]
  | .StarExpr Star X => [Star] ++ X.stamps
  | .SelectorExpr X Sel => X.stamps ++ [Sel.NamePos]
  | .CallExpr Fun Lparen Args Rparen =>
    Fun.stamps ++ [Lparen] ++ Expr.stampsAll Args ++ [Rparen]
  | .StructType Struct Fields => [Struct] ++ Fields.stamps
  | .InterfaceType Interface Methods => [Interface] ++ Methods.stamps
  | .FuncType Func Params none => [Func] ++ Params.stamps
  | .FuncType Func Params (some Results) => [Func] ++ Params.stamps ++ Results.stamps
  | .UnionType Union Types => [Union] ++ Expr.stampsAll Types
  | .Other _ => []
def Expr.stampsAll : List Expr → List Nat
  | [] => []
  | e :: es => e.stamps ++ Expr.stampsAll es
def Field.stamps : Field → List Nat
  | .mk Names Typ => Ident.stampsAll Names ++ Typ.stamps
def Field.stampsAll : List Field → List Nat
  | [] => []
  | f :: fs => f.stamps ++ Field.stampsAll fs
def FieldList.stamps : FieldList → List Nat
  | .mk Opening Lst Closing => [Opening] ++ Field.stampsAll Lst ++ [Closing]
end

/-- The positions of an optional field list (a receiver, the results). -/
def FieldList.stampsOpt : Option FieldList → List Nat
  | none => []
  | some l => l.stamps

/-- The positions of an optional type. -/
def Expr.stampsOpt : Option Expr → List Nat
  | none => []
  | some e => e.stamps

/-- The positions of a spec. The values of a `var` are not listed: they are built
by `go/parser` from the text of the line, not stamped from the scanner. -/
def Spec.stamps : Spec → List Nat
  | .ImportSpec Path => [Path.ValuePos]
  | .ValueSpec Names Typ _ => Ident.stampsAll Names ++ Expr.stampsOpt Typ
  | .TypeSpec Name Typ => [Name.NamePos] ++ Typ.stamps

def Spec.stampsAll : List Spec → List Nat
  | [] => []
  | s :: ss => s.stamps ++ Spec.stampsAll ss

def GenDecl.stamps (d : GenDecl) : List Nat :=
  [d.TokPos] ++ Spec.stampsAll d.Specs

mutual
/-- The position fields of a statement in the order in which the parser reads
them. The results of a `return`, the tag of a `switch` and the expressions of a
`case` are not listed: they are built by `go/parser` from the text of the line. -/
def Stmt.stamps : Stmt → List Nat
  | .DeclStmt Decl => Decl.stamps
  | .ReturnStmt Return _ => [Return]
  | .SwitchStmt Switch _ Body => [Switch] ++ Body.stamps
  | .ExprStmt X => X.stamps
  | .CaseClause Case _ Colon Body => [Case] ++ [Colon] ++ Stmt.stampsAll Body
def Stmt.stampsAll : List Stmt → List Nat
  | [] => []
  | s :: ss => s.stamps ++ Stmt.stampsAll ss
def BlockStmt.stamps : BlockStmt → List Nat
  | .mk Lbrace Lst Rbrace => [Lbrace] ++ Stmt.stampsAll Lst ++ [Rbrace]
end

/-- The positions of a function declaration in the order `parseFuncDecl` reads
them: the keyword, the receiver, the name, the parameters, the body. -/
def FuncDecl.stamps (d : FuncDecl) : List Nat :=
  match d.Typ with
  | .FuncType Func Params Results =>
    [Func] ++ FieldList.stampsOpt d.Recv ++ [d.Name.NamePos] ++ Params.stamps ++
      FieldList.stampsOpt Results ++ d.Body.stamps
  | t => FieldList.stampsOpt d.Recv ++ [d.Name.NamePos] ++ t.stamps ++ d.Body.stamps

def Decl.stamps : Decl → List Nat
  | .GenDecl d => d.stamps
  | .FuncDecl d => d.stamps

def Decl.stampsAll : List Decl → List Nat
  | [] => []
  | d :: ds => d.stamps ++ Decl.stampsAll ds

/-- The positions of a unit: the package name, then the declarations in order. -/
def File.stamps (f : File) : List Nat :=
  (match f.Name with
    | none => []
    | some i => [i.NamePos]) ++ Decl.stampsAll f.Decls

end ast

namespace baker

/-- The positions that were stamped: a position read from the scanner is an
offset plus one, so the zero position marks a field the parser left unset (the
nodes it synthesizes for `printf`, the `FuncType` of a method). -/
def stamped (l : List Nat) : List Nat :=
  l.filter (fun x => decide (x ≠ 0))

/-- A list of positions that is in non-decreasing order and lies between `lo` and
`hi`. -/
@[irreducible] def Within (lo hi : Nat) (l : List Nat) : Prop :=
  lo ≤ hi ∧ l.Pairwise (fun a b => a ≤ b) ∧ ∀ x ∈ l, lo ≤ x ∧ x ≤ hi

/-- A state over a token stream whose offsets are in non-decreasing order: the
pending tokens are in order, none starts before the scanner position, and none
starts after the offset reported at end-of-input. -/
@[irreducible] def Parser.Ordered (p : Parser) : Prop :=
  (p.GoScanner.scnr.src.map (fun t => t.Offset)).Pairwise (fun a b => a ≤ b) ∧
  (∀ t ∈ p.GoScanner.scnr.src,
    p.Position.Offset ≤ t.Offset ∧ t.Offset ≤ p.GoScanner.scnr.srcLen) ∧
  p.Position.Offset ≤ p.GoScanner.scnr.srcLen

/-- A run whose result carries stamped positions `st r`: a returned state is again
`Ordered`, the scanner has not moved below `lo`, and the positions are in order
between `lo` and the position of the returned state. -/
@[irreducible] def St {α : Type} (st : α → List Nat) (lo : Nat) (x : Except Err (α × Parser)) : Prop :=
  ∀ (r : α) (p' : Parser), x = .ok (r, p') →
    p'.Ordered ∧ lo ≤ p'.Position.Offset + 1 ∧
      Within lo (p'.Position.Offset + 1) (stamped (st r))

/-- The same for a function that returns only the state. -/
@[irreducible] def StS (lo : Nat) (x : Except Err Parser) : Prop :=
  ∀ p' : Parser, x = .ok p' → p'.Ordered ∧ lo ≤ p'.Position.Offset + 1

end baker


/-! ## The scanner over the source text

For the text that `fromHereToEndOfLine` collects, the scanner is modelled over the
characters of the source, with the white space it skips and the identifier
predicate `SetSkipUntil` installs. -/

namespace text

/-- The state of `text/scanner.Scanner` over the source text itself: `src` is the
text not yet read, `offset` the byte offset of its first character; `Position`,
`tokText` and `IsIdentRune` are as in `Scanner`. -/
structure Source where
  src : List Char
  offset : Nat
  Position : scanner.Position
  tokText : String
  IsIdentRune : Option (List Rune)

/-- Go `s.Whitespace&(1<<uint(ch)) != 0` after `GoScanner.Init`: `GoWhitespace`
(tab, line feed, carriage return, space) without the line feed and the carriage
return, so the tab (9) and the space (32). -/
def isWhitespace (ch : Char) : Bool :=
  ch = Char.ofNat 9 || ch = Char.ofNat 32

/-- Go `Scanner.isIdentRune` with the predicate of `SetSkipUntil(enders...)`
installed: every character that is none of `enders`. -/
def isIdentRune (enders : List Rune) (ch : Char) : Bool :=
  decide ((ch.toNat : Int) ∉ enders)

/-- The number of bytes of a piece of text. -/
def byteLen (cs : List Char) : Nat :=
  (cs.map (fun c => c.utf8Size)).sum

/-- A character that `Scan` returns as a token of its own when it is no identifier
character: no decimal digit and none of the double quote (34), the quote (39), the
dot (46), the slash (47) and the back quote (96), which start a number, a string, a
character, a comment or a raw string. -/
def isPlain (ch : Char) : Bool :=
  !(ch.isDigit || ch = Char.ofNat 34 || ch = Char.ofNat 39 || ch = Char.ofNat 46 ||
    ch = Char.ofNat 47 || ch = Char.ofNat 96)

/-- Go `Scan` (standard library, mode `GoTokens`) over the source text. With no
identifier predicate installed the tokens are those of the standard library, which
`scanGo` stands for. With the predicate of `SetSkipUntil(enders...)` installed:
white space is skipped; at the end of the text the token is `EOF` with empty text;
a character that is none of `enders` starts an identifier that runs up to the next
of `enders` or the end of the text, white space included; one of `enders` that is
a plain character is a token of its own, whose value is the character; any other
token is scanned as without the predicate. -/
def Source.Scan (scanGo : Source → Rune × Source) (s : Source) : Rune × Source :=
  match s.IsIdentRune with
  | none => scanGo s
  | some enders =>
    let blanks := s.src.takeWhile isWhitespace
    let src := s.src.dropWhile isWhitespace
    let offset := s.offset + byteLen blanks
    match src with
    | [] =>
      (scanner.EOF, { s with src := [], offset := offset, Position := { Offset := offset }, tokText := "" })
    | ch :: rest =>
      if isIdentRune enders ch then
        let run := (ch :: rest).takeWhile (isIdentRune enders)
        (scanner.Ident,
          { s with
            src := (ch :: rest).dropWhile (isIdentRune enders)
            offset := offset + byteLen run
            Position := { Offset := offset }
            tokText := String.mk run })
      else if isPlain ch then
        ((ch.toNat : Int),
          { s with
            src := rest
            offset := offset + byteLen [ch]
            Position := { Offset := offset }
            tokText := String.mk [ch] })
      else scanGo s

def Source.TokenText (s : Source) : String :=
  s.tokText

end text

namespace baker

namespace chars

/-- Go `GoScanner` over the source text. -/
structure GoScanner where
  scnr : text.Source

/-- Go `GoScanner.SetSkipUntil(enders...)`. -/
def GoScanner.SetSkipUntil (s : GoScanner) (enders : List Rune) : GoScanner :=
  if enders.length = 0 then
    { s with scnr := { s.scnr with IsIdentRune := none } }
  else
    { s with scnr := { s.scnr with IsIdentRune := some enders } }

/-- The parser state over the source text. -/
structure Parser where
  GoScanner : GoScanner
  File : ast.File
  Curr : Curr

/-- Go `p.GoScanner.scnr.Position`. -/
def Parser.Position (p : Parser) : scanner.Position :=
  p.GoScanner.scnr.Position

section
variable (scanGo : text.Source → Rune × text.Source)

/-- Go `Parser.next`. The runes 59, 10 and 13 are `;`, line feed and carriage return. -/
def Parser.next (p : Parser) : Parser :=
  if p.Curr.Tok = scanner.EOF then p
  else
    let r := p.GoScanner.scnr.Scan scanGo
    let p : Parser :=
      { p with
        GoScanner := { p.GoScanner with scnr := r.2 }
        Curr := { Tok := r.1, Lit := r.2.TokenText } }
    if p.Curr.Tok = 59 ∨ p.Curr.Tok = 10 ∨ p.Curr.Tok = 13 then
      { p with Curr := { Tok := scanner.Ident, Lit := ";" } }
    else p

/-- Go `Parser.skipNewLines`. -/
def skipNewLines : Nat → Parser → Except Err Parser
  | 0, _ => .error .outOfFuel
  | fuel + 1, p =>
    if p.Curr.Lit = KeywordSemicolon then skipNewLines fuel (p.next scanGo)
    else .ok p

/-- Go `Parser.expectLit`. -/
def expectLit (p : Parser) (want : String) : Except Err (scanner.Position × Parser) :=
  let got := p.Curr.Lit
  if got ≠ want then .error (.wantLit want got p.Position)
  else
    let p := p.next scanGo
    .ok (p.Position, p)

/-- Go `Parser.expectSemicolon`. -/
def expectSemicolon (fuel : Nat) (p : Parser) : Except Err Parser :=
  if p.Curr.Tok = scanner.EOF then .ok p
  else do
    let (_, p) ← expectLit scanGo p KeywordSemicolon
    skipNewLines scanGo fuel p

/-- The loop of `fromHereToEndOfLine`. -/
def fromHereToEndOfLine.loop : Nat → Parser → String → Except Err (String × Parser)
  | 0, _, _ => .error .outOfFuel
  | fuel + 1, p, str =>
    if p.Curr.Tok ≠ scanner.EOF ∧ p.Curr.Lit ≠ ";" then
      fromHereToEndOfLine.loop fuel (p.next scanGo) (str ++ p.Curr.Lit)
    else .ok (str, p)

/-- Go `Parser.fromHereToEndOfLine`. The enders are line feed, carriage return, `;`. -/
def fromHereToEndOfLine (fuel : Nat) (p : Parser) : Except Err (String × Parser) := do
  let str := ""
  let p := { p with GoScanner := p.GoScanner.SetSkipUntil [10, 13, 59] }
  let (str, p) ← fromHereToEndOfLine.loop scanGo fuel p str
  let p := { p with GoScanner := p.GoScanner.SetSkipUntil [] }
  return (str, p)

/-- Go `Parser.parseValueToEndOfLine`. -/
def parseValueToEndOfLine (ParseExpr : String → Option ast.Expr) (fuel : Nat) (p : Parser) :
    Except Err (ast.Expr × Parser) := do
  let pos := p.Position
  let (str, p) ← fromHereToEndOfLine scanGo fuel p
  let expr ← parseValue ParseExpr pos str
  let p ← expectSemicolon scanGo fuel p
  return (expr, p)

end

/-- The source text from the head of `src` to the end of the statement: up to the
first line feed, carriage return or `;`, or to the end of the text. -/
def lineOf (src : List Char) : List Char :=
  src.takeWhile (text.isIdentRune [10, 13, 59])

/-- The source text of the statement from the token under the cursor on: the text
of that token, which is its source text, and the text behind it up to the end
of the statement. -/
def Parser.statementText (p : Parser) : String :=
  p.Curr.Lit ++ String.mk (lineOf p.GoScanner.scnr.src)

end chars

end baker

namespace examples

/-- The state over the source text `var x = a b` (11 bytes) after `var x =`: the
cursor is on `a`, scanned at offset 8, and ` b` is still to read. -/
def blankState : baker.chars.Parser :=
  { GoScanner :=
      { scnr :=
          { src := [Char.ofNat 32, 'b']
            offset := 9
            Position := { Offset := 8 }
            tokText := "a"
            IsIdentRune := none } }
    File := { Name := none, Decls := [] }
    Curr := { Tok := scanner.Ident, Lit := "a" } }

/-- The state over the two lines `return 1 + 2` and `end` after `return`: the
cursor is on `1`, scanned at offset 7, and ` + 2`, the line break and `end` are
still to read. -/
def sumState : baker.chars.Parser :=
  { GoScanner :=
      { scnr :=
          { src := [Char.ofNat 32, '+', Char.ofNat 32, '2', Char.ofNat 10, 'e', 'n', 'd']
            offset := 8
            Position := { Offset := 7 }
            tokText := "1"
            IsIdentRune := none } }
    File := { Name := none, Decls := [] }
    Curr := { Tok := scanner.Int, Lit := "1" } }

/-- The tokens the scanner delivers for `var x = a b` (11 bytes): `b` is scanned
with the stop-at-delimiter mode on, after the blank in front of it is skipped. -/
def blankSrc : List scanner.Token :=
  [ { Tok := scanner.Ident, Text := "var", Offset := 0 },
    { Tok := scanner.Ident, Text := "x", Offset := 4 },
    { Tok := 61, Text := "=", Offset := 6 },
    { Tok := scanner.Ident, Text := "a", Offset := 8 },
    { Tok := scanner.Ident, Text := "b", Offset := 10 } ]

end examples


/-! ## Union lowering: what the loop computes -/

namespace main

theorem set_length_append {α : Type} (pre : List α) (d x : α) (rest : List α) :
    (pre ++ d :: rest).set pre.length x = pre ++ x :: rest := by
  induction pre with
  | nil => rfl
  | cons a pre ih => simp [List.set, ih]

/-- One iteration, on a declaration that sits at index `pre.length`. -/
theorem lowerDecl_eq (pre rest : List ast.Decl) (d : ast.Decl) (h : hasSpec d) :
    lowerDecl d pre.length (pre ++ d :: rest)
      = .ok (pre ++ markerOf d :: rest ++ (helperOf? d).toList) := by
  cases d with
  | FuncDecl f => simp [lowerDecl, markerOf, helperOf?]
  | GenDecl g =>
    obtain ⟨tp, tok, specs⟩ := g
    by_cases ht : tok = .TYPE
    · subst ht
      cases specs with
      | nil => exact absurd rfl (h rfl)
      | cons s specs =>
        cases s with
        | ImportSpec P => simp [lowerDecl, markerOf, helperOf?]
        | ValueSpec N T V => simp [lowerDecl, markerOf, helperOf?]
        | TypeSpec Name T =>
          cases T <;> simp [lowerDecl, markerOf, helperOf?, set_length_append]
    · cases tok <;> first | exact absurd rfl ht | simp [lowerDecl, markerOf, helperOf?]

theorem lowerLoop_eq (todo : List ast.Decl) :
    ∀ (pre post : List ast.Decl), (∀ d ∈ todo, hasSpec d) →
      lowerLoop todo pre.length (pre ++ todo ++ post)
        = .ok (pre ++ todo.map markerOf ++ post ++ todo.filterMap helperOf?) := by
  induction todo with
  | nil => intro pre post _; simp [lowerLoop]
  | cons d t ih =>
    intro pre post h
    have hd : hasSpec d := h d (List.mem_cons_self _ _)
    have ht : ∀ x ∈ t, hasSpec x := fun x hx => h x (List.mem_cons_of_mem _ hx)
    have e1 : pre ++ d :: t ++ post = pre ++ d :: (t ++ post) := by simp
    rw [lowerLoop, e1, lowerDecl_eq pre (t ++ post) d hd]
    have e2 : pre ++ markerOf d :: (t ++ post) ++ (helperOf? d).toList
        = (pre ++ [markerOf d]) ++ t ++ (post ++ (helperOf? d).toList) := by simp
    have e3 : pre.length + 1 = (pre ++ [markerOf d]).length := by simp
    simp only []
    rw [e2, e3, ih _ _ ht]
    cases hh : helperOf? d <;> simp [List.filterMap_cons, hh]

/-- The lowering block computes: every declaration in place, union declarations
with the marker type, followed by one helper type per union declaration. -/
theorem lowerUnions_eq (D : List ast.Decl) (h : ∀ d ∈ D, hasSpec d) :
    lowerUnions D = .ok (D.map markerOf ++ D.filterMap helperOf?) := by
  have := lowerLoop_eq D [] [] h
  simpa [lowerUnions] using this

end main


namespace main

theorem helperOf?_isSome (d : ast.Decl) : (helperOf? d).isSome = isUnionDecl d := by
  cases d with
  | FuncDecl f => rfl
  | GenDecl g =>
    obtain ⟨tp, tok, specs⟩ := g
    cases tok <;> try rfl
    cases specs with
    | nil => rfl
    | cons s specs =>
      cases s with
      | ImportSpec P => rfl
      | ValueSpec N T V => rfl
      | TypeSpec Name T => cases T <;> rfl

theorem markerOf_of_not_union (d : ast.Decl) (h : isUnionDecl d = false) : markerOf d = d := by
  cases d with
  | FuncDecl f => rfl
  | GenDecl g =>
    obtain ⟨tp, tok, specs⟩ := g
    cases tok <;> try rfl
    cases specs with
    | nil => rfl
    | cons s specs =>
      cases s with
      | ImportSpec P => rfl
      | ValueSpec N T V => rfl
      | TypeSpec Name T => cases T <;> first | rfl | simp [isUnionDecl] at h

theorem isUnionDecl_markerOf (d : ast.Decl) : isUnionDecl (markerOf d) = false := by
  cases d with
  | FuncDecl f => rfl
  | GenDecl g =>
    obtain ⟨tp, tok, specs⟩ := g
    cases tok <;> try rfl
    cases specs with
    | nil => rfl
    | cons s specs =>
      cases s with
      | ImportSpec P => rfl
      | ValueSpec N T V => rfl
      | TypeSpec Name T => cases T <;> rfl

theorem isUnionDecl_helperType (n : String) (ts : List ast.Expr) :
    isUnionDecl (helperType n ts) = false := rfl

theorem isUnionDecl_of_helperOf? (d h : ast.Decl) (e : helperOf? d = some h) :
    isUnionDecl h = false := by
  cases d with
  | FuncDecl f => simp [helperOf?] at e
  | GenDecl g =>
    obtain ⟨tp, tok, specs⟩ := g
    cases tok <;> try (simp [helperOf?] at e)
    cases specs with
    | nil => simp [helperOf?] at e
    | cons s specs =>
      cases s with
      | ImportSpec P => simp [helperOf?] at e
      | ValueSpec N T V => simp [helperOf?] at e
      | TypeSpec Name T =>
        cases T <;> simp [helperOf?] at e
        subst e; rfl

theorem length_filterMap_helperOf? (D : List ast.Decl) :
    (D.filterMap helperOf?).length = D.countP isUnionDecl := by
  induction D with
  | nil => rfl
  | cons d D ih =>
    have h := helperOf?_isSome d
    cases hh : helperOf? d with
    | none =>
      rw [hh] at h
      have : isUnionDecl d = false := by simpa using h.symm
      simp [List.filterMap_cons, hh, List.countP_cons, this, ih]
    | some x =>
      rw [hh] at h
      have : isUnionDecl d = true := by simpa using h.symm
      simp [List.filterMap_cons, hh, List.countP_cons, this, ih]

theorem length_payloadFields (ts : List ast.Expr) : ∀ i, (payloadFields i ts).length = ts.length := by
  induction ts with
  | nil => intro i; rfl
  | cons t ts ih => intro i; simp [payloadFields, ih]

theorem getElem?_payloadFields (ts : List ast.Expr) :
    ∀ (i j : Nat) (t : ast.Expr), ts[j]? = some t →
      (payloadFields i ts)[j]? =
        some (ast.Field.mk [{ NamePos := 0, Name := "Field" ++ toString (i + j) }] t) := by
  induction ts with
  | nil => intro i j t h; simp at h
  | cons a ts ih =>
    intro i j t h
    cases j with
    | zero =>
      simp at h
      subst h
      simp [payloadFields]
    | succ j =>
      simp at h
      have := ih (i + 1) j t h
      have e : i + 1 + j = i + (j + 1) := by omega
      rw [e] at this
      simp only [payloadFields, List.getElem?_cons_succ, this]

/-- The helper of the declaration at index `i` sits behind the helpers of the
union declarations before it. -/
theorem getElem?_filterMap_helperOf? (D : List ast.Decl) :
    ∀ (i : Nat) (d : ast.Decl), D[i]? = some d →
      ∀ h, helperOf? d = some h →
        (D.filterMap helperOf?)[(D.take i).countP isUnionDecl]? = some h := by
  induction D with
  | nil => intro i d hd; simp at hd
  | cons a D ih =>
    intro i d hd h hh
    cases i with
    | zero =>
      simp at hd
      subst hd
      simp [List.filterMap_cons, hh]
    | succ i =>
      simp at hd
      have := ih i d hd h hh
      have hs := helperOf?_isSome a
      cases ha : helperOf? a with
      | none =>
        rw [ha] at hs
        have : isUnionDecl a = false := by simpa using hs.symm
        simpa [List.filterMap_cons, ha, List.countP_cons, this] using ih i d hd h hh
      | some x =>
        rw [ha] at hs
        have : isUnionDecl a = true := by simpa using hs.symm
        simpa [List.filterMap_cons, ha, List.countP_cons, this] using ih i d hd h hh

theorem append_left_cancel_string (a b c : String) (h : a ++ b = a ++ c) : b = c := by
  have h1 : (a ++ b).data = (a ++ c).data := by rw [h]
  simp only [String.data_append] at h1
  have := List.append_cancel_left h1
  exact String.ext this

theorem declaresType_helperOf? (n : String) (d h : ast.Decl) (e : helperOf? d = some h) :
    declaresType ("__" ++ n) h = isUnionNamed n d := by
  cases d with
  | FuncDecl f => simp [helperOf?] at e
  | GenDecl g =>
    obtain ⟨tp, tok, specs⟩ := g
    cases tok <;> try (simp [helperOf?] at e)
    cases specs with
    | nil => simp [helperOf?] at e
    | cons s specs =>
      cases s with
      | ImportSpec P => simp [helperOf?] at e
      | ValueSpec N T V => simp [helperOf?] at e
      | TypeSpec Name T =>
        cases T <;> simp [helperOf?] at e
        subst e
        simp only [declaresType, helperType, isUnionNamed]
        by_cases hn : Name.Name = n
        · simp [hn]
        · have : ¬ ("__" ++ Name.Name = "__" ++ n) := fun hc =>
            hn (append_left_cancel_string _ _ _ hc)
          simp [hn, this]

theorem isUnionNamed_of_helperOf?_none (n : String) (d : ast.Decl) (e : helperOf? d = none) :
    isUnionNamed n d = false := by
  cases d with
  | FuncDecl f => rfl
  | GenDecl g =>
    obtain ⟨tp, tok, specs⟩ := g
    cases tok <;> try rfl
    cases specs with
    | nil => rfl
    | cons s specs =>
      cases s with
      | ImportSpec P => rfl
      | ValueSpec N T V => rfl
      | TypeSpec Name T => cases T <;> first | rfl | simp [helperOf?] at e

theorem countP_declaresType_helpers (n : String) (D : List ast.Decl) :
    (D.filterMap helperOf?).countP (declaresType ("__" ++ n)) = D.countP (isUnionNamed n) := by
  induction D with
  | nil => rfl
  | cons d D ih =>
    cases hh : helperOf? d with
    | none =>
      simp [List.filterMap_cons, hh, List.countP_cons, ih, isUnionNamed_of_helperOf?_none n d hh]
    | some x =>
      simp [List.filterMap_cons, hh, List.countP_cons, ih, declaresType_helperOf? n d x hh]

end main


namespace main

/-- C1. Union lowering of one declaration. Let `D` be a declaration list on which
the loop cannot index an empty `Specs` (`hasSpec`, true of every parsed list), and
let its `i`-th entry be the type declaration of `N` with the union type of members
`Ts`. Then the lowering succeeds with a list `L` in which entry `i` is the same
declaration with the interface type of an empty method list, and in which the slot
`|D| + (number of union declarations before i)` holds the struct declaration named
`"__" ++ N` whose fields are `Type N` followed by `Field0 .. Field(k-1)`, `Field j`
of type `Ts[j]`, `k + 1` fields in all. One declaration is produced per union
declaration, and as many produced declarations are named `"__" ++ N` as `D` has
union declarations named `N` (exactly one when `N` is declared once). -/
theorem lowerUnions_marker_and_carrier (D : List ast.Decl) (hD : ∀ d ∈ D, hasSpec d)
    (i tp : Nat) (Name : ast.Ident) (u : Nat) (Ts : List ast.Expr) (specs : List ast.Spec)
    (hi : D[i]? = some (.GenDecl
      { TokPos := tp, Tok := .TYPE, Specs := .TypeSpec Name (.UnionType u Ts) :: specs })) :
    ∃ (L : List ast.Decl) (fields : List ast.Field),
      lowerUnions D = .ok L ∧
      L[i]? = some (.GenDecl
        { TokPos := tp, Tok := .TYPE
          Specs := .TypeSpec Name (.InterfaceType u (.mk 0 [] 0)) :: specs }) ∧
      L[D.length + (D.take i).countP isUnionDecl]? = some (.GenDecl
        { TokPos := 0, Tok := .TYPE
          Specs := [.TypeSpec { NamePos := 0, Name := "__" ++ Name.Name }
            (.StructType 0 (.mk 0
              (ast.Field.mk [{ NamePos := 0, Name := "Type" }]
                  (.Ident { NamePos := 0, Name := Name.Name }) :: fields) 0))] }) ∧
      fields.length = Ts.length ∧
      (∀ (j : Nat) (T : ast.Expr), Ts[j]? = some T →
        fields[j]? = some (ast.Field.mk [{ NamePos := 0, Name := "Field" ++ toString j }] T)) ∧
      L.length = D.length + D.countP isUnionDecl ∧
      (L.drop D.length).countP (declaresType ("__" ++ Name.Name))
        = D.countP (isUnionNamed Name.Name) := by
  refine ⟨D.map markerOf ++ D.filterMap helperOf?, payloadFields 0 Ts,
    lowerUnions_eq D hD, ?_, ?_, length_payloadFields Ts 0, ?_, ?_, ?_⟩
  · have hlt : i < D.length := by
      by_contra hc
      rw [List.getElem?_eq_none (by omega)] at hi
      exact Option.noConfusion hi
    rw [List.getElem?_append_left (by simpa using hlt)]
    simp [List.getElem?_map, hi, markerOf]
  · have hh : helperOf? (.GenDecl
        { TokPos := tp, Tok := .TYPE, Specs := .TypeSpec Name (.UnionType u Ts) :: specs })
        = some (helperType Name.Name Ts) := rfl
    have := getElem?_filterMap_helperOf? D i _ hi _ hh
    rw [List.getElem?_append_right (by simp)]
    simpa [helperType] using this
  · intro j T hj
    simpa using getElem?_payloadFields Ts 0 j T hj
  · simp [length_filterMap_helperOf?]
  · have : (D.map markerOf ++ D.filterMap helperOf?).drop D.length = D.filterMap helperOf? := by
      simp
    rw [this]
    exact countP_declaresType_helpers Name.Name D

/-- C3. The lowering is append-only and order-preserving. On a list `D` on which the
loop cannot index an empty `Specs`, it succeeds with a list `L` of length
`|D| + u`, `u` the number of union declarations; an entry of `D` that is not a
union declaration is at the same index of `L`, unchanged; a union declaration is at
the same index with only its type replaced; and what follows the first `|D|`
entries is the list of helper types of the union declarations of `D`, in their
order. -/
theorem lowerUnions_append_only (D : List ast.Decl) (hD : ∀ d ∈ D, hasSpec d) :
    ∃ L : List ast.Decl,
      lowerUnions D = .ok L ∧
      L.length = D.length + D.countP isUnionDecl ∧
      (∀ (i : Nat) (d : ast.Decl), D[i]? = some d → isUnionDecl d = false → L[i]? = some d) ∧
      (∀ (i tp : Nat) (Name : ast.Ident) (u : Nat) (Ts : List ast.Expr) (specs : List ast.Spec),
        D[i]? = some (.GenDecl
          { TokPos := tp, Tok := .TYPE, Specs := .TypeSpec Name (.UnionType u Ts) :: specs }) →
        L[i]? = some (.GenDecl
          { TokPos := tp, Tok := .TYPE
            Specs := .TypeSpec Name (.InterfaceType u (.mk 0 [] 0)) :: specs })) ∧
      L.drop D.length = D.filterMap helperOf? := by
  refine ⟨D.map markerOf ++ D.filterMap helperOf?, lowerUnions_eq D hD, ?_, ?_, ?_, ?_⟩
  · simp [length_filterMap_helperOf?]
  · intro i d hi hn
    have hlt : i < D.length := by
      by_contra hc
      rw [List.getElem?_eq_none (by omega)] at hi
      exact Option.noConfusion hi
    rw [List.getElem?_append_left (by simpa using hlt)]
    simp [List.getElem?_map, hi, markerOf_of_not_union d hn]
  · intro i tp Name u Ts specs hi
    have hlt : i < D.length := by
      by_contra hc
      rw [List.getElem?_eq_none (by omega)] at hi
      exact Option.noConfusion hi
    rw [List.getElem?_append_left (by simpa using hlt)]
    simp [List.getElem?_map, hi, markerOf]
  · simp

/-- After the lowering no declaration is a union declaration any more. -/
theorem lowerUnions_no_union_decl (D : List ast.Decl) (hD : ∀ d ∈ D, hasSpec d) :
    ∃ L : List ast.Decl, lowerUnions D = .ok L ∧ ∀ d ∈ L, isUnionDecl d = false := by
  refine ⟨D.map markerOf ++ D.filterMap helperOf?, lowerUnions_eq D hD, ?_⟩
  intro d hd
  rcases List.mem_append.1 hd with h | h
  · obtain ⟨x, _, rfl⟩ := List.mem_map.1 h
    exact isUnionDecl_markerOf x
  · obtain ⟨x, _, hx⟩ := List.mem_filterMap.1 h
    exact isUnionDecl_of_helperOf? x d hx

end main


/-! ## Cursor movements: what the functions below the statements leave alone -/

namespace baker

theorem bind_ok {ε α β : Type} {x : Except ε α} {f : α → Except ε β} {b : β} :
    (x >>= f) = .ok b ↔ ∃ a, x = .ok a ∧ f a = .ok b := by
  cases x <;> simp [bind, Except.bind]

theorem sameFile_cursorRel : CursorRel sameFile where
  refl := fun _ => rfl
  trans := fun h1 h2 => by unfold sameFile at *; rw [h2, h1]
  next := fun p => by
    unfold sameFile Parser.next
    split
    · rfl
    · simp only []
      split <;> rfl
  skip := fun _ _ => rfl

section
variable {R : Parser → Parser → Prop} (hR : CursorRel R)
include hR

theorem expectLit_rel {p : Parser} {w : String} {r : scanner.Position} {p' : Parser}
    (h : expectLit p w = .ok (r, p')) : R p p' := by
  unfold expectLit at h
  simp only [] at h
  split at h
  · cases h
  · cases h; exact hR.next p

theorem skipNewLines_rel : ∀ (fuel : Nat) (p p' : Parser),
    skipNewLines fuel p = .ok p' → R p p' := by
  intro fuel
  induction fuel with
  | zero => intro p p' h; cases h
  | succ n ih =>
    intro p p' h
    unfold skipNewLines at h
    split at h
    · exact hR.trans (hR.next p) (ih _ _ h)
    · cases h; exact hR.refl _

theorem expectSemicolon_rel {fuel : Nat} {p p' : Parser}
    (h : expectSemicolon fuel p = .ok p') : R p p' := by
  unfold expectSemicolon at h
  split at h
  · cases h; exact hR.refl _
  · simp only [bind_ok] at h
    obtain ⟨⟨_, p1⟩, h1, h2⟩ := h
    exact hR.trans (expectLit_rel hR h1) (skipNewLines_rel hR _ _ _ h2)

theorem parseIdent_rel {p : Parser} {r : ast.Ident} {p' : Parser}
    (h : parseIdent p = .ok (r, p')) : R p p' := by
  unfold parseIdent at h
  simp only [] at h
  split at h
  · cases h
  · cases h; exact hR.next p

theorem parseString_rel {p : Parser} {r : String × scanner.Position} {p' : Parser}
    (h : parseString p = .ok (r, p')) : R p p' := by
  unfold parseString at h
  simp only [] at h
  split at h
  · cases h
  · cases h; exact hR.next p

theorem fromHereToEndOfLine_loop_rel : ∀ (fuel : Nat) (p : Parser) (s r : String) (p' : Parser),
    fromHereToEndOfLine.loop fuel p s = .ok (r, p') → R p p' := by
  intro fuel
  induction fuel with
  | zero => intro p s r p' h; cases h
  | succ n ih =>
    intro p s r p' h
    unfold fromHereToEndOfLine.loop at h
    split at h
    · exact hR.trans (hR.next p) (ih _ _ _ _ h)
    · cases h; exact hR.refl _

theorem fromHereToEndOfLine_rel {fuel : Nat} {p : Parser} {r : String} {p' : Parser}
    (h : fromHereToEndOfLine fuel p = .ok (r, p')) : R p p' := by
  simp only [fromHereToEndOfLine, bind_ok, pure, Except.pure] at h
  obtain ⟨⟨s, p1⟩, h1, h2⟩ := h
  cases h2
  exact hR.trans (hR.trans (hR.skip p _) (fromHereToEndOfLine_loop_rel hR _ _ _ _ _ h1))
    (hR.skip p1 _)

theorem parseValueToEndOfLine_rel {E : String → Option ast.Expr} {fuel : Nat} {p : Parser}
    {r : ast.Expr} {p' : Parser}
    (h : parseValueToEndOfLine E fuel p = .ok (r, p')) : R p p' := by
  simp only [parseValueToEndOfLine, bind_ok, pure, Except.pure] at h
  obtain ⟨⟨s, p1⟩, h1, e, _, p2, h3, h4⟩ := h
  cases h4
  exact hR.trans (fromHereToEndOfLine_rel hR h1) (expectSemicolon_rel hR h3)

theorem parseExpr_rel {p : Parser} {r : ast.Expr} {p' : Parser}
    (h : parseExpr p = .ok (r, p')) : R p p' := by
  unfold parseExpr at h
  simp only [] at h
  split at h
  · cases h; exact hR.next p
  · split at h
    · cases h; exact hR.next p
    · split at h
      · cases h; exact hR.next p
      · split at h
        · cases h; exact hR.next p
        · cases h

theorem parseCallExpr_loop_rel : ∀ (fuel : Nat) (p : Parser) (a r : List ast.Expr) (p' : Parser),
    parseCallExpr.loop fuel p a = .ok (r, p') → R p p' := by
  intro fuel
  induction fuel with
  | zero => intro p a r p' h; cases h
  | succ n ih =>
    intro p a r p' h
    simp only [parseCallExpr.loop, bind_ok] at h
    obtain ⟨⟨e, p1⟩, h1, h2⟩ := h
    simp only [] at h2
    split at h2
    · exact hR.trans (parseExpr_rel hR h1) (hR.trans (hR.next p1) (ih _ _ _ _ h2))
    · cases h2
      exact parseExpr_rel hR h1

end

end baker


namespace baker

section
variable {R : Parser → Parser → Prop} (hR : CursorRel R)
include hR

/-- Every function of the type grammar only moves the cursor. -/
theorem typeParsers_rel (fuel : Nat) :
    (∀ p r p', parseMethodSpec fuel p = .ok (r, p') → R p p') ∧
    (∀ p l r p', parseInterfaceType.loop fuel p l = .ok (r, p') → R p p') ∧
    (∀ p r p', parseInterfaceType fuel p = .ok (r, p') → R p p') ∧
    (∀ p l r p', parseUnionType.loop fuel p l = .ok (r, p') → R p p') ∧
    (∀ p r p', parseUnionType fuel p = .ok (r, p') → R p p') ∧
    (∀ p l r p', parseStructType.loop fuel p l = .ok (r, p') → R p p') ∧
    (∀ p r p', parseStructType fuel p = .ok (r, p') → R p p') ∧
    (∀ p r p', parseType fuel p = .ok (r, p') → R p p') ∧
    (∀ p r p', parseRetParam fuel p = .ok (r, p') → R p p') ∧
    (∀ p r p', parseArgParam fuel p = .ok (r, p') → R p p') ∧
    (∀ p l r p', parseFieldList.loop fuel p l = .ok (r, p') → R p p') ∧
    (∀ p r p', parseFieldList fuel p = .ok (r, p') → R p p') ∧
    (∀ p l r p', parseTypeList.loop fuel p l = .ok (r, p') → R p p') ∧
    (∀ p r p', parseTypeList fuel p = .ok (r, p') → R p p') := by
  induction fuel with
  | zero =>
    refine ⟨?_, ?_, ?_, ?_, ?_, ?_, ?_, ?_, ?_, ?_, ?_, ?_, ?_, ?_⟩ <;> intros <;>
      rename_i h <;>
      simp [parseMethodSpec, parseInterfaceType.loop, parseInterfaceType, parseUnionType.loop,
        parseUnionType, parseStructType.loop, parseStructType, parseType, parseRetParam,
        parseArgParam, parseFieldList.loop, parseFieldList, parseTypeList.loop,
        parseTypeList] at h
  | succ n ih =>
    obtain ⟨iMS, iIL, iI, iUL, iU, iSL, iS, iT, iRP, iAP, iFL, iF, iTL, iTy⟩ := ih
    refine ⟨?_, ?_, ?_, ?_, ?_, ?_, ?_, ?_, ?_, ?_, ?_, ?_, ?_, ?_⟩
    · -- parseMethodSpec
      intro p r p' h
      simp only [parseMethodSpec, bind_ok, pure, Except.pure] at h
      obtain ⟨⟨a, p1⟩, h1, ⟨b, p2⟩, h2, ⟨c, p3⟩, h3, p4, h4, h5⟩ := h
      cases h5
      exact hR.trans (parseIdent_rel hR h1)
        (hR.trans (iF _ _ _ h2) (hR.trans (iTy _ _ _ h3) (expectSemicolon_rel hR h4)))
    · -- parseInterfaceType.loop
      intro p l r p' h
      simp only [parseInterfaceType.loop, bind_ok] at h
      obtain ⟨p1, h1, h2⟩ := h
      split at h2
      · cases h2; exact skipNewLines_rel hR _ _ _ h1
      · simp only [bind_ok] at h2
        obtain ⟨⟨m, p2⟩, h3, h4⟩ := h2
        exact hR.trans (skipNewLines_rel hR _ _ _ h1) (hR.trans (iMS _ _ _ h3) (iIL _ _ _ _ h4))
    · -- parseInterfaceType
      intro p r p' h
      simp only [parseInterfaceType, bind_ok, pure, Except.pure] at h
      obtain ⟨⟨a, p1⟩, h1, ⟨b, p2⟩, h2, ⟨c, p3⟩, h3, ⟨d, p4⟩, h4, h5⟩ := h
      cases h5
      exact hR.trans (expectLit_rel hR h1)
        (hR.trans (expectLit_rel hR h2) (hR.trans (iIL _ _ _ _ h3) (expectLit_rel hR h4)))
    · -- parseUnionType.loop
      intro p l r p' h
      simp only [parseUnionType.loop] at h
      split at h
      · simp only [bind_ok] at h
        obtain ⟨⟨t, p1⟩, h1, h2⟩ := h
        simp only [] at h2
        split at h2
        · simp only [bind_ok] at h2
          obtain ⟨⟨x, p2⟩, h3, h4⟩ := h2
          exact hR.trans (iT _ _ _ h1) (hR.trans (expectLit_rel hR h3) (iUL _ _ _ _ h4))
        · exact hR.trans (iT _ _ _ h1) (iUL _ _ _ _ h2)
      · cases h; exact hR.refl _
    · -- parseUnionType
      intro p r p' h
      simp only [parseUnionType, bind_ok, pure, Except.pure] at h
      obtain ⟨⟨a, p1⟩, h1, ⟨b, p2⟩, h2, ⟨c, p3⟩, h3, h4⟩ := h
      cases h4
      exact hR.trans (expectLit_rel hR h1) (hR.trans (expectLit_rel hR h2) (iUL _ _ _ _ h3))
    · -- parseStructType.loop
      intro p l r p' h
      simp only [parseStructType.loop, bind_ok] at h
      obtain ⟨p1, h1, h2⟩ := h
      split at h2
      · cases h2; exact skipNewLines_rel hR _ _ _ h1
      · simp only [bind_ok] at h2
        obtain ⟨⟨m, p2⟩, h3, h4⟩ := h2
        exact hR.trans (skipNewLines_rel hR _ _ _ h1) (hR.trans (iAP _ _ _ h3) (iSL _ _ _ _ h4))
    · -- parseStructType
      intro p r p' h
      simp only [parseStructType, bind_ok, pure, Except.pure] at h
      obtain ⟨⟨a, p1⟩, h1, ⟨b, p2⟩, h2, ⟨c, p3⟩, h3, ⟨d, p4⟩, h4, h5⟩ := h
      cases h5
      exact hR.trans (expectLit_rel hR h1)
        (hR.trans (expectLit_rel hR h2) (hR.trans (iSL _ _ _ _ h3) (expectLit_rel hR h4)))
    · -- parseType
      intro p r p' h
      simp only [parseType] at h
      split at h
      · simp only [bind_ok, pure, Except.pure] at h
        obtain ⟨⟨x, p1⟩, h1, h2⟩ := h
        cases h2
        exact hR.trans (hR.next p) (iT _ _ _ h1)
      · split at h
        · exact iS _ _ _ h
        · split at h
          · exact iU _ _ _ h
          · split at h
            · exact iI _ _ _ h
            · simp only [bind_ok, pure, Except.pure] at h
              obtain ⟨⟨x, p1⟩, h1, h2⟩ := h
              cases h2
              exact parseIdent_rel hR h1
    · -- parseRetParam
      intro p r p' h
      simp only [parseRetParam, bind_ok, pure, Except.pure] at h
      obtain ⟨⟨a, p1⟩, h1, h2⟩ := h
      cases h2
      exact iT _ _ _ h1
    · -- parseArgParam
      intro p r p' h
      simp only [parseArgParam, bind_ok, pure, Except.pure] at h
      obtain ⟨⟨a, p1⟩, h1, ⟨b, p2⟩, h2, h3⟩ := h
      cases h3
      exact hR.trans (parseIdent_rel hR h1) (iT _ _ _ h2)
    · -- parseFieldList.loop
      intro p l r p' h
      simp only [parseFieldList.loop] at h
      split at h
      · cases h; exact hR.refl _
      · simp only [bind_ok] at h
        obtain ⟨⟨f, p1⟩, h1, h2⟩ := h
        simp only [] at h2
        split at h2
        · exact hR.trans (iAP _ _ _ h1) (hR.trans (hR.next p1) (iFL _ _ _ _ h2))
        · exact hR.trans (iAP _ _ _ h1) (iFL _ _ _ _ h2)
    · -- parseFieldList
      intro p r p' h
      simp only [parseFieldList, bind_ok, pure, Except.pure] at h
      obtain ⟨⟨a, p1⟩, h1, ⟨b, p2⟩, h2, ⟨c, p3⟩, h3, h4⟩ := h
      cases h4
      exact hR.trans (expectLit_rel hR h1) (hR.trans (iFL _ _ _ _ h2) (expectLit_rel hR h3))
    · -- parseTypeList.loop
      intro p l r p' h
      simp only [parseTypeList.loop] at h
      split at h
      · cases h; exact hR.refl _
      · simp only [bind_ok] at h
        obtain ⟨⟨f, p1⟩, h1, h2⟩ := h
        simp only [] at h2
        split at h2
        · exact hR.trans (iRP _ _ _ h1) (hR.trans (hR.next p1) (iTL _ _ _ _ h2))
        · exact hR.trans (iRP _ _ _ h1) (iTL _ _ _ _ h2)
    · -- parseTypeList
      intro p r p' h
      simp only [parseTypeList, bind_ok, pure, Except.pure] at h
      obtain ⟨⟨a, p1⟩, h1, ⟨b, p2⟩, h2, ⟨c, p3⟩, h3, h4⟩ := h
      cases h4
      exact hR.trans (expectLit_rel hR h1) (hR.trans (iTL _ _ _ _ h2) (expectLit_rel hR h3))

theorem parseType_rel {fuel : Nat} {p : Parser} {r : ast.Expr} {p' : Parser}
    (h : parseType fuel p = .ok (r, p')) : R p p' :=
  (typeParsers_rel hR fuel).2.2.2.2.2.2.2.1 _ _ _ h

theorem parseFieldList_rel {fuel : Nat} {p : Parser} {r : ast.FieldList} {p' : Parser}
    (h : parseFieldList fuel p = .ok (r, p')) : R p p' :=
  (typeParsers_rel hR fuel).2.2.2.2.2.2.2.2.2.2.2.1 _ _ _ h

theorem parseVarDecl_rel {E : String → Option ast.Expr} {fuel : Nat} {p : Parser}
    {r : ast.GenDecl} {p' : Parser}
    (h : parseVarDecl E fuel p = .ok (r, p')) : R p p' := by
  simp only [parseVarDecl, bind_ok] at h
  obtain ⟨⟨a, p1⟩, h1, ⟨b, p2⟩, h2, h3⟩ := h
  refine hR.trans (expectLit_rel hR h1) (hR.trans (parseIdent_rel hR h2) ?_)
  simp only [] at h3
  split at h3
  · simp only [bind_ok, pure, Except.pure] at h3
    obtain ⟨⟨x, p4⟩, h5, ⟨y, p5⟩, h6, z, h7, h8⟩ := h3
    cases h7
    cases h8
    exact hR.trans (expectLit_rel hR h5) (parseValueToEndOfLine_rel hR h6)
  · simp only [bind_ok, pure, Except.pure] at h3
    obtain ⟨⟨ty, p4⟩, h5, ⟨x, p5⟩, h6, ⟨y, p6⟩, h7, z, h8, h9⟩ := h3
    cases h8
    cases h9
    exact hR.trans (parseType_rel hR h5)
      (hR.trans (expectLit_rel hR h6) (parseValueToEndOfLine_rel hR h7))

theorem parseReturnStmt_rel {E : String → Option ast.Expr} {fuel : Nat} {p : Parser}
    {r : ast.Stmt} {p' : Parser}
    (h : parseReturnStmt E fuel p = .ok (r, p')) : R p p' := by
  simp only [parseReturnStmt, bind_ok, pure, Except.pure] at h
  obtain ⟨⟨a, p1⟩, h1, ⟨b, p2⟩, h2, h3⟩ := h
  cases h3
  exact hR.trans (expectLit_rel hR h1) (parseValueToEndOfLine_rel hR h2)

theorem parseTypeDecl_rel {fuel : Nat} {p : Parser} {r : ast.GenDecl} {p' : Parser}
    (h : parseTypeDecl fuel p = .ok (r, p')) : R p p' := by
  simp only [parseTypeDecl, bind_ok, pure, Except.pure] at h
  obtain ⟨⟨a, p1⟩, h1, ⟨b, p2⟩, h2, ⟨c, p3⟩, h3, p4, h4, h5⟩ := h
  cases h5
  exact hR.trans (expectLit_rel hR h1)
    (hR.trans (parseIdent_rel hR h2) (hR.trans (parseType_rel hR h3) (expectSemicolon_rel hR h4)))

theorem parseImportDecl_rel {fuel : Nat} {p : Parser} {r : ast.GenDecl} {p' : Parser}
    (h : parseImportDecl fuel p = .ok (r, p')) : R p p' := by
  simp only [parseImportDecl, bind_ok, pure, Except.pure] at h
  obtain ⟨⟨a, p1⟩, h1, ⟨⟨b, c⟩, p2⟩, h2, p3, h3, h4⟩ := h
  cases h4
  exact hR.trans (expectLit_rel hR h1)
    (hR.trans (parseString_rel hR h2) (expectSemicolon_rel hR h3))

end

end baker


/-! ## `addImportDelc` -/

namespace baker

theorem addImportDelc_loop_any (q : String) :
    ∀ (ds : List ast.Decl) (b : Bool),
      addImportDelc.loop ds q = .ok b → b = ds.any (importsPath q) := by
  intro ds
  induction ds with
  | nil => intro b h; simp [addImportDelc.loop] at h; simp [h]
  | cons d ds ih =>
    intro b h
    cases d with
    | FuncDecl f =>
      simp only [addImportDelc.loop] at h
      simp [ih b h, importsPath]
    | GenDecl g =>
      obtain ⟨tp, tok, specs⟩ := g
      by_cases ht : tok = .IMPORT
      · subst ht
        cases specs with
        | nil => simp [addImportDelc.loop] at h
        | cons s specs =>
          cases s with
          | ImportSpec P =>
            simp only [addImportDelc.loop] at h
            by_cases hp : P.Value = q
            · simp [hp] at h
              simp [← h, importsPath, hp]
            · simp [hp] at h
              simp [ih b h, importsPath, hp]
          | ValueSpec N T V =>
            simp [addImportDelc.loop] at h
            simp [ih b h, importsPath]
          | TypeSpec N T =>
            simp [addImportDelc.loop] at h
            simp [ih b h, importsPath]
      · have h' : addImportDelc.loop ds q = .ok b := by
          simpa [addImportDelc.loop, ht] using h
        have : importsPath q (.GenDecl { TokPos := tp, Tok := tok, Specs := specs }) = false := by
          cases tok <;> first | exact absurd rfl ht | rfl
        simp [ih b h', this]

theorem addImportDelc_loop_ok (q : String) :
    ∀ ds : List ast.Decl, (∀ d ∈ ds, hasImportSpec d) →
      addImportDelc.loop ds q = .ok (ds.any (importsPath q)) := by
  intro ds
  induction ds with
  | nil => intro _; rfl
  | cons d ds ih =>
    intro h
    have hd : hasImportSpec d := h d (List.mem_cons_self _ _)
    have ih' := ih (fun x hx => h x (List.mem_cons_of_mem _ hx))
    cases d with
    | FuncDecl f => simp [addImportDelc.loop, ih', importsPath]
    | GenDecl g =>
      obtain ⟨tp, tok, specs⟩ := g
      by_cases ht : tok = .IMPORT
      · subst ht
        cases specs with
        | nil => exact absurd rfl (hd rfl)
        | cons s specs =>
          cases s with
          | ImportSpec P =>
            by_cases hp : P.Value = q
            · simp [addImportDelc.loop, importsPath, hp]
            · simp [addImportDelc.loop, importsPath, hp, ih']
          | ValueSpec N T V => simp [addImportDelc.loop, importsPath, ih']
          | TypeSpec N T => simp [addImportDelc.loop, importsPath, ih']
      · have : importsPath q (.GenDecl { TokPos := tp, Tok := tok, Specs := specs }) = false := by
          cases tok <;> first | exact absurd rfl ht | rfl
        simp [addImportDelc.loop, ht, ih', this]

theorem addImportDelc_loop_append (q : String) (X : List ast.Decl) :
    ∀ ds : List ast.Decl, addImportDelc.loop ds q = .ok false →
      addImportDelc.loop (ds ++ X) q = addImportDelc.loop X q := by
  intro ds
  induction ds with
  | nil => intro _; rfl
  | cons d ds ih =>
    intro h
    cases d with
    | FuncDecl f =>
      simp only [addImportDelc.loop] at h
      simp [addImportDelc.loop, ih h]
    | GenDecl g =>
      obtain ⟨tp, tok, specs⟩ := g
      by_cases ht : tok = .IMPORT
      · subst ht
        cases specs with
        | nil => simp [addImportDelc.loop] at h
        | cons s specs =>
          cases s with
          | ImportSpec P =>
            simp only [addImportDelc.loop] at h
            by_cases hp : P.Value = q
            · simp [hp] at h
            · simp [hp] at h
              simp [addImportDelc.loop, hp, ih h]
          | ValueSpec N T V =>
            simp [addImportDelc.loop] at h
            simp [addImportDelc.loop, ih h]
          | TypeSpec N T =>
            simp [addImportDelc.loop] at h
            simp [addImportDelc.loop, ih h]
      · have h' : addImportDelc.loop ds q = .ok false := by
          simpa [addImportDelc.loop, ht] using h
        simp [addImportDelc.loop, ht, ih h']

theorem importsPath_importDecl (path : String) : importsPath (Sprintf_q path) (importDecl path) = true := by
  simp [importsPath, importDecl]

theorem addImportDelc_decls_cases {D D' : List ast.Decl} {path : String}
    (h : addImportDelc.decls D path = .ok D') :
    (D.any (importsPath (Sprintf_q path)) = true ∧ D' = D
        ∧ addImportDelc.loop D (Sprintf_q path) = .ok true) ∨
    (D.any (importsPath (Sprintf_q path)) = false ∧ D' = D ++ [importDecl path]
        ∧ addImportDelc.loop D (Sprintf_q path) = .ok false) := by
  simp only [addImportDelc.decls, bind_ok] at h
  obtain ⟨b, hb, h2⟩ := h
  have hany := addImportDelc_loop_any _ _ _ hb
  cases b with
  | true =>
    simp [pure, Except.pure] at h2
    exact Or.inl ⟨hany.symm, h2.symm, hb⟩
  | false =>
    simp [pure, Except.pure] at h2
    exact Or.inr ⟨hany.symm, h2.symm, hb⟩

/-- Running `addImportDelc` on its own result changes nothing. -/
theorem addImportDelc_decls_idem {D D' : List ast.Decl} {path : String}
    (h : addImportDelc.decls D path = .ok D') : addImportDelc.decls D' path = .ok D' := by
  rcases addImportDelc_decls_cases h with ⟨_, rfl, _⟩ | ⟨_, rfl, hl⟩
  · exact h
  · have h1 := addImportDelc_loop_append (Sprintf_q path) [importDecl path] D hl
    have h2 : addImportDelc.loop [importDecl path] (Sprintf_q path) = .ok true := by
      simp [addImportDelc.loop, importDecl]
    simp [addImportDelc.decls, h1, h2, bind, Except.bind, pure, Except.pure]

theorem addImportDelc_decls_ok (D : List ast.Decl) (path : String)
    (hD : ∀ d ∈ D, hasImportSpec d) :
    addImportDelc.decls D path =
      .ok (if D.any (importsPath (Sprintf_q path)) then D else D ++ [importDecl path]) := by
  simp only [addImportDelc.decls, addImportDelc_loop_ok _ D hD, bind, Except.bind]
  cases D.any (importsPath (Sprintf_q path)) <;> simp [pure, Except.pure]

/-- C6. `addImportDelc` is idempotent. Calling it twice gives what calling it once
gives, on every parser state and path (a panic of the first call is the result of
both). On a declaration list on which the scan cannot index an empty `Specs`
(`hasImportSpec`, true of every parsed list) the call succeeds: if an import
declaration with the quoted path as its path literal is in the list, the state is
unchanged; otherwise the new list is the old one followed by exactly one import
declaration for the path, and nothing else of the state changes. -/
theorem addImportDelc_idempotent (p : Parser) (path : String) :
    (addImportDelc p path >>= fun p1 => addImportDelc p1 path) = addImportDelc p path ∧
    ((∀ d ∈ p.File.Decls, hasImportSpec d) →
      ((∃ d ∈ p.File.Decls, importsPath (Sprintf_q path) d = true) →
        addImportDelc p path = .ok p) ∧
      ((∀ d ∈ p.File.Decls, importsPath (Sprintf_q path) d = false) →
        addImportDelc p path =
          .ok { p with File := { p.File with Decls := p.File.Decls ++ [importDecl path] } })) := by
  constructor
  · cases h : addImportDelc.decls p.File.Decls path with
    | error e => simp [addImportDelc, h, bind, Except.bind]
    | ok D' =>
      have h2 := addImportDelc_decls_idem h
      simp [addImportDelc, h, h2, bind, Except.bind, pure, Except.pure]
  · intro hD
    have hok := addImportDelc_decls_ok p.File.Decls path hD
    constructor
    · intro hex
      have : p.File.Decls.any (importsPath (Sprintf_q path)) = true := by
        simpa [List.any_eq_true] using hex
      simp [addImportDelc, hok, this, bind, Except.bind, pure, Except.pure]
    · intro hall
      have : p.File.Decls.any (importsPath (Sprintf_q path)) = false := by
        simpa [List.any_eq_false] using hall
      simp [addImportDelc, hok, this, bind, Except.bind, pure, Except.pure]

end baker


/-! ## What the statement parsers do to the file -/

namespace baker

theorem Registers.of_sameFile {p p' : Parser} (h : sameFile p p') : Registers false p p' := by
  unfold sameFile at h
  simp [Registers, Registered, h]

theorem Registers.andThen {b1 b2 : Bool} {p p1 p2 : Parser}
    (h1 : Registers b1 p p1) (h2 : Registers b2 p1 p2) : Registers (b1 || b2) p p2 := by
  obtain ⟨n1, r1⟩ := h1
  obtain ⟨n2, r2⟩ := h2
  refine ⟨n2.trans n1, ?_⟩
  unfold Registered at *
  cases b1 <;> cases b2 <;> simp at r1 r2 ⊢
  · rw [r2, r1]
  · rw [r1] at r2; exact r2
  · rw [r2]; exact r1
  · have := addImportDelc_decls_idem r1
    rw [this] at r2
    have e := Except.ok.inj r2
    rw [← e]
    exact r1

theorem Registers.left {b : Bool} {p p1 p2 : Parser}
    (h1 : sameFile p p1) (h2 : Registers b p1 p2) : Registers b p p2 := by
  have := Registers.andThen (Registers.of_sameFile h1) h2
  simpa using this

theorem Registers.right {b : Bool} {p p1 p2 : Parser}
    (h1 : Registers b p p1) (h2 : sameFile p1 p2) : Registers b p p2 := by
  have := Registers.andThen h1 (Registers.of_sameFile h2)
  simpa using this

theorem sameFile.chain {a b c : Parser} (h1 : sameFile a b) (h2 : sameFile b c) :
    sameFile a c :=
  sameFile_cursorRel.trans h1 h2

theorem addImportDelc_registers {p p' : Parser} (h : addImportDelc p "fmt" = .ok p') :
    Registers true p p' ∧ p'.GoScanner = p.GoScanner ∧ p'.Curr = p.Curr := by
  simp only [addImportDelc, bind_ok, pure, Except.pure] at h
  obtain ⟨D, hD, h2⟩ := h
  cases h2
  exact ⟨⟨rfl, by simpa [Registered] using hD⟩, rfl, rfl⟩

theorem parseCallExpr_registers {fuel : Nat} {p : Parser} {call : ast.Expr} {p' : Parser}
    (h : parseCallExpr fuel p = .ok (call, p')) : Registers (isPrintfCall call) p p' := by
  simp only [parseCallExpr, bind_ok] at h
  obtain ⟨⟨ident, p1⟩, h1, h2⟩ := h
  have s1 : sameFile p p1 := parseIdent_rel sameFile_cursorRel h1
  simp only [] at h2
  split at h2
  · simp only [bind_ok, pure, Except.pure] at h2
    obtain ⟨p6, h8, ⟨fn, p2⟩, h9, ⟨x, p3⟩, h4, ⟨args, p4⟩, h5, ⟨y, p5⟩, h6, h7⟩ := h2
    cases h9
    cases h7
    have s2 : sameFile p6 p5 :=
      (expectLit_rel sameFile_cursorRel h4).chain
        ((parseCallExpr_loop_rel sameFile_cursorRel _ _ _ _ _ h5).chain
          (expectLit_rel sameFile_cursorRel h6))
    have := (addImportDelc_registers h8).1
    simpa [isPrintfCall, isFmtPrintf] using Registers.left s1 (Registers.right this s2)
  · simp only [bind_ok, pure, Except.pure] at h2
    obtain ⟨⟨fn, p2⟩, h9, ⟨x, p3⟩, h4, ⟨args, p4⟩, h5, ⟨y, p5⟩, h6, h7⟩ := h2
    cases h9
    cases h7
    have s2 : sameFile p1 p5 :=
      (expectLit_rel sameFile_cursorRel h4).chain
        ((parseCallExpr_loop_rel sameFile_cursorRel _ _ _ _ _ h5).chain
          (expectLit_rel sameFile_cursorRel h6))
    simpa [isPrintfCall, isFmtPrintf] using Registers.of_sameFile (s1.chain s2)

end baker


namespace baker

theorem stmtsCallPrintf_append (a b : List ast.Stmt) :
    stmtsCallPrintf (a ++ b) = (stmtsCallPrintf a || stmtsCallPrintf b) := by
  induction a with
  | nil => simp [stmtsCallPrintf]
  | cons s a ih => simp [stmtsCallPrintf, ih, Bool.or_assoc]

theorem sameFile_next (p : Parser) : sameFile p p.next :=
  sameFile_cursorRel.next p

/-- Every statement parser registers `fmt` exactly when the statement it returns
holds a `printf` call statement. -/
theorem stmtParsers_registers (E : String → Option ast.Expr) (fuel : Nat) :
    (∀ p r p', parseCaseClause E fuel p = .ok (r, p') → Registers (stmtCallsPrintf r) p p') ∧
    (∀ p l r p', parseSwitchBody.loop E fuel p l = .ok (r, p') →
      ∃ new, r = l ++ new ∧ Registers (stmtsCallPrintf new) p p') ∧
    (∀ p r p', parseSwitchBody E fuel p = .ok (r, p') → Registers (blockCallsPrintf r) p p') ∧
    (∀ p r p', parseSwitchStmt E fuel p = .ok (r, p') → Registers (stmtCallsPrintf r) p p') ∧
    (∀ p r p', parseStmt E fuel p = .ok (r, p') → Registers (stmtCallsPrintf r) p p') ∧
    (∀ p e r p', parseStmtsUntil E fuel p e = .ok (r, p') →
      Registers (stmtsCallPrintf r) p p') := by
  induction fuel with
  | zero =>
    refine ⟨?_, ?_, ?_, ?_, ?_, ?_⟩ <;> intros <;> rename_i h <;>
      simp [parseCaseClause, parseSwitchBody.loop, parseSwitchBody, parseSwitchStmt, parseStmt,
        parseStmtsUntil] at h
  | succ n ih =>
    obtain ⟨iCC, iSBL, iSB, iSS, iS, iSU⟩ := ih
    refine ⟨?_, ?_, ?_, ?_, ?_, ?_⟩
    · -- parseCaseClause
      intro p r p' h
      simp only [parseCaseClause] at h
      split at h
      · simp only [bind_ok, pure, Except.pure] at h
        obtain ⟨⟨str, p1⟩, h1, hdr, _, expr, _, p2, h2, ⟨body, p3⟩, h3, h4⟩ := h
        cases h4
        have s1 : sameFile p p2 :=
          (sameFile_next p).chain
            ((fromHereToEndOfLine_rel sameFile_cursorRel h1).chain
              (expectSemicolon_rel sameFile_cursorRel h2))
        simpa [stmtCallsPrintf] using Registers.left s1 (iSU _ _ _ _ h3)
      · split at h
        · simp only [bind_ok, pure, Except.pure] at h
          obtain ⟨⟨body, p3⟩, h3, h4⟩ := h
          cases h4
          have s1 : sameFile p p.next.next := (sameFile_next p).chain (sameFile_next _)
          simpa [stmtCallsPrintf] using Registers.left s1 (iSU _ _ _ _ h3)
        · cases h
    · -- parseSwitchBody.loop
      intro p l r p' h
      simp only [parseSwitchBody.loop] at h
      split at h
      · simp only [bind_ok] at h
        obtain ⟨⟨c, p1⟩, h1, h2⟩ := h
        obtain ⟨new, hnew, hreg⟩ := iSBL _ _ _ _ h2
        refine ⟨c :: new, by simp [hnew], ?_⟩
        simpa [stmtsCallPrintf] using Registers.andThen (iCC _ _ _ h1) hreg
      · cases h
        exact ⟨[], by simp, by simpa [stmtsCallPrintf] using
          Registers.of_sameFile (sameFile_cursorRel.refl p)⟩
    · -- parseSwitchBody
      intro p r p' h
      simp only [parseSwitchBody, bind_ok, pure, Except.pure] at h
      obtain ⟨⟨list, p1⟩, h1, ⟨x, p2⟩, h2, h3⟩ := h
      cases h3
      obtain ⟨new, hnew, hreg⟩ := iSBL _ _ _ _ h1
      simp only [List.nil_append] at hnew
      subst hnew
      simpa [blockCallsPrintf] using
        Registers.right hreg (expectLit_rel sameFile_cursorRel h2)
    · -- parseSwitchStmt
      intro p r p' h
      simp only [parseSwitchStmt, bind_ok, pure, Except.pure] at h
      obtain ⟨⟨pos, p1⟩, h1, ⟨str, p2⟩, h2, hdr, _, tag, _, p3, h3, ⟨body, p4⟩, h4, h5⟩ := h
      cases h5
      have s1 : sameFile p p3 :=
        (expectLit_rel sameFile_cursorRel h1).chain
          ((fromHereToEndOfLine_rel sameFile_cursorRel h2).chain
            (expectSemicolon_rel sameFile_cursorRel h3))
      simpa [stmtCallsPrintf] using Registers.left s1 (iSB _ _ _ h4)
    · -- parseStmt
      intro p r p' h
      simp only [parseStmt] at h
      split at h
      · simp only [bind_ok, pure, Except.pure] at h
        obtain ⟨⟨d, p1⟩, h1, h2⟩ := h
        cases h2
        simpa [stmtCallsPrintf] using
          Registers.of_sameFile (parseVarDecl_rel sameFile_cursorRel h1)
      · split at h
        · have hs := parseReturnStmt_rel sameFile_cursorRel h
          simp only [parseReturnStmt, bind_ok, pure, Except.pure] at h
          obtain ⟨⟨a, p1⟩, h1, ⟨b, p2⟩, h2, h3⟩ := h
          cases h3
          simpa [stmtCallsPrintf] using Registers.of_sameFile hs
        · split at h
          · exact iSS _ _ _ h
          · simp only [bind_ok, pure, Except.pure] at h
            obtain ⟨⟨c, p1⟩, h1, h2⟩ := h
            cases h2
            simpa [stmtCallsPrintf] using parseCallExpr_registers h1
    · -- parseStmtsUntil
      intro p e r p' h
      simp only [parseStmtsUntil, bind_ok] at h
      obtain ⟨p1, h1, h2⟩ := h
      have s1 : sameFile p p1 := skipNewLines_rel sameFile_cursorRel _ _ _ h1
      split at h2
      · simp only [pure, Except.pure] at h2
        cases h2
        simpa [stmtsCallPrintf] using Registers.of_sameFile s1
      · simp only [bind_ok, pure, Except.pure] at h2
        obtain ⟨⟨s, p2⟩, h3, ⟨list, p3⟩, h4, h5⟩ := h2
        cases h5
        simpa [stmtsCallPrintf] using
          Registers.left s1 (Registers.andThen (iS _ _ _ h3) (iSU _ _ _ _ h4))

theorem parseBody_registers {E : String → Option ast.Expr} {fuel : Nat} {p : Parser}
    {r : ast.BlockStmt} {p' : Parser}
    (h : parseBody E fuel p = .ok (r, p')) : Registers (blockCallsPrintf r) p p' := by
  simp only [parseBody, bind_ok, pure, Except.pure] at h
  obtain ⟨⟨x, p1⟩, h1, ⟨list, p2⟩, h2, ⟨y, p3⟩, h3, h4⟩ := h
  cases h4
  have := (stmtParsers_registers E fuel).2.2.2.2.2 _ _ _ _ h2
  simpa [blockCallsPrintf] using
    Registers.left (expectLit_rel sameFile_cursorRel h1)
      (Registers.right this (expectLit_rel sameFile_cursorRel h3))

theorem parseFuncDecl_registers {E : String → Option ast.Expr} {fuel : Nat} {p : Parser}
    {r : ast.FuncDecl} {p' : Parser}
    (h : parseFuncDecl E fuel p = .ok (r, p')) :
    Registers (declCallsPrintf (.FuncDecl r)) p p' := by
  simp only [parseFuncDecl, bind_ok] at h
  obtain ⟨⟨x, p1⟩, h1, h2⟩ := h
  have s1 : sameFile p p1 := expectLit_rel sameFile_cursorRel h1
  simp only [] at h2
  split at h2
  · simp only [bind_ok, pure, Except.pure] at h2
    obtain ⟨⟨recv, p2⟩, h3, z, hz, ⟨ident, p3⟩, h4, ⟨params, p4⟩, h5, ⟨body, p5⟩, h6,
      p6, h7, h8⟩ := h2
    cases hz
    cases h8
    have s2 : sameFile p p4 :=
      s1.chain ((parseFieldList_rel sameFile_cursorRel h3).chain
        ((parseIdent_rel sameFile_cursorRel h4).chain
          (parseFieldList_rel sameFile_cursorRel h5)))
    simpa [declCallsPrintf] using
      Registers.left s2 (Registers.right (parseBody_registers h6)
        (expectSemicolon_rel sameFile_cursorRel h7))
  · simp only [bind_ok, pure, Except.pure] at h2
    obtain ⟨z, hz, ⟨ident, p3⟩, h4, ⟨params, p4⟩, h5, ⟨body, p5⟩, h6, p6, h7, h8⟩ := h2
    cases hz
    cases h8
    have s2 : sameFile p p4 :=
      s1.chain ((parseIdent_rel sameFile_cursorRel h4).chain
          (parseFieldList_rel sameFile_cursorRel h5))
    simpa [declCallsPrintf] using
      Registers.left s2 (Registers.right (parseBody_registers h6)
        (expectSemicolon_rel sameFile_cursorRel h7))

theorem ParseFile_decl_registers {E : String → Option ast.Expr} {fuel : Nat} {p : Parser}
    {d : ast.Decl} {p' : Parser}
    (h : ParseFile.decl E fuel p = .ok (some (d, p'))) :
    Registers (declCallsPrintf d) p p' := by
  simp only [ParseFile.decl] at h
  split at h
  · simp only [bind_ok, pure, Except.pure] at h
    obtain ⟨⟨g, p1⟩, h1, h2⟩ := h
    cases h2
    simpa [declCallsPrintf] using
      Registers.of_sameFile (parseVarDecl_rel sameFile_cursorRel h1)
  · split at h
    · simp only [bind_ok, pure, Except.pure] at h
      obtain ⟨⟨g, p1⟩, h1, h2⟩ := h
      cases h2
      simpa [declCallsPrintf] using
        Registers.of_sameFile (parseImportDecl_rel sameFile_cursorRel h1)
    · split at h
      · simp only [bind_ok, pure, Except.pure] at h
        obtain ⟨⟨g, p1⟩, h1, h2⟩ := h
        cases h2
        exact parseFuncDecl_registers h1
      · split at h
        · simp only [bind_ok, pure, Except.pure] at h
          obtain ⟨⟨g, p1⟩, h1, h2⟩ := h
          cases h2
          simpa [declCallsPrintf] using
            Registers.of_sameFile (parseTypeDecl_rel sameFile_cursorRel h1)
        · simp [pure, Except.pure] at h

end baker


/-! ## `ParseFile`: the declaration list of the unit -/

namespace baker

theorem unitDecls_step {d : ast.Decl} {D D1 : List ast.Decl} (ds : List ast.Decl)
    (h : Registered (declCallsPrintf d) D D1) :
    unitDecls D (d :: ds) = unitDecls (D1 ++ [d]) ds := by
  unfold Registered at h
  cases hc : declCallsPrintf d
  · simp [hc] at h
    simp [unitDecls, hc, h]
  · simp [hc] at h
    simp [unitDecls, hc, h]

/-- The loop of `ParseFile` appends the declarations it parses, with `fmt`
registered on the way as `unitDecls` says. -/
theorem ParseFile_loop_spec (E : String → Option ast.Expr) :
    ∀ (fuel : Nat) (p p' : Parser), ParseFile.loop E fuel p = .ok p' →
      ∃ ds, ParseFile.parsed E fuel p = .ok ds ∧
        unitDecls p.File.Decls ds = .ok p'.File.Decls ∧ p'.File.Name = p.File.Name := by
  intro fuel
  induction fuel with
  | zero => intro p p' h; simp [ParseFile.loop] at h
  | succ n ih =>
    intro p p' h
    simp only [ParseFile.loop] at h
    simp only [ParseFile.parsed]
    split at h
    · rename_i hne
      rw [if_pos hne]
      cases hd : ParseFile.decl E n p with
      | error e => simp [hd] at h
      | ok o =>
        cases o with
        | none =>
          simp [hd] at h
          subst h
          exact ⟨[], rfl, rfl, rfl⟩
        | some dp =>
          obtain ⟨d, p1⟩ := dp
          simp only [hd] at h
          obtain ⟨ds, h1, h2, h3⟩ := ih _ _ h
          have hreg := ParseFile_decl_registers hd
          refine ⟨d :: ds, by simp [h1], ?_, ?_⟩
          · rw [unitDecls_step ds hreg.2]
            exact h2
          · rw [h3]; exact hreg.1
    · rename_i hne
      rw [if_neg hne]
      cases h
      exact ⟨[], rfl, rfl, rfl⟩

theorem ParseFile_spec {E : String → Option ast.Expr} {fuel : Nat} {p : Parser}
    {file : ast.File} {p' : Parser} (h : ParseFile E fuel p = .ok (file, p')) :
    ∃ ds, ParseFile.topLevel E fuel p = .ok ds ∧
      unitDecls p.File.Decls ds = .ok file.Decls ∧
      file.Name = some { NamePos := 0, Name := "main" } ∧ file = p'.File := by
  simp only [ParseFile, bind_ok, pure, Except.pure] at h
  obtain ⟨p1, h1, p2, h2, h3⟩ := h
  cases h3
  obtain ⟨ds, h4, h5, h6⟩ := ParseFile_loop_spec E _ _ _ h2
  have s1 : p1.File = p.File := skipNewLines_rel sameFile_cursorRel _ _ _ h1
  refine ⟨ds, ?_, ?_, ?_, rfl⟩
  · simp only [ParseFile.topLevel, h1, bind, Except.bind]
    exact h4
  · simpa [s1] using h5
  · simpa using h6

/-! ### The list `unitDecls` computes -/

theorem any_append_singleton (q : String) (acc : List ast.Decl) (d : ast.Decl) :
    (acc ++ [d]).any (importsPath q) = (acc.any (importsPath q) || importsPath q d) := by
  simp [List.any_append]

theorem declCallsPrintf_importsPath (q : String) (d : ast.Decl)
    (h : declCallsPrintf d = true) : importsPath q d = false := by
  cases d with
  | FuncDecl f => rfl
  | GenDecl g => simp [declCallsPrintf] at h

/-- Once an import of `"fmt"` is in the list, the declarations are only appended. -/
theorem unitDecls_of_imported :
    ∀ (ds acc L : List ast.Decl), acc.any (importsPath (Sprintf_q "fmt")) = true →
      unitDecls acc ds = .ok L → L = acc ++ ds := by
  intro ds
  induction ds with
  | nil => intro acc L _ h; simp [unitDecls] at h; simp [h]
  | cons d ds ih =>
    intro acc L ha h
    simp only [unitDecls] at h
    cases hc : declCallsPrintf d
    · simp only [hc] at h
      have := ih (acc ++ [d]) L (by simp [List.any_append, ha]) (by simpa using h)
      simpa using this
    · simp only [hc, ite_true] at h
      cases hadd : addImportDelc.decls acc "fmt" with
      | error e => simp [hadd] at h
      | ok acc1 =>
        simp only [hadd] at h
        rcases addImportDelc_decls_cases hadd with ⟨_, rfl, _⟩ | ⟨hf, _, _⟩
        · have := ih (acc1 ++ [d]) L (by simp [List.any_append, ha]) h
          simpa using this
        · rw [ha] at hf; cases hf

/-- Without a `printf` call statement the declarations are only appended. -/
theorem unitDecls_of_no_printf :
    ∀ (ds acc : List ast.Decl), (∀ d ∈ ds, declCallsPrintf d = false) →
      unitDecls acc ds = .ok (acc ++ ds) := by
  intro ds
  induction ds with
  | nil => intro acc _; simp [unitDecls]
  | cons d ds ih =>
    intro acc h
    have hd : declCallsPrintf d = false := h d (List.mem_cons_self _ _)
    simp only [unitDecls, hd]
    have := ih (acc ++ [d]) (fun x hx => h x (List.mem_cons_of_mem _ hx))
    simpa using this

/-- The import is placed in front of the first declaration that calls `printf`. -/
theorem unitDecls_placement :
    ∀ (k : Nat) (ds acc L : List ast.Decl) (dk : ast.Decl),
      acc.any (importsPath (Sprintf_q "fmt")) = false →
      (∀ d ∈ ds.take k, importsPath (Sprintf_q "fmt") d = false) →
      (∀ d ∈ ds.take k, declCallsPrintf d = false) →
      ds[k]? = some dk → declCallsPrintf dk = true →
      unitDecls acc ds = .ok L →
      L = acc ++ ds.take k ++ [importDecl "fmt"] ++ ds.drop k := by
  intro k
  induction k with
  | zero =>
    intro ds acc L dk ha _ _ hk hc h
    cases ds with
    | nil => simp at hk
    | cons d ds =>
      simp at hk
      subst hk
      simp only [unitDecls, hc, ite_true] at h
      cases hadd : addImportDelc.decls acc "fmt" with
      | error e => simp [hadd] at h
      | ok acc1 =>
        simp only [hadd] at h
        rcases addImportDelc_decls_cases hadd with ⟨ht, _, _⟩ | ⟨_, rfl, _⟩
        · rw [ha] at ht; cases ht
        · have := unitDecls_of_imported ds _ L
            (by simp [List.any_append, importsPath_importDecl]) h
          simpa using this
  | succ k ih =>
    intro ds acc L dk ha hi hp hk hc h
    cases ds with
    | nil => simp at hk
    | cons d ds =>
      simp at hk
      have hd : declCallsPrintf d = false := hp d (by simp)
      have hid : importsPath (Sprintf_q "fmt") d = false := hi d (by simp)
      simp only [unitDecls, hd] at h
      have := ih ds (acc ++ [d]) L dk (by simp [List.any_append, ha, hid])
        (fun x hx => hi x (by simp [hx])) (fun x hx => hp x (by simp [hx])) hk hc
        (by simpa using h)
      simpa using this

theorem unitDecls_length :
    ∀ (ds acc L : List ast.Decl), unitDecls acc ds = .ok L →
      L.length = acc.length + ds.length +
        (if acc.any (importsPath (Sprintf_q "fmt")) = false ∧ synthesizes ds = true
          then 1 else 0) := by
  intro ds
  induction ds with
  | nil => intro acc L h; simp [unitDecls] at h; simp [← h, synthesizes]
  | cons d ds ih =>
    intro acc L h
    by_cases ha : acc.any (importsPath (Sprintf_q "fmt")) = true
    · have := unitDecls_of_imported (d :: ds) acc L ha h
      simp [this, ha]
    · have ha' : acc.any (importsPath (Sprintf_q "fmt")) = false := by simpa using ha
      cases hc : declCallsPrintf d
      · simp only [unitDecls, hc] at h
        have := ih (acc ++ [d]) L (by simpa using h)
        rw [this]
        cases hi : importsPath (Sprintf_q "fmt") d <;>
          simp [List.any_append, ha', hi, synthesizes, hc] <;> omega
      · simp only [unitDecls, hc, ite_true] at h
        cases hadd : addImportDelc.decls acc "fmt" with
        | error e => simp [hadd] at h
        | ok acc1 =>
          simp only [hadd] at h
          rcases addImportDelc_decls_cases hadd with ⟨ht, _, _⟩ | ⟨_, rfl, _⟩
          · rw [ha'] at ht; cases ht
          · have := unitDecls_of_imported ds _ L
              (by simp [List.any_append, importsPath_importDecl]) h
            simp [this, ha', synthesizes, hc]
            omega

end baker


/-! ## Calls and variable declarations -/

namespace baker

theorem expectLit_eq {p : Parser} {w : String} {pos : scanner.Position} {p' : Parser}
    (h : expectLit p w = .ok (pos, p')) :
    p.Curr.Lit = w ∧ p' = p.next ∧ pos = p.next.Position := by
  unfold expectLit at h
  simp only [] at h
  split at h
  · cases h
  · rename_i hw
    cases h
    exact ⟨by simpa using hw, rfl, rfl⟩

theorem parseIdent_eq {p : Parser} {id : ast.Ident} {p' : Parser}
    (h : parseIdent p = .ok (id, p')) :
    p.Curr.Tok = scanner.Ident ∧ p' = p.next ∧
      id = { NamePos := p.next.Position.Offset + 1, Name := p.Curr.Lit } := by
  unfold parseIdent at h
  simp only [] at h
  split at h
  · cases h
  · rename_i ht
    cases h
    exact ⟨by simpa using ht, rfl, rfl⟩

/-- C7. `parseCallExpr` rewrites only the built-in. When it returns a call for the
callee identifier `c` (the literal under the cursor), the target of the call is
the selector `fmt.Printf` if and only if `c` is `printf`; for every other `c` the
target is the identifier `c` itself and the declaration list of the file is the
one before the call. -/
theorem parseCallExpr_rewrites_only_printf (fuel : Nat) (p : Parser) (call : ast.Expr)
    (p' : Parser) (h : parseCallExpr fuel p = .ok (call, p')) :
    ∃ (fn : ast.Expr) (lparen : Nat) (args : List ast.Expr) (rparen : Nat),
      call = .CallExpr fn lparen args rparen ∧
      (fn = .SelectorExpr (.Ident { NamePos := 0, Name := "fmt" })
              { NamePos := 0, Name := "Printf" } ↔ p.Curr.Lit = "printf") ∧
      (p.Curr.Lit ≠ "printf" →
        fn = .Ident { NamePos := p.next.Position.Offset + 1, Name := p.Curr.Lit } ∧
        p'.File.Decls = p.File.Decls) := by
  have hreg := parseCallExpr_registers h
  simp only [parseCallExpr, bind_ok] at h
  obtain ⟨⟨ident, p1⟩, h1, h2⟩ := h
  obtain ⟨_, _, hid⟩ := parseIdent_eq h1
  simp only [] at h2
  split at h2
  · rename_i hname
    simp only [bind_ok, pure, Except.pure] at h2
    obtain ⟨p6, h8, ⟨fn, p2⟩, h9, ⟨x, p3⟩, h4, ⟨args, p4⟩, h5, ⟨y, p5⟩, h6, h7⟩ := h2
    cases h9
    cases h7
    have hc : p.Curr.Lit = "printf" := by rw [hid] at hname; exact hname
    exact ⟨_, _, _, _, rfl, by simp [hc], fun hne => absurd hc hne⟩
  · rename_i hname
    simp only [bind_ok, pure, Except.pure] at h2
    obtain ⟨⟨fn, p2⟩, h9, ⟨x, p3⟩, h4, ⟨args, p4⟩, h5, ⟨y, p5⟩, h6, h7⟩ := h2
    cases h9
    cases h7
    have hc : ¬ p.Curr.Lit = "printf" := by rw [hid] at hname; exact hname
    refine ⟨_, _, _, _, rfl, by simp [hc], fun _ => ⟨by rw [hid], ?_⟩⟩
    have := hreg.2
    simpa [isPrintfCall, isFmtPrintf, Registered] using this

/-- What a successful `parseVarDecl` has read and what it returns. -/
theorem parseVarDecl_shape (E : String → Option ast.Expr) (fuel : Nat)
    (p : Parser) (d : ast.GenDecl) (p' : Parser)
    (h : parseVarDecl E fuel p = .ok (d, p')) :
    p.Curr.Lit = "var" ∧ p.next.Curr.Tok = scanner.Ident ∧
    ∃ (typ : Option ast.Expr) (val : ast.Expr),
      d = { TokPos := p.next.Position.Offset + 1
            Tok := .VAR
            Specs := [.ValueSpec
              [{ NamePos := p.next.next.Position.Offset + 1, Name := p.next.Curr.Lit }]
              typ [val]] } ∧
      (typ = none ↔ p.next.next.Curr.Lit = "=") ∧
      (p.next.next.Curr.Lit = "=" →
        parseValueToEndOfLine E fuel p.next.next.next = .ok (val, p')) ∧
      (p.next.next.Curr.Lit ≠ "=" →
        ∃ (t : ast.Expr) (p3 : Parser),
          parseType fuel p.next.next = .ok (t, p3) ∧ typ = some t ∧
          p3.Curr.Lit = "=" ∧ parseValueToEndOfLine E fuel p3.next = .ok (val, p')) := by
  simp only [parseVarDecl, bind_ok] at h
  obtain ⟨⟨a, p1⟩, h1, ⟨b, p2⟩, h2, h3⟩ := h
  obtain ⟨hvar, rfl, rfl⟩ := expectLit_eq h1
  obtain ⟨hid, rfl, rfl⟩ := parseIdent_eq h2
  refine ⟨hvar, hid, ?_⟩
  simp only [] at h3
  split at h3
  · rename_i heq
    simp only [bind_ok, pure, Except.pure] at h3
    obtain ⟨⟨x, p4⟩, h5, ⟨y, p5⟩, h6, z, h7, h8⟩ := h3
    cases h7
    cases h8
    obtain ⟨_, rfl, _⟩ := expectLit_eq h5
    exact ⟨none, y, rfl, by simp [heq], fun _ => h6, fun hne => absurd heq hne⟩
  · rename_i hne
    simp only [bind_ok, pure, Except.pure] at h3
    obtain ⟨⟨ty, p4⟩, h5, ⟨x, p5⟩, h6, ⟨y, p6⟩, h7, z, h8, h9⟩ := h3
    cases h8
    cases h9
    obtain ⟨he, rfl, _⟩ := expectLit_eq h6
    exact ⟨some ty, y, rfl, by simp [hne], fun heq => absurd heq hne,
      fun _ => ⟨ty, p4, h5, rfl, he, h7⟩⟩

/-- A call without arguments never parses: behind `ident (` the argument loop calls
`parseExpr` before it looks for `)`. -/
theorem parseCallExpr_of_rparen (fuel : Nat) (p : Parser)
    (h1 : p.Curr.Lit ≠ "printf") (h2 : p.next.next.Curr.Tok = 41) :
    ∀ r, parseCallExpr fuel p ≠ .ok r := by
  intro r h
  obtain ⟨call, p'⟩ := r
  simp only [parseCallExpr, bind_ok] at h
  obtain ⟨⟨ident, p1⟩, h3, h4⟩ := h
  obtain ⟨_, rfl, hid⟩ := parseIdent_eq h3
  simp only [] at h4
  split at h4
  · rename_i hname
    rw [hid] at hname
    exact h1 hname
  · simp only [bind_ok, pure, Except.pure] at h4
    obtain ⟨⟨fn, p2⟩, h9, ⟨x, p3⟩, h5, ⟨args, p4⟩, h6, _⟩ := h4
    cases h9
    obtain ⟨_, rfl, _⟩ := expectLit_eq h5
    cases fuel with
    | zero => simp [parseCallExpr.loop] at h6
    | succ n =>
      simp only [parseCallExpr.loop, bind_ok] at h6
      obtain ⟨⟨e, p5⟩, h7, _⟩ := h6
      simp [parseExpr, h2, scanner.Int, scanner.Float, scanner.String, scanner.Ident] at h7

/-- C9. `parseVarDecl` disambiguation. When it succeeds, the cursor was on `var`
followed by an identifier, and the declaration it returns has one value spec with
exactly one name (that identifier) and exactly one value. The spec has no type if
and only if the token after the identifier is `=`; then the value is the
expression `parseValueToEndOfLine` parses behind that `=`. Otherwise the type is
the type expression `parseType` parses behind the identifier, that expression is
followed by `=`, and the value is the expression parsed behind that `=`. -/
theorem parseVarDecl_disambiguation (E : String → Option ast.Expr) (fuel : Nat)
    (p : Parser) (d : ast.GenDecl) (p' : Parser)
    (h : parseVarDecl E fuel p = .ok (d, p')) :
    p.Curr.Lit = "var" ∧ p.next.Curr.Tok = scanner.Ident ∧
    ∃ (typ : Option ast.Expr) (val : ast.Expr),
      d = { TokPos := p.next.Position.Offset + 1
            Tok := .VAR
            Specs := [.ValueSpec
              [{ NamePos := p.next.next.Position.Offset + 1, Name := p.next.Curr.Lit }]
              typ [val]] } ∧
      (typ = none ↔ p.next.next.Curr.Lit = "=") ∧
      (p.next.next.Curr.Lit = "=" →
        parseValueToEndOfLine E fuel p.next.next.next = .ok (val, p')) ∧
      (p.next.next.Curr.Lit ≠ "=" →
        ∃ (t : ast.Expr) (p3 : Parser),
          parseType fuel p.next.next = .ok (t, p3) ∧ typ = some t ∧
          p3.Curr.Lit = "=" ∧ parseValueToEndOfLine E fuel p3.next = .ok (val, p')) :=
  parseVarDecl_shape E fuel p d p' h

end baker


/-! ## The declarations of a parsed unit -/

namespace baker

theorem parseTypeDecl_specs {fuel : Nat} {p : Parser} {d : ast.GenDecl} {p' : Parser}
    (h : parseTypeDecl fuel p = .ok (d, p')) : ∃ s, d.Specs = [s] := by
  simp only [parseTypeDecl, bind_ok, pure, Except.pure] at h
  obtain ⟨⟨a, p1⟩, h1, ⟨b, p2⟩, h2, ⟨c, p3⟩, h3, p4, h4, h5⟩ := h
  cases h5
  exact ⟨_, rfl⟩

theorem parseImportDecl_specs {fuel : Nat} {p : Parser} {d : ast.GenDecl} {p' : Parser}
    (h : parseImportDecl fuel p = .ok (d, p')) : ∃ s, d.Specs = [s] := by
  simp only [parseImportDecl, bind_ok, pure, Except.pure] at h
  obtain ⟨⟨a, p1⟩, h1, ⟨⟨b, c⟩, p2⟩, h2, p3, h3, h4⟩ := h
  cases h4
  exact ⟨_, rfl⟩

theorem hasSpec_of_specs {g : ast.GenDecl} (h : ∃ s, g.Specs = [s]) :
    main.hasSpec (.GenDecl g) ∧ hasImportSpec (.GenDecl g) := by
  obtain ⟨s, hs⟩ := h
  simp [main.hasSpec, hasImportSpec, hs]

/-- Every declaration the loop of `ParseFile` parses has its spec. -/
theorem ParseFile_decl_hasSpec {E : String → Option ast.Expr} {fuel : Nat} {p : Parser}
    {d : ast.Decl} {p' : Parser} (h : ParseFile.decl E fuel p = .ok (some (d, p'))) :
    main.hasSpec d ∧ hasImportSpec d := by
  simp only [ParseFile.decl] at h
  split at h
  · simp only [bind_ok, pure, Except.pure] at h
    obtain ⟨⟨g, p1⟩, h1, h2⟩ := h
    cases h2
    obtain ⟨_, _, typ, val, hg, _⟩ := parseVarDecl_shape _ _ _ _ _ h1
    exact hasSpec_of_specs ⟨_, by rw [hg]⟩
  · split at h
    · simp only [bind_ok, pure, Except.pure] at h
      obtain ⟨⟨g, p1⟩, h1, h2⟩ := h
      cases h2
      exact hasSpec_of_specs (parseImportDecl_specs h1)
    · split at h
      · simp only [bind_ok, pure, Except.pure] at h
        obtain ⟨⟨g, p1⟩, h1, h2⟩ := h
        cases h2
        exact ⟨trivial, trivial⟩
      · split at h
        · simp only [bind_ok, pure, Except.pure] at h
          obtain ⟨⟨g, p1⟩, h1, h2⟩ := h
          cases h2
          exact hasSpec_of_specs (parseTypeDecl_specs h1)
        · simp [pure, Except.pure] at h

theorem ParseFile_parsed_hasSpec (E : String → Option ast.Expr) :
    ∀ (fuel : Nat) (p : Parser) (ds : List ast.Decl), ParseFile.parsed E fuel p = .ok ds →
      ∀ d ∈ ds, main.hasSpec d ∧ hasImportSpec d := by
  intro fuel
  induction fuel with
  | zero => intro p ds h; simp [ParseFile.parsed] at h
  | succ n ih =>
    intro p ds h
    simp only [ParseFile.parsed] at h
    split at h
    · cases hd : ParseFile.decl E n p with
      | error e => simp [hd] at h
      | ok o =>
        cases o with
        | none =>
          simp [hd] at h
          subst h
          intro d hd'
          simp at hd'
        | some dp =>
          obtain ⟨d, p1⟩ := dp
          simp only [hd] at h
          split at h
          · cases h
          · rename_i ds' hds'
            cases h
            intro x hx
            rcases List.mem_cons.1 hx with rfl | hx
            · exact ParseFile_decl_hasSpec hd
            · exact ih _ _ hds' x hx
    · cases h
      intro d hd
      simp at hd

theorem unitDecls_mem :
    ∀ (ds acc L : List ast.Decl), unitDecls acc ds = .ok L →
      ∀ d ∈ L, d ∈ acc ∨ d ∈ ds ∨ d = importDecl "fmt" := by
  intro ds
  induction ds with
  | nil => intro acc L h d hd; simp [unitDecls] at h; subst h; exact Or.inl hd
  | cons x ds ih =>
    intro acc L h d hd
    simp only [unitDecls] at h
    cases hc : declCallsPrintf x
    · simp only [hc] at h
      rcases ih (acc ++ [x]) L (by simpa using h) d hd with h1 | h1 | h1
      · rcases List.mem_append.1 h1 with h2 | h2
        · exact Or.inl h2
        · exact Or.inr (Or.inl (by simp at h2; simp [h2]))
      · exact Or.inr (Or.inl (List.mem_cons_of_mem _ h1))
      · exact Or.inr (Or.inr h1)
    · simp only [hc, ite_true] at h
      cases hadd : addImportDelc.decls acc "fmt" with
      | error e => simp [hadd] at h
      | ok acc1 =>
        simp only [hadd] at h
        have hacc1 : ∀ y ∈ acc1, y ∈ acc ∨ y = importDecl "fmt" := by
          rcases addImportDelc_decls_cases hadd with ⟨_, rfl, _⟩ | ⟨_, rfl, _⟩
          · exact fun y hy => Or.inl hy
          · intro y hy
            rcases List.mem_append.1 hy with h2 | h2
            · exact Or.inl h2
            · exact Or.inr (by simpa using h2)
        rcases ih (acc1 ++ [x]) L h d hd with h1 | h1 | h1
        · rcases List.mem_append.1 h1 with h2 | h2
          · rcases hacc1 d h2 with h3 | h3
            · exact Or.inl h3
            · exact Or.inr (Or.inr h3)
          · exact Or.inr (Or.inl (by simp at h2; simp [h2]))
        · exact Or.inr (Or.inl (List.mem_cons_of_mem _ h1))
        · exact Or.inr (Or.inr h1)

theorem NewParser_File (src : List scanner.Token) (srcLen : Nat) :
    (NewParser src srcLen).File = { Name := none, Decls := [] } :=
  sameFile_next _

/-- Every declaration of a parsed unit has its spec, so neither the scan of
`addImportDelc` nor the lowering loop can index an empty `Specs`. -/
theorem ParseFile_hasSpec {E : String → Option ast.Expr} {fuel : Nat} {p : Parser}
    {file : ast.File} {p' : Parser} (h0 : p.File.Decls = [])
    (h : ParseFile E fuel p = .ok (file, p')) :
    ∀ d ∈ file.Decls, main.hasSpec d ∧ hasImportSpec d := by
  obtain ⟨ds, h1, h2, _, _⟩ := ParseFile_spec h
  simp only [ParseFile.topLevel, bind_ok] at h1
  obtain ⟨p1, _, hds⟩ := h1
  intro d hd
  rcases unitDecls_mem ds _ _ h2 d hd with h3 | h3 | h3
  · rw [h0] at h3; simp at h3
  · exact ParseFile_parsed_hasSpec E _ _ _ hds d h3
  · subst h3
    simp [importDecl, main.hasSpec, hasImportSpec]

end baker


/-! ## The claims about the parsed unit -/

namespace baker

/-- C4. Placement of the synthesized import. Let `ParseFile` succeed on a parser
state with an empty declaration list, let `ds` be the declarations it parses from
the source, in source order, let none of them import `"fmt"`, and let the `k`-th
of them be the first whose body holds a `printf` call statement. Then the unit
holds the `k` earlier declarations, then one import declaration for `"fmt"`, then
the `k`-th and all later declarations in source order. -/
theorem ParseFile_import_placement (E : String → Option ast.Expr) (fuel : Nat)
    (p : Parser) (file : ast.File) (p' : Parser) (ds : List ast.Decl) (k : Nat)
    (dk : ast.Decl)
    (h0 : p.File.Decls = [])
    (h : ParseFile E fuel p = .ok (file, p'))
    (hds : ParseFile.topLevel E fuel p = .ok ds)
    (hno : ∀ d ∈ ds, importsPath (Sprintf_q "fmt") d = false)
    (hk : ds[k]? = some dk) (hc : declCallsPrintf dk = true)
    (hfirst : ∀ d ∈ ds.take k, declCallsPrintf d = false) :
    file.Decls = ds.take k ++ [importDecl "fmt"] ++ ds.drop k := by
  obtain ⟨ds', h1, h2, _, _⟩ := ParseFile_spec h
  rw [hds] at h1
  cases h1
  rw [h0] at h2
  have := unitDecls_placement k ds [] file.Decls dk rfl
    (fun d hd => hno d (List.mem_of_mem_take hd)) hfirst hk hc h2
  simpa using this

/-- C8, as the code has it. When `ParseFile` succeeds on a parser state with an
empty declaration list, the number of declarations of the unit is the number of
declarations it parsed from the source (one for each top-level `var`, `import`,
`fn` or `type` keyword), plus one when a declaration holding a `printf` call
statement comes before any import of `"fmt"`: the import `addImportDelc` makes up. -/
theorem ParseFile_decl_count (E : String → Option ast.Expr) (fuel : Nat)
    (p : Parser) (file : ast.File) (p' : Parser)
    (h0 : p.File.Decls = [])
    (h : ParseFile E fuel p = .ok (file, p')) :
    ∃ ds, ParseFile.topLevel E fuel p = .ok ds ∧
      file.Decls.length = ds.length + (if synthesizes ds = true then 1 else 0) := by
  obtain ⟨ds, h1, h2, _, _⟩ := ParseFile_spec h
  refine ⟨ds, h1, ?_⟩
  rw [h0] at h2
  have := unitDecls_length ds [] file.Decls h2
  simpa using this

end baker

namespace main

/-- C2, as the code has it. On every declaration list `ParseFile` returns (from a
parser state with an empty declaration list) the lowering succeeds, and afterwards
no declaration of the list is a type declaration whose spec has a `UnionType` as
its type. A `UnionType` below that level is not looked at. -/
theorem lowerUnions_after_ParseFile (E : String → Option ast.Expr) (fuel : Nat)
    (p : baker.Parser) (file : ast.File) (p' : baker.Parser)
    (h0 : p.File.Decls = [])
    (h : baker.ParseFile E fuel p = .ok (file, p')) :
    ∃ L : List ast.Decl, lowerUnions file.Decls = .ok L ∧ ∀ d ∈ L, isUnionDecl d = false :=
  lowerUnions_no_union_decl file.Decls (fun d hd => (baker.ParseFile_hasSpec h0 h d hd).1)

end main


/-! ## The claims on the example programs -/

namespace examples

open baker main

theorem shapeDecls_hasSpec : ∀ d ∈ shapeDecls, hasSpec d := by
  intro d hd
  simp only [shapeDecls, List.mem_singleton] at hd
  subst hd
  simp [hasSpec]

/-- What the test program, the `Shape` program, the pointer program, the two `var`
lines and the call parse to. -/
theorem ParseFile_examples :
    ParseFile ParseExpr 20 (NewParser testSrc 108) = .ok (testFile, endState 108 testFile) ∧
    ParseFile.topLevel ParseExpr 20 (NewParser testSrc 108) = .ok [greetDecl, mainDecl] ∧
    ParseFile ParseExpr 20 (NewParser shapeSrc 35) = .ok (shapeFile, endState 35 shapeFile) ∧
    parseVarDecl ParseExpr 20 (NewParser varSrc 9) = .ok (varDecl, endState 9 emptyFile) ∧
    parseVarDecl ParseExpr 20 (NewParser varTypedSrc 13)
      = .ok (varTypedDecl, endState 13 emptyFile) ∧
    parseCallExpr 5 (NewParser callSrc 18) = .ok (greetCall, endState 18 emptyFile) :=
  ⟨rfl, rfl, rfl, rfl, rfl, rfl⟩

/-- Witness of C1: `type Shape union = Circle | Square;` gives the marker `Shape`
and the carrier `__Shape{Type Shape; Field0 Circle; Field1 Square}`. -/
theorem lowerUnions_marker_and_carrier_witness :
    (∀ d ∈ shapeDecls, hasSpec d) ∧
    lowerUnions shapeDecls = .ok shapeLowered ∧
    ∃ (L : List ast.Decl) (fields : List ast.Field),
      lowerUnions shapeDecls = .ok L ∧
      L[0]? = some (.GenDecl
        { TokPos := 6, Tok := .TYPE
          Specs := .TypeSpec { NamePos := 12, Name := "Shape" }
            (.InterfaceType 18 (.mk 0 [] 0)) :: [] }) ∧
      L[shapeDecls.length + (shapeDecls.take 0).countP isUnionDecl]? = some (.GenDecl
        { TokPos := 0, Tok := .TYPE
          Specs := [.TypeSpec { NamePos := 0, Name := "__" ++ "Shape" }
            (.StructType 0 (.mk 0
              (ast.Field.mk [{ NamePos := 0, Name := "Type" }]
                  (.Ident { NamePos := 0, Name := "Shape" }) :: fields) 0))] }) ∧
      fields.length =
        [ast.Expr.Ident { NamePos := 27, Name := "Circle" },
         ast.Expr.Ident { NamePos := 35, Name := "Square" }].length ∧
      (∀ (j : Nat) (T : ast.Expr),
        [ast.Expr.Ident { NamePos := 27, Name := "Circle" },
         ast.Expr.Ident { NamePos := 35, Name := "Square" }][j]? = some T →
        fields[j]? = some (ast.Field.mk [{ NamePos := 0, Name := "Field" ++ toString j }] T)) ∧
      L.length = shapeDecls.length + shapeDecls.countP isUnionDecl ∧
      (L.drop shapeDecls.length).countP (declaresType ("__" ++ "Shape"))
        = shapeDecls.countP (isUnionNamed "Shape") :=
  ⟨shapeDecls_hasSpec, rfl,
    lowerUnions_marker_and_carrier shapeDecls shapeDecls_hasSpec 0 6
      { NamePos := 12, Name := "Shape" } 18
      [.Ident { NamePos := 27, Name := "Circle" }, .Ident { NamePos := 35, Name := "Square" }]
      [] rfl⟩

/-- Witness of C3, on the `Shape` program: one declaration, one union, two
declarations after the lowering. -/
theorem lowerUnions_append_only_witness :
    (∀ d ∈ shapeDecls, hasSpec d) ∧
    ∃ L : List ast.Decl,
      lowerUnions shapeDecls = .ok L ∧
      L.length = shapeDecls.length + shapeDecls.countP isUnionDecl ∧
      (∀ (i : Nat) (d : ast.Decl),
        shapeDecls[i]? = some d → isUnionDecl d = false → L[i]? = some d) ∧
      (∀ (i tp : Nat) (Name : ast.Ident) (u : Nat) (Ts : List ast.Expr)
          (specs : List ast.Spec),
        shapeDecls[i]? = some (.GenDecl
          { TokPos := tp, Tok := .TYPE, Specs := .TypeSpec Name (.UnionType u Ts) :: specs }) →
        L[i]? = some (.GenDecl
          { TokPos := tp, Tok := .TYPE
            Specs := .TypeSpec Name (.InterfaceType u (.mk 0 [] 0)) :: specs })) ∧
      L.drop shapeDecls.length = shapeDecls.filterMap helperOf? :=
  ⟨shapeDecls_hasSpec, lowerUnions_append_only shapeDecls shapeDecls_hasSpec⟩

/-- Counterexample to C2: `type P *union = A;` parses to a declaration whose type
is a pointer to a union; the lowering leaves the list as it is, with the
`UnionType` node in it. -/
theorem union_survives_lowering :
    (ParseFile ParseExpr 20 (NewParser pointerSrc 18)).map (fun r => r.1.Decls)
      = .ok pointerDecls ∧
    lowerUnions pointerDecls = .ok pointerDecls ∧
    pointerDecls.any ast.Decl.hasUnion = true :=
  ⟨rfl, rfl, rfl⟩

/-- Witness of C2 as the code has it, on the `Shape` program. -/
theorem lowerUnions_after_ParseFile_witness :
    (NewParser shapeSrc 35).File.Decls = [] ∧
    ParseFile ParseExpr 20 (NewParser shapeSrc 35) = .ok (shapeFile, endState 35 shapeFile) ∧
    ∃ L : List ast.Decl,
      lowerUnions shapeFile.Decls = .ok L ∧ ∀ d ∈ L, isUnionDecl d = false :=
  ⟨rfl, rfl,
    lowerUnions_after_ParseFile ParseExpr 20 (NewParser shapeSrc 35) shapeFile
      (endState 35 shapeFile) rfl rfl⟩

/-- Witness of C4: the program of `TestParser` (`k = 0`) parses to exactly
`[import "fmt", func greet, func main]`; the body of `greet` is one expression
statement calling `fmt.Printf` with the string literal and the identifier `name`,
the body of `main` one call of `greet` with one string literal (`greetDecl`,
`mainDecl`). -/
theorem ParseFile_import_placement_witness :
    (NewParser testSrc 108).File.Decls = [] ∧
    ParseFile ParseExpr 20 (NewParser testSrc 108) = .ok (testFile, endState 108 testFile) ∧
    ParseFile.topLevel ParseExpr 20 (NewParser testSrc 108) = .ok [greetDecl, mainDecl] ∧
    (∀ d ∈ [greetDecl, mainDecl], importsPath (Sprintf_q "fmt") d = false) ∧
    [greetDecl, mainDecl][0]? = some greetDecl ∧
    declCallsPrintf greetDecl = true ∧
    (∀ d ∈ [greetDecl, mainDecl].take 0, declCallsPrintf d = false) ∧
    testFile.Decls
      = [greetDecl, mainDecl].take 0 ++ [importDecl "fmt"] ++ [greetDecl, mainDecl].drop 0 ∧
    testFile.Decls = [importDecl "fmt", greetDecl, mainDecl] :=
  have hno : ∀ d ∈ [greetDecl, mainDecl], importsPath (Sprintf_q "fmt") d = false := by
    intro d hd
    simp only [List.mem_cons, List.mem_singleton, List.not_mem_nil, or_false] at hd
    rcases hd with rfl | rfl <;> rfl
  have hfirst : ∀ d ∈ [greetDecl, mainDecl].take 0, declCallsPrintf d = false := by
    intro d hd
    simp at hd
  ⟨rfl, rfl, rfl, hno, rfl, rfl, hfirst,
    ParseFile_import_placement ParseExpr 20 (NewParser testSrc 108) testFile
      (endState 108 testFile) [greetDecl, mainDecl] 0 greetDecl rfl rfl rfl hno rfl rfl hfirst,
    rfl⟩

/-- C5 fails on the code: a program that calls `printf` and imports `"fmt"` itself
further down parses to a unit with two import declarations for `"fmt"`, the made-up
one in front of `fn main` and the program's own behind it. -/
theorem ParseFile_duplicate_fmt_import :
    (ParseFile ParseExpr 20 (NewParser printfThenImportSrc 46)).map
        (fun r => r.1.Decls.map (importsPath (Sprintf_q "fmt")))
      = .ok [true, false, true] ∧
    (ParseFile ParseExpr 20 (NewParser printfThenImportSrc 46)).map
        (fun r => r.1.Decls.countP (importsPath (Sprintf_q "fmt")))
      = .ok 2 :=
  ⟨rfl, rfl⟩

/-- Witness of C6: on the unit of the test program, which imports `"fmt"`,
`addImportDelc("fmt")` changes nothing; on an empty file it appends the import. -/
theorem addImportDelc_idempotent_witness :
    ((∀ d ∈ (endState 108 testFile).File.Decls, hasImportSpec d) ∧
      (∃ d ∈ (endState 108 testFile).File.Decls, importsPath (Sprintf_q "fmt") d = true) ∧
      addImportDelc (endState 108 testFile) "fmt" = .ok (endState 108 testFile)) ∧
    ((∀ d ∈ (endState 0 emptyFile).File.Decls, hasImportSpec d) ∧
      (∀ d ∈ (endState 0 emptyFile).File.Decls, importsPath (Sprintf_q "fmt") d = false) ∧
      addImportDelc (endState 0 emptyFile) "fmt"
        = .ok { endState 0 emptyFile with
            File := { (endState 0 emptyFile).File with
              Decls := (endState 0 emptyFile).File.Decls ++ [importDecl "fmt"] } }) ∧
    (addImportDelc (endState 0 emptyFile) "fmt" >>= fun p1 => addImportDelc p1 "fmt")
      = addImportDelc (endState 0 emptyFile) "fmt" :=
  have hw : ∀ d ∈ (endState 108 testFile).File.Decls, hasImportSpec d := by
    intro d hd
    simp only [endState, testFile, List.mem_cons, List.mem_singleton, List.not_mem_nil,
      or_false] at hd
    rcases hd with rfl | rfl | rfl
    · simp [importDecl, hasImportSpec]
    · trivial
    · trivial
  have hex : ∃ d ∈ (endState 108 testFile).File.Decls, importsPath (Sprintf_q "fmt") d = true :=
    ⟨importDecl "fmt", by simp [endState, testFile], importsPath_importDecl "fmt"⟩
  have hw0 : ∀ d ∈ (endState 0 emptyFile).File.Decls, hasImportSpec d := by
    intro d hd
    simp [endState, emptyFile] at hd
  have hno : ∀ d ∈ (endState 0 emptyFile).File.Decls, importsPath (Sprintf_q "fmt") d = false := by
    intro d hd
    simp [endState, emptyFile] at hd
  ⟨⟨hw, hex, ((addImportDelc_idempotent (endState 108 testFile) "fmt").2 hw).1 hex⟩,
    ⟨hw0, hno, ((addImportDelc_idempotent (endState 0 emptyFile) "fmt").2 hw0).2 hno⟩,
    (addImportDelc_idempotent (endState 0 emptyFile) "fmt").1⟩

/-- Witness of C7, on `greet("GopherCon")`: the target is the identifier `greet`. -/
theorem parseCallExpr_rewrites_only_printf_witness :
    parseCallExpr 5 (NewParser callSrc 18) = .ok (greetCall, endState 18 emptyFile) ∧
    ∃ (fn : ast.Expr) (lparen : Nat) (args : List ast.Expr) (rparen : Nat),
      greetCall = .CallExpr fn lparen args rparen ∧
      (fn = .SelectorExpr (.Ident { NamePos := 0, Name := "fmt" })
              { NamePos := 0, Name := "Printf" } ↔
        (NewParser callSrc 18).Curr.Lit = "printf") ∧
      ((NewParser callSrc 18).Curr.Lit ≠ "printf" →
        fn = .Ident { NamePos := (NewParser callSrc 18).next.Position.Offset + 1
                      Name := (NewParser callSrc 18).Curr.Lit } ∧
        (endState 18 emptyFile).File.Decls = (NewParser callSrc 18).File.Decls) :=
  ⟨rfl, parseCallExpr_rewrites_only_printf 5 (NewParser callSrc 18) greetCall
    (endState 18 emptyFile) rfl⟩

/-- Counterexample to C8: the test program has two top-level keywords (two `fn`,
and no other `var`, `import`, `fn` or `type` token at all), and its unit has three
declarations. -/
theorem ParseFile_count_counterexample :
    (ParseFile ParseExpr 20 (NewParser testSrc 108)).map (fun r => r.1.Decls.length)
      = .ok 3 ∧
    (ParseFile.topLevel ParseExpr 20 (NewParser testSrc 108)).map List.length = .ok 2 ∧
    (testSrc.filter
      (fun t => decide (t.Text ∈ ["var", "import", "fn", "type"]))).length = 2 :=
  ⟨rfl, rfl, rfl⟩

/-- Witness of C8 as the code has it, on the test program. -/
theorem ParseFile_decl_count_witness :
    (NewParser testSrc 108).File.Decls = [] ∧
    ParseFile ParseExpr 20 (NewParser testSrc 108) = .ok (testFile, endState 108 testFile) ∧
    ∃ ds, ParseFile.topLevel ParseExpr 20 (NewParser testSrc 108) = .ok ds ∧
      testFile.Decls.length = ds.length + (if synthesizes ds = true then 1 else 0) :=
  ⟨rfl, rfl,
    ParseFile_decl_count ParseExpr 20 (NewParser testSrc 108) testFile
      (endState 108 testFile) rfl rfl⟩

/-- Witness of C9: `var x = 5` has no type node, `var x int = 5` has the type node
`int`, both have a value expression for `5` (`varDecl`, `varTypedDecl`). -/
theorem parseVarDecl_disambiguation_witness :
    parseVarDecl ParseExpr 20 (NewParser varSrc 9) = .ok (varDecl, endState 9 emptyFile) ∧
    parseVarDecl ParseExpr 20 (NewParser varTypedSrc 13)
      = .ok (varTypedDecl, endState 13 emptyFile) ∧
    ((NewParser varTypedSrc 13).Curr.Lit = "var" ∧
      (NewParser varTypedSrc 13).next.Curr.Tok = scanner.Ident ∧
      ∃ (typ : Option ast.Expr) (val : ast.Expr),
        varTypedDecl =
          { TokPos := (NewParser varTypedSrc 13).next.Position.Offset + 1
            Tok := .VAR
            Specs := [.ValueSpec
              [{ NamePos := (NewParser varTypedSrc 13).next.next.Position.Offset + 1
                 Name := (NewParser varTypedSrc 13).next.Curr.Lit }]
              typ [val]] } ∧
        (typ = none ↔ (NewParser varTypedSrc 13).next.next.Curr.Lit = "=") ∧
        ((NewParser varTypedSrc 13).next.next.Curr.Lit = "=" →
          parseValueToEndOfLine ParseExpr 20 (NewParser varTypedSrc 13).next.next.next
            = .ok (val, endState 13 emptyFile)) ∧
        ((NewParser varTypedSrc 13).next.next.Curr.Lit ≠ "=" →
          ∃ (t : ast.Expr) (p3 : Parser),
            parseType 20 (NewParser varTypedSrc 13).next.next = .ok (t, p3) ∧ typ = some t ∧
            p3.Curr.Lit = "=" ∧
            parseValueToEndOfLine ParseExpr 20 p3.next = .ok (val, endState 13 emptyFile))) :=
  ⟨rfl, rfl,
    parseVarDecl_disambiguation ParseExpr 20 (NewParser varTypedSrc 13) varTypedDecl
      (endState 13 emptyFile) rfl⟩

/-- C10 fails on the code for the empty argument list: `f()` makes `parseCallExpr`
panic in `parseExpr`, whatever the fuel, and so does a program whose body is
`f()`; the sibling loop of `parseFieldList` accepts `()`. -/
theorem parseCallExpr_no_args_panics :
    (∀ fuel : Nat,
      parseCallExpr (fuel + 1) (NewParser callNoArgsSrc 3) = .error (.panic "oh no")) ∧
    ParseFile ParseExpr 20 (NewParser callNoArgsProgramSrc 25) = .error (.panic "oh no") ∧
    (parseFieldList 5 (NewParser noParamsSrc 2)).map (fun r => r.1)
      = .ok (ast.FieldList.mk 1 [] 2) :=
  ⟨fun _ => rfl, rfl, rfl⟩

end examples


/-! ## The cursor: `expectLit`, `parseIdent` and the loop of `ParseFile` -/

namespace baker

theorem next_of_eof {p : Parser} (h : p.Curr.Tok = scanner.EOF) : p.next = p := by
  unfold Parser.next
  rw [if_pos h]

theorem next_of_ne_eof {p : Parser} (h : p.Curr.Tok ≠ scanner.EOF) :
    p.next.GoScanner.scnr = p.GoScanner.scnr.Scan.2 ∧
    p.next.GoScanner.scnr.src = p.GoScanner.scnr.src.tail ∧
    p.next.File = p.File ∧
    p.next.Curr =
      (if p.GoScanner.scnr.Scan.1 = 59 ∨ p.GoScanner.scnr.Scan.1 = 10 ∨
          p.GoScanner.scnr.Scan.1 = 13
        then { Tok := scanner.Ident, Lit := ";" }
        else { Tok := p.GoScanner.scnr.Scan.1, Lit := p.GoScanner.scnr.Scan.2.tokText }) := by
  unfold Parser.next
  rw [if_neg h]
  simp only [scanner.Scanner.TokenText]
  split
  · refine ⟨rfl, ?_, rfl, rfl⟩
    simp only [scanner.Scanner.Scan]
    split <;> simp_all
  · refine ⟨rfl, ?_, rfl, rfl⟩
    simp only [scanner.Scanner.Scan]
    split <;> simp_all

theorem unitDecls_sublist :
    ∀ (ds acc L : List ast.Decl), unitDecls acc ds = .ok L → (acc ++ ds).Sublist L := by
  intro ds
  induction ds with
  | nil =>
    intro acc L h
    simp only [unitDecls] at h
    cases h
    simp
  | cons d ds ih =>
    intro acc L h
    simp only [unitDecls] at h
    split at h
    · cases h
    · rename_i acc1 hacc
      have h1 := ih _ _ h
      have h2 : acc.Sublist acc1 := by
        split at hacc
        · rcases addImportDelc_decls_cases hacc with ⟨_, rfl, _⟩ | ⟨_, rfl, _⟩
          · exact List.Sublist.refl _
          · exact List.sublist_append_left _ _
        · cases hacc
          exact List.Sublist.refl _
      have h3 : (acc ++ d :: ds).Sublist (acc1 ++ [d] ++ ds) := by
        have : acc ++ d :: ds = acc ++ ([d] ++ ds) := by simp
        rw [this, List.append_assoc]
        exact List.Sublist.append h2 (List.Sublist.refl _)
      exact h3.trans h1

/-- C12 (amended). `expectLit(want)` on every cursor state and every string `want`:
it fails if and only if the literal under the cursor differs from `want`; the error
then carries `want`, the literal found and the scanner position of the untouched
state; when it succeeds it returns the state after one call of `next` and the
scanner position of that state. Away from end-of-input that state is the one after
exactly one `Scan` (one token consumed, line breaks and `;` normalised); at
end-of-input `next` is a no-op and the cursor stays where it is. -/
theorem expectLit_contract (p : Parser) (want : String) :
    ((∃ e, expectLit p want = .error e) ↔ p.Curr.Lit ≠ want) ∧
    (p.Curr.Lit ≠ want →
      expectLit p want = .error (.wantLit want p.Curr.Lit p.Position)) ∧
    (p.Curr.Lit = want → expectLit p want = .ok (p.next.Position, p.next)) ∧
    (p.Curr.Tok ≠ scanner.EOF →
      p.next.GoScanner.scnr = p.GoScanner.scnr.Scan.2 ∧
      p.next.GoScanner.scnr.src = p.GoScanner.scnr.src.tail ∧
      p.next.File = p.File ∧
      p.next.Curr =
        (if p.GoScanner.scnr.Scan.1 = 59 ∨ p.GoScanner.scnr.Scan.1 = 10 ∨
            p.GoScanner.scnr.Scan.1 = 13
          then { Tok := scanner.Ident, Lit := ";" }
          else { Tok := p.GoScanner.scnr.Scan.1, Lit := p.GoScanner.scnr.Scan.2.tokText })) ∧
    (p.Curr.Tok = scanner.EOF → p.next = p) := by
  have hfail : p.Curr.Lit ≠ want →
      expectLit p want = .error (.wantLit want p.Curr.Lit p.Position) := by
    intro h
    unfold expectLit
    simp only []
    rw [if_pos h]
  have hok : p.Curr.Lit = want → expectLit p want = .ok (p.next.Position, p.next) := by
    intro h
    unfold expectLit
    simp only []
    rw [if_neg (by simpa using h)]
  refine ⟨⟨?_, ?_⟩, hfail, hok, next_of_ne_eof, next_of_eof⟩
  · rintro ⟨e, he⟩ heq
    rw [hok heq] at he
    cases he
  · intro h
    exact ⟨_, hfail h⟩

theorem ParseFile_decl_none {E : String → Option ast.Expr} {fuel : Nat} {p : Parser}
    (h : p.Curr.Lit ∉ [KeywordVar, KeywordImport, KeywordFn, KeywordType]) :
    ParseFile.decl E fuel p = .ok none := by
  simp only [List.mem_cons, List.mem_singleton, List.not_mem_nil, or_false, not_or] at h
  obtain ⟨h1, h2, h3, h4⟩ := h
  unfold ParseFile.decl
  rw [if_neg h1, if_neg h2, if_neg h3, if_neg h4]
  rfl

theorem ParseFile_decl_some {E : String → Option ast.Expr} {fuel : Nat} {p : Parser}
    (h : p.Curr.Lit ∈ [KeywordVar, KeywordImport, KeywordFn, KeywordType]) :
    ParseFile.decl E fuel p ≠ .ok none := by
  intro hd
  unfold ParseFile.decl at hd
  split at hd
  · simp only [bind_ok, pure, Except.pure] at hd
    obtain ⟨_, _, h2⟩ := hd
    cases h2
  · split at hd
    · simp only [bind_ok, pure, Except.pure] at hd
      obtain ⟨_, _, h2⟩ := hd
      cases h2
    · split at hd
      · simp only [bind_ok, pure, Except.pure] at hd
        obtain ⟨_, _, h2⟩ := hd
        cases h2
      · split at hd
        · simp only [bind_ok, pure, Except.pure] at hd
          obtain ⟨_, _, h2⟩ := hd
          cases h2
        · simp_all

theorem ParseFile_loop_stops (E : String → Option ast.Expr) :
    ∀ (fuel : Nat) (p p' : Parser), ParseFile.loop E fuel p = .ok p' →
      p'.Curr.Tok = scanner.EOF ∨
        p'.Curr.Lit ∉ [KeywordVar, KeywordImport, KeywordFn, KeywordType] := by
  intro fuel
  induction fuel with
  | zero => intro p p' h; simp [ParseFile.loop] at h
  | succ n ih =>
    intro p p' h
    simp only [ParseFile.loop] at h
    split at h
    · split at h
      · cases h
      · rename_i hd
        cases h
        by_cases hk : p.Curr.Lit ∈ [KeywordVar, KeywordImport, KeywordFn, KeywordType]
        · exact absurd hd (ParseFile_decl_some hk)
        · exact Or.inr hk
      · exact ih _ _ h
    · rename_i ht
      cases h
      exact Or.inl (by simpa using ht)

/-- C16. `ParseFile` ends at an unrecognized leading literal without failing. At
end-of-input, or when the literal under the cursor is none of `var`, `import`,
`fn`, `type`, the loop of `ParseFile` returns at once, successfully and with the
state untouched (nothing consumed). On one of the four keywords it parses one
declaration, appends it and goes on (an error of that declaration is the error of
the loop). When `ParseFile` returns a unit, the unit is the file of the final
state, its package name is `main`, the cursor of the final state is at
end-of-input or on a literal that is none of the four keywords, and the
declarations parsed from the source are in the unit in source order. -/
theorem ParseFile_stops_at_other_literal (E : String → Option ast.Expr) (fuel : Nat)
    (p : Parser) :
    ((p.Curr.Tok = scanner.EOF ∨
        p.Curr.Lit ∉ [KeywordVar, KeywordImport, KeywordFn, KeywordType]) →
      ParseFile.loop E (fuel + 1) p = .ok p) ∧
    (p.Curr.Tok ≠ scanner.EOF →
      p.Curr.Lit ∈ [KeywordVar, KeywordImport, KeywordFn, KeywordType] →
        (∀ e, ParseFile.decl E fuel p = .error e →
          ParseFile.loop E (fuel + 1) p = .error e) ∧
        (∀ d p1, ParseFile.decl E fuel p = .ok (some (d, p1)) →
          ParseFile.loop E (fuel + 1) p =
            ParseFile.loop E fuel
              { p1 with File := { p1.File with Decls := p1.File.Decls ++ [d] } }) ∧
        ParseFile.decl E fuel p ≠ .ok none) ∧
    (∀ (file : ast.File) (p' : Parser), ParseFile E fuel p = .ok (file, p') →
      file = p'.File ∧ file.Name = some { NamePos := 0, Name := "main" } ∧
      (p'.Curr.Tok = scanner.EOF ∨
        p'.Curr.Lit ∉ [KeywordVar, KeywordImport, KeywordFn, KeywordType]) ∧
      ∃ ds, ParseFile.topLevel E fuel p = .ok ds ∧
        (p.File.Decls ++ ds).Sublist file.Decls) := by
  refine ⟨?_, ?_, ?_⟩
  · intro h
    simp only [ParseFile.loop]
    by_cases ht : p.Curr.Tok = scanner.EOF
    · rw [if_neg (by simpa using ht)]
    · rw [if_pos ht]
      rcases h with h | h
      · exact absurd h ht
      · rw [ParseFile_decl_none h]
  · intro ht hk
    refine ⟨?_, ?_, ParseFile_decl_some hk⟩
    · intro e he
      simp only [ParseFile.loop]
      rw [if_pos ht, he]
    · intro d p1 hd
      simp only [ParseFile.loop]
      rw [if_pos ht, hd]
  · intro file p' h
    obtain ⟨ds, h1, h2, h3, h4⟩ := ParseFile_spec h
    refine ⟨h4, h3, ?_, ds, h1, unitDecls_sublist _ _ _ h2⟩
    simp only [ParseFile, bind_ok, pure, Except.pure] at h
    obtain ⟨p1, _, p2, hl, h5⟩ := h
    cases h5
    exact ParseFile_loop_stops E _ _ _ hl

end baker


/-! ## Text to the end of the statement -/

namespace baker

theorem next_setSkipUntil (p : Parser) (enders : List Rune) :
    Parser.next { p with GoScanner := p.GoScanner.SetSkipUntil enders } =
      { p.next with GoScanner := p.next.GoScanner.SetSkipUntil enders } := by
  unfold Parser.next
  by_cases h : p.Curr.Tok = scanner.EOF
  · simp only [h, if_true]
  · simp only [h, if_false]
    unfold GoScanner.SetSkipUntil scanner.Scanner.Scan scanner.Scanner.TokenText
    cases hs : p.GoScanner.scnr.src <;> (split <;> split <;> simp_all)

theorem advance_setSkipUntil (enders : List Rune) :
    ∀ (k : Nat) (p : Parser),
      Parser.advance { p with GoScanner := p.GoScanner.SetSkipUntil enders } k =
        { p.advance k with GoScanner := (p.advance k).GoScanner.SetSkipUntil enders } := by
  intro k
  induction k with
  | zero => intro p; rfl
  | succ n ih =>
    intro p
    simp only [Parser.advance]
    rw [next_setSkipUntil, ih]

theorem advance_succ (p : Parser) : ∀ k : Nat, p.advance (k + 1) = (p.advance k).next := by
  intro k
  induction k generalizing p with
  | zero => rfl
  | succ n ih =>
    simp only [Parser.advance] at ih ⊢
    rw [ih]

theorem lineText_succ : ∀ (k : Nat) (p : Parser),
    lineText p (k + 1) = lineText p k ++ (p.advance k).Curr.Lit := by
  intro k
  induction k with
  | zero => intro p; simp [lineText, Parser.advance]
  | succ n ih =>
    intro p
    have := ih p.next
    simp only [lineText, Parser.advance] at this ⊢
    rw [this, String.append_assoc]

theorem fromHereToEndOfLine_loop_eq :
    ∀ (k fuel : Nat) (p : Parser) (str : String),
      (∀ i, i < k → ¬ (p.advance i).atTerminator) → (p.advance k).atTerminator → k < fuel →
      fromHereToEndOfLine.loop fuel p str = .ok (str ++ lineText p k, p.advance k) := by
  intro k
  induction k with
  | zero =>
    intro fuel p str _ ht hf
    obtain ⟨n, rfl⟩ : ∃ n, fuel = n + 1 := ⟨fuel - 1, by omega⟩
    simp only [Parser.advance, Parser.atTerminator] at ht
    simp only [fromHereToEndOfLine.loop, lineText, Parser.advance]
    rw [if_neg (by
      intro h
      rcases ht with ht | ht
      · exact h.1 ht
      · exact h.2 ht)]
    simp
  | succ k ih =>
    intro fuel p str hn ht hf
    obtain ⟨n, rfl⟩ : ∃ n, fuel = n + 1 := ⟨fuel - 1, by omega⟩
    have h0 := hn 0 (by omega)
    simp only [Parser.advance, Parser.atTerminator, not_or] at h0
    simp only [fromHereToEndOfLine.loop]
    rw [if_pos ⟨h0.1, h0.2⟩]
    rw [ih n p.next (str ++ p.Curr.Lit) (fun i hi => hn (i + 1) (by omega)) ht (by omega)]
    simp [lineText, Parser.advance, String.append_assoc]

theorem exists_terminator :
    ∀ (n : Nat) (p : Parser), p.GoScanner.scnr.src.length = n →
      ∃ k, k ≤ n + 1 ∧ (∀ i, i < k → ¬ (p.advance i).atTerminator) ∧
        (p.advance k).atTerminator := by
  intro n
  induction n with
  | zero =>
    intro p hp
    by_cases ht : p.atTerminator
    · exact ⟨0, by omega, fun i hi => absurd hi (by omega), ht⟩
    · refine ⟨1, by omega, ?_, ?_⟩
      · intro i hi
        have : i = 0 := by omega
        subst this
        exact ht
      · simp only [Parser.atTerminator, not_or] at ht
        have hs : p.GoScanner.scnr.src = [] := List.length_eq_zero.mp hp
        left
        simp only [Parser.advance, Parser.next, if_neg ht.1, scanner.Scanner.Scan, hs,
          scanner.Scanner.TokenText]
        simp [scanner.EOF]
  | succ n ih =>
    intro p hp
    by_cases ht : p.atTerminator
    · exact ⟨0, by omega, fun i hi => absurd hi (by omega), ht⟩
    · have hne : p.Curr.Tok ≠ scanner.EOF := fun h => ht (Or.inl h)
      have hlen : p.next.GoScanner.scnr.src.length = n := by
        have := next_of_ne_eof hne
        rw [this.2.1, List.length_tail, hp]
        rfl
      obtain ⟨k, hk, h1, h2⟩ := ih p.next hlen
      refine ⟨k + 1, by omega, ?_, h2⟩
      intro i hi
      cases i with
      | zero => exact ht
      | succ j => exact h1 j (by omega)

theorem lineText_setSkipUntil (enders : List Rune) :
    ∀ (k : Nat) (p : Parser),
      lineText { p with GoScanner := p.GoScanner.SetSkipUntil enders } k = lineText p k := by
  intro k
  induction k with
  | zero => intro p; rfl
  | succ n ih =>
    intro p
    simp only [lineText]
    rw [next_setSkipUntil, ih]

theorem expectSemicolon_atTerminator {fuel : Nat} {p : Parser} (h : p.atTerminator) :
    expectSemicolon fuel p =
      if p.Curr.Tok = scanner.EOF then .ok p else skipNewLines fuel p.next := by
  unfold expectSemicolon
  by_cases ht : p.Curr.Tok = scanner.EOF
  · rw [if_pos ht, if_pos ht]
  · rw [if_neg ht, if_neg ht]
    have hl : p.Curr.Lit = ";" := by
      rcases h with h | h
      · exact absurd h ht
      · exact h
    unfold expectLit
    simp only []
    rw [if_neg (by simpa using hl)]
    rfl

/-- The text to the end of the statement, at the level of the tokens the scanner
delivers. From every cursor
state there is a first terminator `k` tokens ahead (`k` at most the number of
tokens left plus one): none of the `k` tokens from the cursor on is a terminator
(the literal `;`, which a line break also becomes, or end-of-input) and the cursor
after `k` calls of `next` is one. With more than `k` units of fuel
`fromHereToEndOfLine` returns the literals of exactly those `k` tokens,
concatenated in order, leaves the cursor on the terminator and leaves the
stop-at-delimiter mode switched off (`IsIdentRune` is `nil`); and
`parseValueToEndOfLine` hands exactly that text, with the scanner position of the
start, to the expression parser, and then consumes the terminator with
`expectSemicolon` (nothing at end-of-input, else the `;` and the line breaks
after it). -/
theorem fromHereToEndOfLine_text (E : String → Option ast.Expr) (p : Parser) :
    ∃ k, k ≤ p.GoScanner.scnr.src.length + 1 ∧
      (∀ i, i < k → ¬ (p.advance i).atTerminator) ∧ (p.advance k).atTerminator ∧
      ∀ fuel, k < fuel →
        fromHereToEndOfLine fuel p =
          .ok (lineText p k,
            { p.advance k with GoScanner := (p.advance k).GoScanner.SetSkipUntil [] }) ∧
        ((p.advance k).GoScanner.SetSkipUntil []).scnr.IsIdentRune = none ∧
        ((p.advance k).GoScanner.SetSkipUntil []).scnr.src = (p.advance k).GoScanner.scnr.src ∧
        parseValueToEndOfLine E fuel p =
          (match parseValue E p.Position (lineText p k) with
            | .error e => .error e
            | .ok expr =>
              if (p.advance k).Curr.Tok = scanner.EOF then
                .ok (expr,
                  { p.advance k with GoScanner := (p.advance k).GoScanner.SetSkipUntil [] })
              else
                (skipNewLines fuel
                  (Parser.next
                    { p.advance k with
                      GoScanner := (p.advance k).GoScanner.SetSkipUntil [] })).map
                  (fun p' => (expr, p'))) := by
  obtain ⟨k, hk, h1, h2⟩ := exists_terminator _ p rfl
  refine ⟨k, hk, h1, h2, ?_⟩
  intro fuel hf
  have hfrom : fromHereToEndOfLine fuel p =
      .ok (lineText p k,
        { p.advance k with GoScanner := (p.advance k).GoScanner.SetSkipUntil [] }) := by
    have hl := fromHereToEndOfLine_loop_eq k fuel
      { p with GoScanner := p.GoScanner.SetSkipUntil [10, 13, 59] } ""
      (by
        intro i hi
        rw [advance_setSkipUntil]
        exact h1 i hi)
      (by
        rw [advance_setSkipUntil]
        exact h2)
      hf
    simp only [fromHereToEndOfLine, hl, bind, Except.bind, pure, Except.pure]
    rw [advance_setSkipUntil]
    rw [lineText_setSkipUntil]
    simp [GoScanner.SetSkipUntil]
  refine ⟨hfrom, by simp [GoScanner.SetSkipUntil], by simp [GoScanner.SetSkipUntil], ?_⟩
  simp only [parseValueToEndOfLine, hfrom, bind, Except.bind, pure, Except.pure]
  cases hv : parseValue E p.Position (lineText p k) with
  | error e => rfl
  | ok expr =>
    simp only []
    have ht : Parser.atTerminator
        { p.advance k with GoScanner := (p.advance k).GoScanner.SetSkipUntil [] } := h2
    rw [expectSemicolon_atTerminator ht]
    by_cases he : (p.advance k).Curr.Tok = scanner.EOF
    · simp [he]
    · simp only [he, if_false]
      cases skipNewLines fuel
        (Parser.next
          { p.advance k with GoScanner := (p.advance k).GoScanner.SetSkipUntil [] }) <;> rfl

end baker


/-! ## Fuel: a result other than the fuel error does not depend on the fuel -/

namespace baker

theorem FuelLe.rfl {α : Type} {x : Except Err α} : FuelLe x x := Or.inr (Eq.refl x)

theorem FuelLe.bind {α β : Type} {x y : Except Err α} {f g : α → Except Err β}
    (hx : FuelLe x y) (hf : ∀ a, FuelLe (f a) (g a)) : FuelLe (x >>= f) (y >>= g) := by
  rcases hx with hx | hx
  · left
    rw [hx]
    rfl
  · subst hx
    cases x with
    | error e => right; rfl
    | ok a => exact hf a

theorem FuelLe.ite {α : Type} {c : Prop} [Decidable c] {a a' b b' : Except Err α}
    (h1 : c → FuelLe a b) (h2 : ¬ c → FuelLe a' b') :
    FuelLe (if c then a else a') (if c then b else b') := by
  by_cases hc : c
  · rw [if_pos hc, if_pos hc]; exact h1 hc
  · rw [if_neg hc, if_neg hc]; exact h2 hc

theorem FuelLe.of_zero {α : Type} {y : Except Err α} : FuelLe (.error .outOfFuel) y :=
  Or.inl (Eq.refl _)

theorem FuelLe.ok {α : Type} {x y : Except Err α} {r : α} (h : FuelLe x y)
    (hx : x = .ok r) : y = .ok r := by
  rcases h with h | h
  · rw [h] at hx; cases hx
  · rw [← h]; exact hx

theorem FuelLe.eq {α : Type} {x y : Except Err α} (h : FuelLe x y)
    (hx : x ≠ .error .outOfFuel) : y = x := by
  rcases h with h | h
  · exact absurd h hx
  · exact h.symm

theorem skipNewLines_fuel : ∀ (n m : Nat), n ≤ m → ∀ p : Parser,
    FuelLe (skipNewLines n p) (skipNewLines m p) := by
  intro n
  induction n with
  | zero => intro m _ p; exact FuelLe.of_zero
  | succ n ih =>
    intro m hm p
    obtain ⟨m, rfl⟩ : ∃ k, m = k + 1 := ⟨m - 1, by omega⟩
    have ih := ih m (by omega)
    unfold skipNewLines
    exact FuelLe.ite (fun _ => ih _) (fun _ => FuelLe.rfl)

theorem expectSemicolon_fuel {n m : Nat} (h : n ≤ m) (p : Parser) :
    FuelLe (expectSemicolon n p) (expectSemicolon m p) := by
  unfold expectSemicolon
  refine FuelLe.ite (fun _ => FuelLe.rfl) (fun _ => FuelLe.bind FuelLe.rfl ?_)
  rintro ⟨_, p1⟩
  exact skipNewLines_fuel _ _ h _

theorem fromHereToEndOfLine_loop_fuel : ∀ (n m : Nat), n ≤ m → ∀ (p : Parser) (s : String),
    FuelLe (fromHereToEndOfLine.loop n p s) (fromHereToEndOfLine.loop m p s) := by
  intro n
  induction n with
  | zero => intro m _ p s; exact FuelLe.of_zero
  | succ n ih =>
    intro m hm p s
    obtain ⟨m, rfl⟩ : ∃ k, m = k + 1 := ⟨m - 1, by omega⟩
    have ih := ih m (by omega)
    unfold fromHereToEndOfLine.loop
    exact FuelLe.ite (fun _ => ih _ _) (fun _ => FuelLe.rfl)

theorem fromHereToEndOfLine_fuel {n m : Nat} (h : n ≤ m) (p : Parser) :
    FuelLe (fromHereToEndOfLine n p) (fromHereToEndOfLine m p) := by
  unfold fromHereToEndOfLine
  exact FuelLe.bind (fromHereToEndOfLine_loop_fuel _ _ h _ _) (fun _ => FuelLe.rfl)

theorem parseValueToEndOfLine_fuel (E : String → Option ast.Expr) {n m : Nat} (h : n ≤ m)
    (p : Parser) :
    FuelLe (parseValueToEndOfLine E n p) (parseValueToEndOfLine E m p) := by
  unfold parseValueToEndOfLine
  refine FuelLe.bind (fromHereToEndOfLine_fuel h _) ?_
  rintro ⟨s, p1⟩
  refine FuelLe.bind FuelLe.rfl (fun e => ?_)
  exact FuelLe.bind (expectSemicolon_fuel h _) (fun _ => FuelLe.rfl)

theorem typeParsers_fuel : ∀ (n m : Nat), n ≤ m →
    (∀ p, FuelLe (parseMethodSpec n p) (parseMethodSpec m p)) ∧
    (∀ p l, FuelLe (parseInterfaceType.loop n p l) (parseInterfaceType.loop m p l)) ∧
    (∀ p, FuelLe (parseInterfaceType n p) (parseInterfaceType m p)) ∧
    (∀ p l, FuelLe (parseUnionType.loop n p l) (parseUnionType.loop m p l)) ∧
    (∀ p, FuelLe (parseUnionType n p) (parseUnionType m p)) ∧
    (∀ p l, FuelLe (parseStructType.loop n p l) (parseStructType.loop m p l)) ∧
    (∀ p, FuelLe (parseStructType n p) (parseStructType m p)) ∧
    (∀ p, FuelLe (parseType n p) (parseType m p)) ∧
    (∀ p, FuelLe (parseRetParam n p) (parseRetParam m p)) ∧
    (∀ p, FuelLe (parseArgParam n p) (parseArgParam m p)) ∧
    (∀ p l, FuelLe (parseFieldList.loop n p l) (parseFieldList.loop m p l)) ∧
    (∀ p, FuelLe (parseFieldList n p) (parseFieldList m p)) ∧
    (∀ p l, FuelLe (parseTypeList.loop n p l) (parseTypeList.loop m p l)) ∧
    (∀ p, FuelLe (parseTypeList n p) (parseTypeList m p)) := by
  intro n
  induction n with
  | zero =>
    intro m _
    refine ⟨?_, ?_, ?_, ?_, ?_, ?_, ?_, ?_, ?_, ?_, ?_, ?_, ?_, ?_⟩ <;> intros <;>
      exact FuelLe.of_zero
  | succ n ih =>
    intro m hm
    obtain ⟨m, rfl⟩ : ∃ k, m = k + 1 := ⟨m - 1, by omega⟩
    have hnm : n ≤ m := by omega
    obtain ⟨iMS, iIL, iI, iUL, iU, iSL, iS, iT, iRP, iAP, iFL, iF, iTL, iTy⟩ := ih m hnm
    have iSk := fun p => skipNewLines_fuel n m hnm p
    have iSemi := fun p => expectSemicolon_fuel hnm p
    refine ⟨?_, ?_, ?_, ?_, ?_, ?_, ?_, ?_, ?_, ?_, ?_, ?_, ?_, ?_⟩
    · intro p
      unfold parseMethodSpec
      repeat' first
        | exact FuelLe.rfl
        | exact iSemi _
        | exact iF _
        | exact iTy _
        | apply FuelLe.bind
        | (rintro ⟨_, _⟩; dsimp only)
        | intro _
    · intro p l
      unfold parseInterfaceType.loop
      repeat' first
        | exact FuelLe.rfl
        | exact iSk _
        | exact iMS _
        | exact iIL _ _
        | apply FuelLe.bind
        | apply FuelLe.ite
        | (rintro ⟨_, _⟩; dsimp only)
        | intro _
    · intro p
      unfold parseInterfaceType
      repeat' first
        | exact FuelLe.rfl
        | exact iIL _ _
        | apply FuelLe.bind
        | (rintro ⟨_, _⟩; dsimp only)
    · intro p l
      unfold parseUnionType.loop
      repeat' first
        | exact FuelLe.rfl
        | exact iT _
        | exact iUL _ _
        | apply FuelLe.bind
        | apply FuelLe.ite
        | (rintro ⟨_, _⟩; dsimp only)
        | intro _
    · intro p
      unfold parseUnionType
      repeat' first
        | exact FuelLe.rfl
        | exact iUL _ _
        | apply FuelLe.bind
        | (rintro ⟨_, _⟩; dsimp only)
    · intro p l
      unfold parseStructType.loop
      repeat' first
        | exact FuelLe.rfl
        | exact iSk _
        | exact iAP _
        | exact iSL _ _
        | apply FuelLe.bind
        | apply FuelLe.ite
        | (rintro ⟨_, _⟩; dsimp only)
        | intro _
    · intro p
      unfold parseStructType
      repeat' first
        | exact FuelLe.rfl
        | exact iSL _ _
        | apply FuelLe.bind
        | (rintro ⟨_, _⟩; dsimp only)
    · intro p
      unfold parseType
      repeat' first
        | exact FuelLe.rfl
        | exact iT _
        | exact iS _
        | exact iU _
        | exact iI _
        | apply FuelLe.bind
        | apply FuelLe.ite
        | (rintro ⟨_, _⟩; dsimp only)
        | intro _
    · intro p
      unfold parseRetParam
      repeat' first
        | exact FuelLe.rfl
        | exact iT _
        | apply FuelLe.bind
        | (rintro ⟨_, _⟩; dsimp only)
    · intro p
      unfold parseArgParam
      repeat' first
        | exact FuelLe.rfl
        | exact iT _
        | apply FuelLe.bind
        | (rintro ⟨_, _⟩; dsimp only)
    · intro p l
      unfold parseFieldList.loop
      repeat' first
        | exact FuelLe.rfl
        | exact iAP _
        | exact iFL _ _
        | apply FuelLe.bind
        | apply FuelLe.ite
        | (rintro ⟨_, _⟩; dsimp only)
        | intro _
    · intro p
      unfold parseFieldList
      repeat' first
        | exact FuelLe.rfl
        | exact iFL _ _
        | apply FuelLe.bind
        | (rintro ⟨_, _⟩; dsimp only)
    · intro p l
      unfold parseTypeList.loop
      repeat' first
        | exact FuelLe.rfl
        | exact iRP _
        | exact iTL _ _
        | apply FuelLe.bind
        | apply FuelLe.ite
        | (rintro ⟨_, _⟩; dsimp only)
        | intro _
    · intro p
      unfold parseTypeList
      repeat' first
        | exact FuelLe.rfl
        | exact iTL _ _
        | apply FuelLe.bind
        | (rintro ⟨_, _⟩; dsimp only)

theorem parseType_fuel {n m : Nat} (h : n ≤ m) (p : Parser) :
    FuelLe (parseType n p) (parseType m p) :=
  (typeParsers_fuel n m h).2.2.2.2.2.2.2.1 p

theorem parseFieldList_fuel {n m : Nat} (h : n ≤ m) (p : Parser) :
    FuelLe (parseFieldList n p) (parseFieldList m p) :=
  (typeParsers_fuel n m h).2.2.2.2.2.2.2.2.2.2.2.1 p

theorem parseUnionType_loop_fuel {n m : Nat} (h : n ≤ m) (p : Parser) (l : List ast.Expr) :
    FuelLe (parseUnionType.loop n p l) (parseUnionType.loop m p l) :=
  (typeParsers_fuel n m h).2.2.2.1 p l

theorem parseUnionType_fuel {n m : Nat} (h : n ≤ m) (p : Parser) :
    FuelLe (parseUnionType n p) (parseUnionType m p) :=
  (typeParsers_fuel n m h).2.2.2.2.1 p

theorem parseCallExpr_loop_fuel : ∀ (n m : Nat), n ≤ m → ∀ (p : Parser) (a : List ast.Expr),
    FuelLe (parseCallExpr.loop n p a) (parseCallExpr.loop m p a) := by
  intro n
  induction n with
  | zero => intro m _ p a; exact FuelLe.of_zero
  | succ n ih =>
    intro m hm p a
    obtain ⟨m, rfl⟩ : ∃ k, m = k + 1 := ⟨m - 1, by omega⟩
    have ih := ih m (by omega)
    unfold parseCallExpr.loop
    repeat' first
      | exact FuelLe.rfl
      | exact ih _ _
      | apply FuelLe.bind
      | apply FuelLe.ite
      | (rintro ⟨_, _⟩; dsimp only)
      | intro _

theorem parseCallExpr_fuel {n m : Nat} (h : n ≤ m) (p : Parser) :
    FuelLe (parseCallExpr n p) (parseCallExpr m p) := by
  unfold parseCallExpr
  repeat' first
    | exact FuelLe.rfl
    | exact parseCallExpr_loop_fuel _ _ h _ _
    | apply FuelLe.bind
    | apply FuelLe.ite
    | (rintro ⟨_, _⟩; dsimp only)
    | intro _

section
variable (E : String → Option ast.Expr)

theorem parseReturnStmt_fuel {n m : Nat} (h : n ≤ m) (p : Parser) :
    FuelLe (parseReturnStmt E n p) (parseReturnStmt E m p) := by
  unfold parseReturnStmt
  repeat' first
    | exact FuelLe.rfl
    | exact parseValueToEndOfLine_fuel E h _
    | apply FuelLe.bind
    | (rintro ⟨_, _⟩; dsimp only)
    | intro _

theorem parseVarDecl_fuel {n m : Nat} (h : n ≤ m) (p : Parser) :
    FuelLe (parseVarDecl E n p) (parseVarDecl E m p) := by
  unfold parseVarDecl
  repeat' first
    | exact FuelLe.rfl
    | exact parseValueToEndOfLine_fuel E h _
    | exact parseType_fuel h _
    | apply FuelLe.bind
    | apply FuelLe.ite
    | (rintro ⟨_, _⟩; dsimp only)
    | intro _

theorem stmtParsers_fuel : ∀ (n m : Nat), n ≤ m →
    (∀ p, FuelLe (parseCaseClause E n p) (parseCaseClause E m p)) ∧
    (∀ p l, FuelLe (parseSwitchBody.loop E n p l) (parseSwitchBody.loop E m p l)) ∧
    (∀ p, FuelLe (parseSwitchBody E n p) (parseSwitchBody E m p)) ∧
    (∀ p, FuelLe (parseSwitchStmt E n p) (parseSwitchStmt E m p)) ∧
    (∀ p, FuelLe (parseStmt E n p) (parseStmt E m p)) ∧
    (∀ p e, FuelLe (parseStmtsUntil E n p e) (parseStmtsUntil E m p e)) := by
  intro n
  induction n with
  | zero =>
    intro m _
    refine ⟨?_, ?_, ?_, ?_, ?_, ?_⟩ <;> intros <;> exact FuelLe.of_zero
  | succ n ih =>
    intro m hm
    obtain ⟨m, rfl⟩ : ∃ k, m = k + 1 := ⟨m - 1, by omega⟩
    have hnm : n ≤ m := by omega
    obtain ⟨iCC, iBL, iB, iSw, iSt, iSU⟩ := ih m hnm
    have iSk := fun p => skipNewLines_fuel n m hnm p
    have iSemi := fun p => expectSemicolon_fuel hnm p
    have iFrom := fun p => fromHereToEndOfLine_fuel hnm p
    refine ⟨?_, ?_, ?_, ?_, ?_, ?_⟩
    · intro p
      unfold parseCaseClause
      repeat' first
        | exact FuelLe.rfl
        | exact iSemi _
        | exact iFrom _
        | exact iSU _ _
        | apply FuelLe.bind
        | apply FuelLe.ite
        | (rintro ⟨_, _⟩; dsimp only)
        | intro _
    · intro p l
      unfold parseSwitchBody.loop
      repeat' first
        | exact FuelLe.rfl
        | exact iCC _
        | exact iBL _ _
        | apply FuelLe.bind
        | apply FuelLe.ite
        | (rintro ⟨_, _⟩; dsimp only)
        | intro _
    · intro p
      unfold parseSwitchBody
      repeat' first
        | exact FuelLe.rfl
        | exact iBL _ _
        | apply FuelLe.bind
        | (rintro ⟨_, _⟩; dsimp only)
        | intro _
    · intro p
      unfold parseSwitchStmt
      repeat' first
        | exact FuelLe.rfl
        | exact iSemi _
        | exact iFrom _
        | exact iB _
        | apply FuelLe.bind
        | (rintro ⟨_, _⟩; dsimp only)
        | intro _
    · intro p
      unfold parseStmt
      repeat' first
        | exact FuelLe.rfl
        | exact parseVarDecl_fuel E hnm _
        | exact parseReturnStmt_fuel E hnm _
        | exact parseCallExpr_fuel hnm _
        | exact iSw _
        | apply FuelLe.bind
        | apply FuelLe.ite
        | (rintro ⟨_, _⟩; dsimp only)
        | intro _
    · intro p e
      unfold parseStmtsUntil
      repeat' first
        | exact FuelLe.rfl
        | exact iSk _
        | exact iSt _
        | exact iSU _ _
        | apply FuelLe.bind
        | apply FuelLe.ite
        | (rintro ⟨_, _⟩; dsimp only)
        | intro _

theorem parseStmt_fuel {n m : Nat} (h : n ≤ m) (p : Parser) :
    FuelLe (parseStmt E n p) (parseStmt E m p) :=
  (stmtParsers_fuel E n m h).2.2.2.2.1 p

theorem parseStmtsUntil_fuel {n m : Nat} (h : n ≤ m) (p : Parser) (e : List String) :
    FuelLe (parseStmtsUntil E n p e) (parseStmtsUntil E m p e) :=
  (stmtParsers_fuel E n m h).2.2.2.2.2 p e

theorem parseCaseClause_fuel {n m : Nat} (h : n ≤ m) (p : Parser) :
    FuelLe (parseCaseClause E n p) (parseCaseClause E m p) :=
  (stmtParsers_fuel E n m h).1 p

theorem parseSwitchStmt_fuel {n m : Nat} (h : n ≤ m) (p : Parser) :
    FuelLe (parseSwitchStmt E n p) (parseSwitchStmt E m p) :=
  (stmtParsers_fuel E n m h).2.2.2.1 p

theorem parseBody_fuel {n m : Nat} (h : n ≤ m) (p : Parser) :
    FuelLe (parseBody E n p) (parseBody E m p) := by
  unfold parseBody
  repeat' first
    | exact FuelLe.rfl
    | exact parseStmtsUntil_fuel E h _ _
    | apply FuelLe.bind
    | (rintro ⟨_, _⟩; dsimp only)
    | intro _

theorem parseTypeDecl_fuel {n m : Nat} (h : n ≤ m) (p : Parser) :
    FuelLe (parseTypeDecl n p) (parseTypeDecl m p) := by
  unfold parseTypeDecl
  repeat' first
    | exact FuelLe.rfl
    | exact parseType_fuel h _
    | exact expectSemicolon_fuel h _
    | apply FuelLe.bind
    | (rintro ⟨_, _⟩; dsimp only)
    | intro _

theorem parseFuncDecl_fuel {n m : Nat} (h : n ≤ m) (p : Parser) :
    FuelLe (parseFuncDecl E n p) (parseFuncDecl E m p) := by
  unfold parseFuncDecl
  repeat' first
    | exact FuelLe.rfl
    | exact parseFieldList_fuel h _
    | exact parseBody_fuel E h _
    | exact expectSemicolon_fuel h _
    | apply FuelLe.bind
    | apply FuelLe.ite
    | (rintro ⟨_, _⟩; dsimp only)
    | intro _

theorem parseImportDecl_fuel {n m : Nat} (h : n ≤ m) (p : Parser) :
    FuelLe (parseImportDecl n p) (parseImportDecl m p) := by
  unfold parseImportDecl
  repeat' first
    | exact FuelLe.rfl
    | exact expectSemicolon_fuel h _
    | apply FuelLe.bind
    | (rintro ⟨⟨_, _⟩, _⟩; dsimp only)
    | (rintro ⟨_, _⟩; dsimp only)
    | intro _

theorem ParseFile_decl_fuel {n m : Nat} (h : n ≤ m) (p : Parser) :
    FuelLe (ParseFile.decl E n p) (ParseFile.decl E m p) := by
  unfold ParseFile.decl
  repeat' first
    | exact FuelLe.rfl
    | exact parseVarDecl_fuel E h _
    | exact parseImportDecl_fuel h _
    | exact parseFuncDecl_fuel E h _
    | exact parseTypeDecl_fuel h _
    | apply FuelLe.bind
    | apply FuelLe.ite
    | (rintro ⟨_, _⟩; dsimp only)
    | intro _

theorem ParseFile_loop_fuel : ∀ (n m : Nat), n ≤ m → ∀ p : Parser,
    FuelLe (ParseFile.loop E n p) (ParseFile.loop E m p) := by
  intro n
  induction n with
  | zero => intro m _ p; exact FuelLe.of_zero
  | succ n ih =>
    intro m hm p
    obtain ⟨m, rfl⟩ : ∃ k, m = k + 1 := ⟨m - 1, by omega⟩
    have hnm : n ≤ m := by omega
    unfold ParseFile.loop
    refine FuelLe.ite (fun _ => ?_) (fun _ => FuelLe.rfl)
    rcases ParseFile_decl_fuel E hnm p with h | h
    · left
      rw [h]
    · rw [← h]
      cases hd : ParseFile.decl E n p with
      | error e => exact FuelLe.rfl
      | ok o =>
        cases o with
        | none => exact FuelLe.rfl
        | some x =>
          obtain ⟨d, p1⟩ := x
          exact ih m hnm _

theorem ParseFile_fuel {n m : Nat} (h : n ≤ m) (p : Parser) :
    FuelLe (ParseFile E n p) (ParseFile E m p) := by
  unfold ParseFile
  repeat' first
    | exact FuelLe.rfl
    | exact skipNewLines_fuel _ _ h _
    | exact ParseFile_loop_fuel E _ _ h _
    | apply FuelLe.bind
    | intro _

end

end baker


/-! ## Union types -/

namespace baker

theorem UnionMembers.items {p : Parser} {ts : List ast.Expr} {p' : Parser}
    (h : UnionMembers p ts p') : UnionItems p ts p' ∧ p'.Curr.Lit = ";" ∧ ts ≠ [] := by
  induction h with
  | last hn ht hl =>
    refine ⟨UnionItems.item hn ht ?_, hl, by simp⟩
    rw [if_neg (by rw [hl]; decide)]
    exact UnionItems.done (Or.inr hl)
  | cons hn ht hl _ ih =>
    refine ⟨UnionItems.item hn ht ?_, ih.2.1, by simp⟩
    rw [if_pos hl]
    exact ih.1

theorem parseUnionType_loop_of_items {p : Parser} {ts : List ast.Expr} {p' : Parser}
    (h : UnionItems p ts p') :
    ∀ acc : List ast.Expr, ∃ N, ∀ fuel, N ≤ fuel →
      parseUnionType.loop fuel p acc = .ok (acc ++ ts, p') := by
  induction h with
  | done ht =>
    intro acc
    refine ⟨1, fun fuel hf => ?_⟩
    obtain ⟨n, rfl⟩ : ∃ k, fuel = k + 1 := ⟨fuel - 1, by omega⟩
    unfold parseUnionType.loop
    rw [if_neg (by
      intro h
      rcases ht with ht | ht
      · exact h.1 ht
      · exact h.2 ht)]
    simp
  | @item f p t p1 ts p' hn ht _ ih =>
    intro acc
    obtain ⟨N, hN⟩ := ih (acc ++ [t])
    refine ⟨max f N + 1, fun fuel hf => ?_⟩
    obtain ⟨n, rfl⟩ : ∃ k, fuel = k + 1 := ⟨fuel - 1, by omega⟩
    have hf1 : f ≤ n := by omega
    have hN1 : N ≤ n := by omega
    simp only [Parser.atTerminator, not_or] at hn
    unfold parseUnionType.loop
    rw [if_pos ⟨hn.1, hn.2⟩]
    have ht' := (parseType_fuel hf1 p).ok ht
    simp only [ht', bind, Except.bind]
    by_cases hb : p1.Curr.Lit = "|"
    · rw [if_pos hb] at hN
      rw [if_pos hb]
      have he : expectLit p1 "|" = .ok (p1.next.Position, p1.next) := by
        unfold expectLit
        simp only []
        rw [if_neg (by simpa using hb)]
      rw [he]
      simp only []
      rw [hN n hN1]
      simp
    · rw [if_neg hb] at hN
      rw [if_neg hb]
      rw [hN n hN1]
      simp

theorem parseUnionType_loop_items :
    ∀ (fuel : Nat) (p : Parser) (acc l : List ast.Expr) (p' : Parser),
      parseUnionType.loop fuel p acc = .ok (l, p') →
      ∃ ts, l = acc ++ ts ∧ UnionItems p ts p' := by
  intro fuel
  induction fuel with
  | zero => intro p acc l p' h; simp [parseUnionType.loop] at h
  | succ n ih =>
    intro p acc l p' h
    simp only [parseUnionType.loop] at h
    split at h
    · rename_i hc
      simp only [bind_ok] at h
      obtain ⟨⟨t, p1⟩, h1, h2⟩ := h
      simp only [] at h2
      have hn : ¬ p.atTerminator := by
        intro ht
        rcases ht with ht | ht
        · exact hc.1 ht
        · exact hc.2 ht
      split at h2
      · rename_i hb
        simp only [bind_ok] at h2
        obtain ⟨⟨x, p2⟩, h3, h4⟩ := h2
        obtain ⟨_, rfl, _⟩ := expectLit_eq h3
        obtain ⟨ts, rfl, hi⟩ := ih _ _ _ _ h4
        refine ⟨t :: ts, by simp, UnionItems.item hn h1 ?_⟩
        rw [if_pos hb]
        exact hi
      · rename_i hb
        obtain ⟨ts, rfl, hi⟩ := ih _ _ _ _ h2
        refine ⟨t :: ts, by simp, UnionItems.item hn h1 ?_⟩
        rw [if_neg hb]
        exact hi
    · rename_i hc
      cases h
      refine ⟨[], by simp, UnionItems.done ?_⟩
      by_cases ht : p.Curr.Tok = scanner.EOF
      · exact Or.inl ht
      · right
        by_contra hl
        exact hc ⟨ht, hl⟩

theorem UnionItems.atTerminator {p : Parser} {ts : List ast.Expr} {p' : Parser}
    (h : UnionItems p ts p') : p'.atTerminator := by
  induction h with
  | done ht => exact ht
  | item _ _ _ ih => exact ih

theorem parseUnionType_of_items {p : Parser} (hu : p.Curr.Lit = KeywordUnion)
    (he : p.next.Curr.Lit = "=") {ts : List ast.Expr} {p' : Parser}
    (h : UnionItems p.next.next ts p') :
    ∃ N, ∀ fuel, N ≤ fuel →
      parseUnionType fuel p = .ok (.UnionType (p.next.Position.Offset + 1) ts, p') := by
  obtain ⟨N, hN⟩ := parseUnionType_loop_of_items h []
  refine ⟨N + 1, fun fuel hf => ?_⟩
  obtain ⟨n, rfl⟩ : ∃ k, fuel = k + 1 := ⟨fuel - 1, by omega⟩
  have h1 : expectLit p KeywordUnion = .ok (p.next.Position, p.next) := by
    unfold expectLit
    simp only []
    rw [if_neg (by simpa using hu)]
  have h2 : expectLit p.next "=" = .ok (p.next.next.Position, p.next.next) := by
    unfold expectLit
    simp only []
    rw [if_neg (by simpa using he)]
  simp only [parseUnionType, h1, h2, hN n (by omega), bind, Except.bind, pure, Except.pure,
    List.nil_append]

/-- C14 (amended). `parseUnionType` on a state whose cursor is on `union` followed
by `=`. On the input of the grammar, member types `T0 | T1 | ... | Tn-1` separated
by single `|` tokens and followed by `;` (`UnionMembers`, so `n ≥ 1`), it returns,
for every sufficient fuel, the `UnionType` whose members are exactly `[T0..Tn-1]`
in source order, stamped with the scanner position after `union`, and leaves the
cursor on the `;`. It accepts more than the grammar: the `|` after a member is
optional and the list may be empty or end in `|` (`UnionItems`: member types, each
followed by a `|` or by nothing, up to the first `;` or end-of-input); every
such input gives the `UnionType` of its members, and every result of
`parseUnionType` comes from such an input. -/
theorem parseUnionType_grammar (p : Parser) (hu : p.Curr.Lit = KeywordUnion)
    (he : p.next.Curr.Lit = "=") :
    (∀ (ts : List ast.Expr) (p' : Parser), UnionMembers p.next.next ts p' →
      ts ≠ [] ∧ p'.Curr.Lit = ";" ∧
      ∃ N, ∀ fuel, N ≤ fuel →
        parseUnionType fuel p = .ok (.UnionType (p.next.Position.Offset + 1) ts, p')) ∧
    (∀ (ts : List ast.Expr) (p' : Parser), UnionItems p.next.next ts p' →
      ∃ N, ∀ fuel, N ≤ fuel →
        parseUnionType fuel p = .ok (.UnionType (p.next.Position.Offset + 1) ts, p')) ∧
    (∀ (fuel : Nat) (r : ast.Expr) (p' : Parser), parseUnionType fuel p = .ok (r, p') →
      ∃ ts, r = .UnionType (p.next.Position.Offset + 1) ts ∧
        UnionItems p.next.next ts p' ∧ p'.atTerminator) := by
  refine ⟨?_, ?_, ?_⟩
  · intro ts p' h
    obtain ⟨hi, hl, hne⟩ := h.items
    exact ⟨hne, hl, parseUnionType_of_items hu he hi⟩
  · intro ts p' h
    exact parseUnionType_of_items hu he h
  · intro fuel r p' h
    cases fuel with
    | zero => simp [parseUnionType] at h
    | succ n =>
      simp only [parseUnionType, bind_ok, pure, Except.pure] at h
      obtain ⟨⟨pos, p1⟩, h1, ⟨x, p2⟩, h2, ⟨l, p3⟩, h3, h4⟩ := h
      cases h4
      obtain ⟨_, rfl, rfl⟩ := expectLit_eq h1
      obtain ⟨_, rfl, _⟩ := expectLit_eq h2
      obtain ⟨ts, hts, hi⟩ := parseUnionType_loop_items _ _ _ _ _ h3
      simp only [List.nil_append] at hts
      subst hts
      exact ⟨l, rfl, hi, hi.atTerminator⟩

end baker


/-! ## A switch that runs into the end of the input -/

namespace baker

section
variable (E : String → Option ast.Expr)

theorem parseStmt_atEOF {p : Parser} (h : p.atEOF) (fuel : Nat) :
    parseStmt E (fuel + 1) p = .error (.panic "oh no") := by
  obtain ⟨ht, hl⟩ := h
  unfold parseStmt
  rw [if_neg (by rw [hl]; decide), if_neg (by rw [hl]; decide), if_neg (by rw [hl]; decide)]
  unfold parseCallExpr parseIdent
  simp only []
  rw [if_pos (by rw [ht]; decide)]
  rfl

theorem parseStmtsUntil_of_stmtsToEOF {enders : List String} (he : "" ∉ enders)
    {p : Parser} (h : StmtsToEOF E enders p) :
    ∃ N, ∀ fuel, N ≤ fuel → parseStmtsUntil E fuel p enders = .error (.panic "oh no") := by
  induction h with
  | @eof f p q hs hq =>
    refine ⟨f + 2, fun fuel hf => ?_⟩
    obtain ⟨n, rfl⟩ : ∃ k, fuel = k + 1 := ⟨fuel - 1, by omega⟩
    obtain ⟨k, rfl⟩ : ∃ k, n = k + 1 := ⟨n - 1, by omega⟩
    have hs' := (skipNewLines_fuel f (k + 1) (by omega) p).ok hs
    unfold parseStmtsUntil
    simp only [hs', bind, Except.bind]
    rw [if_neg (by rw [hq.2]; exact he)]
    rw [parseStmt_atEOF E hq]
  | @stmt f p q s q' hs hne hst _ ih =>
    obtain ⟨N, hN⟩ := ih
    refine ⟨max f N + 1, fun fuel hf => ?_⟩
    obtain ⟨n, rfl⟩ : ∃ k, fuel = k + 1 := ⟨fuel - 1, by omega⟩
    have hs' := (skipNewLines_fuel f n (by omega) p).ok hs
    have hst' := (parseStmt_fuel E (by omega : f ≤ n) q).ok hst
    unfold parseStmtsUntil
    simp only [hs', bind, Except.bind]
    rw [if_neg hne]
    simp only [hst', hN n (by omega)]

theorem parseCaseClause_of_header {p q : Parser} {e : Err} (hh : ClauseHeader E p q)
    (hb : ∃ N, ∀ fuel, N ≤ fuel →
      parseStmtsUntil E fuel q [KeywordEnd, "case", "default"] = .error e) :
    ∃ N, ∀ fuel, N ≤ fuel → parseCaseClause E fuel p = .error e := by
  obtain ⟨N, hN⟩ := hb
  rcases hh with ⟨hc, f, str, p1, hdr, x, h1, h2, h3, h4⟩ | ⟨hd, rfl⟩
  · refine ⟨max f N + 1, fun fuel hf => ?_⟩
    obtain ⟨n, rfl⟩ : ∃ k, fuel = k + 1 := ⟨fuel - 1, by omega⟩
    have h1' := (fromHereToEndOfLine_fuel (by omega : f ≤ n) p.next).ok h1
    have h4' := (expectSemicolon_fuel (by omega : f ≤ n) p1).ok h4
    unfold parseCaseClause
    rw [if_pos hc]
    simp only [h1', h2, h3, h4', hN n (by omega), bind, Except.bind]
  · refine ⟨N + 1, fun fuel hf => ?_⟩
    obtain ⟨n, rfl⟩ : ∃ k, fuel = k + 1 := ⟨fuel - 1, by omega⟩
    unfold parseCaseClause
    rw [if_neg (by rw [hd]; decide), if_pos hd]
    simp only [hN n (by omega), bind, Except.bind]

theorem ClauseHeader.lit {p q : Parser} (h : ClauseHeader E p q) :
    p.Curr.Lit = "case" ∨ p.Curr.Lit = "default" := by
  rcases h with ⟨h, _⟩ | ⟨h, _⟩
  · exact Or.inl h
  · exact Or.inr h

theorem parseCaseClause_lit {fuel : Nat} {p : Parser} {c : ast.Stmt} {q : Parser}
    (h : parseCaseClause E fuel p = .ok (c, q)) :
    p.Curr.Lit = "case" ∨ p.Curr.Lit = "default" := by
  cases fuel with
  | zero => simp [parseCaseClause] at h
  | succ n =>
    unfold parseCaseClause at h
    split at h
    · rename_i hc; exact Or.inl hc
    · split at h
      · rename_i hd; exact Or.inr hd
      · cases h

theorem parseSwitchBody_loop_of_clausesToEOF {p : Parser} (h : ClausesToEOF E p) :
    ∃ N, ∀ fuel, N ≤ fuel → ∀ acc : List ast.Stmt,
      parseSwitchBody.loop E fuel p acc = .error (.panic "oh no") := by
  induction h with
  | @last p q hh hs =>
    obtain ⟨N, hN⟩ := parseCaseClause_of_header E hh
      (parseStmtsUntil_of_stmtsToEOF E (by decide) hs)
    refine ⟨N + 1, fun fuel hf acc => ?_⟩
    obtain ⟨n, rfl⟩ : ∃ k, fuel = k + 1 := ⟨fuel - 1, by omega⟩
    unfold parseSwitchBody.loop
    rw [if_pos (ClauseHeader.lit E hh)]
    simp only [hN n (by omega), bind, Except.bind]
  | @clause f p c q hc _ ih =>
    obtain ⟨N, hN⟩ := ih
    refine ⟨max f N + 1, fun fuel hf acc => ?_⟩
    obtain ⟨n, rfl⟩ : ∃ k, fuel = k + 1 := ⟨fuel - 1, by omega⟩
    have hc' := (parseCaseClause_fuel E (by omega : f ≤ n) p).ok hc
    unfold parseSwitchBody.loop
    rw [if_pos (parseCaseClause_lit E hc)]
    simp only [hc', hN n (by omega), bind, Except.bind]

/-- C11 (amended). A `switch` that runs into the end of the input instead of its
closing `end`. Let the cursor be on `switch` and let the header be read up to the
state `q` (`Header`). If the input ends right there (no clause), `parseSwitchStmt`
fails, for every sufficient fuel, with the expected-literal error whose expected
literal is `end`, whose found literal is empty and whose position is the scanner
position of the end-of-input state. If clauses follow and the statement list of
the last one runs into the end of the input (`ClausesToEOF`), `parseSwitchStmt`
fails too, but with the panic `oh no` of `parseIdent`: `parseStmtsUntil` has no
test for end-of-input and goes on to parse a statement there. -/
theorem parseSwitchStmt_missing_end (p q : Parser) (hs : p.Curr.Lit = KeywordSwitch)
    (hh : Header E p.next q) :
    (q.atEOF →
      ∃ N, ∀ fuel, N ≤ fuel →
        parseSwitchStmt E fuel p = .error (.wantLit KeywordEnd "" q.Position)) ∧
    (ClausesToEOF E q →
      ∃ N, ∀ fuel, N ≤ fuel → parseSwitchStmt E fuel p = .error (.panic "oh no")) := by
  obtain ⟨f, str, p1, hdr, x, h1, h2, h3, h4⟩ := hh
  have he : expectLit p KeywordSwitch = .ok (p.next.Position, p.next) := by
    unfold expectLit
    simp only []
    rw [if_neg (by simpa using hs)]
  refine ⟨?_, ?_⟩
  · intro hq
    refine ⟨f + 3, fun fuel hf => ?_⟩
    obtain ⟨n, rfl⟩ : ∃ k, fuel = k + 1 := ⟨fuel - 1, by omega⟩
    obtain ⟨k, rfl⟩ : ∃ k, n = k + 1 := ⟨n - 1, by omega⟩
    obtain ⟨j, rfl⟩ : ∃ j, k = j + 1 := ⟨k - 1, by omega⟩
    have h1' := (fromHereToEndOfLine_fuel (by omega : f ≤ j + 1 + 1) p.next).ok h1
    have h4' := (expectSemicolon_fuel (by omega : f ≤ j + 1 + 1) p1).ok h4
    have hb : parseSwitchBody E (j + 1 + 1) q = .error (.wantLit KeywordEnd "" q.Position) := by
      unfold parseSwitchBody parseSwitchBody.loop
      rw [if_neg (by rw [hq.2]; decide)]
      simp only [bind, Except.bind]
      unfold expectLit
      simp only []
      rw [if_pos (by rw [hq.2]; decide), hq.2]
    unfold parseSwitchStmt
    simp only [he, h1', h2, h3, h4', hb, bind, Except.bind]
  · intro hc
    obtain ⟨N, hN⟩ := parseSwitchBody_loop_of_clausesToEOF E hc
    refine ⟨max f N + 2, fun fuel hf => ?_⟩
    obtain ⟨n, rfl⟩ : ∃ k, fuel = k + 1 := ⟨fuel - 1, by omega⟩
    obtain ⟨k, rfl⟩ : ∃ k, n = k + 1 := ⟨n - 1, by omega⟩
    have h1' := (fromHereToEndOfLine_fuel (by omega : f ≤ k + 1) p.next).ok h1
    have h4' := (expectSemicolon_fuel (by omega : f ≤ k + 1) p1).ok h4
    have hb : parseSwitchBody E (k + 1) q = .error (.panic "oh no") := by
      unfold parseSwitchBody
      simp only [hN k (by omega) [], bind, Except.bind]
    unfold parseSwitchStmt
    simp only [he, h1', h2, h3, h4', hb, bind, Except.bind]

end

end baker


/-! ## Termination: every loop consumes a token or fails -/

namespace baker

theorem scanned_tok_ne_eof {p : Parser} (h : p.Scanned) {w : String} (hl : p.Curr.Lit = w)
    (hw : w ≠ "") : p.Curr.Tok ≠ scanner.EOF := by
  intro ht
  exact hw (by rw [← hl, h.2 ht])

theorem scanned_next {p : Parser} (h : p.Scanned) :
    p.next.Scanned ∧ p.next.remaining ≤ p.remaining ∧
      (p.Curr.Tok ≠ scanner.EOF → p.next.remaining + 1 = p.remaining) := by
  by_cases ht : p.Curr.Tok = scanner.EOF
  · rw [next_of_eof ht]
    exact ⟨h, Nat.le_refl _, fun hn => absurd ht hn⟩
  · obtain ⟨h1, h2⟩ := h
    cases hs : p.GoScanner.scnr.src with
    | nil =>
      have hc : p.next.Curr = { Tok := scanner.EOF, Lit := "" } := by
        rw [(next_of_ne_eof ht).2.2.2]
        simp [scanner.Scanner.Scan, hs, scanner.EOF]
      have hsrc : p.next.GoScanner.scnr.src = [] := by
        rw [(next_of_ne_eof ht).2.1, hs]; rfl
      refine ⟨⟨?_, ?_⟩, ?_, ?_⟩
      · rw [hsrc]; intro t ht'; cases ht'
      · intro _; rw [hc]
      · simp [Parser.remaining, hsrc, hc, hs]
      · intro _
        simp [Parser.remaining, hsrc, hc, hs, ht]
    | cons t rest =>
      have hsrc : p.next.GoScanner.scnr.src = rest := by
        rw [(next_of_ne_eof ht).2.1, hs]; rfl
      have htok : t.Tok ≠ scanner.EOF := h1 t (by rw [hs]; exact List.mem_cons_self _ _)
      have hc : p.next.Curr.Tok ≠ scanner.EOF := by
        rw [(next_of_ne_eof ht).2.2.2]
        simp only [scanner.Scanner.Scan, hs]
        split
        · decide
        · exact htok
      refine ⟨⟨?_, ?_⟩, ?_, ?_⟩
      · rw [hsrc]
        intro x hx
        exact h1 x (by rw [hs]; exact List.mem_cons_of_mem _ hx)
      · intro he; exact absurd he hc
      · simp [Parser.remaining, hsrc, hc, hs, ht]
      · intro _
        simp [Parser.remaining, hsrc, hc, hs, ht]

theorem scanned_setSkipUntil {p : Parser} (h : p.Scanned) (enders : List Rune) :
    Parser.Scanned { p with GoScanner := p.GoScanner.SetSkipUntil enders } ∧
    Parser.remaining { p with GoScanner := p.GoScanner.SetSkipUntil enders } = p.remaining := by
  unfold Parser.Scanned Parser.remaining GoScanner.SetSkipUntil
  split <;> exact ⟨h, rfl⟩

theorem scanned_setFile {p : Parser} (h : p.Scanned) (f : ast.File) :
    Parser.Scanned { p with File := f } ∧
    Parser.remaining { p with File := f } = p.remaining :=
  ⟨h, rfl⟩

/-! ### Rules for `Runs` -/

theorem error_bind {α β : Type} (e : Err) (f : α → Except Err β) :
    ((Except.error e : Except Err α) >>= f) = Except.error e := rfl

theorem Runs.done {α : Type} {B d : Nat} {r : α} {p : Parser} (h : p.Scanned)
    (hle : p.remaining + d ≤ B) : Runs B d (Except.ok (r, p)) :=
  ⟨fun h => (by cases h), fun _ _ he => (by cases he; exact ⟨h, hle⟩)⟩

theorem RunsS.doneS {B d : Nat} {p : Parser} (h : p.Scanned)
    (hle : p.remaining + d ≤ B) : RunsS B d (Except.ok p) :=
  ⟨fun h => (by cases h), fun _ he => (by cases he; exact ⟨h, hle⟩)⟩

theorem Runs.error {α : Type} {B d : Nat} {e : Err} (h : e ≠ .outOfFuel) :
    Runs B d (Except.error e : Except Err (α × Parser)) :=
  ⟨fun he => (by cases he; exact h rfl), fun _ _ he => (by cases he)⟩

theorem Runs.seq {α β : Type} {B1 d1 B d : Nat} {x : Except Err (α × Parser)}
    {f : α × Parser → Except Err (β × Parser)} (hx : Runs B1 d1 x)
    (hf : ∀ r p', x = .ok (r, p') → p'.Scanned → p'.remaining + d1 ≤ B1 →
      Runs B d (f (r, p'))) : Runs B d (x >>= f) := by
  cases x with
  | error e =>
    exact ⟨fun h => hx.1 (by rw [error_bind] at h; cases h; rfl),
      fun _ _ h => (by rw [error_bind] at h; cases h)⟩
  | ok a =>
    obtain ⟨r, p'⟩ := a
    obtain ⟨h1, h2⟩ := hx.2 r p' rfl
    exact hf r p' rfl h1 h2

theorem Runs.bindS {β : Type} {B1 d1 B d : Nat} {x : Except Err Parser}
    {f : Parser → Except Err (β × Parser)} (hx : RunsS B1 d1 x)
    (hf : ∀ p', x = .ok p' → p'.Scanned → p'.remaining + d1 ≤ B1 → Runs B d (f p')) :
    Runs B d (x >>= f) := by
  cases x with
  | error e =>
    exact ⟨fun h => hx.1 (by rw [error_bind] at h; cases h; rfl),
      fun _ _ h => (by rw [error_bind] at h; cases h)⟩
  | ok p' =>
    obtain ⟨h1, h2⟩ := hx.2 p' rfl
    exact hf p' rfl h1 h2

theorem Runs.bindV {α β : Type} {B d : Nat} {x : Except Err α}
    {f : α → Except Err (β × Parser)} (hx : x ≠ .error .outOfFuel)
    (hf : ∀ a, x = .ok a → Runs B d (f a)) : Runs B d (x >>= f) := by
  cases x with
  | error e =>
    exact ⟨fun h => hx (by rw [error_bind] at h; cases h; rfl),
      fun _ _ h => (by rw [error_bind] at h; cases h)⟩
  | ok a => exact hf a rfl

theorem RunsS.seqS {α : Type} {B1 d1 B d : Nat} {x : Except Err (α × Parser)}
    {f : α × Parser → Except Err Parser} (hx : Runs B1 d1 x)
    (hf : ∀ r p', x = .ok (r, p') → p'.Scanned → p'.remaining + d1 ≤ B1 →
      RunsS B d (f (r, p'))) : RunsS B d (x >>= f) := by
  cases x with
  | error e =>
    exact ⟨fun h => hx.1 (by rw [error_bind] at h; cases h; rfl),
      fun _ h => (by rw [error_bind] at h; cases h)⟩
  | ok a =>
    obtain ⟨r, p'⟩ := a
    obtain ⟨h1, h2⟩ := hx.2 r p' rfl
    exact hf r p' rfl h1 h2

theorem Runs.cond {α : Type} {B d : Nat} {c : Prop} [Decidable c]
    {a b : Except Err (α × Parser)} (h1 : c → Runs B d a) (h2 : ¬ c → Runs B d b) :
    Runs B d (if c then a else b) := by
  by_cases hc : c
  · rw [if_pos hc]; exact h1 hc
  · rw [if_neg hc]; exact h2 hc

theorem RunsS.condS {B d : Nat} {c : Prop} [Decidable c]
    {a b : Except Err Parser} (h1 : c → RunsS B d a) (h2 : ¬ c → RunsS B d b) :
    RunsS B d (if c then a else b) := by
  by_cases hc : c
  · rw [if_pos hc]; exact h1 hc
  · rw [if_neg hc]; exact h2 hc

theorem Runs.relax {α : Type} {B d B' d' : Nat} {x : Except Err (α × Parser)}
    (h : Runs B d x) (hle : B + d' ≤ B' + d) : Runs B' d' x :=
  ⟨h.1, fun r p' he => ⟨(h.2 r p' he).1, by have := (h.2 r p' he).2; omega⟩⟩

theorem RunsS.relaxS {B d B' d' : Nat} {x : Except Err Parser}
    (h : RunsS B d x) (hle : B + d' ≤ B' + d) : RunsS B' d' x :=
  ⟨h.1, fun p' he => ⟨(h.2 p' he).1, by have := (h.2 p' he).2; omega⟩⟩

end baker


/-! ## Termination of the functions below the statements -/

namespace baker

theorem expectLit_runs {p : Parser} {w : String} (h : p.Scanned) (hw : w ≠ "") :
    Runs p.remaining 1 (expectLit p w) := by
  unfold expectLit
  simp only []
  split
  · exact Runs.error (by intro h; cases h)
  · rename_i hl
    have hl' : p.Curr.Lit = w := by simpa using hl
    obtain ⟨h1, _, h3⟩ := scanned_next h
    exact Runs.done h1 (by have := h3 (scanned_tok_ne_eof h hl' hw); omega)

theorem parseIdent_runs {p : Parser} (h : p.Scanned) : Runs p.remaining 1 (parseIdent p) := by
  unfold parseIdent
  simp only []
  split
  · exact Runs.error (by intro h; cases h)
  · rename_i ht
    have ht' : p.Curr.Tok = scanner.Ident := by simpa using ht
    obtain ⟨h1, _, h3⟩ := scanned_next h
    exact Runs.done h1 (by have := h3 (by rw [ht']; decide); omega)

theorem parseString_runs {p : Parser} (h : p.Scanned) : Runs p.remaining 1 (parseString p) := by
  unfold parseString
  simp only []
  split
  · exact Runs.error (by intro h; cases h)
  · rename_i ht
    have ht' : p.Curr.Tok = scanner.String := by simpa using ht
    obtain ⟨h1, _, h3⟩ := scanned_next h
    exact Runs.done h1 (by have := h3 (by rw [ht']; decide); omega)

theorem parseExpr_runs {p : Parser} (h : p.Scanned) : Runs p.remaining 1 (parseExpr p) := by
  obtain ⟨h1, _, h3⟩ := scanned_next h
  unfold parseExpr
  simp only []
  split
  · rename_i ht
    exact Runs.done h1 (by have := h3 (by rw [ht]; decide); omega)
  · split
    · rename_i ht
      exact Runs.done h1 (by have := h3 (by rw [ht]; decide); omega)
    · split
      · rename_i ht
        exact Runs.done h1 (by have := h3 (by rw [ht]; decide); omega)
      · split
        · rename_i ht
          exact Runs.done h1 (by have := h3 (by rw [ht]; decide); omega)
        · exact Runs.error (by intro h; cases h)

theorem dropLastByte_ne_fuel (s : String) : dropLastByte s ≠ .error .outOfFuel := by
  unfold dropLastByte
  split <;> (intro h; cases h)

theorem parseValue_ne_fuel (E : String → Option ast.Expr) (pos : scanner.Position)
    (s : String) : parseValue E pos s ≠ .error .outOfFuel := by
  unfold parseValue
  split <;> (intro h; cases h)

theorem addImportDelc_runs {p : Parser} (h : p.Scanned) (path : String) :
    RunsS p.remaining 0 (addImportDelc p path) := by
  unfold addImportDelc
  cases hd : addImportDelc.decls p.File.Decls path with
  | error e =>
    refine ⟨fun h' => ?_, fun _ h' => (by rw [error_bind] at h'; cases h')⟩
    rw [error_bind] at h'
    cases h'
    have : addImportDelc.decls p.File.Decls path ≠ .error .outOfFuel := by
      unfold addImportDelc.decls
      cases hl : addImportDelc.loop p.File.Decls (Sprintf_q path) with
      | error e' =>
        rw [error_bind]
        intro h2
        cases h2
        clear hd
        revert hl
        generalize p.File.Decls = ds
        induction ds with
        | nil => intro hl; simp [addImportDelc.loop] at hl
        | cons d ds ih =>
          intro hl
          cases d with
          | FuncDecl f => simp only [addImportDelc.loop] at hl; exact ih hl
          | GenDecl g =>
            simp only [addImportDelc.loop] at hl
            split at hl
            · exact ih hl
            · split at hl
              · cases hl
              · split at hl
                · cases hl
                · exact ih hl
              · exact ih hl
      | ok b =>
        simp only [bind, Except.bind]
        split <;> (intro h2; cases h2)
    exact this hd
  | ok D =>
    exact RunsS.doneS h (by simp [Parser.remaining])

theorem skipNewLines_runs : ∀ (n : Nat) (p : Parser), p.Scanned → p.remaining + 1 ≤ n →
    RunsS p.remaining 0 (skipNewLines n p) := by
  intro n
  induction n with
  | zero => intro p _ hb; omega
  | succ n ih =>
    intro p h hb
    obtain ⟨h1, h2, h3⟩ := scanned_next h
    unfold skipNewLines
    refine RunsS.condS (fun hc => ?_) (fun _ => RunsS.doneS h (by omega))
    have hs := h3 (scanned_tok_ne_eof h hc (by decide))
    exact (ih p.next h1 (by omega)).relaxS (by omega)

theorem expectSemicolon_runs {n : Nat} {p : Parser} (h : p.Scanned)
    (hb : p.remaining + 1 ≤ n) : RunsS p.remaining 0 (expectSemicolon n p) := by
  unfold expectSemicolon
  refine RunsS.condS (fun _ => RunsS.doneS h (by omega)) (fun _ => ?_)
  refine RunsS.seqS (expectLit_runs h (by decide)) ?_
  intro r p1 _ hw hle
  exact (skipNewLines_runs n p1 hw (by omega)).relaxS (by omega)

theorem fromHereToEndOfLine_loop_runs : ∀ (n : Nat) (p : Parser) (s : String),
    p.Scanned → p.remaining + 1 ≤ n →
    Runs p.remaining 0 (fromHereToEndOfLine.loop n p s) := by
  intro n
  induction n with
  | zero => intro p _ _ hb; omega
  | succ n ih =>
    intro p s h hb
    obtain ⟨h1, h2, h3⟩ := scanned_next h
    unfold fromHereToEndOfLine.loop
    refine Runs.cond (fun hc => ?_) (fun _ => Runs.done h (by omega))
    have hs := h3 hc.1
    exact (ih p.next _ h1 (by omega)).relax (by omega)

theorem fromHereToEndOfLine_runs {n : Nat} {p : Parser} (h : p.Scanned)
    (hb : p.remaining + 1 ≤ n) : Runs p.remaining 0 (fromHereToEndOfLine n p) := by
  unfold fromHereToEndOfLine
  obtain ⟨hw, hr⟩ := scanned_setSkipUntil h [10, 13, 59]
  refine Runs.seq (fromHereToEndOfLine_loop_runs n _ "" hw (by omega)) ?_
  intro r p1 _ hw1 hle
  obtain ⟨hw2, hr2⟩ := scanned_setSkipUntil hw1 []
  exact Runs.done hw2 (by omega)

theorem parseValueToEndOfLine_runs (E : String → Option ast.Expr) {n : Nat} {p : Parser}
    (h : p.Scanned) (hb : p.remaining + 1 ≤ n) :
    Runs p.remaining 0 (parseValueToEndOfLine E n p) := by
  unfold parseValueToEndOfLine
  refine Runs.seq (fromHereToEndOfLine_runs h hb) ?_
  intro s p1 _ hw1 hle
  refine Runs.bindV (parseValue_ne_fuel E _ _) (fun e _ => ?_)
  refine Runs.bindS (expectSemicolon_runs hw1 (by omega)) ?_
  intro p2 _ hw2 hle2
  exact Runs.done hw2 (by omega)

end baker


/-! ## Termination of the type grammar -/

namespace baker

set_option maxHeartbeats 1000000 in
theorem typeParsers_run (n : Nat) :
    (∀ p, p.Scanned → 5 * p.remaining + 1 ≤ n → Runs p.remaining 1 (parseMethodSpec n p)) ∧
    (∀ p l, p.Scanned → 5 * p.remaining + 2 ≤ n → Runs p.remaining 0 (parseInterfaceType.loop n p l)) ∧
    (∀ p, p.Scanned → 5 * p.remaining + 1 ≤ n → Runs p.remaining 1 (parseInterfaceType n p)) ∧
    (∀ p l, p.Scanned → 5 * p.remaining + 3 ≤ n → Runs p.remaining 0 (parseUnionType.loop n p l)) ∧
    (∀ p, p.Scanned → 5 * p.remaining + 1 ≤ n → Runs p.remaining 1 (parseUnionType n p)) ∧
    (∀ p l, p.Scanned → 5 * p.remaining + 2 ≤ n → Runs p.remaining 0 (parseStructType.loop n p l)) ∧
    (∀ p, p.Scanned → 5 * p.remaining + 1 ≤ n → Runs p.remaining 1 (parseStructType n p)) ∧
    (∀ p, p.Scanned → 5 * p.remaining + 2 ≤ n → Runs p.remaining 1 (parseType n p)) ∧
    (∀ p, p.Scanned → 5 * p.remaining + 3 ≤ n → Runs p.remaining 1 (parseRetParam n p)) ∧
    (∀ p, p.Scanned → 5 * p.remaining + 1 ≤ n → Runs p.remaining 1 (parseArgParam n p)) ∧
    (∀ p l, p.Scanned → 5 * p.remaining + 2 ≤ n → Runs p.remaining 0 (parseFieldList.loop n p l)) ∧
    (∀ p, p.Scanned → 5 * p.remaining + 1 ≤ n → Runs p.remaining 1 (parseFieldList n p)) ∧
    (∀ p l, p.Scanned → 5 * p.remaining + 4 ≤ n → Runs p.remaining 0 (parseTypeList.loop n p l)) ∧
    (∀ p, p.Scanned → 5 * p.remaining + 1 ≤ n → Runs p.remaining 1 (parseTypeList n p)) := by
  induction n with
  | zero =>
    refine ⟨?_, ?_, ?_, ?_, ?_, ?_, ?_, ?_, ?_, ?_, ?_, ?_, ?_, ?_⟩ <;> intros <;> omega
  | succ n ih =>
    obtain ⟨iMS, iIL, iI, iUL, iU, iSL, iS, iT, iRP, iAP, iFL, iF, iTL, iTy⟩ := ih
    refine ⟨?_, ?_, ?_, ?_, ?_, ?_, ?_, ?_, ?_, ?_, ?_, ?_, ?_, ?_⟩
    · -- parseMethodSpec
      intro p hw hb
      obtain ⟨hn1, hn2, hn3⟩ := scanned_next hw
      have hstar : ∀ w : String, p.Curr.Lit = w → w ≠ "" → p.next.remaining + 1 = p.remaining :=
        fun w h1 h2 => hn3 (scanned_tok_ne_eof hw h1 h2)
      unfold parseMethodSpec
      repeat' first
        | exact Runs.done (by assumption) (by omega)
        | exact parseIdent_runs (by assumption)
        | exact expectSemicolon_runs (by assumption) (by omega)
        | exact iF _ (by assumption) (by omega)
        | exact iTy _ (by assumption) (by omega)
        | exact (parseIdent_runs (by assumption)).relax (by omega)
        | exact (iF _ (by assumption) (by omega)).relax (by omega)
        | exact (iTy _ (by assumption) (by omega)).relax (by omega)
        | apply Runs.seq
        | apply Runs.bindS
        | apply Runs.cond
        | (intro r p1 hok hw1 hle1; dsimp only; obtain ⟨hm1, hm2, hm3⟩ := scanned_next hw1)
        | (intro p1 hok hw1 hle1; dsimp only; obtain ⟨hm1, hm2, hm3⟩ := scanned_next hw1)
        | (intro hc; try (have hs := hstar _ hc (by decide)))
    · -- parseInterfaceType.loop
      intro p l hw hb
      obtain ⟨hn1, hn2, hn3⟩ := scanned_next hw
      have hstar : ∀ w : String, p.Curr.Lit = w → w ≠ "" → p.next.remaining + 1 = p.remaining :=
        fun w h1 h2 => hn3 (scanned_tok_ne_eof hw h1 h2)
      unfold parseInterfaceType.loop
      repeat' first
        | exact Runs.done (by assumption) (by omega)
        | exact skipNewLines_runs _ _ (by assumption) (by omega)
        | exact iMS _ (by assumption) (by omega)
        | exact iIL _ _ (by assumption) (by omega)
        | exact (iMS _ (by assumption) (by omega)).relax (by omega)
        | exact (iIL _ _ (by assumption) (by omega)).relax (by omega)
        | apply Runs.seq
        | apply Runs.bindS
        | apply Runs.cond
        | (intro r p1 hok hw1 hle1; dsimp only; obtain ⟨hm1, hm2, hm3⟩ := scanned_next hw1)
        | (intro p1 hok hw1 hle1; dsimp only; obtain ⟨hm1, hm2, hm3⟩ := scanned_next hw1)
        | (intro hc; try (have hs := hstar _ hc (by decide)))
    · -- parseInterfaceType
      intro p hw hb
      obtain ⟨hn1, hn2, hn3⟩ := scanned_next hw
      have hstar : ∀ w : String, p.Curr.Lit = w → w ≠ "" → p.next.remaining + 1 = p.remaining :=
        fun w h1 h2 => hn3 (scanned_tok_ne_eof hw h1 h2)
      unfold parseInterfaceType
      repeat' first
        | exact Runs.done (by assumption) (by omega)
        | exact expectLit_runs (by assumption) (by decide)
        | exact iIL _ _ (by assumption) (by omega)
        | exact (expectLit_runs (by assumption) (by decide)).relax (by omega)
        | exact (iIL _ _ (by assumption) (by omega)).relax (by omega)
        | apply Runs.seq
        | apply Runs.bindS
        | apply Runs.cond
        | (intro r p1 hok hw1 hle1; dsimp only; obtain ⟨hm1, hm2, hm3⟩ := scanned_next hw1)
        | (intro p1 hok hw1 hle1; dsimp only; obtain ⟨hm1, hm2, hm3⟩ := scanned_next hw1)
        | (intro hc; try (have hs := hstar _ hc (by decide)))
    · -- parseUnionType.loop
      intro p l hw hb
      obtain ⟨hn1, hn2, hn3⟩ := scanned_next hw
      have hstar : ∀ w : String, p.Curr.Lit = w → w ≠ "" → p.next.remaining + 1 = p.remaining :=
        fun w h1 h2 => hn3 (scanned_tok_ne_eof hw h1 h2)
      unfold parseUnionType.loop
      repeat' first
        | exact Runs.done (by assumption) (by omega)
        | exact expectLit_runs (by assumption) (by decide)
        | exact iT _ (by assumption) (by omega)
        | exact iUL _ _ (by assumption) (by omega)
        | exact (expectLit_runs (by assumption) (by decide)).relax (by omega)
        | exact (iT _ (by assumption) (by omega)).relax (by omega)
        | exact (iUL _ _ (by assumption) (by omega)).relax (by omega)
        | apply Runs.seq
        | apply Runs.bindS
        | apply Runs.cond
        | (intro r p1 hok hw1 hle1; dsimp only; obtain ⟨hm1, hm2, hm3⟩ := scanned_next hw1)
        | (intro p1 hok hw1 hle1; dsimp only; obtain ⟨hm1, hm2, hm3⟩ := scanned_next hw1)
        | (intro hc; try (have hs := hstar _ hc (by decide)))
    · -- parseUnionType
      intro p hw hb
      obtain ⟨hn1, hn2, hn3⟩ := scanned_next hw
      have hstar : ∀ w : String, p.Curr.Lit = w → w ≠ "" → p.next.remaining + 1 = p.remaining :=
        fun w h1 h2 => hn3 (scanned_tok_ne_eof hw h1 h2)
      unfold parseUnionType
      repeat' first
        | exact Runs.done (by assumption) (by omega)
        | exact expectLit_runs (by assumption) (by decide)
        | exact iUL _ _ (by assumption) (by omega)
        | exact (expectLit_runs (by assumption) (by decide)).relax (by omega)
        | exact (iUL _ _ (by assumption) (by omega)).relax (by omega)
        | apply Runs.seq
        | apply Runs.bindS
        | apply Runs.cond
        | (intro r p1 hok hw1 hle1; dsimp only; obtain ⟨hm1, hm2, hm3⟩ := scanned_next hw1)
        | (intro p1 hok hw1 hle1; dsimp only; obtain ⟨hm1, hm2, hm3⟩ := scanned_next hw1)
        | (intro hc; try (have hs := hstar _ hc (by decide)))
    · -- parseStructType.loop
      intro p l hw hb
      obtain ⟨hn1, hn2, hn3⟩ := scanned_next hw
      have hstar : ∀ w : String, p.Curr.Lit = w → w ≠ "" → p.next.remaining + 1 = p.remaining :=
        fun w h1 h2 => hn3 (scanned_tok_ne_eof hw h1 h2)
      unfold parseStructType.loop
      repeat' first
        | exact Runs.done (by assumption) (by omega)
        | exact skipNewLines_runs _ _ (by assumption) (by omega)
        | exact iAP _ (by assumption) (by omega)
        | exact iSL _ _ (by assumption) (by omega)
        | exact (iAP _ (by assumption) (by omega)).relax (by omega)
        | exact (iSL _ _ (by assumption) (by omega)).relax (by omega)
        | apply Runs.seq
        | apply Runs.bindS
        | apply Runs.cond
        | (intro r p1 hok hw1 hle1; dsimp only; obtain ⟨hm1, hm2, hm3⟩ := scanned_next hw1)
        | (intro p1 hok hw1 hle1; dsimp only; obtain ⟨hm1, hm2, hm3⟩ := scanned_next hw1)
        | (intro hc; try (have hs := hstar _ hc (by decide)))
    · -- parseStructType
      intro p hw hb
      obtain ⟨hn1, hn2, hn3⟩ := scanned_next hw
      have hstar : ∀ w : String, p.Curr.Lit = w → w ≠ "" → p.next.remaining + 1 = p.remaining :=
        fun w h1 h2 => hn3 (scanned_tok_ne_eof hw h1 h2)
      unfold parseStructType
      repeat' first
        | exact Runs.done (by assumption) (by omega)
        | exact expectLit_runs (by assumption) (by decide)
        | exact iSL _ _ (by assumption) (by omega)
        | exact (expectLit_runs (by assumption) (by decide)).relax (by omega)
        | exact (iSL _ _ (by assumption) (by omega)).relax (by omega)
        | apply Runs.seq
        | apply Runs.bindS
        | apply Runs.cond
        | (intro r p1 hok hw1 hle1; dsimp only; obtain ⟨hm1, hm2, hm3⟩ := scanned_next hw1)
        | (intro p1 hok hw1 hle1; dsimp only; obtain ⟨hm1, hm2, hm3⟩ := scanned_next hw1)
        | (intro hc; try (have hs := hstar _ hc (by decide)))
    · -- parseType
      intro p hw hb
      obtain ⟨hn1, hn2, hn3⟩ := scanned_next hw
      have hstar : ∀ w : String, p.Curr.Lit = w → w ≠ "" → p.next.remaining + 1 = p.remaining :=
        fun w h1 h2 => hn3 (scanned_tok_ne_eof hw h1 h2)
      unfold parseType
      repeat' first
        | exact Runs.done (by assumption) (by omega)
        | exact parseIdent_runs (by assumption)
        | exact iT _ (by assumption) (by omega)
        | exact iS _ (by assumption) (by omega)
        | exact iU _ (by assumption) (by omega)
        | exact iI _ (by assumption) (by omega)
        | exact (parseIdent_runs (by assumption)).relax (by omega)
        | exact (iT _ (by assumption) (by omega)).relax (by omega)
        | exact (iS _ (by assumption) (by omega)).relax (by omega)
        | exact (iU _ (by assumption) (by omega)).relax (by omega)
        | exact (iI _ (by assumption) (by omega)).relax (by omega)
        | apply Runs.seq
        | apply Runs.bindS
        | apply Runs.cond
        | (intro r p1 hok hw1 hle1; dsimp only; obtain ⟨hm1, hm2, hm3⟩ := scanned_next hw1)
        | (intro p1 hok hw1 hle1; dsimp only; obtain ⟨hm1, hm2, hm3⟩ := scanned_next hw1)
        | (intro hc; try (have hs := hstar _ hc (by decide)))
    · -- parseRetParam
      intro p hw hb
      obtain ⟨hn1, hn2, hn3⟩ := scanned_next hw
      have hstar : ∀ w : String, p.Curr.Lit = w → w ≠ "" → p.next.remaining + 1 = p.remaining :=
        fun w h1 h2 => hn3 (scanned_tok_ne_eof hw h1 h2)
      unfold parseRetParam
      repeat' first
        | exact Runs.done (by assumption) (by omega)
        | exact iT _ (by assumption) (by omega)
        | exact (iT _ (by assumption) (by omega)).relax (by omega)
        | apply Runs.seq
        | apply Runs.bindS
        | apply Runs.cond
        | (intro r p1 hok hw1 hle1; dsimp only; obtain ⟨hm1, hm2, hm3⟩ := scanned_next hw1)
        | (intro p1 hok hw1 hle1; dsimp only; obtain ⟨hm1, hm2, hm3⟩ := scanned_next hw1)
        | (intro hc; try (have hs := hstar _ hc (by decide)))
    · -- parseArgParam
      intro p hw hb
      obtain ⟨hn1, hn2, hn3⟩ := scanned_next hw
      have hstar : ∀ w : String, p.Curr.Lit = w → w ≠ "" → p.next.remaining + 1 = p.remaining :=
        fun w h1 h2 => hn3 (scanned_tok_ne_eof hw h1 h2)
      unfold parseArgParam
      repeat' first
        | exact Runs.done (by assumption) (by omega)
        | exact parseIdent_runs (by assumption)
        | exact iT _ (by assumption) (by omega)
        | exact (parseIdent_runs (by assumption)).relax (by omega)
        | exact (iT _ (by assumption) (by omega)).relax (by omega)
        | apply Runs.seq
        | apply Runs.bindS
        | apply Runs.cond
        | (intro r p1 hok hw1 hle1; dsimp only; obtain ⟨hm1, hm2, hm3⟩ := scanned_next hw1)
        | (intro p1 hok hw1 hle1; dsimp only; obtain ⟨hm1, hm2, hm3⟩ := scanned_next hw1)
        | (intro hc; try (have hs := hstar _ hc (by decide)))
    · -- parseFieldList.loop
      intro p l hw hb
      obtain ⟨hn1, hn2, hn3⟩ := scanned_next hw
      have hstar : ∀ w : String, p.Curr.Lit = w → w ≠ "" → p.next.remaining + 1 = p.remaining :=
        fun w h1 h2 => hn3 (scanned_tok_ne_eof hw h1 h2)
      unfold parseFieldList.loop
      repeat' first
        | exact Runs.done (by assumption) (by omega)
        | exact iAP _ (by assumption) (by omega)
        | exact iFL _ _ (by assumption) (by omega)
        | exact (iAP _ (by assumption) (by omega)).relax (by omega)
        | exact (iFL _ _ (by assumption) (by omega)).relax (by omega)
        | apply Runs.seq
        | apply Runs.bindS
        | apply Runs.cond
        | (intro r p1 hok hw1 hle1; dsimp only; obtain ⟨hm1, hm2, hm3⟩ := scanned_next hw1)
        | (intro p1 hok hw1 hle1; dsimp only; obtain ⟨hm1, hm2, hm3⟩ := scanned_next hw1)
        | (intro hc; try (have hs := hstar _ hc (by decide)))
    · -- parseFieldList
      intro p hw hb
      obtain ⟨hn1, hn2, hn3⟩ := scanned_next hw
      have hstar : ∀ w : String, p.Curr.Lit = w → w ≠ "" → p.next.remaining + 1 = p.remaining :=
        fun w h1 h2 => hn3 (scanned_tok_ne_eof hw h1 h2)
      unfold parseFieldList
      repeat' first
        | exact Runs.done (by assumption) (by omega)
        | exact expectLit_runs (by assumption) (by decide)
        | exact iFL _ _ (by assumption) (by omega)
        | exact (expectLit_runs (by assumption) (by decide)).relax (by omega)
        | exact (iFL _ _ (by assumption) (by omega)).relax (by omega)
        | apply Runs.seq
        | apply Runs.bindS
        | apply Runs.cond
        | (intro r p1 hok hw1 hle1; dsimp only; obtain ⟨hm1, hm2, hm3⟩ := scanned_next hw1)
        | (intro p1 hok hw1 hle1; dsimp only; obtain ⟨hm1, hm2, hm3⟩ := scanned_next hw1)
        | (intro hc; try (have hs := hstar _ hc (by decide)))
    · -- parseTypeList.loop
      intro p l hw hb
      obtain ⟨hn1, hn2, hn3⟩ := scanned_next hw
      have hstar : ∀ w : String, p.Curr.Lit = w → w ≠ "" → p.next.remaining + 1 = p.remaining :=
        fun w h1 h2 => hn3 (scanned_tok_ne_eof hw h1 h2)
      unfold parseTypeList.loop
      repeat' first
        | exact Runs.done (by assumption) (by omega)
        | exact iRP _ (by assumption) (by omega)
        | exact iTL _ _ (by assumption) (by omega)
        | exact (iRP _ (by assumption) (by omega)).relax (by omega)
        | exact (iTL _ _ (by assumption) (by omega)).relax (by omega)
        | apply Runs.seq
        | apply Runs.bindS
        | apply Runs.cond
        | (intro r p1 hok hw1 hle1; dsimp only; obtain ⟨hm1, hm2, hm3⟩ := scanned_next hw1)
        | (intro p1 hok hw1 hle1; dsimp only; obtain ⟨hm1, hm2, hm3⟩ := scanned_next hw1)
        | (intro hc; try (have hs := hstar _ hc (by decide)))
    · -- parseTypeList
      intro p hw hb
      obtain ⟨hn1, hn2, hn3⟩ := scanned_next hw
      have hstar : ∀ w : String, p.Curr.Lit = w → w ≠ "" → p.next.remaining + 1 = p.remaining :=
        fun w h1 h2 => hn3 (scanned_tok_ne_eof hw h1 h2)
      unfold parseTypeList
      repeat' first
        | exact Runs.done (by assumption) (by omega)
        | exact expectLit_runs (by assumption) (by decide)
        | exact iTL _ _ (by assumption) (by omega)
        | exact (expectLit_runs (by assumption) (by decide)).relax (by omega)
        | exact (iTL _ _ (by assumption) (by omega)).relax (by omega)
        | apply Runs.seq
        | apply Runs.bindS
        | apply Runs.cond
        | (intro r p1 hok hw1 hle1; dsimp only; obtain ⟨hm1, hm2, hm3⟩ := scanned_next hw1)
        | (intro p1 hok hw1 hle1; dsimp only; obtain ⟨hm1, hm2, hm3⟩ := scanned_next hw1)
        | (intro hc; try (have hs := hstar _ hc (by decide)))

end baker


/-! ## Termination of the statements, the declarations and `ParseFile` -/

namespace baker

theorem Runs.pure_self {α : Type} {r : α} {p : Parser} (h : p.Scanned) :
    Runs p.remaining 0 (Except.ok (r, p)) :=
  Runs.done h (Nat.le_refl _)

theorem parseType_runs {n : Nat} {p : Parser} (hw : p.Scanned)
    (hb : 5 * p.remaining + 2 ≤ n) : Runs p.remaining 1 (parseType n p) :=
  (typeParsers_run n).2.2.2.2.2.2.2.1 p hw hb

theorem parseFieldList_runs {n : Nat} {p : Parser} (hw : p.Scanned)
    (hb : 5 * p.remaining + 1 ≤ n) : Runs p.remaining 1 (parseFieldList n p) :=
  (typeParsers_run n).2.2.2.2.2.2.2.2.2.2.2.1 p hw hb

theorem parseMethodSpec_runs {n : Nat} {p : Parser} (hw : p.Scanned)
    (hb : 5 * p.remaining + 1 ≤ n) : Runs p.remaining 1 (parseMethodSpec n p) :=
  (typeParsers_run n).1 p hw hb

theorem parseRetParam_runs {n : Nat} {p : Parser} (hw : p.Scanned)
    (hb : 5 * p.remaining + 3 ≤ n) : Runs p.remaining 1 (parseRetParam n p) :=
  (typeParsers_run n).2.2.2.2.2.2.2.2.1 p hw hb

theorem parseArgParam_runs {n : Nat} {p : Parser} (hw : p.Scanned)
    (hb : 5 * p.remaining + 1 ≤ n) : Runs p.remaining 1 (parseArgParam n p) :=
  (typeParsers_run n).2.2.2.2.2.2.2.2.2.1 p hw hb

theorem parseCallExpr_loop_runs : ∀ (n : Nat) (p : Parser) (a : List ast.Expr),
    p.Scanned → p.remaining + 1 ≤ n → Runs p.remaining 1 (parseCallExpr.loop n p a) := by
  intro n
  induction n with
  | zero => intro p _ _ hb; omega
  | succ n ih =>
    intro p a hw hb
    unfold parseCallExpr.loop
    refine Runs.seq (parseExpr_runs hw) ?_
    intro r p1 _ hw1 hle1
    dsimp only
    obtain ⟨hm1, hm2, hm3⟩ := scanned_next hw1
    refine Runs.cond (fun hc => ?_) (fun _ => Runs.done hw1 (by omega))
    have hs := hm3 (scanned_tok_ne_eof hw1 hc (by decide))
    exact (ih p1.next _ hm1 (by omega)).relax (by omega)

theorem parseCallExpr_runs {n : Nat} {p : Parser} (hw : p.Scanned)
    (hb : 5 * p.remaining + 1 ≤ n) : Runs p.remaining 1 (parseCallExpr n p) := by
  obtain ⟨hn1, hn2, hn3⟩ := scanned_next hw
  obtain ⟨hnn1, hnn2, hnn3⟩ := scanned_next hn1
  have hstar : ∀ w : String, p.Curr.Lit = w → w ≠ "" → p.next.remaining + 1 = p.remaining :=
    fun w h1 h2 => hn3 (scanned_tok_ne_eof hw h1 h2)
  unfold parseCallExpr
  refine Runs.seq (parseIdent_runs hw) ?_
  intro id p1 _ hw1 hle1
  dsimp only
  repeat' first
    | exact Runs.done (by assumption) (by omega)
    | exact Runs.error (by intro h; cases h)
    | exact Runs.pure_self (by assumption)
    | exact expectLit_runs (by assumption) (by decide)
    | exact parseCallExpr_loop_runs _ _ _ (by assumption) (by omega)
    | exact addImportDelc_runs (by assumption) _
    | exact (expectLit_runs (by assumption) (by decide)).relax (by omega)
    | exact (parseCallExpr_loop_runs _ _ _ (by assumption) (by omega)).relax (by omega)
    | apply Runs.seq
    | apply Runs.bindS
    | apply Runs.cond
    | refine Runs.bindV (dropLastByte_ne_fuel _) (fun _ _ => ?_)
    | refine Runs.bindV (parseValue_ne_fuel _ _ _) (fun _ _ => ?_)
    | (intro r p1 hok hw1 hle1; dsimp only; obtain ⟨hm1, hm2, hm3⟩ := scanned_next hw1)
    | (intro p1 hok hw1 hle1; dsimp only; obtain ⟨hm1, hm2, hm3⟩ := scanned_next hw1)
    | (intro hc; try (have hs := hstar _ hc (by decide)))
    | (show Runs _ _ (Except.ok (_, _)); dsimp only; exact Runs.done (by assumption) (by omega))

section
variable (E : String → Option ast.Expr)

theorem parseReturnStmt_runs {n : Nat} {p : Parser} (hw : p.Scanned)
    (hb : 5 * p.remaining + 1 ≤ n) : Runs p.remaining 1 (parseReturnStmt E n p) := by
  obtain ⟨hn1, hn2, hn3⟩ := scanned_next hw
  obtain ⟨hnn1, hnn2, hnn3⟩ := scanned_next hn1
  have hstar : ∀ w : String, p.Curr.Lit = w → w ≠ "" → p.next.remaining + 1 = p.remaining :=
    fun w h1 h2 => hn3 (scanned_tok_ne_eof hw h1 h2)
  unfold parseReturnStmt
  repeat' first
    | exact Runs.done (by assumption) (by omega)
    | exact Runs.error (by intro h; cases h)
    | exact Runs.pure_self (by assumption)
    | exact expectLit_runs (by assumption) (by decide)
    | exact parseValueToEndOfLine_runs _ (by assumption) (by omega)
    | exact (expectLit_runs (by assumption) (by decide)).relax (by omega)
    | exact (parseValueToEndOfLine_runs _ (by assumption) (by omega)).relax (by omega)
    | apply Runs.seq
    | apply Runs.bindS
    | apply Runs.cond
    | refine Runs.bindV (dropLastByte_ne_fuel _) (fun _ _ => ?_)
    | refine Runs.bindV (parseValue_ne_fuel _ _ _) (fun _ _ => ?_)
    | (intro r p1 hok hw1 hle1; dsimp only; obtain ⟨hm1, hm2, hm3⟩ := scanned_next hw1)
    | (intro p1 hok hw1 hle1; dsimp only; obtain ⟨hm1, hm2, hm3⟩ := scanned_next hw1)
    | (intro hc; try (have hs := hstar _ hc (by decide)))
    | (show Runs _ _ (Except.ok (_, _)); dsimp only; exact Runs.done (by assumption) (by omega))

theorem parseVarDecl_runs {n : Nat} {p : Parser} (hw : p.Scanned)
    (hb : 5 * p.remaining + 1 ≤ n) : Runs p.remaining 1 (parseVarDecl E n p) := by
  obtain ⟨hn1, hn2, hn3⟩ := scanned_next hw
  obtain ⟨hnn1, hnn2, hnn3⟩ := scanned_next hn1
  have hstar : ∀ w : String, p.Curr.Lit = w → w ≠ "" → p.next.remaining + 1 = p.remaining :=
    fun w h1 h2 => hn3 (scanned_tok_ne_eof hw h1 h2)
  unfold parseVarDecl
  repeat' first
    | exact Runs.done (by assumption) (by omega)
    | exact Runs.error (by intro h; cases h)
    | exact Runs.pure_self (by assumption)
    | exact expectLit_runs (by assumption) (by decide)
    | exact parseIdent_runs (by assumption)
    | exact parseValueToEndOfLine_runs _ (by assumption) (by omega)
    | exact parseType_runs (by assumption) (by omega)
    | exact (expectLit_runs (by assumption) (by decide)).relax (by omega)
    | exact (parseIdent_runs (by assumption)).relax (by omega)
    | exact (parseValueToEndOfLine_runs _ (by assumption) (by omega)).relax (by omega)
    | exact (parseType_runs (by assumption) (by omega)).relax (by omega)
    | apply Runs.seq
    | apply Runs.bindS
    | apply Runs.cond
    | refine Runs.bindV (dropLastByte_ne_fuel _) (fun _ _ => ?_)
    | refine Runs.bindV (parseValue_ne_fuel _ _ _) (fun _ _ => ?_)
    | (intro r p1 hok hw1 hle1; dsimp only; obtain ⟨hm1, hm2, hm3⟩ := scanned_next hw1)
    | (intro p1 hok hw1 hle1; dsimp only; obtain ⟨hm1, hm2, hm3⟩ := scanned_next hw1)
    | (intro hc; try (have hs := hstar _ hc (by decide)))
    | (show Runs _ _ (Except.ok (_, _)); dsimp only; exact Runs.done (by assumption) (by omega))

set_option maxHeartbeats 1000000 in
theorem stmtParsers_run (n : Nat) :
    (∀ p, p.Scanned → 5 * p.remaining + 1 ≤ n → Runs p.remaining 1 (parseCaseClause E n p)) ∧
    (∀ p l, p.Scanned → 5 * p.remaining + 2 ≤ n → Runs p.remaining 0 (parseSwitchBody.loop E n p l)) ∧
    (∀ p, p.Scanned → 5 * p.remaining + 3 ≤ n → Runs p.remaining 1 (parseSwitchBody E n p)) ∧
    (∀ p, p.Scanned → 5 * p.remaining + 1 ≤ n → Runs p.remaining 1 (parseSwitchStmt E n p)) ∧
    (∀ p, p.Scanned → 5 * p.remaining + 2 ≤ n → Runs p.remaining 1 (parseStmt E n p)) ∧
    (∀ p l, p.Scanned → 5 * p.remaining + 3 ≤ n → Runs p.remaining 0 (parseStmtsUntil E n p l)) := by
  induction n with
  | zero =>
    refine ⟨?_, ?_, ?_, ?_, ?_, ?_⟩ <;> intros <;> omega
  | succ n ih =>
    obtain ⟨iCC, iSBL, iSB, iSS, iS, iSU⟩ := ih
    refine ⟨?_, ?_, ?_, ?_, ?_, ?_⟩
    · -- parseCaseClause
      intro p hw hb
      obtain ⟨hn1, hn2, hn3⟩ := scanned_next hw
      obtain ⟨hnn1, hnn2, hnn3⟩ := scanned_next hn1
      have hstar : ∀ w : String, p.Curr.Lit = w → w ≠ "" → p.next.remaining + 1 = p.remaining :=
        fun w h1 h2 => hn3 (scanned_tok_ne_eof hw h1 h2)
      unfold parseCaseClause
      dsimp only
      repeat' first
        | exact Runs.done (by assumption) (by omega)
        | exact Runs.error (by intro h; cases h)
        | exact Runs.pure_self (by assumption)
        | exact fromHereToEndOfLine_runs (by assumption) (by omega)
        | exact expectSemicolon_runs (by assumption) (by omega)
        | exact iSU _ _ (by assumption) (by omega)
        | exact (fromHereToEndOfLine_runs (by assumption) (by omega)).relax (by omega)
        | exact (iSU _ _ (by assumption) (by omega)).relax (by omega)
        | apply Runs.seq
        | apply Runs.bindS
        | apply Runs.cond
        | refine Runs.bindV (dropLastByte_ne_fuel _) (fun _ _ => ?_)
        | refine Runs.bindV (parseValue_ne_fuel _ _ _) (fun _ _ => ?_)
        | (intro r p1 hok hw1 hle1; dsimp only; obtain ⟨hm1, hm2, hm3⟩ := scanned_next hw1)
        | (intro p1 hok hw1 hle1; dsimp only; obtain ⟨hm1, hm2, hm3⟩ := scanned_next hw1)
        | (intro hc; try (have hs := hstar _ hc (by decide)))
        | (show Runs _ _ (Except.ok (_, _)); dsimp only; exact Runs.done (by assumption) (by omega))
    · -- parseSwitchBody.loop
      intro p l hw hb
      obtain ⟨hn1, hn2, hn3⟩ := scanned_next hw
      obtain ⟨hnn1, hnn2, hnn3⟩ := scanned_next hn1
      have hstar : ∀ w : String, p.Curr.Lit = w → w ≠ "" → p.next.remaining + 1 = p.remaining :=
        fun w h1 h2 => hn3 (scanned_tok_ne_eof hw h1 h2)
      unfold parseSwitchBody.loop
      repeat' first
        | exact Runs.done (by assumption) (by omega)
        | exact Runs.error (by intro h; cases h)
        | exact Runs.pure_self (by assumption)
        | exact iCC _ (by assumption) (by omega)
        | exact iSBL _ _ (by assumption) (by omega)
        | exact (iCC _ (by assumption) (by omega)).relax (by omega)
        | exact (iSBL _ _ (by assumption) (by omega)).relax (by omega)
        | apply Runs.seq
        | apply Runs.bindS
        | apply Runs.cond
        | refine Runs.bindV (dropLastByte_ne_fuel _) (fun _ _ => ?_)
        | refine Runs.bindV (parseValue_ne_fuel _ _ _) (fun _ _ => ?_)
        | (intro r p1 hok hw1 hle1; dsimp only; obtain ⟨hm1, hm2, hm3⟩ := scanned_next hw1)
        | (intro p1 hok hw1 hle1; dsimp only; obtain ⟨hm1, hm2, hm3⟩ := scanned_next hw1)
        | (intro hc; try (have hs := hstar _ hc (by decide)))
        | (show Runs _ _ (Except.ok (_, _)); dsimp only; exact Runs.done (by assumption) (by omega))
    · -- parseSwitchBody
      intro p hw hb
      obtain ⟨hn1, hn2, hn3⟩ := scanned_next hw
      obtain ⟨hnn1, hnn2, hnn3⟩ := scanned_next hn1
      have hstar : ∀ w : String, p.Curr.Lit = w → w ≠ "" → p.next.remaining + 1 = p.remaining :=
        fun w h1 h2 => hn3 (scanned_tok_ne_eof hw h1 h2)
      unfold parseSwitchBody
      repeat' first
        | exact Runs.done (by assumption) (by omega)
        | exact Runs.error (by intro h; cases h)
        | exact Runs.pure_self (by assumption)
        | exact expectLit_runs (by assumption) (by decide)
        | exact iSBL _ _ (by assumption) (by omega)
        | exact (expectLit_runs (by assumption) (by decide)).relax (by omega)
        | exact (iSBL _ _ (by assumption) (by omega)).relax (by omega)
        | apply Runs.seq
        | apply Runs.bindS
        | apply Runs.cond
        | refine Runs.bindV (dropLastByte_ne_fuel _) (fun _ _ => ?_)
        | refine Runs.bindV (parseValue_ne_fuel _ _ _) (fun _ _ => ?_)
        | (intro r p1 hok hw1 hle1; dsimp only; obtain ⟨hm1, hm2, hm3⟩ := scanned_next hw1)
        | (intro p1 hok hw1 hle1; dsimp only; obtain ⟨hm1, hm2, hm3⟩ := scanned_next hw1)
        | (intro hc; try (have hs := hstar _ hc (by decide)))
        | (show Runs _ _ (Except.ok (_, _)); dsimp only; exact Runs.done (by assumption) (by omega))
    · -- parseSwitchStmt
      intro p hw hb
      obtain ⟨hn1, hn2, hn3⟩ := scanned_next hw
      obtain ⟨hnn1, hnn2, hnn3⟩ := scanned_next hn1
      have hstar : ∀ w : String, p.Curr.Lit = w → w ≠ "" → p.next.remaining + 1 = p.remaining :=
        fun w h1 h2 => hn3 (scanned_tok_ne_eof hw h1 h2)
      unfold parseSwitchStmt
      repeat' first
        | exact Runs.done (by assumption) (by omega)
        | exact Runs.error (by intro h; cases h)
        | exact Runs.pure_self (by assumption)
        | exact expectLit_runs (by assumption) (by decide)
        | exact fromHereToEndOfLine_runs (by assumption) (by omega)
        | exact expectSemicolon_runs (by assumption) (by omega)
        | exact iSB _ (by assumption) (by omega)
        | exact (expectLit_runs (by assumption) (by decide)).relax (by omega)
        | exact (fromHereToEndOfLine_runs (by assumption) (by omega)).relax (by omega)
        | exact (iSB _ (by assumption) (by omega)).relax (by omega)
        | apply Runs.seq
        | apply Runs.bindS
        | apply Runs.cond
        | refine Runs.bindV (dropLastByte_ne_fuel _) (fun _ _ => ?_)
        | refine Runs.bindV (parseValue_ne_fuel _ _ _) (fun _ _ => ?_)
        | (intro r p1 hok hw1 hle1; dsimp only; obtain ⟨hm1, hm2, hm3⟩ := scanned_next hw1)
        | (intro p1 hok hw1 hle1; dsimp only; obtain ⟨hm1, hm2, hm3⟩ := scanned_next hw1)
        | (intro hc; try (have hs := hstar _ hc (by decide)))
        | (show Runs _ _ (Except.ok (_, _)); dsimp only; exact Runs.done (by assumption) (by omega))
    · -- parseStmt
      intro p hw hb
      obtain ⟨hn1, hn2, hn3⟩ := scanned_next hw
      obtain ⟨hnn1, hnn2, hnn3⟩ := scanned_next hn1
      have hstar : ∀ w : String, p.Curr.Lit = w → w ≠ "" → p.next.remaining + 1 = p.remaining :=
        fun w h1 h2 => hn3 (scanned_tok_ne_eof hw h1 h2)
      unfold parseStmt
      repeat' first
        | exact Runs.done (by assumption) (by omega)
        | exact Runs.error (by intro h; cases h)
        | exact Runs.pure_self (by assumption)
        | exact parseVarDecl_runs E (by assumption) (by omega)
        | exact parseReturnStmt_runs E (by assumption) (by omega)
        | exact parseCallExpr_runs (by assumption) (by omega)
        | exact iSS _ (by assumption) (by omega)
        | exact (parseVarDecl_runs E (by assumption) (by omega)).relax (by omega)
        | exact (parseReturnStmt_runs E (by assumption) (by omega)).relax (by omega)
        | exact (parseCallExpr_runs (by assumption) (by omega)).relax (by omega)
        | exact (iSS _ (by assumption) (by omega)).relax (by omega)
        | apply Runs.seq
        | apply Runs.bindS
        | apply Runs.cond
        | refine Runs.bindV (dropLastByte_ne_fuel _) (fun _ _ => ?_)
        | refine Runs.bindV (parseValue_ne_fuel _ _ _) (fun _ _ => ?_)
        | (intro r p1 hok hw1 hle1; dsimp only; obtain ⟨hm1, hm2, hm3⟩ := scanned_next hw1)
        | (intro p1 hok hw1 hle1; dsimp only; obtain ⟨hm1, hm2, hm3⟩ := scanned_next hw1)
        | (intro hc; try (have hs := hstar _ hc (by decide)))
        | (show Runs _ _ (Except.ok (_, _)); dsimp only; exact Runs.done (by assumption) (by omega))
    · -- parseStmtsUntil
      intro p l hw hb
      obtain ⟨hn1, hn2, hn3⟩ := scanned_next hw
      obtain ⟨hnn1, hnn2, hnn3⟩ := scanned_next hn1
      have hstar : ∀ w : String, p.Curr.Lit = w → w ≠ "" → p.next.remaining + 1 = p.remaining :=
        fun w h1 h2 => hn3 (scanned_tok_ne_eof hw h1 h2)
      unfold parseStmtsUntil
      repeat' first
        | exact Runs.done (by assumption) (by omega)
        | exact Runs.error (by intro h; cases h)
        | exact Runs.pure_self (by assumption)
        | exact skipNewLines_runs _ _ (by assumption) (by omega)
        | exact iS _ (by assumption) (by omega)
        | exact iSU _ _ (by assumption) (by omega)
        | exact (iS _ (by assumption) (by omega)).relax (by omega)
        | exact (iSU _ _ (by assumption) (by omega)).relax (by omega)
        | apply Runs.seq
        | apply Runs.bindS
        | apply Runs.cond
        | refine Runs.bindV (dropLastByte_ne_fuel _) (fun _ _ => ?_)
        | refine Runs.bindV (parseValue_ne_fuel _ _ _) (fun _ _ => ?_)
        | (intro r p1 hok hw1 hle1; dsimp only; obtain ⟨hm1, hm2, hm3⟩ := scanned_next hw1)
        | (intro p1 hok hw1 hle1; dsimp only; obtain ⟨hm1, hm2, hm3⟩ := scanned_next hw1)
        | (intro hc; try (have hs := hstar _ hc (by decide)))
        | (show Runs _ _ (Except.ok (_, _)); dsimp only; exact Runs.done (by assumption) (by omega))

theorem parseStmt_runs {n : Nat} {p : Parser} (hw : p.Scanned)
    (hb : 5 * p.remaining + 2 ≤ n) : Runs p.remaining 1 (parseStmt E n p) :=
  (stmtParsers_run E n).2.2.2.2.1 p hw hb

theorem parseCaseClause_runs {n : Nat} {p : Parser} (hw : p.Scanned)
    (hb : 5 * p.remaining + 1 ≤ n) : Runs p.remaining 1 (parseCaseClause E n p) :=
  (stmtParsers_run E n).1 p hw hb

theorem parseStmtsUntil_runs {n : Nat} {p : Parser} {l : List String} (hw : p.Scanned)
    (hb : 5 * p.remaining + 3 ≤ n) : Runs p.remaining 0 (parseStmtsUntil E n p l) :=
  (stmtParsers_run E n).2.2.2.2.2 p l hw hb

theorem parseBody_runs {n : Nat} {p : Parser} (hw : p.Scanned)
    (hb : 5 * p.remaining + 1 ≤ n) : Runs p.remaining 1 (parseBody E n p) := by
  obtain ⟨hn1, hn2, hn3⟩ := scanned_next hw
  obtain ⟨hnn1, hnn2, hnn3⟩ := scanned_next hn1
  have hstar : ∀ w : String, p.Curr.Lit = w → w ≠ "" → p.next.remaining + 1 = p.remaining :=
    fun w h1 h2 => hn3 (scanned_tok_ne_eof hw h1 h2)
  unfold parseBody
  repeat' first
    | exact Runs.done (by assumption) (by omega)
    | exact Runs.error (by intro h; cases h)
    | exact Runs.pure_self (by assumption)
    | exact expectLit_runs (by assumption) (by decide)
    | exact parseStmtsUntil_runs E (by assumption) (by omega)
    | exact (expectLit_runs (by assumption) (by decide)).relax (by omega)
    | exact (parseStmtsUntil_runs E (by assumption) (by omega)).relax (by omega)
    | apply Runs.seq
    | apply Runs.bindS
    | apply Runs.cond
    | refine Runs.bindV (dropLastByte_ne_fuel _) (fun _ _ => ?_)
    | refine Runs.bindV (parseValue_ne_fuel _ _ _) (fun _ _ => ?_)
    | (intro r p1 hok hw1 hle1; dsimp only; obtain ⟨hm1, hm2, hm3⟩ := scanned_next hw1)
    | (intro p1 hok hw1 hle1; dsimp only; obtain ⟨hm1, hm2, hm3⟩ := scanned_next hw1)
    | (intro hc; try (have hs := hstar _ hc (by decide)))
    | (show Runs _ _ (Except.ok (_, _)); dsimp only; exact Runs.done (by assumption) (by omega))

theorem parseTypeDecl_runs {n : Nat} {p : Parser} (hw : p.Scanned)
    (hb : 5 * p.remaining + 1 ≤ n) : Runs p.remaining 1 (parseTypeDecl n p) := by
  obtain ⟨hn1, hn2, hn3⟩ := scanned_next hw
  obtain ⟨hnn1, hnn2, hnn3⟩ := scanned_next hn1
  have hstar : ∀ w : String, p.Curr.Lit = w → w ≠ "" → p.next.remaining + 1 = p.remaining :=
    fun w h1 h2 => hn3 (scanned_tok_ne_eof hw h1 h2)
  unfold parseTypeDecl
  repeat' first
    | exact Runs.done (by assumption) (by omega)
    | exact Runs.error (by intro h; cases h)
    | exact Runs.pure_self (by assumption)
    | exact expectLit_runs (by assumption) (by decide)
    | exact parseIdent_runs (by assumption)
    | exact parseType_runs (by assumption) (by omega)
    | exact expectSemicolon_runs (by assumption) (by omega)
    | exact (expectLit_runs (by assumption) (by decide)).relax (by omega)
    | exact (parseIdent_runs (by assumption)).relax (by omega)
    | exact (parseType_runs (by assumption) (by omega)).relax (by omega)
    | apply Runs.seq
    | apply Runs.bindS
    | apply Runs.cond
    | refine Runs.bindV (dropLastByte_ne_fuel _) (fun _ _ => ?_)
    | refine Runs.bindV (parseValue_ne_fuel _ _ _) (fun _ _ => ?_)
    | (intro r p1 hok hw1 hle1; dsimp only; obtain ⟨hm1, hm2, hm3⟩ := scanned_next hw1)
    | (intro p1 hok hw1 hle1; dsimp only; obtain ⟨hm1, hm2, hm3⟩ := scanned_next hw1)
    | (intro hc; try (have hs := hstar _ hc (by decide)))
    | (show Runs _ _ (Except.ok (_, _)); dsimp only; exact Runs.done (by assumption) (by omega))

theorem parseFuncDecl_runs {n : Nat} {p : Parser} (hw : p.Scanned)
    (hb : 5 * p.remaining + 1 ≤ n) : Runs p.remaining 1 (parseFuncDecl E n p) := by
  obtain ⟨hn1, hn2, hn3⟩ := scanned_next hw
  obtain ⟨hnn1, hnn2, hnn3⟩ := scanned_next hn1
  have hstar : ∀ w : String, p.Curr.Lit = w → w ≠ "" → p.next.remaining + 1 = p.remaining :=
    fun w h1 h2 => hn3 (scanned_tok_ne_eof hw h1 h2)
  unfold parseFuncDecl
  refine Runs.seq (expectLit_runs hw (by decide)) ?_
  intro r p1 _ hw1 hle1
  dsimp only
  repeat' first
    | exact Runs.done (by assumption) (by omega)
    | exact Runs.error (by intro h; cases h)
    | exact Runs.pure_self (by assumption)
    | exact parseIdent_runs (by assumption)
    | exact parseFieldList_runs (by assumption) (by omega)
    | exact parseBody_runs E (by assumption) (by omega)
    | exact expectSemicolon_runs (by assumption) (by omega)
    | exact (parseIdent_runs (by assumption)).relax (by omega)
    | exact (parseFieldList_runs (by assumption) (by omega)).relax (by omega)
    | exact (parseBody_runs E (by assumption) (by omega)).relax (by omega)
    | apply Runs.seq
    | apply Runs.bindS
    | apply Runs.cond
    | refine Runs.bindV (dropLastByte_ne_fuel _) (fun _ _ => ?_)
    | refine Runs.bindV (parseValue_ne_fuel _ _ _) (fun _ _ => ?_)
    | (intro r p1 hok hw1 hle1; dsimp only; obtain ⟨hm1, hm2, hm3⟩ := scanned_next hw1)
    | (intro p1 hok hw1 hle1; dsimp only; obtain ⟨hm1, hm2, hm3⟩ := scanned_next hw1)
    | (intro hc; try (have hs := hstar _ hc (by decide)))
    | (show Runs _ _ (Except.ok (_, _)); dsimp only; exact Runs.done (by assumption) (by omega))

theorem parseImportDecl_runs {n : Nat} {p : Parser} (hw : p.Scanned)
    (hb : 5 * p.remaining + 1 ≤ n) : Runs p.remaining 1 (parseImportDecl n p) := by
  obtain ⟨hn1, hn2, hn3⟩ := scanned_next hw
  obtain ⟨hnn1, hnn2, hnn3⟩ := scanned_next hn1
  have hstar : ∀ w : String, p.Curr.Lit = w → w ≠ "" → p.next.remaining + 1 = p.remaining :=
    fun w h1 h2 => hn3 (scanned_tok_ne_eof hw h1 h2)
  unfold parseImportDecl
  repeat' first
    | exact Runs.done (by assumption) (by omega)
    | exact Runs.error (by intro h; cases h)
    | exact Runs.pure_self (by assumption)
    | exact expectLit_runs (by assumption) (by decide)
    | exact parseString_runs (by assumption)
    | exact expectSemicolon_runs (by assumption) (by omega)
    | exact (expectLit_runs (by assumption) (by decide)).relax (by omega)
    | exact (parseString_runs (by assumption)).relax (by omega)
    | apply Runs.seq
    | apply Runs.bindS
    | apply Runs.cond
    | refine Runs.bindV (dropLastByte_ne_fuel _) (fun _ _ => ?_)
    | refine Runs.bindV (parseValue_ne_fuel _ _ _) (fun _ _ => ?_)
    | (intro r p1 hok hw1 hle1; dsimp only; obtain ⟨hm1, hm2, hm3⟩ := scanned_next hw1)
    | (intro p1 hok hw1 hle1; dsimp only; obtain ⟨hm1, hm2, hm3⟩ := scanned_next hw1)
    | (intro hc; try (have hs := hstar _ hc (by decide)))
    | (show Runs _ _ (Except.ok (_, _)); dsimp only; exact Runs.done (by assumption) (by omega))

end

end baker


/-! ## Termination of `ParseFile` -/

namespace baker

section
variable (E : String → Option ast.Expr)

theorem ParseFile_decl_runs {n : Nat} {p : Parser} (hw : p.Scanned)
    (hb : 5 * p.remaining + 1 ≤ n) :
    ParseFile.decl E n p ≠ .error .outOfFuel ∧
    ∀ (d : ast.Decl) (p' : Parser), ParseFile.decl E n p = .ok (some (d, p')) →
      p'.Scanned ∧ p'.remaining + 1 ≤ p.remaining := by
  have hv := parseVarDecl_runs E hw hb
  have hi := parseImportDecl_runs hw hb
  have hf := parseFuncDecl_runs E hw hb
  have ht := parseTypeDecl_runs hw hb
  unfold ParseFile.decl
  split
  · cases hx : parseVarDecl E n p with
    | error e =>
      rw [hx] at hv
      exact ⟨fun h => hv.1 (by rw [error_bind] at h; cases h; rfl),
        fun _ _ h => (by rw [error_bind] at h; cases h)⟩
    | ok r =>
      obtain ⟨g, p1⟩ := r
      refine ⟨fun h => (by cases h), fun d p' h => ?_⟩
      cases h
      exact hv.2 g p1 hx
  · split
    · cases hx : parseImportDecl n p with
      | error e =>
        rw [hx] at hi
        exact ⟨fun h => hi.1 (by rw [error_bind] at h; cases h; rfl),
          fun _ _ h => (by rw [error_bind] at h; cases h)⟩
      | ok r =>
        obtain ⟨g, p1⟩ := r
        refine ⟨fun h => (by cases h), fun d p' h => ?_⟩
        cases h
        exact hi.2 g p1 hx
    · split
      · cases hx : parseFuncDecl E n p with
        | error e =>
          rw [hx] at hf
          exact ⟨fun h => hf.1 (by rw [error_bind] at h; cases h; rfl),
            fun _ _ h => (by rw [error_bind] at h; cases h)⟩
        | ok r =>
          obtain ⟨g, p1⟩ := r
          refine ⟨fun h => (by cases h), fun d p' h => ?_⟩
          cases h
          exact hf.2 g p1 hx
      · split
        · cases hx : parseTypeDecl n p with
          | error e =>
            rw [hx] at ht
            exact ⟨fun h => ht.1 (by rw [error_bind] at h; cases h; rfl),
              fun _ _ h => (by rw [error_bind] at h; cases h)⟩
          | ok r =>
            obtain ⟨g, p1⟩ := r
            refine ⟨fun h => (by cases h), fun d p' h => ?_⟩
            cases h
            exact ht.2 g p1 hx
        · exact ⟨fun h => (by cases h), fun _ _ h => (by cases h)⟩

theorem ParseFile_loop_runs : ∀ (n : Nat) (p : Parser), p.Scanned →
    5 * p.remaining + 2 ≤ n → RunsS p.remaining 0 (ParseFile.loop E n p) := by
  intro n
  induction n with
  | zero => intro p _ hb; omega
  | succ n ih =>
    intro p hw hb
    unfold ParseFile.loop
    refine RunsS.condS (fun _ => ?_) (fun _ => RunsS.doneS hw (by omega))
    obtain ⟨hd1, hd2⟩ := ParseFile_decl_runs E hw (show 5 * p.remaining + 1 ≤ n by omega)
    cases hx : ParseFile.decl E n p with
    | error e =>
      rw [hx] at hd1
      exact ⟨fun h => hd1 (by simpa using h), fun _ h => (by simp at h)⟩
    | ok o =>
      cases o with
      | none => exact RunsS.doneS hw (by omega)
      | some r =>
        obtain ⟨d, p1⟩ := r
        obtain ⟨hw1, hle1⟩ := hd2 d p1 hx
        obtain ⟨hw2, hr2⟩ := scanned_setFile hw1 { p1.File with Decls := p1.File.Decls ++ [d] }
        exact (ih _ hw2 (by omega)).relaxS (by omega)

theorem ParseFile_ne_fuel {n : Nat} {p : Parser} (hw : p.Scanned)
    (hb : 5 * p.remaining + 2 ≤ n) : ParseFile E n p ≠ .error .outOfFuel := by
  unfold ParseFile
  have hs := skipNewLines_runs n p hw (by omega)
  cases hx : skipNewLines n p with
  | error e =>
    rw [hx] at hs
    intro h
    rw [error_bind] at h
    cases h
    exact hs.1 rfl
  | ok p1 =>
    obtain ⟨hw1, hle1⟩ := hs.2 p1 hx
    obtain ⟨hw2, hr2⟩ :=
      scanned_setFile hw1 { p1.File with Name := some { NamePos := 0, Name := "main" } }
    have hl := ParseFile_loop_runs E n _ hw2 (by omega)
    simp only [bind, Except.bind]
    cases hy : ParseFile.loop E n
        { p1 with File := { p1.File with Name := some { NamePos := 0, Name := "main" } } } with
    | error e =>
      rw [hy] at hl
      intro h
      cases h
      exact hl.1 rfl
    | ok p2 =>
      intro h
      cases h

end

theorem scanned_NewParser {src : List scanner.Token} (srcLen : Nat)
    (hsrc : ∀ t ∈ src, t.Tok ≠ scanner.EOF) :
    (NewParser src srcLen).Scanned ∧ (NewParser src srcLen).remaining ≤ src.length + 1 := by
  have h0 : Parser.Scanned
      { GoScanner := GoScanner.Init src srcLen
        File := { Name := none, Decls := [] }
        Curr := { Tok := 0, Lit := "" } } := ⟨hsrc, fun _ => rfl⟩
  obtain ⟨h1, h2, _⟩ := scanned_next h0
  exact ⟨h1, h2⟩

/-- A function that runs within `5 * remaining + c` units of fuel and is monotone in
its fuel consumes `d` tokens whenever it returns, whatever the fuel. -/
theorem progress_of {α : Type} {f : Nat → Parser → Except Err (α × Parser)} {c d : Nat}
    (hmono : ∀ (n m : Nat), n ≤ m → ∀ p, FuelLe (f n p) (f m p))
    (hruns : ∀ (n : Nat) (p : Parser), p.Scanned → 5 * p.remaining + c ≤ n →
      Runs p.remaining d (f n p))
    (fuel : Nat) (p : Parser) (r : α) (p' : Parser) (hw : p.Scanned)
    (h : f fuel p = .ok (r, p')) : p'.Scanned ∧ p'.remaining + d ≤ p.remaining := by
  have h1 := (hmono fuel (fuel + (5 * p.remaining + c)) (by omega) p).ok h
  exact (hruns _ p hw (by omega)).2 r p' h1

end baker


/-! ## Termination (C19) -/

namespace baker

theorem ParseFile_decl_progress (E : String → Option ast.Expr) (fuel : Nat) (p p' : Parser)
    (d : ast.Decl) (hw : p.Scanned) (h : ParseFile.decl E fuel p = .ok (some (d, p'))) :
    p'.Scanned ∧ p'.remaining + 1 ≤ p.remaining := by
  have h1 := (ParseFile_decl_fuel E (show fuel ≤ fuel + (5 * p.remaining + 1) by omega) p).ok h
  exact (ParseFile_decl_runs E hw (by omega)).2 d p' h1

theorem loops_ne_fuel (E : String → Option ast.Expr) {p : Parser} (hw : p.Scanned)
    {fuel : Nat} (hb : 5 * p.remaining + 4 ≤ fuel) :
    ParseFile.loop E fuel p ≠ .error .outOfFuel ∧
    (∀ enders, parseStmtsUntil E fuel p enders ≠ .error .outOfFuel) ∧
    (∀ l, parseSwitchBody.loop E fuel p l ≠ .error .outOfFuel) ∧
    (∀ l, parseFieldList.loop fuel p l ≠ .error .outOfFuel) ∧
    (∀ l, parseTypeList.loop fuel p l ≠ .error .outOfFuel) ∧
    (∀ l, parseStructType.loop fuel p l ≠ .error .outOfFuel) ∧
    (∀ l, parseInterfaceType.loop fuel p l ≠ .error .outOfFuel) ∧
    (∀ l, parseUnionType.loop fuel p l ≠ .error .outOfFuel) ∧
    (∀ l, parseCallExpr.loop fuel p l ≠ .error .outOfFuel) ∧
    (∀ s, fromHereToEndOfLine.loop fuel p s ≠ .error .outOfFuel) ∧
    skipNewLines fuel p ≠ .error .outOfFuel ∧
    parseType fuel p ≠ .error .outOfFuel := by
  obtain ⟨_, hIL, _, hUL, _, hSL, _, hT, _, _, hFL, _, hTL, _⟩ := typeParsers_run fuel
  obtain ⟨_, hSBL, _, _, _, hSU⟩ := stmtParsers_run E fuel
  exact ⟨(ParseFile_loop_runs E fuel p hw (by omega)).1,
    fun e => (hSU p e hw (by omega)).1,
    fun l => (hSBL p l hw (by omega)).1,
    fun l => (hFL p l hw (by omega)).1,
    fun l => (hTL p l hw (by omega)).1,
    fun l => (hSL p l hw (by omega)).1,
    fun l => (hIL p l hw (by omega)).1,
    fun l => (hUL p l hw (by omega)).1,
    fun l => (parseCallExpr_loop_runs fuel p l hw (by omega)).1,
    fun s => (fromHereToEndOfLine_loop_runs fuel p s hw (by omega)).1,
    (skipNewLines_runs fuel p hw (by omega)).1,
    (hT p hw (by omega)).1⟩

/-- C19. Termination. Over every finite token stream (`src` holds the tokens the
scanner delivers before end-of-input, so none of them is the end-of-input token)
`ParseFile` terminates: with `5 * (length + 1) + 2` units of fuel or more it never
stops for lack of fuel, and its result, a unit or an error of the program, is the
same for every such amount of fuel. The state `NewParser` builds, and every state
reached from it, is a state of such a stream (`Scanned`), and on every such state
`p`: at end-of-input `next` is a no-op, elsewhere it consumes exactly one token,
and a non-empty literal under the cursor (`;` in `skipNewLines`, `*` before the
recursive call of `parseType`, `|`, `,`) is never at end-of-input; every loop of
the parser (of `ParseFile`, `parseStmtsUntil`, `parseSwitchBody`,
`parseFieldList`, `parseTypeList`, `parseStructType`, `parseInterfaceType`,
`parseUnionType`, the arguments of `parseCallExpr`, `fromHereToEndOfLine`,
`skipNewLines`) and `parseType` ends within `5 * remaining + 4` units of fuel,
also at end-of-input; and whenever the body of an iteration returns (a
declaration in `ParseFile`, `parseStmt`, `parseCaseClause`, `parseArgParam`,
`parseRetParam`, `parseMethodSpec`, `parseType`, `parseExpr`), at least one token
has been consumed. -/
theorem ParseFile_terminates (E : String → Option ast.Expr) (src : List scanner.Token)
    (srcLen : Nat) (hsrc : ∀ t ∈ src, t.Tok ≠ scanner.EOF) :
    (∀ fuel, 5 * (src.length + 1) + 2 ≤ fuel →
      ParseFile E fuel (NewParser src srcLen) ≠ .error .outOfFuel ∧
      ParseFile E fuel (NewParser src srcLen) =
        ParseFile E (5 * (src.length + 1) + 2) (NewParser src srcLen)) ∧
    (NewParser src srcLen).Scanned ∧
    (∀ p : Parser, p.Scanned →
      (p.Curr.Tok = scanner.EOF → p.next = p) ∧
      p.next.Scanned ∧
      (p.Curr.Tok ≠ scanner.EOF → p.next.remaining + 1 = p.remaining) ∧
      (∀ w : String, w ≠ "" → p.Curr.Lit = w → p.next.remaining + 1 = p.remaining) ∧
      (∀ fuel, 5 * p.remaining + 4 ≤ fuel →
        ParseFile.loop E fuel p ≠ .error .outOfFuel ∧
        (∀ enders, parseStmtsUntil E fuel p enders ≠ .error .outOfFuel) ∧
        (∀ l, parseSwitchBody.loop E fuel p l ≠ .error .outOfFuel) ∧
        (∀ l, parseFieldList.loop fuel p l ≠ .error .outOfFuel) ∧
        (∀ l, parseTypeList.loop fuel p l ≠ .error .outOfFuel) ∧
        (∀ l, parseStructType.loop fuel p l ≠ .error .outOfFuel) ∧
        (∀ l, parseInterfaceType.loop fuel p l ≠ .error .outOfFuel) ∧
        (∀ l, parseUnionType.loop fuel p l ≠ .error .outOfFuel) ∧
        (∀ l, parseCallExpr.loop fuel p l ≠ .error .outOfFuel) ∧
        (∀ s, fromHereToEndOfLine.loop fuel p s ≠ .error .outOfFuel) ∧
        skipNewLines fuel p ≠ .error .outOfFuel ∧
        parseType fuel p ≠ .error .outOfFuel) ∧
      (∀ (fuel : Nat) (p' : Parser),
        (∀ d, ParseFile.decl E fuel p = .ok (some (d, p')) →
          p'.Scanned ∧ p'.remaining + 1 ≤ p.remaining) ∧
        (∀ s, parseStmt E fuel p = .ok (s, p') →
          p'.Scanned ∧ p'.remaining + 1 ≤ p.remaining) ∧
        (∀ c, parseCaseClause E fuel p = .ok (c, p') →
          p'.Scanned ∧ p'.remaining + 1 ≤ p.remaining) ∧
        (∀ f, parseArgParam fuel p = .ok (f, p') →
          p'.Scanned ∧ p'.remaining + 1 ≤ p.remaining) ∧
        (∀ f, parseRetParam fuel p = .ok (f, p') →
          p'.Scanned ∧ p'.remaining + 1 ≤ p.remaining) ∧
        (∀ f, parseMethodSpec fuel p = .ok (f, p') →
          p'.Scanned ∧ p'.remaining + 1 ≤ p.remaining) ∧
        (∀ t, parseType fuel p = .ok (t, p') →
          p'.Scanned ∧ p'.remaining + 1 ≤ p.remaining) ∧
        (∀ e, parseExpr p = .ok (e, p') →
          p'.Scanned ∧ p'.remaining + 1 ≤ p.remaining))) := by
  obtain ⟨hN, hNr⟩ := scanned_NewParser srcLen hsrc
  refine ⟨?_, hN, ?_⟩
  · intro fuel hf
    have h0 : ParseFile E (5 * (src.length + 1) + 2) (NewParser src srcLen)
        ≠ .error .outOfFuel := ParseFile_ne_fuel E hN (by omega)
    exact ⟨ParseFile_ne_fuel E hN (by omega), (ParseFile_fuel E hf _).eq h0⟩
  · intro p hw
    obtain ⟨h1, _, h3⟩ := scanned_next hw
    refine ⟨next_of_eof, h1, h3, fun w hne hl => h3 (scanned_tok_ne_eof hw hl hne),
      fun fuel hb => loops_ne_fuel E hw hb, ?_⟩
    intro fuel p'
    refine ⟨fun d h => ParseFile_decl_progress E fuel p p' d hw h,
      fun s h => progress_of (fun n m h p => parseStmt_fuel E h p)
        (fun n p hw hb => parseStmt_runs E hw hb) fuel p s p' hw h,
      fun c h => progress_of (fun n m h p => parseCaseClause_fuel E h p)
        (fun n p hw hb => parseCaseClause_runs E hw hb) fuel p c p' hw h,
      fun f h => progress_of (fun n m h p => (typeParsers_fuel n m h).2.2.2.2.2.2.2.2.2.1 p)
        (fun n p hw hb => parseArgParam_runs hw hb) fuel p f p' hw h,
      fun f h => progress_of (fun n m h p => (typeParsers_fuel n m h).2.2.2.2.2.2.2.2.1 p)
        (fun n p hw hb => parseRetParam_runs hw hb) fuel p f p' hw h,
      fun f h => progress_of (fun n m h p => (typeParsers_fuel n m h).1 p)
        (fun n p hw hb => parseMethodSpec_runs hw hb) fuel p f p' hw h,
      fun t h => progress_of (fun n m h p => parseType_fuel h p)
        (fun n p hw hb => parseType_runs hw hb) fuel p t p' hw h,
      fun e h => (parseExpr_runs hw).2 e p' h⟩

end baker


/-! ## The header of `switch` and `case` (C21) -/

namespace baker

theorem fromHereToEndOfLine_atTerminator (fuel : Nat) (p : Parser) (h : p.atTerminator) :
    fromHereToEndOfLine (fuel + 1) p =
      .ok ("", { p with GoScanner := (p.GoScanner.SetSkipUntil [10, 13, 59]).SetSkipUntil [] }) := by
  have hl := fromHereToEndOfLine_loop_eq 0 (fuel + 1)
    { p with GoScanner := p.GoScanner.SetSkipUntil [10, 13, 59] } ""
    (fun i hi => absurd hi (by omega)) h (by omega)
  simp only [fromHereToEndOfLine, hl, bind, Except.bind, pure, Except.pure]
  rfl

theorem parseSwitchStmt_empty_header (E : String → Option ast.Expr) (fuel : Nat) (p : Parser)
    (hs : p.Curr.Lit = KeywordSwitch) (ht : p.next.atTerminator) :
    parseSwitchStmt E (fuel + 2) p = .error .sliceBounds := by
  unfold parseSwitchStmt
  have he : expectLit p KeywordSwitch = .ok (p.next.Position, p.next) := by
    unfold expectLit
    simp only []
    rw [if_neg (by simpa using hs)]
  simp only [he, bind, Except.bind, fromHereToEndOfLine_atTerminator fuel p.next ht]
  rfl

theorem parseCaseClause_empty_header (E : String → Option ast.Expr) (fuel : Nat) (p : Parser)
    (hs : p.Curr.Lit = "case") (ht : p.next.atTerminator) :
    parseCaseClause E (fuel + 2) p = .error .sliceBounds := by
  unfold parseCaseClause
  rw [if_pos hs]
  simp only [bind, Except.bind, fromHereToEndOfLine_atTerminator fuel p.next ht]
  rfl

end baker


/-! ## Positions: the order of the scanner and the rules for `St` -/

namespace baker

theorem stamped_append (l1 l2 : List Nat) : stamped (l1 ++ l2) = stamped l1 ++ stamped l2 := by
  unfold stamped
  exact List.filter_append _ _

theorem stamped_nil : stamped [] = [] := rfl

theorem stamped_zero : stamped [0] = [] := rfl

theorem stamped_succ (n : Nat) : stamped [n + 1] = [n + 1] := by
  simp [stamped]

theorem Within.empty {a b : Nat} (h : a ≤ b) : Within a b [] := by
  unfold Within
  exact ⟨h, List.Pairwise.nil, fun _ hx => absurd hx (List.not_mem_nil _)⟩

theorem Within.single_succ (n : Nat) : Within (n + 1) (n + 1) (stamped [n + 1]) := by
  rw [stamped_succ]
  unfold Within
  refine ⟨Nat.le_refl _, List.pairwise_singleton _ _, ?_⟩
  intro x hx
  rw [List.mem_singleton] at hx
  omega

theorem Within.join {a1 b1 a2 b2 : Nat} {l1 l2 : List Nat} (h1 : Within a1 b1 l1)
    (h2 : Within a2 b2 l2) (h : b1 ≤ a2) : Within a1 b2 (l1 ++ l2) := by
  unfold Within at *
  obtain ⟨h11, h12, h13⟩ := h1
  obtain ⟨h21, h22, h23⟩ := h2
  refine ⟨by omega, ?_, ?_⟩
  · rw [List.pairwise_append]
    refine ⟨h12, h22, ?_⟩
    intro x hx y hy
    have := h13 x hx
    have := h23 y hy
    omega
  · intro x hx
    rw [List.mem_append] at hx
    rcases hx with hx | hx
    · have := h13 x hx
      omega
    · have := h23 x hx
      omega

theorem Within.widen {a b a' b' : Nat} {l : List Nat} (h : Within a b l) (ha : a' ≤ a)
    (hb : b ≤ b') : Within a' b' l := by
  unfold Within at *
  obtain ⟨h1, h2, h3⟩ := h
  refine ⟨by omega, h2, ?_⟩
  intro x hx
  have := h3 x hx
  omega

theorem Within.of_stamped_single (lo hi x : Nat) (h1 : lo ≤ x) (h2 : x ≤ hi) :
    Within lo hi (stamped [x]) := by
  unfold Within
  refine ⟨by omega, ?_, ?_⟩
  · unfold stamped
    exact List.Pairwise.sublist (List.filter_sublist _) (List.pairwise_singleton _ _)
  · intro y hy
    unfold stamped at hy
    have := List.mem_of_mem_filter hy
    rw [List.mem_singleton] at this
    omega

/-! ### The scanner position never decreases -/

theorem ordered_next {p : Parser} (h : p.Ordered) :
    p.next.Ordered ∧ p.Position.Offset ≤ p.next.Position.Offset := by
  by_cases ht : p.Curr.Tok = scanner.EOF
  · rw [next_of_eof ht]
    exact ⟨h, Nat.le_refl _⟩
  · obtain ⟨hs, _, _, _⟩ := next_of_ne_eof ht
    unfold Parser.Ordered at h
    obtain ⟨h1, h2, h3⟩ := h
    unfold Parser.Ordered Parser.Position at *
    rw [hs]
    unfold scanner.Scanner.Scan
    cases hsrc : p.GoScanner.scnr.src with
    | nil =>
      simp only []
      rw [hsrc] at h1 h2
      exact ⟨⟨h1, fun t ht => absurd ht (List.not_mem_nil _), Nat.le_refl _⟩, h3⟩
    | cons t rest =>
      simp only []
      rw [hsrc] at h1 h2
      rw [List.map_cons, List.pairwise_cons] at h1
      have ht := h2 t (List.mem_cons_self _ _)
      refine ⟨⟨h1.2, ?_, ht.2⟩, ht.1⟩
      intro t' ht'
      exact ⟨h1.1 _ (List.mem_map_of_mem _ ht'), (h2 t' (List.mem_cons_of_mem _ ht')).2⟩

theorem ordered_setSkipUntil {p : Parser} (h : p.Ordered) (enders : List Rune) :
    Parser.Ordered { p with GoScanner := p.GoScanner.SetSkipUntil enders } ∧
    Parser.Position { p with GoScanner := p.GoScanner.SetSkipUntil enders } = p.Position := by
  unfold Parser.Ordered Parser.Position GoScanner.SetSkipUntil at *
  split <;> exact ⟨h, rfl⟩

theorem ordered_setFile {p : Parser} (h : p.Ordered) (f : ast.File) :
    Parser.Ordered { p with File := f } ∧ Parser.Position { p with File := f } = p.Position := by
  unfold Parser.Ordered at *
  exact ⟨h, rfl⟩

/-! ### Rules for `St` -/

theorem St.ret {α : Type} {st : α → List Nat} {lo : Nat} {r : α} {p : Parser}
    (h : p.Ordered) (hle : lo ≤ p.Position.Offset + 1)
    (hw : Within lo (p.Position.Offset + 1) (stamped (st r))) :
    St st lo (Except.ok (r, p)) := by
  unfold St
  intro r' p' he
  cases he
  exact ⟨h, hle, hw⟩

theorem StS.retS {lo : Nat} {p : Parser} (h : p.Ordered) (hle : lo ≤ p.Position.Offset + 1) :
    StS lo (Except.ok p) := by
  unfold StS
  intro p' he
  cases he
  exact ⟨h, hle⟩

theorem St.fail {α : Type} {st : α → List Nat} {lo : Nat} {e : Err} :
    St st lo (Except.error e : Except Err (α × Parser)) := by
  unfold St
  intro _ _ he
  cases he

theorem StS.failS {lo : Nat} {e : Err} : StS lo (Except.error e : Except Err Parser) := by
  unfold StS
  intro _ he
  cases he

theorem St.step {α β : Type} {stx : α → List Nat} {a : Nat} {st : β → List Nat} {lo : Nat}
    {x : Except Err (α × Parser)} {f : α × Parser → Except Err (β × Parser)}
    (hx : St stx a x)
    (hf : ∀ r p', x = .ok (r, p') → p'.Ordered → a ≤ p'.Position.Offset + 1 →
      Within a (p'.Position.Offset + 1) (stamped (stx r)) → St st lo (f (r, p'))) :
    St st lo (x >>= f) := by
  cases x with
  | error e => rw [error_bind]; exact St.fail
  | ok v =>
    obtain ⟨r, p'⟩ := v
    unfold St at hx
    obtain ⟨h1, h2, h3⟩ := hx r p' rfl
    exact hf r p' rfl h1 h2 h3

theorem St.stepS {β : Type} {a : Nat} {st : β → List Nat} {lo : Nat}
    {x : Except Err Parser} {f : Parser → Except Err (β × Parser)}
    (hx : StS a x)
    (hf : ∀ p', x = .ok p' → p'.Ordered → a ≤ p'.Position.Offset + 1 → St st lo (f p')) :
    St st lo (x >>= f) := by
  cases x with
  | error e => rw [error_bind]; exact St.fail
  | ok p' =>
    unfold StS at hx
    obtain ⟨h1, h2⟩ := hx p' rfl
    exact hf p' rfl h1 h2

theorem St.stepV {α β : Type} {st : β → List Nat} {lo : Nat}
    {x : Except Err α} {f : α → Except Err (β × Parser)}
    (hf : ∀ a, x = .ok a → St st lo (f a)) : St st lo (x >>= f) := by
  cases x with
  | error e => rw [error_bind]; exact St.fail
  | ok v => exact hf v rfl

theorem StS.stepFrom {α : Type} {stx : α → List Nat} {a : Nat} {lo : Nat}
    {x : Except Err (α × Parser)} {f : α × Parser → Except Err Parser}
    (hx : St stx a x)
    (hf : ∀ r p', x = .ok (r, p') → p'.Ordered → a ≤ p'.Position.Offset + 1 →
      StS lo (f (r, p'))) : StS lo (x >>= f) := by
  cases x with
  | error e => rw [error_bind]; exact StS.failS
  | ok v =>
    obtain ⟨r, p'⟩ := v
    unfold St at hx
    obtain ⟨h1, h2, _⟩ := hx r p' rfl
    exact hf r p' rfl h1 h2

theorem St.branch {α : Type} {st : α → List Nat} {lo : Nat} {c : Prop} [Decidable c]
    {a b : Except Err (α × Parser)} (h1 : c → St st lo a) (h2 : ¬ c → St st lo b) :
    St st lo (if c then a else b) := by
  by_cases hc : c
  · rw [if_pos hc]; exact h1 hc
  · rw [if_neg hc]; exact h2 hc

theorem StS.branchS {lo : Nat} {c : Prop} [Decidable c]
    {a b : Except Err Parser} (h1 : c → StS lo a) (h2 : ¬ c → StS lo b) :
    StS lo (if c then a else b) := by
  by_cases hc : c
  · rw [if_pos hc]; exact h1 hc
  · rw [if_neg hc]; exact h2 hc

theorem StS.lower {lo lo' : Nat} {x : Except Err Parser} (h : StS lo x) (hle : lo' ≤ lo) :
    StS lo' x := by
  unfold StS at *
  intro p' he
  obtain ⟨h1, h2⟩ := h p' he
  exact ⟨h1, by omega⟩

/-! ### The functions below the types -/

theorem expectLit_st {p : Parser} (h : p.Ordered) (w : String) :
    St (fun r : scanner.Position => [r.Offset + 1]) (p.Position.Offset + 1) (expectLit p w) := by
  obtain ⟨h1, h2⟩ := ordered_next h
  unfold expectLit
  simp only []
  split
  · exact St.fail
  · exact St.ret h1 (by omega)
      (Within.widen (Within.single_succ _) (by omega) (Nat.le_refl _))

theorem parseIdent_st {p : Parser} (h : p.Ordered) :
    St (fun r : ast.Ident => [r.NamePos]) (p.Position.Offset + 1) (parseIdent p) := by
  obtain ⟨h1, h2⟩ := ordered_next h
  unfold parseIdent
  simp only []
  split
  · exact St.fail
  · exact St.ret h1 (by omega)
      (Within.widen (Within.single_succ _) (by omega) (Nat.le_refl _))

theorem parseString_st {p : Parser} (h : p.Ordered) :
    St (fun r : String × scanner.Position => [r.2.Offset + 1]) (p.Position.Offset + 1)
      (parseString p) := by
  obtain ⟨h1, h2⟩ := ordered_next h
  unfold parseString
  simp only []
  split
  · exact St.fail
  · refine St.ret h1 (by omega) ?_
    show Within _ _ (stamped [p.next.Position.Offset + 1])
    exact Within.widen (Within.single_succ _) (by omega) (Nat.le_refl _)

theorem parseExpr_st {p : Parser} (h : p.Ordered) :
    St ast.Expr.stamps (p.Position.Offset + 1) (parseExpr p) := by
  obtain ⟨h1, h2⟩ := ordered_next h
  have hw : Within (p.Position.Offset + 1) (p.next.Position.Offset + 1)
      (stamped [p.Position.Offset + 1]) :=
    Within.widen (Within.single_succ _) (Nat.le_refl _) (by omega)
  unfold parseExpr
  simp only []
  split
  · exact St.ret h1 (by omega) (by simpa [ast.Expr.stamps] using hw)
  · split
    · exact St.ret h1 (by omega) (by simpa [ast.Expr.stamps] using hw)
    · split
      · exact St.ret h1 (by omega) (by simpa [ast.Expr.stamps] using hw)
      · split
        · exact St.ret h1 (by omega) (by simpa [ast.Expr.stamps] using hw)
        · exact St.fail

theorem addImportDelc_st {p : Parser} (h : p.Ordered) (path : String) :
    StS (p.Position.Offset + 1) (addImportDelc p path) := by
  unfold addImportDelc
  cases addImportDelc.decls p.File.Decls path with
  | error e => rw [error_bind]; exact StS.failS
  | ok D => exact StS.retS (ordered_setFile h _).1 (Nat.le_refl _)

theorem skipNewLines_st : ∀ (n : Nat) (p : Parser), p.Ordered →
    StS (p.Position.Offset + 1) (skipNewLines n p) := by
  intro n
  induction n with
  | zero => intro p _; unfold skipNewLines; exact StS.failS
  | succ n ih =>
    intro p h
    obtain ⟨h1, h2⟩ := ordered_next h
    unfold skipNewLines
    exact StS.branchS (fun _ => (ih p.next h1).lower (by omega))
      (fun _ => StS.retS h (Nat.le_refl _))

theorem expectSemicolon_st {n : Nat} {p : Parser} (h : p.Ordered) :
    StS (p.Position.Offset + 1) (expectSemicolon n p) := by
  unfold expectSemicolon
  refine StS.branchS (fun _ => StS.retS h (Nat.le_refl _)) (fun _ => ?_)
  refine StS.stepFrom (expectLit_st h _) ?_
  intro r p1 _ hw hle
  exact (skipNewLines_st n p1 hw).lower (by omega)

theorem fromHereToEndOfLine_loop_st : ∀ (n : Nat) (p : Parser) (s : String), p.Ordered →
    St (fun _ : String => []) (p.Position.Offset + 1) (fromHereToEndOfLine.loop n p s) := by
  intro n
  induction n with
  | zero => intro p s _; unfold fromHereToEndOfLine.loop; exact St.fail
  | succ n ih =>
    intro p s h
    obtain ⟨h1, h2⟩ := ordered_next h
    unfold fromHereToEndOfLine.loop
    refine St.branch (fun _ => ?_) (fun _ => St.ret h (Nat.le_refl _) (Within.empty (Nat.le_refl _)))
    have hi := ih p.next (s ++ p.Curr.Lit) h1
    unfold St at hi ⊢
    intro r p' he
    obtain ⟨h3, h4, _⟩ := hi r p' he
    exact ⟨h3, by omega, Within.empty (by omega)⟩

theorem fromHereToEndOfLine_st {n : Nat} {p : Parser} (h : p.Ordered) :
    St (fun _ : String => []) (p.Position.Offset + 1) (fromHereToEndOfLine n p) := by
  unfold fromHereToEndOfLine
  obtain ⟨hw, hr⟩ := ordered_setSkipUntil h [10, 13, 59]
  refine St.step (fromHereToEndOfLine_loop_st n _ "" hw) ?_
  intro r p1 _ hw1 hle _
  obtain ⟨hw2, hr2⟩ := ordered_setSkipUntil hw1 []
  rw [hr] at hle
  exact St.ret hw2 (by rw [hr2]; exact hle) (Within.empty (by rw [hr2]; exact hle))

theorem parseValueToEndOfLine_st (E : String → Option ast.Expr) {n : Nat} {p : Parser}
    (h : p.Ordered) :
    St (fun _ : ast.Expr => []) (p.Position.Offset + 1) (parseValueToEndOfLine E n p) := by
  unfold parseValueToEndOfLine
  refine St.step (fromHereToEndOfLine_st h) ?_
  intro s p1 _ hw1 hle _
  refine St.stepV (fun e _ => ?_)
  refine St.stepS (expectSemicolon_st hw1) ?_
  intro p2 _ hw2 hle2
  exact St.ret hw2 (by omega) (Within.empty (by omega))

end baker


/-! ## Positions in the type grammar -/

namespace baker

theorem Field_stampsAll_append (l1 l2 : List ast.Field) :
    ast.Field.stampsAll (l1 ++ l2) = ast.Field.stampsAll l1 ++ ast.Field.stampsAll l2 := by
  induction l1 with
  | nil => simp [ast.Field.stampsAll]
  | cons f fs ih => simp [ast.Field.stampsAll, ih]

theorem Expr_stampsAll_append (l1 l2 : List ast.Expr) :
    ast.Expr.stampsAll (l1 ++ l2) = ast.Expr.stampsAll l1 ++ ast.Expr.stampsAll l2 := by
  induction l1 with
  | nil => simp [ast.Expr.stampsAll]
  | cons f fs ih => simp [ast.Expr.stampsAll, ih]

set_option maxHeartbeats 1000000 in
theorem typeParsers_st (n : Nat) :
    (∀ p, p.Ordered → St ast.Field.stamps (p.Position.Offset + 1) (parseMethodSpec n p)) ∧
    (∀ p l a, p.Ordered → a ≤ p.Position.Offset + 1 →
      Within a (p.Position.Offset + 1) (stamped (ast.Field.stampsAll l)) → St ast.Field.stampsAll a (parseInterfaceType.loop n p l)) ∧
    (∀ p, p.Ordered → St ast.Expr.stamps (p.Position.Offset + 1) (parseInterfaceType n p)) ∧
    (∀ p l a, p.Ordered → a ≤ p.Position.Offset + 1 →
      Within a (p.Position.Offset + 1) (stamped (ast.Expr.stampsAll l)) → St ast.Expr.stampsAll a (parseUnionType.loop n p l)) ∧
    (∀ p, p.Ordered → St ast.Expr.stamps (p.Position.Offset + 1) (parseUnionType n p)) ∧
    (∀ p l a, p.Ordered → a ≤ p.Position.Offset + 1 →
      Within a (p.Position.Offset + 1) (stamped (ast.Field.stampsAll l)) → St ast.Field.stampsAll a (parseStructType.loop n p l)) ∧
    (∀ p, p.Ordered → St ast.Expr.stamps (p.Position.Offset + 1) (parseStructType n p)) ∧
    (∀ p, p.Ordered → St ast.Expr.stamps (p.Position.Offset + 1) (parseType n p)) ∧
    (∀ p, p.Ordered → St ast.Field.stamps (p.Position.Offset + 1) (parseRetParam n p)) ∧
    (∀ p, p.Ordered → St ast.Field.stamps (p.Position.Offset + 1) (parseArgParam n p)) ∧
    (∀ p l a, p.Ordered → a ≤ p.Position.Offset + 1 →
      Within a (p.Position.Offset + 1) (stamped (ast.Field.stampsAll l)) → St ast.Field.stampsAll a (parseFieldList.loop n p l)) ∧
    (∀ p, p.Ordered → St ast.FieldList.stamps (p.Position.Offset + 1) (parseFieldList n p)) ∧
    (∀ p l a, p.Ordered → a ≤ p.Position.Offset + 1 →
      Within a (p.Position.Offset + 1) (stamped (ast.Field.stampsAll l)) → St ast.Field.stampsAll a (parseTypeList.loop n p l)) ∧
    (∀ p, p.Ordered → St ast.FieldList.stamps (p.Position.Offset + 1) (parseTypeList n p)) := by
  induction n with
  | zero =>
    refine ⟨?_, ?_, ?_, ?_, ?_, ?_, ?_, ?_, ?_, ?_, ?_, ?_, ?_, ?_⟩
    · intros; unfold parseMethodSpec; exact St.fail
    · intros; unfold parseInterfaceType.loop; exact St.fail
    · intros; unfold parseInterfaceType; exact St.fail
    · intros; unfold parseUnionType.loop; exact St.fail
    · intros; unfold parseUnionType; exact St.fail
    · intros; unfold parseStructType.loop; exact St.fail
    · intros; unfold parseStructType; exact St.fail
    · intros; unfold parseType; exact St.fail
    · intros; unfold parseRetParam; exact St.fail
    · intros; unfold parseArgParam; exact St.fail
    · intros; unfold parseFieldList.loop; exact St.fail
    · intros; unfold parseFieldList; exact St.fail
    · intros; unfold parseTypeList.loop; exact St.fail
    · intros; unfold parseTypeList; exact St.fail
  | succ n ih =>
    obtain ⟨iMS, iIL, iI, iUL, iU, iSL, iS, iT, iRP, iAP, iFL, iF, iTL, iTy⟩ := ih
    refine ⟨?_, ?_, ?_, ?_, ?_, ?_, ?_, ?_, ?_, ?_, ?_, ?_, ?_, ?_⟩
    · -- parseMethodSpec
      intro p hw
      unfold parseMethodSpec
      refine St.step (parseIdent_st hw) ?_
      intro r1 p1 hok1 hw1 hle1 hwi1
      try dsimp only at hwi1 ⊢
      refine St.step (iF _ hw1) ?_
      intro r2 p2 hok2 hw2 hle2 hwi2
      try dsimp only at hwi2 ⊢
      refine St.step (iTy _ hw2) ?_
      intro r3 p3 hok3 hw3 hle3 hwi3
      try dsimp only at hwi3 ⊢
      refine St.stepS (expectSemicolon_st hw3) ?_
      intro p4 hok4 hw4 hle4
      try dsimp only
      refine St.ret hw4 (by omega) ?_
      apply Within.widen
      · try simp only [ast.Expr.stamps, ast.Field.stamps, ast.FieldList.stamps, ast.Ident.stampsAll, ast.Expr.stampsAll, ast.Field.stampsAll, Field_stampsAll_append, Expr_stampsAll_append, stamped_append, stamped_zero, stamped_nil, List.append_nil, List.nil_append]
        repeat' first | assumption | exact Within.single_succ _ | apply Within.join | omega
      all_goals omega
    · -- parseInterfaceType.loop
      intro p l a hw hla hwa
      unfold parseInterfaceType.loop
      refine St.stepS (skipNewLines_st _ _ hw) ?_
      intro p1 hok1 hw1 hle1
      try dsimp only
      refine St.branch (fun hc => ?_) (fun hc => ?_)
      · skip
        refine St.ret hw1 (by omega) ?_
        apply Within.widen
        · try simp only [ast.Expr.stamps, ast.Field.stamps, ast.FieldList.stamps, ast.Ident.stampsAll, ast.Expr.stampsAll, ast.Field.stampsAll, Field_stampsAll_append, Expr_stampsAll_append, stamped_append, stamped_zero, stamped_nil, List.append_nil, List.nil_append]
          repeat' first | assumption | exact Within.single_succ _ | apply Within.join | omega
        all_goals omega
      · skip
        refine St.step (iMS _ hw1) ?_
        intro r2 p2 hok2 hw2 hle2 hwi2
        try dsimp only at hwi2 ⊢
        refine iIL _ _ _ hw2 (by omega) ?_
        apply Within.widen
        · try simp only [ast.Expr.stamps, ast.Field.stamps, ast.FieldList.stamps, ast.Ident.stampsAll, ast.Expr.stampsAll, ast.Field.stampsAll, Field_stampsAll_append, Expr_stampsAll_append, stamped_append, stamped_zero, stamped_nil, List.append_nil, List.nil_append]
          repeat' first | assumption | exact Within.single_succ _ | apply Within.join | omega
        all_goals omega
    · -- parseInterfaceType
      intro p hw
      unfold parseInterfaceType
      refine St.step (expectLit_st hw _) ?_
      intro r1 p1 hok1 hw1 hle1 hwi1
      try dsimp only at hwi1 ⊢
      refine St.step (expectLit_st hw1 _) ?_
      intro r2 p2 hok2 hw2 hle2 hwi2
      try dsimp only at hwi2 ⊢
      refine St.step (iIL _ _ _ hw2 (Nat.le_refl _) (Within.empty (Nat.le_refl _))) ?_
      intro r3 p3 hok3 hw3 hle3 hwi3
      try dsimp only at hwi3 ⊢
      refine St.step (expectLit_st hw3 _) ?_
      intro r4 p4 hok4 hw4 hle4 hwi4
      try dsimp only at hwi4 ⊢
      refine St.ret hw4 (by omega) ?_
      apply Within.widen
      · try simp only [ast.Expr.stamps, ast.Field.stamps, ast.FieldList.stamps, ast.Ident.stampsAll, ast.Expr.stampsAll, ast.Field.stampsAll, Field_stampsAll_append, Expr_stampsAll_append, stamped_append, stamped_zero, stamped_nil, List.append_nil, List.nil_append]
        repeat' first | assumption | exact Within.single_succ _ | apply Within.join | omega
      all_goals omega
    · -- parseUnionType.loop
      intro p l a hw hla hwa
      unfold parseUnionType.loop
      refine St.branch (fun hc => ?_) (fun hc => ?_)
      · skip
        refine St.step (iT _ hw) ?_
        intro r1 p1 hok1 hw1 hle1 hwi1
        try dsimp only at hwi1 ⊢
        refine St.branch (fun hc => ?_) (fun hc => ?_)
        · skip
          refine St.step (expectLit_st hw1 _) ?_
          intro r2 p2 hok2 hw2 hle2 hwi2
          try dsimp only at hwi2 ⊢
          refine iUL _ _ _ hw2 (by omega) ?_
          apply Within.widen
          · try simp only [ast.Expr.stamps, ast.Field.stamps, ast.FieldList.stamps, ast.Ident.stampsAll, ast.Expr.stampsAll, ast.Field.stampsAll, Field_stampsAll_append, Expr_stampsAll_append, stamped_append, stamped_zero, stamped_nil, List.append_nil, List.nil_append]
            repeat' first | assumption | exact Within.single_succ _ | apply Within.join | omega
          all_goals omega
        · skip
          refine iUL _ _ _ hw1 (by omega) ?_
          apply Within.widen
          · try simp only [ast.Expr.stamps, ast.Field.stamps, ast.FieldList.stamps, ast.Ident.stampsAll, ast.Expr.stampsAll, ast.Field.stampsAll, Field_stampsAll_append, Expr_stampsAll_append, stamped_append, stamped_zero, stamped_nil, List.append_nil, List.nil_append]
            repeat' first | assumption | exact Within.single_succ _ | apply Within.join | omega
          all_goals omega
      · skip
        refine St.ret hw (by omega) ?_
        apply Within.widen
        · try simp only [ast.Expr.stamps, ast.Field.stamps, ast.FieldList.stamps, ast.Ident.stampsAll, ast.Expr.stampsAll, ast.Field.stampsAll, Field_stampsAll_append, Expr_stampsAll_append, stamped_append, stamped_zero, stamped_nil, List.append_nil, List.nil_append]
          repeat' first | assumption | exact Within.single_succ _ | apply Within.join | omega
        all_goals omega
    · -- parseUnionType
      intro p hw
      unfold parseUnionType
      refine St.step (expectLit_st hw _) ?_
      intro r1 p1 hok1 hw1 hle1 hwi1
      try dsimp only at hwi1 ⊢
      refine St.step (expectLit_st hw1 _) ?_
      intro r2 p2 hok2 hw2 hle2 hwi2
      try dsimp only at hwi2 ⊢
      refine St.step (iUL _ _ _ hw2 (Nat.le_refl _) (Within.empty (Nat.le_refl _))) ?_
      intro r3 p3 hok3 hw3 hle3 hwi3
      try dsimp only at hwi3 ⊢
      refine St.ret hw3 (by omega) ?_
      apply Within.widen
      · try simp only [ast.Expr.stamps, ast.Field.stamps, ast.FieldList.stamps, ast.Ident.stampsAll, ast.Expr.stampsAll, ast.Field.stampsAll, Field_stampsAll_append, Expr_stampsAll_append, stamped_append, stamped_zero, stamped_nil, List.append_nil, List.nil_append]
        repeat' first | assumption | exact Within.single_succ _ | apply Within.join | omega
      all_goals omega
    · -- parseStructType.loop
      intro p l a hw hla hwa
      unfold parseStructType.loop
      refine St.stepS (skipNewLines_st _ _ hw) ?_
      intro p1 hok1 hw1 hle1
      try dsimp only
      refine St.branch (fun hc => ?_) (fun hc => ?_)
      · skip
        refine St.ret hw1 (by omega) ?_
        apply Within.widen
        · try simp only [ast.Expr.stamps, ast.Field.stamps, ast.FieldList.stamps, ast.Ident.stampsAll, ast.Expr.stampsAll, ast.Field.stampsAll, Field_stampsAll_append, Expr_stampsAll_append, stamped_append, stamped_zero, stamped_nil, List.append_nil, List.nil_append]
          repeat' first | assumption | exact Within.single_succ _ | apply Within.join | omega
        all_goals omega
      · skip
        refine St.step (iAP _ hw1) ?_
        intro r2 p2 hok2 hw2 hle2 hwi2
        try dsimp only at hwi2 ⊢
        refine iSL _ _ _ hw2 (by omega) ?_
        apply Within.widen
        · try simp only [ast.Expr.stamps, ast.Field.stamps, ast.FieldList.stamps, ast.Ident.stampsAll, ast.Expr.stampsAll, ast.Field.stampsAll, Field_stampsAll_append, Expr_stampsAll_append, stamped_append, stamped_zero, stamped_nil, List.append_nil, List.nil_append]
          repeat' first | assumption | exact Within.single_succ _ | apply Within.join | omega
        all_goals omega
    · -- parseStructType
      intro p hw
      unfold parseStructType
      refine St.step (expectLit_st hw _) ?_
      intro r1 p1 hok1 hw1 hle1 hwi1
      try dsimp only at hwi1 ⊢
      refine St.step (expectLit_st hw1 _) ?_
      intro r2 p2 hok2 hw2 hle2 hwi2
      try dsimp only at hwi2 ⊢
      refine St.step (iSL _ _ _ hw2 (Nat.le_refl _) (Within.empty (Nat.le_refl _))) ?_
      intro r3 p3 hok3 hw3 hle3 hwi3
      try dsimp only at hwi3 ⊢
      refine St.step (expectLit_st hw3 _) ?_
      intro r4 p4 hok4 hw4 hle4 hwi4
      try dsimp only at hwi4 ⊢
      refine St.ret hw4 (by omega) ?_
      apply Within.widen
      · try simp only [ast.Expr.stamps, ast.Field.stamps, ast.FieldList.stamps, ast.Ident.stampsAll, ast.Expr.stampsAll, ast.Field.stampsAll, Field_stampsAll_append, Expr_stampsAll_append, stamped_append, stamped_zero, stamped_nil, List.append_nil, List.nil_append]
        repeat' first | assumption | exact Within.single_succ _ | apply Within.join | omega
      all_goals omega
    · -- parseType
      intro p hw
      unfold parseType
      refine St.branch (fun hc => ?_) (fun hc => ?_)
      · skip
        obtain ⟨hw1, hle1⟩ := ordered_next hw
        generalize p.next = p1 at hw1 hle1 ⊢
        refine St.step (iT _ hw1) ?_
        intro r2 p2 hok2 hw2 hle2 hwi2
        try dsimp only at hwi2 ⊢
        refine St.ret hw2 (by omega) ?_
        apply Within.widen
        · try simp only [ast.Expr.stamps, ast.Field.stamps, ast.FieldList.stamps, ast.Ident.stampsAll, ast.Expr.stampsAll, ast.Field.stampsAll, Field_stampsAll_append, Expr_stampsAll_append, stamped_append, stamped_zero, stamped_nil, List.append_nil, List.nil_append]
          repeat' first | assumption | exact Within.single_succ _ | apply Within.join | omega
        all_goals omega
      · skip
        refine St.branch (fun hc => ?_) (fun hc => ?_)
        · skip
          exact iS _ hw
        · skip
          refine St.branch (fun hc => ?_) (fun hc => ?_)
          · skip
            exact iU _ hw
          · skip
            refine St.branch (fun hc => ?_) (fun hc => ?_)
            · skip
              exact iI _ hw
            · skip
              refine St.step (parseIdent_st hw) ?_
              intro r3 p3 hok3 hw3 hle3 hwi3
              try dsimp only at hwi3 ⊢
              refine St.ret hw3 (by omega) ?_
              apply Within.widen
              · try simp only [ast.Expr.stamps, ast.Field.stamps, ast.FieldList.stamps, ast.Ident.stampsAll, ast.Expr.stampsAll, ast.Field.stampsAll, Field_stampsAll_append, Expr_stampsAll_append, stamped_append, stamped_zero, stamped_nil, List.append_nil, List.nil_append]
                repeat' first | assumption | exact Within.single_succ _ | apply Within.join | omega
              all_goals omega
    · -- parseRetParam
      intro p hw
      unfold parseRetParam
      refine St.step (iT _ hw) ?_
      intro r1 p1 hok1 hw1 hle1 hwi1
      try dsimp only at hwi1 ⊢
      refine St.ret hw1 (by omega) ?_
      apply Within.widen
      · try simp only [ast.Expr.stamps, ast.Field.stamps, ast.FieldList.stamps, ast.Ident.stampsAll, ast.Expr.stampsAll, ast.Field.stampsAll, Field_stampsAll_append, Expr_stampsAll_append, stamped_append, stamped_zero, stamped_nil, List.append_nil, List.nil_append]
        repeat' first | assumption | exact Within.single_succ _ | apply Within.join | omega
      all_goals omega
    · -- parseArgParam
      intro p hw
      unfold parseArgParam
      refine St.step (parseIdent_st hw) ?_
      intro r1 p1 hok1 hw1 hle1 hwi1
      try dsimp only at hwi1 ⊢
      refine St.step (iT _ hw1) ?_
      intro r2 p2 hok2 hw2 hle2 hwi2
      try dsimp only at hwi2 ⊢
      refine St.ret hw2 (by omega) ?_
      apply Within.widen
      · try simp only [ast.Expr.stamps, ast.Field.stamps, ast.FieldList.stamps, ast.Ident.stampsAll, ast.Expr.stampsAll, ast.Field.stampsAll, Field_stampsAll_append, Expr_stampsAll_append, stamped_append, stamped_zero, stamped_nil, List.append_nil, List.nil_append]
        repeat' first | assumption | exact Within.single_succ _ | apply Within.join | omega
      all_goals omega
    · -- parseFieldList.loop
      intro p l a hw hla hwa
      unfold parseFieldList.loop
      refine St.branch (fun hc => ?_) (fun hc => ?_)
      · skip
        refine St.ret hw (by omega) ?_
        apply Within.widen
        · try simp only [ast.Expr.stamps, ast.Field.stamps, ast.FieldList.stamps, ast.Ident.stampsAll, ast.Expr.stampsAll, ast.Field.stampsAll, Field_stampsAll_append, Expr_stampsAll_append, stamped_append, stamped_zero, stamped_nil, List.append_nil, List.nil_append]
          repeat' first | assumption | exact Within.single_succ _ | apply Within.join | omega
        all_goals omega
      · skip
        refine St.step (iAP _ hw) ?_
        intro r1 p1 hok1 hw1 hle1 hwi1
        try dsimp only at hwi1 ⊢
        refine St.branch (fun hc => ?_) (fun hc => ?_)
        · skip
          obtain ⟨hw2, hle2⟩ := ordered_next hw1
          generalize p1.next = p2 at hw2 hle2 ⊢
          refine iFL _ _ _ hw2 (by omega) ?_
          apply Within.widen
          · try simp only [ast.Expr.stamps, ast.Field.stamps, ast.FieldList.stamps, ast.Ident.stampsAll, ast.Expr.stampsAll, ast.Field.stampsAll, Field_stampsAll_append, Expr_stampsAll_append, stamped_append, stamped_zero, stamped_nil, List.append_nil, List.nil_append]
            repeat' first | assumption | exact Within.single_succ _ | apply Within.join | omega
          all_goals omega
        · skip
          refine iFL _ _ _ hw1 (by omega) ?_
          apply Within.widen
          · try simp only [ast.Expr.stamps, ast.Field.stamps, ast.FieldList.stamps, ast.Ident.stampsAll, ast.Expr.stampsAll, ast.Field.stampsAll, Field_stampsAll_append, Expr_stampsAll_append, stamped_append, stamped_zero, stamped_nil, List.append_nil, List.nil_append]
            repeat' first | assumption | exact Within.single_succ _ | apply Within.join | omega
          all_goals omega
    · -- parseFieldList
      intro p hw
      unfold parseFieldList
      refine St.step (expectLit_st hw _) ?_
      intro r1 p1 hok1 hw1 hle1 hwi1
      try dsimp only at hwi1 ⊢
      refine St.step (iFL _ _ _ hw1 (Nat.le_refl _) (Within.empty (Nat.le_refl _))) ?_
      intro r2 p2 hok2 hw2 hle2 hwi2
      try dsimp only at hwi2 ⊢
      refine St.step (expectLit_st hw2 _) ?_
      intro r3 p3 hok3 hw3 hle3 hwi3
      try dsimp only at hwi3 ⊢
      refine St.ret hw3 (by omega) ?_
      apply Within.widen
      · try simp only [ast.Expr.stamps, ast.Field.stamps, ast.FieldList.stamps, ast.Ident.stampsAll, ast.Expr.stampsAll, ast.Field.stampsAll, Field_stampsAll_append, Expr_stampsAll_append, stamped_append, stamped_zero, stamped_nil, List.append_nil, List.nil_append]
        repeat' first | assumption | exact Within.single_succ _ | apply Within.join | omega
      all_goals omega
    · -- parseTypeList.loop
      intro p l a hw hla hwa
      unfold parseTypeList.loop
      refine St.branch (fun hc => ?_) (fun hc => ?_)
      · skip
        refine St.ret hw (by omega) ?_
        apply Within.widen
        · try simp only [ast.Expr.stamps, ast.Field.stamps, ast.FieldList.stamps, ast.Ident.stampsAll, ast.Expr.stampsAll, ast.Field.stampsAll, Field_stampsAll_append, Expr_stampsAll_append, stamped_append, stamped_zero, stamped_nil, List.append_nil, List.nil_append]
          repeat' first | assumption | exact Within.single_succ _ | apply Within.join | omega
        all_goals omega
      · skip
        refine St.step (iRP _ hw) ?_
        intro r1 p1 hok1 hw1 hle1 hwi1
        try dsimp only at hwi1 ⊢
        refine St.branch (fun hc => ?_) (fun hc => ?_)
        · skip
          obtain ⟨hw2, hle2⟩ := ordered_next hw1
          generalize p1.next = p2 at hw2 hle2 ⊢
          refine iTL _ _ _ hw2 (by omega) ?_
          apply Within.widen
          · try simp only [ast.Expr.stamps, ast.Field.stamps, ast.FieldList.stamps, ast.Ident.stampsAll, ast.Expr.stampsAll, ast.Field.stampsAll, Field_stampsAll_append, Expr_stampsAll_append, stamped_append, stamped_zero, stamped_nil, List.append_nil, List.nil_append]
            repeat' first | assumption | exact Within.single_succ _ | apply Within.join | omega
          all_goals omega
        · skip
          refine iTL _ _ _ hw1 (by omega) ?_
          apply Within.widen
          · try simp only [ast.Expr.stamps, ast.Field.stamps, ast.FieldList.stamps, ast.Ident.stampsAll, ast.Expr.stampsAll, ast.Field.stampsAll, Field_stampsAll_append, Expr_stampsAll_append, stamped_append, stamped_zero, stamped_nil, List.append_nil, List.nil_append]
            repeat' first | assumption | exact Within.single_succ _ | apply Within.join | omega
          all_goals omega
    · -- parseTypeList
      intro p hw
      unfold parseTypeList
      refine St.step (expectLit_st hw _) ?_
      intro r1 p1 hok1 hw1 hle1 hwi1
      try dsimp only at hwi1 ⊢
      refine St.step (iTL _ _ _ hw1 (Nat.le_refl _) (Within.empty (Nat.le_refl _))) ?_
      intro r2 p2 hok2 hw2 hle2 hwi2
      try dsimp only at hwi2 ⊢
      refine St.step (expectLit_st hw2 _) ?_
      intro r3 p3 hok3 hw3 hle3 hwi3
      try dsimp only at hwi3 ⊢
      refine St.ret hw3 (by omega) ?_
      apply Within.widen
      · try simp only [ast.Expr.stamps, ast.Field.stamps, ast.FieldList.stamps, ast.Ident.stampsAll, ast.Expr.stampsAll, ast.Field.stampsAll, Field_stampsAll_append, Expr_stampsAll_append, stamped_append, stamped_zero, stamped_nil, List.append_nil, List.nil_append]
        repeat' first | assumption | exact Within.single_succ _ | apply Within.join | omega
      all_goals omega

end baker


/-! ## Positions in the statements and the declarations -/

namespace baker

theorem Stmt_stampsAll_append (l1 l2 : List ast.Stmt) :
    ast.Stmt.stampsAll (l1 ++ l2) = ast.Stmt.stampsAll l1 ++ ast.Stmt.stampsAll l2 := by
  induction l1 with
  | nil => simp [ast.Stmt.stampsAll]
  | cons f fs ih => simp [ast.Stmt.stampsAll, ih]

theorem St.pure_step {γ β : Type} {st : β → List Nat} {lo : Nat} (v : γ)
    (f : γ → Except Err (β × Parser)) (h : St st lo (f v)) : St st lo (pure v >>= f) := h

theorem parseType_st {n : Nat} {p : Parser} (hw : p.Ordered) :
    St ast.Expr.stamps (p.Position.Offset + 1) (parseType n p) :=
  (typeParsers_st n).2.2.2.2.2.2.2.1 p hw

theorem parseFieldList_st {n : Nat} {p : Parser} (hw : p.Ordered) :
    St ast.FieldList.stamps (p.Position.Offset + 1) (parseFieldList n p) :=
  (typeParsers_st n).2.2.2.2.2.2.2.2.2.2.2.1 p hw

theorem parseCallExpr_loop_st : ∀ (n : Nat) (p : Parser) (l : List ast.Expr) (a : Nat),
    p.Ordered → a ≤ p.Position.Offset + 1 →
    Within a (p.Position.Offset + 1) (stamped (ast.Expr.stampsAll l)) →
    St ast.Expr.stampsAll a (parseCallExpr.loop n p l) := by
  intro n
  induction n with
  | zero => intros; unfold parseCallExpr.loop; exact St.fail
  | succ n ih =>
    intro p l a hw hla hwa
    unfold parseCallExpr.loop
    refine St.step (parseExpr_st hw) ?_
    intro r1 p1 hok1 hw1 hle1 hwi1
    try dsimp only at hwi1 ⊢
    refine St.branch (fun hc => ?_) (fun hc => ?_)
    · skip
      try dsimp only
      obtain ⟨hw2, hle2⟩ := ordered_next hw1
      generalize p1.next = p2 at hw2 hle2 ⊢
      refine ih _ _ _ hw2 (by omega) ?_
      apply Within.widen
      · try simp only [ast.Expr.stamps, ast.Field.stamps, ast.FieldList.stamps, ast.Ident.stampsAll, ast.Expr.stampsAll, ast.Field.stampsAll, ast.Stmt.stamps, ast.Stmt.stampsAll, ast.BlockStmt.stamps, ast.Spec.stamps, ast.Spec.stampsAll, ast.Decl.stamps, ast.Expr.stampsOpt, ast.FieldList.stampsOpt, Field_stampsAll_append, Expr_stampsAll_append, Stmt_stampsAll_append, stamped_append, stamped_zero, stamped_nil, List.append_nil, List.nil_append]
        repeat' first | assumption | exact Within.single_succ _ | apply Within.join | omega
      all_goals omega
    · skip
      refine St.ret hw1 (by omega) ?_
      apply Within.widen
      · try simp only [ast.Expr.stamps, ast.Field.stamps, ast.FieldList.stamps, ast.Ident.stampsAll, ast.Expr.stampsAll, ast.Field.stampsAll, ast.Stmt.stamps, ast.Stmt.stampsAll, ast.BlockStmt.stamps, ast.Spec.stamps, ast.Spec.stampsAll, ast.Decl.stamps, ast.Expr.stampsOpt, ast.FieldList.stampsOpt, Field_stampsAll_append, Expr_stampsAll_append, Stmt_stampsAll_append, stamped_append, stamped_zero, stamped_nil, List.append_nil, List.nil_append]
        repeat' first | assumption | exact Within.single_succ _ | apply Within.join | omega
      all_goals omega

theorem parseCallExpr_st {n : Nat} {p : Parser} (hw : p.Ordered) :
    St ast.Expr.stamps (p.Position.Offset + 1) (parseCallExpr n p) := by
  unfold parseCallExpr
  refine St.step (parseIdent_st hw) ?_
  intro r1 p1 hok1 hw1 hle1 hwi1
  try dsimp only at hwi1 ⊢
  refine St.branch (fun hc => ?_) (fun hc => ?_)
  · skip
    refine St.stepS (addImportDelc_st hw1 _) ?_
    intro p2 hok2 hw2 hle2
    try dsimp only
    refine St.pure_step _ _ ?_
    try dsimp only
    refine St.step (expectLit_st hw2 _) ?_
    intro r3 p3 hok3 hw3 hle3 hwi3
    try dsimp only at hwi3 ⊢
    refine St.step (parseCallExpr_loop_st _ _ _ _ hw3 (Nat.le_refl _) (Within.empty (Nat.le_refl _))) ?_
    intro r4 p4 hok4 hw4 hle4 hwi4
    try dsimp only at hwi4 ⊢
    refine St.step (expectLit_st hw4 _) ?_
    intro r5 p5 hok5 hw5 hle5 hwi5
    try dsimp only at hwi5 ⊢
    refine St.ret hw5 (by omega) ?_
    apply Within.widen
    · try simp only [ast.Expr.stamps, ast.Field.stamps, ast.FieldList.stamps, ast.Ident.stampsAll, ast.Expr.stampsAll, ast.Field.stampsAll, ast.Stmt.stamps, ast.Stmt.stampsAll, ast.BlockStmt.stamps, ast.Spec.stamps, ast.Spec.stampsAll, ast.Decl.stamps, ast.Expr.stampsOpt, ast.FieldList.stampsOpt, Field_stampsAll_append, Expr_stampsAll_append, Stmt_stampsAll_append, stamped_append, stamped_zero, stamped_nil, List.append_nil, List.nil_append]
      repeat' first | assumption | exact Within.single_succ _ | apply Within.join | omega
    all_goals omega
  · skip
    refine St.pure_step _ _ ?_
    try dsimp only
    refine St.step (expectLit_st hw1 _) ?_
    intro r6 p6 hok6 hw6 hle6 hwi6
    try dsimp only at hwi6 ⊢
    refine St.step (parseCallExpr_loop_st _ _ _ _ hw6 (Nat.le_refl _) (Within.empty (Nat.le_refl _))) ?_
    intro r7 p7 hok7 hw7 hle7 hwi7
    try dsimp only at hwi7 ⊢
    refine St.step (expectLit_st hw7 _) ?_
    intro r8 p8 hok8 hw8 hle8 hwi8
    try dsimp only at hwi8 ⊢
    refine St.ret hw8 (by omega) ?_
    apply Within.widen
    · try simp only [ast.Expr.stamps, ast.Field.stamps, ast.FieldList.stamps, ast.Ident.stampsAll, ast.Expr.stampsAll, ast.Field.stampsAll, ast.Stmt.stamps, ast.Stmt.stampsAll, ast.BlockStmt.stamps, ast.Spec.stamps, ast.Spec.stampsAll, ast.Decl.stamps, ast.Expr.stampsOpt, ast.FieldList.stampsOpt, Field_stampsAll_append, Expr_stampsAll_append, Stmt_stampsAll_append, stamped_append, stamped_zero, stamped_nil, List.append_nil, List.nil_append]
      repeat' first | assumption | exact Within.single_succ _ | apply Within.join | omega
    all_goals omega

section
variable (E : String → Option ast.Expr)

theorem parseReturnStmt_st {n : Nat} {p : Parser} (hw : p.Ordered) :
    St ast.Stmt.stamps (p.Position.Offset + 1) (parseReturnStmt E n p) := by
  unfold parseReturnStmt
  refine St.step (expectLit_st hw _) ?_
  intro r1 p1 hok1 hw1 hle1 hwi1
  try dsimp only at hwi1 ⊢
  refine St.step (parseValueToEndOfLine_st E hw1) ?_
  intro r2 p2 hok2 hw2 hle2 hwi2
  try dsimp only at hwi2 ⊢
  refine St.ret hw2 (by omega) ?_
  apply Within.widen
  · try simp only [ast.Expr.stamps, ast.Field.stamps, ast.FieldList.stamps, ast.Ident.stampsAll, ast.Expr.stampsAll, ast.Field.stampsAll, ast.Stmt.stamps, ast.Stmt.stampsAll, ast.BlockStmt.stamps, ast.Spec.stamps, ast.Spec.stampsAll, ast.Decl.stamps, ast.Expr.stampsOpt, ast.FieldList.stampsOpt, Field_stampsAll_append, Expr_stampsAll_append, Stmt_stampsAll_append, stamped_append, stamped_zero, stamped_nil, List.append_nil, List.nil_append]
    repeat' first | assumption | exact Within.single_succ _ | apply Within.join | omega
  all_goals omega

theorem parseVarDecl_st {n : Nat} {p : Parser} (hw : p.Ordered) :
    St ast.GenDecl.stamps (p.Position.Offset + 1) (parseVarDecl E n p) := by
  unfold parseVarDecl
  refine St.step (expectLit_st hw _) ?_
  intro r1 p1 hok1 hw1 hle1 hwi1
  try dsimp only at hwi1 ⊢
  refine St.step (parseIdent_st hw1) ?_
  intro r2 p2 hok2 hw2 hle2 hwi2
  try dsimp only at hwi2 ⊢
  refine St.branch (fun hc => ?_) (fun hc => ?_)
  · skip
    refine St.step (expectLit_st hw2 _) ?_
    intro r3 p3 hok3 hw3 hle3 hwi3
    try dsimp only at hwi3 ⊢
    refine St.step (parseValueToEndOfLine_st E hw3) ?_
    intro r4 p4 hok4 hw4 hle4 hwi4
    try dsimp only at hwi4 ⊢
    refine St.pure_step _ _ ?_
    try dsimp only
    refine St.ret hw4 (by omega) ?_
    apply Within.widen
    · try simp only [ast.Expr.stamps, ast.Field.stamps, ast.FieldList.stamps, ast.Ident.stampsAll, ast.Expr.stampsAll, ast.Field.stampsAll, ast.Stmt.stamps, ast.Stmt.stampsAll, ast.BlockStmt.stamps, ast.Spec.stamps, ast.Spec.stampsAll, ast.Decl.stamps, ast.Expr.stampsOpt, ast.FieldList.stampsOpt, Field_stampsAll_append, Expr_stampsAll_append, Stmt_stampsAll_append, stamped_append, stamped_zero, stamped_nil, List.append_nil, List.nil_append, ast.GenDecl.stamps, ast.FuncDecl.stamps]
      repeat' first | assumption | exact Within.single_succ _ | apply Within.join | omega
    all_goals omega
  · skip
    refine St.step (parseType_st hw2) ?_
    intro r5 p5 hok5 hw5 hle5 hwi5
    try dsimp only at hwi5 ⊢
    refine St.step (expectLit_st hw5 _) ?_
    intro r6 p6 hok6 hw6 hle6 hwi6
    try dsimp only at hwi6 ⊢
    refine St.step (parseValueToEndOfLine_st E hw6) ?_
    intro r7 p7 hok7 hw7 hle7 hwi7
    try dsimp only at hwi7 ⊢
    refine St.pure_step _ _ ?_
    try dsimp only
    refine St.ret hw7 (by omega) ?_
    apply Within.widen
    · try simp only [ast.Expr.stamps, ast.Field.stamps, ast.FieldList.stamps, ast.Ident.stampsAll, ast.Expr.stampsAll, ast.Field.stampsAll, ast.Stmt.stamps, ast.Stmt.stampsAll, ast.BlockStmt.stamps, ast.Spec.stamps, ast.Spec.stampsAll, ast.Decl.stamps, ast.Expr.stampsOpt, ast.FieldList.stampsOpt, Field_stampsAll_append, Expr_stampsAll_append, Stmt_stampsAll_append, stamped_append, stamped_zero, stamped_nil, List.append_nil, List.nil_append, ast.GenDecl.stamps, ast.FuncDecl.stamps]
      repeat' first | assumption | exact Within.single_succ _ | apply Within.join | omega
    all_goals omega

set_option maxHeartbeats 1000000 in
theorem stmtParsers_st (n : Nat) :
    (∀ p, p.Ordered → St ast.Stmt.stamps (p.Position.Offset + 1) (parseCaseClause E n p)) ∧
    (∀ p l a, p.Ordered → a ≤ p.Position.Offset + 1 →
      Within a (p.Position.Offset + 1) (stamped (ast.Stmt.stampsAll l)) → St ast.Stmt.stampsAll a (parseSwitchBody.loop E n p l)) ∧
    (∀ p, p.Ordered → St ast.BlockStmt.stamps (p.Position.Offset + 1) (parseSwitchBody E n p)) ∧
    (∀ p, p.Ordered → St ast.Stmt.stamps (p.Position.Offset + 1) (parseSwitchStmt E n p)) ∧
    (∀ p, p.Ordered → St ast.Stmt.stamps (p.Position.Offset + 1) (parseStmt E n p)) ∧
    (∀ p (e : List String), p.Ordered → St ast.Stmt.stampsAll (p.Position.Offset + 1) (parseStmtsUntil E n p e)) := by
  induction n with
  | zero =>
    refine ⟨?_, ?_, ?_, ?_, ?_, ?_⟩
    · intros; unfold parseCaseClause; exact St.fail
    · intros; unfold parseSwitchBody.loop; exact St.fail
    · intros; unfold parseSwitchBody; exact St.fail
    · intros; unfold parseSwitchStmt; exact St.fail
    · intros; unfold parseStmt; exact St.fail
    · intros; unfold parseStmtsUntil; exact St.fail
  | succ n ih =>
    obtain ⟨iCC, iSBL, iSB, iSS, iS, iSU⟩ := ih
    refine ⟨?_, ?_, ?_, ?_, ?_, ?_⟩
    · -- parseCaseClause
      intro p hw
      unfold parseCaseClause
      refine St.branch (fun hc => ?_) (fun hc => ?_)
      · skip
        try dsimp only
        obtain ⟨hw1, hle1⟩ := ordered_next hw
        generalize p.next = p1 at hw1 hle1 ⊢
        refine St.step (fromHereToEndOfLine_st hw1) ?_
        intro r2 p2 hok2 hw2 hle2 hwi2
        try dsimp only at hwi2 ⊢
        refine St.stepV (fun _ _ => ?_)
        refine St.stepV (fun _ _ => ?_)
        refine St.stepS (expectSemicolon_st hw2) ?_
        intro p3 hok3 hw3 hle3
        try dsimp only
        refine St.step (iSU _ _ hw3) ?_
        intro r4 p4 hok4 hw4 hle4 hwi4
        try dsimp only at hwi4 ⊢
        refine St.ret hw4 (by omega) ?_
        apply Within.widen
        · try simp only [ast.Expr.stamps, ast.Field.stamps, ast.FieldList.stamps, ast.Ident.stampsAll, ast.Expr.stampsAll, ast.Field.stampsAll, ast.Stmt.stamps, ast.Stmt.stampsAll, ast.BlockStmt.stamps, ast.Spec.stamps, ast.Spec.stampsAll, ast.Decl.stamps, ast.Expr.stampsOpt, ast.FieldList.stampsOpt, Field_stampsAll_append, Expr_stampsAll_append, Stmt_stampsAll_append, stamped_append, stamped_zero, stamped_nil, List.append_nil, List.nil_append]
          repeat' first | assumption | exact Within.single_succ _ | apply Within.join | omega
        all_goals omega
      · skip
        refine St.branch (fun hc => ?_) (fun hc => ?_)
        · skip
          try dsimp only
          obtain ⟨hw5, hle5⟩ := ordered_next hw
          generalize p.next = p5 at hw5 hle5 ⊢
          try dsimp only
          obtain ⟨hw6, hle6⟩ := ordered_next hw5
          generalize p5.next = p6 at hw6 hle6 ⊢
          refine St.step (iSU _ _ hw6) ?_
          intro r7 p7 hok7 hw7 hle7 hwi7
          try dsimp only at hwi7 ⊢
          refine St.ret hw7 (by omega) ?_
          apply Within.widen
          · try simp only [ast.Expr.stamps, ast.Field.stamps, ast.FieldList.stamps, ast.Ident.stampsAll, ast.Expr.stampsAll, ast.Field.stampsAll, ast.Stmt.stamps, ast.Stmt.stampsAll, ast.BlockStmt.stamps, ast.Spec.stamps, ast.Spec.stampsAll, ast.Decl.stamps, ast.Expr.stampsOpt, ast.FieldList.stampsOpt, Field_stampsAll_append, Expr_stampsAll_append, Stmt_stampsAll_append, stamped_append, stamped_zero, stamped_nil, List.append_nil, List.nil_append]
            repeat' first | assumption | exact Within.single_succ _ | apply Within.join | omega
          all_goals omega
        · skip
          exact St.fail
    · -- parseSwitchBody.loop
      intro p l a hw hla hwa
      unfold parseSwitchBody.loop
      refine St.branch (fun hc => ?_) (fun hc => ?_)
      · skip
        refine St.step (iCC _ hw) ?_
        intro r1 p1 hok1 hw1 hle1 hwi1
        try dsimp only at hwi1 ⊢
        refine iSBL _ _ _ hw1 (by omega) ?_
        apply Within.widen
        · try simp only [ast.Expr.stamps, ast.Field.stamps, ast.FieldList.stamps, ast.Ident.stampsAll, ast.Expr.stampsAll, ast.Field.stampsAll, ast.Stmt.stamps, ast.Stmt.stampsAll, ast.BlockStmt.stamps, ast.Spec.stamps, ast.Spec.stampsAll, ast.Decl.stamps, ast.Expr.stampsOpt, ast.FieldList.stampsOpt, Field_stampsAll_append, Expr_stampsAll_append, Stmt_stampsAll_append, stamped_append, stamped_zero, stamped_nil, List.append_nil, List.nil_append]
          repeat' first | assumption | exact Within.single_succ _ | apply Within.join | omega
        all_goals omega
      · skip
        refine St.ret hw (by omega) ?_
        apply Within.widen
        · try simp only [ast.Expr.stamps, ast.Field.stamps, ast.FieldList.stamps, ast.Ident.stampsAll, ast.Expr.stampsAll, ast.Field.stampsAll, ast.Stmt.stamps, ast.Stmt.stampsAll, ast.BlockStmt.stamps, ast.Spec.stamps, ast.Spec.stampsAll, ast.Decl.stamps, ast.Expr.stampsOpt, ast.FieldList.stampsOpt, Field_stampsAll_append, Expr_stampsAll_append, Stmt_stampsAll_append, stamped_append, stamped_zero, stamped_nil, List.append_nil, List.nil_append]
          repeat' first | assumption | exact Within.single_succ _ | apply Within.join | omega
        all_goals omega
    · -- parseSwitchBody
      intro p hw
      unfold parseSwitchBody
      refine St.step (iSBL _ _ _ hw (Nat.le_refl _) (Within.empty (Nat.le_refl _))) ?_
      intro r1 p1 hok1 hw1 hle1 hwi1
      try dsimp only at hwi1 ⊢
      refine St.step (expectLit_st hw1 _) ?_
      intro r2 p2 hok2 hw2 hle2 hwi2
      try dsimp only at hwi2 ⊢
      refine St.ret hw2 (by omega) ?_
      apply Within.widen
      · try simp only [ast.Expr.stamps, ast.Field.stamps, ast.FieldList.stamps, ast.Ident.stampsAll, ast.Expr.stampsAll, ast.Field.stampsAll, ast.Stmt.stamps, ast.Stmt.stampsAll, ast.BlockStmt.stamps, ast.Spec.stamps, ast.Spec.stampsAll, ast.Decl.stamps, ast.Expr.stampsOpt, ast.FieldList.stampsOpt, Field_stampsAll_append, Expr_stampsAll_append, Stmt_stampsAll_append, stamped_append, stamped_zero, stamped_nil, List.append_nil, List.nil_append]
        repeat' first | assumption | exact Within.single_succ _ | apply Within.join | omega
      all_goals omega
    · -- parseSwitchStmt
      intro p hw
      unfold parseSwitchStmt
      refine St.step (expectLit_st hw _) ?_
      intro r1 p1 hok1 hw1 hle1 hwi1
      try dsimp only at hwi1 ⊢
      refine St.step (fromHereToEndOfLine_st hw1) ?_
      intro r2 p2 hok2 hw2 hle2 hwi2
      try dsimp only at hwi2 ⊢
      refine St.stepV (fun _ _ => ?_)
      refine St.stepV (fun _ _ => ?_)
      refine St.stepS (expectSemicolon_st hw2) ?_
      intro p3 hok3 hw3 hle3
      try dsimp only
      refine St.step (iSB _ hw3) ?_
      intro r4 p4 hok4 hw4 hle4 hwi4
      try dsimp only at hwi4 ⊢
      refine St.ret hw4 (by omega) ?_
      apply Within.widen
      · try simp only [ast.Expr.stamps, ast.Field.stamps, ast.FieldList.stamps, ast.Ident.stampsAll, ast.Expr.stampsAll, ast.Field.stampsAll, ast.Stmt.stamps, ast.Stmt.stampsAll, ast.BlockStmt.stamps, ast.Spec.stamps, ast.Spec.stampsAll, ast.Decl.stamps, ast.Expr.stampsOpt, ast.FieldList.stampsOpt, Field_stampsAll_append, Expr_stampsAll_append, Stmt_stampsAll_append, stamped_append, stamped_zero, stamped_nil, List.append_nil, List.nil_append]
        repeat' first | assumption | exact Within.single_succ _ | apply Within.join | omega
      all_goals omega
    · -- parseStmt
      intro p hw
      unfold parseStmt
      refine St.branch (fun hc => ?_) (fun hc => ?_)
      · skip
        refine St.step (parseVarDecl_st E hw) ?_
        intro r1 p1 hok1 hw1 hle1 hwi1
        try dsimp only at hwi1 ⊢
        refine St.ret hw1 (by omega) ?_
        apply Within.widen
        · try simp only [ast.Expr.stamps, ast.Field.stamps, ast.FieldList.stamps, ast.Ident.stampsAll, ast.Expr.stampsAll, ast.Field.stampsAll, ast.Stmt.stamps, ast.Stmt.stampsAll, ast.BlockStmt.stamps, ast.Spec.stamps, ast.Spec.stampsAll, ast.Decl.stamps, ast.Expr.stampsOpt, ast.FieldList.stampsOpt, Field_stampsAll_append, Expr_stampsAll_append, Stmt_stampsAll_append, stamped_append, stamped_zero, stamped_nil, List.append_nil, List.nil_append]
          repeat' first | assumption | exact Within.single_succ _ | apply Within.join | omega
        all_goals omega
      · skip
        refine St.branch (fun hc => ?_) (fun hc => ?_)
        · skip
          exact parseReturnStmt_st E hw
        · skip
          refine St.branch (fun hc => ?_) (fun hc => ?_)
          · skip
            exact iSS _ hw
          · skip
            refine St.step (parseCallExpr_st hw) ?_
            intro r2 p2 hok2 hw2 hle2 hwi2
            try dsimp only at hwi2 ⊢
            refine St.ret hw2 (by omega) ?_
            apply Within.widen
            · try simp only [ast.Expr.stamps, ast.Field.stamps, ast.FieldList.stamps, ast.Ident.stampsAll, ast.Expr.stampsAll, ast.Field.stampsAll, ast.Stmt.stamps, ast.Stmt.stampsAll, ast.BlockStmt.stamps, ast.Spec.stamps, ast.Spec.stampsAll, ast.Decl.stamps, ast.Expr.stampsOpt, ast.FieldList.stampsOpt, Field_stampsAll_append, Expr_stampsAll_append, Stmt_stampsAll_append, stamped_append, stamped_zero, stamped_nil, List.append_nil, List.nil_append]
              repeat' first | assumption | exact Within.single_succ _ | apply Within.join | omega
            all_goals omega
    · -- parseStmtsUntil
      intro p e hw
      unfold parseStmtsUntil
      refine St.stepS (skipNewLines_st _ _ hw) ?_
      intro p1 hok1 hw1 hle1
      try dsimp only
      refine St.branch (fun hc => ?_) (fun hc => ?_)
      · skip
        refine St.ret hw1 (by omega) ?_
        simp only [ast.Expr.stamps, ast.Field.stamps, ast.FieldList.stamps, ast.Ident.stampsAll, ast.Expr.stampsAll, ast.Field.stampsAll, ast.Stmt.stamps, ast.Stmt.stampsAll, ast.BlockStmt.stamps, ast.Spec.stamps, ast.Spec.stampsAll, ast.Decl.stamps, ast.Expr.stampsOpt, ast.FieldList.stampsOpt, Field_stampsAll_append, Expr_stampsAll_append, Stmt_stampsAll_append, stamped_append, stamped_zero, stamped_nil, List.append_nil, List.nil_append]
        exact Within.empty (by omega)
      · skip
        refine St.step (iS _ hw1) ?_
        intro r2 p2 hok2 hw2 hle2 hwi2
        try dsimp only at hwi2 ⊢
        refine St.step (iSU _ _ hw2) ?_
        intro r3 p3 hok3 hw3 hle3 hwi3
        try dsimp only at hwi3 ⊢
        refine St.ret hw3 (by omega) ?_
        apply Within.widen
        · try simp only [ast.Expr.stamps, ast.Field.stamps, ast.FieldList.stamps, ast.Ident.stampsAll, ast.Expr.stampsAll, ast.Field.stampsAll, ast.Stmt.stamps, ast.Stmt.stampsAll, ast.BlockStmt.stamps, ast.Spec.stamps, ast.Spec.stampsAll, ast.Decl.stamps, ast.Expr.stampsOpt, ast.FieldList.stampsOpt, Field_stampsAll_append, Expr_stampsAll_append, Stmt_stampsAll_append, stamped_append, stamped_zero, stamped_nil, List.append_nil, List.nil_append]
          repeat' first | assumption | exact Within.single_succ _ | apply Within.join | omega
        all_goals omega

theorem parseStmtsUntil_st {n : Nat} {p : Parser} {e : List String} (hw : p.Ordered) :
    St ast.Stmt.stampsAll (p.Position.Offset + 1) (parseStmtsUntil E n p e) :=
  (stmtParsers_st E n).2.2.2.2.2 p e hw

theorem parseBody_st {n : Nat} {p : Parser} (hw : p.Ordered) :
    St ast.BlockStmt.stamps (p.Position.Offset + 1) (parseBody E n p) := by
  unfold parseBody
  refine St.step (expectLit_st hw _) ?_
  intro r1 p1 hok1 hw1 hle1 hwi1
  try dsimp only at hwi1 ⊢
  refine St.step (parseStmtsUntil_st E hw1) ?_
  intro r2 p2 hok2 hw2 hle2 hwi2
  try dsimp only at hwi2 ⊢
  refine St.step (expectLit_st hw2 _) ?_
  intro r3 p3 hok3 hw3 hle3 hwi3
  try dsimp only at hwi3 ⊢
  refine St.ret hw3 (by omega) ?_
  apply Within.widen
  · try simp only [ast.Expr.stamps, ast.Field.stamps, ast.FieldList.stamps, ast.Ident.stampsAll, ast.Expr.stampsAll, ast.Field.stampsAll, ast.Stmt.stamps, ast.Stmt.stampsAll, ast.BlockStmt.stamps, ast.Spec.stamps, ast.Spec.stampsAll, ast.Decl.stamps, ast.Expr.stampsOpt, ast.FieldList.stampsOpt, Field_stampsAll_append, Expr_stampsAll_append, Stmt_stampsAll_append, stamped_append, stamped_zero, stamped_nil, List.append_nil, List.nil_append]
    repeat' first | assumption | exact Within.single_succ _ | apply Within.join | omega
  all_goals omega

theorem parseTypeDecl_st {n : Nat} {p : Parser} (hw : p.Ordered) :
    St ast.GenDecl.stamps (p.Position.Offset + 1) (parseTypeDecl n p) := by
  unfold parseTypeDecl
  refine St.step (expectLit_st hw _) ?_
  intro r1 p1 hok1 hw1 hle1 hwi1
  try dsimp only at hwi1 ⊢
  refine St.step (parseIdent_st hw1) ?_
  intro r2 p2 hok2 hw2 hle2 hwi2
  try dsimp only at hwi2 ⊢
  refine St.step (parseType_st hw2) ?_
  intro r3 p3 hok3 hw3 hle3 hwi3
  try dsimp only at hwi3 ⊢
  refine St.stepS (expectSemicolon_st hw3) ?_
  intro p4 hok4 hw4 hle4
  try dsimp only
  refine St.ret hw4 (by omega) ?_
  apply Within.widen
  · try simp only [ast.Expr.stamps, ast.Field.stamps, ast.FieldList.stamps, ast.Ident.stampsAll, ast.Expr.stampsAll, ast.Field.stampsAll, ast.Stmt.stamps, ast.Stmt.stampsAll, ast.BlockStmt.stamps, ast.Spec.stamps, ast.Spec.stampsAll, ast.Decl.stamps, ast.Expr.stampsOpt, ast.FieldList.stampsOpt, Field_stampsAll_append, Expr_stampsAll_append, Stmt_stampsAll_append, stamped_append, stamped_zero, stamped_nil, List.append_nil, List.nil_append, ast.GenDecl.stamps, ast.FuncDecl.stamps]
    repeat' first | assumption | exact Within.single_succ _ | apply Within.join | omega
  all_goals omega

theorem parseFuncDecl_st {n : Nat} {p : Parser} (hw : p.Ordered) :
    St ast.FuncDecl.stamps (p.Position.Offset + 1) (parseFuncDecl E n p) := by
  unfold parseFuncDecl
  refine St.step (expectLit_st hw _) ?_
  intro r1 p1 hok1 hw1 hle1 hwi1
  try dsimp only at hwi1 ⊢
  refine St.branch (fun hc => ?_) (fun hc => ?_)
  · skip
    refine St.step (parseFieldList_st hw1) ?_
    intro r2 p2 hok2 hw2 hle2 hwi2
    try dsimp only at hwi2 ⊢
    refine St.pure_step _ _ ?_
    try dsimp only
    refine St.step (parseIdent_st hw2) ?_
    intro r3 p3 hok3 hw3 hle3 hwi3
    try dsimp only at hwi3 ⊢
    refine St.step (parseFieldList_st hw3) ?_
    intro r4 p4 hok4 hw4 hle4 hwi4
    try dsimp only at hwi4 ⊢
    refine St.step (parseBody_st E hw4) ?_
    intro r5 p5 hok5 hw5 hle5 hwi5
    try dsimp only at hwi5 ⊢
    refine St.stepS (expectSemicolon_st hw5) ?_
    intro p6 hok6 hw6 hle6
    try dsimp only
    refine St.ret hw6 (by omega) ?_
    apply Within.widen
    · try simp only [ast.Expr.stamps, ast.Field.stamps, ast.FieldList.stamps, ast.Ident.stampsAll, ast.Expr.stampsAll, ast.Field.stampsAll, ast.Stmt.stamps, ast.Stmt.stampsAll, ast.BlockStmt.stamps, ast.Spec.stamps, ast.Spec.stampsAll, ast.Decl.stamps, ast.Expr.stampsOpt, ast.FieldList.stampsOpt, Field_stampsAll_append, Expr_stampsAll_append, Stmt_stampsAll_append, stamped_append, stamped_zero, stamped_nil, List.append_nil, List.nil_append, ast.GenDecl.stamps, ast.FuncDecl.stamps]
      repeat' first | assumption | exact Within.single_succ _ | apply Within.join | omega
    all_goals omega
  · skip
    refine St.pure_step _ _ ?_
    try dsimp only
    refine St.step (parseIdent_st hw1) ?_
    intro r7 p7 hok7 hw7 hle7 hwi7
    try dsimp only at hwi7 ⊢
    refine St.step (parseFieldList_st hw7) ?_
    intro r8 p8 hok8 hw8 hle8 hwi8
    try dsimp only at hwi8 ⊢
    refine St.step (parseBody_st E hw8) ?_
    intro r9 p9 hok9 hw9 hle9 hwi9
    try dsimp only at hwi9 ⊢
    refine St.stepS (expectSemicolon_st hw9) ?_
    intro p10 hok10 hw10 hle10
    try dsimp only
    refine St.ret hw10 (by omega) ?_
    apply Within.widen
    · try simp only [ast.Expr.stamps, ast.Field.stamps, ast.FieldList.stamps, ast.Ident.stampsAll, ast.Expr.stampsAll, ast.Field.stampsAll, ast.Stmt.stamps, ast.Stmt.stampsAll, ast.BlockStmt.stamps, ast.Spec.stamps, ast.Spec.stampsAll, ast.Decl.stamps, ast.Expr.stampsOpt, ast.FieldList.stampsOpt, Field_stampsAll_append, Expr_stampsAll_append, Stmt_stampsAll_append, stamped_append, stamped_zero, stamped_nil, List.append_nil, List.nil_append, ast.GenDecl.stamps, ast.FuncDecl.stamps]
      repeat' first | assumption | exact Within.single_succ _ | apply Within.join | omega
    all_goals omega

theorem parseImportDecl_st {n : Nat} {p : Parser} (hw : p.Ordered) :
    St ast.GenDecl.stamps (p.Position.Offset + 1) (parseImportDecl n p) := by
  unfold parseImportDecl
  refine St.step (expectLit_st hw _) ?_
  intro r1 p1 hok1 hw1 hle1 hwi1
  try dsimp only at hwi1 ⊢
  refine St.step (parseString_st hw1) ?_
  intro r2 p2 hok2 hw2 hle2 hwi2
  try dsimp only at hwi2 ⊢
  refine St.stepS (expectSemicolon_st hw2) ?_
  intro p3 hok3 hw3 hle3
  try dsimp only
  refine St.ret hw3 (by omega) ?_
  apply Within.widen
  · try simp only [ast.Expr.stamps, ast.Field.stamps, ast.FieldList.stamps, ast.Ident.stampsAll, ast.Expr.stampsAll, ast.Field.stampsAll, ast.Stmt.stamps, ast.Stmt.stampsAll, ast.BlockStmt.stamps, ast.Spec.stamps, ast.Spec.stampsAll, ast.Decl.stamps, ast.Expr.stampsOpt, ast.FieldList.stampsOpt, Field_stampsAll_append, Expr_stampsAll_append, Stmt_stampsAll_append, stamped_append, stamped_zero, stamped_nil, List.append_nil, List.nil_append, ast.GenDecl.stamps, ast.FuncDecl.stamps]
    repeat' first | assumption | exact Within.single_succ _ | apply Within.join | omega
  all_goals omega

end

end baker


/-! ## Positions in the unit (C18) -/

namespace baker

theorem St.elim {α : Type} {st : α → List Nat} {lo : Nat} {x : Except Err (α × Parser)}
    (h : St st lo x) {r : α} {p' : Parser} (he : x = .ok (r, p')) :
    p'.Ordered ∧ lo ≤ p'.Position.Offset + 1 ∧
      Within lo (p'.Position.Offset + 1) (stamped (st r)) := by
  unfold St at h
  exact h r p' he

theorem StS.elimS {lo : Nat} {x : Except Err Parser} (h : StS lo x) {p' : Parser}
    (he : x = .ok p') : p'.Ordered ∧ lo ≤ p'.Position.Offset + 1 := by
  unfold StS at h
  exact h p' he

theorem Decl_stampsAll_append (l1 l2 : List ast.Decl) :
    ast.Decl.stampsAll (l1 ++ l2) = ast.Decl.stampsAll l1 ++ ast.Decl.stampsAll l2 := by
  induction l1 with
  | nil => simp [ast.Decl.stampsAll]
  | cons f fs ih => simp [ast.Decl.stampsAll, ih]

theorem stamped_importDecl (path : String) :
    stamped (ast.Decl.stampsAll [importDecl path]) = [] := rfl

theorem Registered_stamped {b : Bool} {D D' : List ast.Decl} (h : Registered b D D') :
    stamped (ast.Decl.stampsAll D') = stamped (ast.Decl.stampsAll D) := by
  unfold Registered at h
  cases b with
  | false =>
    simp only [Bool.false_eq_true, if_false] at h
    rw [h]
  | true =>
    simp only [if_true] at h
    rcases addImportDelc_decls_cases h with ⟨_, h1, _⟩ | ⟨_, h1, _⟩
    · rw [h1]
    · rw [h1, Decl_stampsAll_append, stamped_append, stamped_importDecl, List.append_nil]

section
variable (E : String → Option ast.Expr)

theorem ParseFile_decl_st {n : Nat} {p : Parser} (hw : p.Ordered) {d : ast.Decl}
    {p' : Parser} (h : ParseFile.decl E n p = .ok (some (d, p'))) :
    p'.Ordered ∧ p.Position.Offset + 1 ≤ p'.Position.Offset + 1 ∧
      Within (p.Position.Offset + 1) (p'.Position.Offset + 1) (stamped d.stamps) := by
  unfold ParseFile.decl at h
  split at h
  · simp only [bind_ok, pure, Except.pure] at h
    obtain ⟨⟨g, p1⟩, h1, h2⟩ := h
    cases h2
    exact (parseVarDecl_st E hw).elim h1
  · split at h
    · simp only [bind_ok, pure, Except.pure] at h
      obtain ⟨⟨g, p1⟩, h1, h2⟩ := h
      cases h2
      exact (parseImportDecl_st hw).elim h1
    · split at h
      · simp only [bind_ok, pure, Except.pure] at h
        obtain ⟨⟨g, p1⟩, h1, h2⟩ := h
        cases h2
        exact (parseFuncDecl_st E hw).elim h1
      · split at h
        · simp only [bind_ok, pure, Except.pure] at h
          obtain ⟨⟨g, p1⟩, h1, h2⟩ := h
          cases h2
          exact (parseTypeDecl_st hw).elim h1
        · cases h

theorem ParseFile_loop_st : ∀ (n : Nat) (p p' : Parser), ParseFile.loop E n p = .ok p' →
    p.Ordered →
    Within 0 (p.Position.Offset + 1) (stamped (ast.Decl.stampsAll p.File.Decls)) →
    p'.Ordered ∧
      Within 0 (p'.Position.Offset + 1) (stamped (ast.Decl.stampsAll p'.File.Decls)) := by
  intro n
  induction n with
  | zero => intro p p' h; simp [ParseFile.loop] at h
  | succ n ih =>
    intro p p' h hw hF
    simp only [ParseFile.loop] at h
    split at h
    · split at h
      · cases h
      · cases h
        exact ⟨hw, hF⟩
      · rename_i d p1 hd
        obtain ⟨hw1, hle1, hwi1⟩ := ParseFile_decl_st E hw hd
        have hreg := (ParseFile_decl_registers hd).2
        have hst := Registered_stamped hreg
        refine ih _ _ h (ordered_setFile hw1 _).1 ?_
        show Within 0 (p1.Position.Offset + 1)
          (stamped (ast.Decl.stampsAll (p1.File.Decls ++ [d])))
        rw [Decl_stampsAll_append, stamped_append, hst]
        have hd1 : ast.Decl.stampsAll [d] = d.stamps := by
          simp [ast.Decl.stampsAll]
        rw [hd1]
        exact Within.join hF hwi1 (Nat.le_refl _)
    · cases h
      exact ⟨hw, hF⟩

end

theorem ordered_NewParser {src : List scanner.Token} {srcLen : Nat}
    (hs : (src.map (fun t => t.Offset)).Pairwise (fun a b => a ≤ b))
    (hl : ∀ t ∈ src, t.Offset ≤ srcLen) : (NewParser src srcLen).Ordered := by
  have h0 : Parser.Ordered
      { GoScanner := GoScanner.Init src srcLen
        File := { Name := none, Decls := [] }
        Curr := { Tok := 0, Lit := "" } } := by
    unfold Parser.Ordered
    exact ⟨hs, fun t ht => ⟨Nat.zero_le _, hl t ht⟩, Nat.zero_le _⟩
  exact (ordered_next h0).1

theorem Within.pairwise {lo hi : Nat} {l : List Nat} (h : Within lo hi l) :
    l.Pairwise (fun a b => a ≤ b) := by
  unfold Within at h
  exact h.2.1

theorem stamped_File (f : ast.File) (h : f.Name = some { NamePos := 0, Name := "main" }) :
    stamped f.stamps = stamped (ast.Decl.stampsAll f.Decls) := by
  unfold ast.File.stamps
  rw [h]
  simp only [stamped_append, stamped_zero, List.nil_append]

/-- C18 (amended). Position monotonicity of the positions read from the scanner.
For a token stream whose offsets are in non-decreasing order (and none beyond the
offset the scanner reports at end-of-input) and every unit `ParseFile` returns:
list the position fields of the unit in the order in which the parser reads them
from the scanner, which is the order of the fields in the source (`File.stamps`:
a declaration's keyword, then its parts from left to right), and leave out the
fields that carry no scanner position, which hold the zero position (the package
name, the `fmt.Printf` selector and the import declaration the parser
synthesizes, the `FuncType` of a method). Then whenever a position A comes before
a position B in that list, A is less than or equal to B. The value expressions the
parser delegates to `go/parser` (results of `return`, initial values of `var`, the
tag of a `switch`, the expressions of a `case`) are not in the list. -/
theorem ParseFile_positions_ordered (E : String → Option ast.Expr)
    (src : List scanner.Token) (srcLen : Nat)
    (hs : (src.map (fun t => t.Offset)).Pairwise (fun a b => a ≤ b))
    (hl : ∀ t ∈ src, t.Offset ≤ srcLen)
    (fuel : Nat) (file : ast.File) (p' : Parser)
    (h : ParseFile E fuel (NewParser src srcLen) = .ok (file, p')) :
    (stamped file.stamps).Pairwise (fun a b => a ≤ b) := by
  have hN := ordered_NewParser hs hl
  obtain ⟨_, _, _, hname, hfile⟩ := ParseFile_spec h
  simp only [ParseFile, bind_ok, pure, Except.pure] at h
  obtain ⟨p1, h1, p2, h2, h3⟩ := h
  cases h3
  obtain ⟨hw1, _⟩ := (skipNewLines_st fuel _ hN).elimS h1
  have hF1 : p1.File = (NewParser src srcLen).File :=
    skipNewLines_rel sameFile_cursorRel _ _ _ h1
  have hD1 : p1.File.Decls = [] := by
    rw [hF1, NewParser_File]
  obtain ⟨_, hW⟩ := ParseFile_loop_st E fuel _ _ h2 (ordered_setFile hw1 _).1 (by
    show Within 0 (p1.Position.Offset + 1) (stamped (ast.Decl.stampsAll p1.File.Decls))
    rw [hD1]
    exact Within.empty (Nat.zero_le _))
  rw [stamped_File _ hname]
  exact hW.pairwise

end baker


/-! ## The claims about the cursor and the grammar on example programs -/

namespace examples

open baker

/-- C11 fails on the code for a switch with a clause: when the input ends after
`case 1:` and the statement `f(1)`, `ParseFile` fails with the panic `oh no` of
`parseIdent`, not with the expected-literal error for `end`. -/
theorem switch_with_clause_runs_out :
    ParseFile ParseExpr 30 (NewParser switchOneClauseSrc 46) = .error (.panic "oh no") ∧
    ParseFile ParseExpr 30 (NewParser switchOneClauseSrc 46)
      ≠ .error (.wantLit "end" "" { Offset := 46 }) :=
  ⟨rfl, fun h => by
    rw [show ParseFile ParseExpr 30 (NewParser switchOneClauseSrc 46)
      = .error (.panic "oh no") from rfl] at h
    cases h⟩

/-- The amended C11 on two programs: after `switch x:` at the end of the input the
failure is the expected-literal error for `end` at offset 27, the length of the
source; after `switch x:`, `case 1:` and `f(1)` it is the panic `oh no`. -/
theorem parseSwitchStmt_missing_end_witness :
    (∃ N, ∀ fuel, N ≤ fuel →
      parseSwitchStmt ParseExpr fuel ((NewParser switchNoClauseSrc 27).advance 6)
        = .error (.wantLit "end" "" { Offset := 27 })) ∧
    (∃ N, ∀ fuel, N ≤ fuel →
      parseSwitchStmt ParseExpr fuel ((NewParser switchOneClauseSrc 46).advance 6)
        = .error (.panic "oh no")) ∧
    ParseFile ParseExpr 30 (NewParser switchNoClauseSrc 27)
      = .error (.wantLit "end" "" { Offset := 27 }) :=
  ⟨(parseSwitchStmt_missing_end ParseExpr ((NewParser switchNoClauseSrc 27).advance 6)
      ((NewParser switchNoClauseSrc 27).advance 9) rfl
      ⟨5, "x:", (NewParser switchNoClauseSrc 27).advance 9, "x",
        .Ident { NamePos := 1, Name := "x" }, rfl, rfl, rfl, rfl⟩).1 ⟨rfl, rfl⟩,
   (parseSwitchStmt_missing_end ParseExpr ((NewParser switchOneClauseSrc 46).advance 6)
      ((NewParser switchOneClauseSrc 46).advance 10) rfl
      ⟨5, "x:", (NewParser switchOneClauseSrc 46).advance 9, "x",
        .Ident { NamePos := 1, Name := "x" }, rfl, rfl, rfl, rfl⟩).2
      (@ClausesToEOF.last ParseExpr _ ((NewParser switchOneClauseSrc 46).advance 14)
        (Or.inl ⟨rfl, 5, "1:", (NewParser switchOneClauseSrc 46).advance 13, "1",
          .BasicLit { ValuePos := 36, Kind := .INT, Value := "1" }, rfl, rfl, rfl, rfl⟩)
        (@StmtsToEOF.stmt ParseExpr _ 5 _ ((NewParser switchOneClauseSrc 46).advance 14)
          (.ExprStmt
            (.CallExpr (.Ident { NamePos := 44, Name := "f" }) 44
              [.BasicLit { ValuePos := 45, Kind := .INT, Value := "1" }] 46))
          ((NewParser switchOneClauseSrc 46).advance 18)
          rfl (by decide) rfl
          (@StmtsToEOF.eof ParseExpr _ 1 _ ((NewParser switchOneClauseSrc 46).advance 18)
            rfl ⟨rfl, rfl⟩))),
   rfl⟩

/-- C12 fails on the code at end-of-input: on the empty source the cursor is at
end-of-input with the empty literal, `expectLit("")` succeeds there, and the state
it returns is the state it was given: the cursor has not advanced. -/
theorem expectLit_empty_at_eof :
    (NewParser [] 0).Curr = { Tok := scanner.EOF, Lit := "" } ∧
    expectLit (NewParser [] 0) "" = .ok ({ Offset := 0 }, NewParser [] 0) :=
  ⟨rfl, rfl⟩

/-- The amended C12 on `var x = 5`: `expectLit("var")` succeeds and returns the
state after one `next`, `expectLit("fn")` fails with the wanted literal, the
literal found and the position, and the state after `next` is the one after one
`Scan`. -/
theorem expectLit_contract_witness :
    expectLit (NewParser varSrc 9) "var"
      = .ok ({ Offset := 4 }, (NewParser varSrc 9).next) ∧
    expectLit (NewParser varSrc 9) "fn" = .error (.wantLit "fn" "var" { Offset := 0 }) ∧
    (NewParser varSrc 9).next.GoScanner.scnr.src = varSrc.tail.tail :=
  ⟨(expectLit_contract (NewParser varSrc 9) "var").2.2.1 rfl,
   (expectLit_contract (NewParser varSrc 9) "fn").2.1 (by decide),
   ((expectLit_contract (NewParser varSrc 9) "var").2.2.2.1 (by decide)).2.1⟩

/-- C13 fails on the code for a line break: `next` turns a line break into the
token `Ident` with the literal `;`, so `parseIdent` accepts it and returns an
identifier named `;`; the two lines `type` and `int` parse to a declaration of a
type named `;`. -/
theorem parseIdent_accepts_line_break :
    (NewParser typeNewlineSrc 8).next.Curr = { Tok := scanner.Ident, Lit := ";" } ∧
    (parseIdent (NewParser typeNewlineSrc 8).next).map (fun r => r.1)
      = .ok { NamePos := 6, Name := ";" } ∧
    (ParseFile ParseExpr 20 (NewParser typeNewlineSrc 8)).map (fun r => r.1.Decls)
      = .ok [semicolonTypeDecl] :=
  ⟨rfl, rfl, rfl⟩

/-- C14 fails on the code in its three failure cases: `union = ;` gives a union
without members, `union = A B;` the members `A` and `B`, and `union = A | ;` the
member `A`. -/
theorem parseUnionType_accepts_more :
    (parseUnionType 5 (NewParser unionEmptySrc 9)).map (fun r => r.1)
      = .ok (.UnionType 7 []) ∧
    (parseUnionType 5 (NewParser unionJuxtaposedSrc 12)).map (fun r => r.1)
      = .ok (.UnionType 7 [.Ident { NamePos := 11, Name := "A" },
          .Ident { NamePos := 12, Name := "B" }]) ∧
    (parseUnionType 5 (NewParser unionTrailingBarSrc 13)).map (fun r => r.1)
      = .ok (.UnionType 7 [.Ident { NamePos := 11, Name := "A" }]) :=
  ⟨rfl, rfl, rfl⟩

/-- The amended C14 on `type Shape union = Circle | Square;`: with the cursor on
`union`, the members `Circle` and `Square` separated by one `|` and followed by
`;` give, for every sufficient fuel, the union of exactly these two, and the
cursor is left on the `;`. -/
theorem parseUnionType_grammar_witness :
    ((NewParser shapeSrc 35).advance 7).Curr.Lit = ";" ∧
    ∃ N, ∀ fuel, N ≤ fuel →
      parseUnionType fuel ((NewParser shapeSrc 35).advance 2)
        = .ok (.UnionType 18 [.Ident { NamePos := 27, Name := "Circle" },
            .Ident { NamePos := 35, Name := "Square" }],
          (NewParser shapeSrc 35).advance 7) :=
  ⟨rfl,
   ((parseUnionType_grammar ((NewParser shapeSrc 35).advance 2) rfl rfl).1
      [.Ident { NamePos := 27, Name := "Circle" }, .Ident { NamePos := 35, Name := "Square" }]
      ((NewParser shapeSrc 35).advance 7)
      (@UnionMembers.cons 2 ((NewParser shapeSrc 35).advance 4)
        (.Ident { NamePos := 27, Name := "Circle" }) ((NewParser shapeSrc 35).advance 5)
        [.Ident { NamePos := 35, Name := "Square" }] ((NewParser shapeSrc 35).advance 7)
        (fun h => h.elim (fun h1 => absurd h1 (by decide)) (fun h2 => absurd h2 (by decide)))
        rfl rfl
        (@UnionMembers.last 2 ((NewParser shapeSrc 35).advance 6)
          (.Ident { NamePos := 35, Name := "Square" }) ((NewParser shapeSrc 35).advance 7)
          (fun h => h.elim (fun h1 => absurd h1 (by decide)) (fun h2 => absurd h2 (by decide)))
          rfl rfl))).2.2⟩

/-- C15 fails on the code for headers without a colon: in `noColonSrc` the clause
`case 12` is accepted and matches the expression `1` (the header text without its
last byte), and the clause `default y` is accepted with the token `y` skipped. -/
theorem parseCaseClause_accepts_missing_colon :
    (ParseFile ParseExpr 30 (NewParser noColonSrc 77)).map (fun r => r.1.Decls)
      = .ok [noColonDecl] :=
  rfl

/-- C16 on `var x = 5` followed by the line `foo bar`: `ParseFile` returns the
unit with the one declaration and the package name `main`, and leaves the cursor
on `foo` with `bar` not scanned. -/
theorem ParseFile_stops_at_other_literal_witness :
    ParseFile ParseExpr 20 (NewParser trailingSrc 17) = .ok (trailingState.File, trailingState) ∧
    (trailingState.File = trailingState.File ∧
      trailingState.File.Name = some { NamePos := 0, Name := "main" } ∧
      (trailingState.Curr.Tok = scanner.EOF ∨
        trailingState.Curr.Lit ∉ [KeywordVar, KeywordImport, KeywordFn, KeywordType]) ∧
      ∃ ds, ParseFile.topLevel ParseExpr 20 (NewParser trailingSrc 17) = .ok ds ∧
        ((NewParser trailingSrc 17).File.Decls ++ ds).Sublist trailingState.File.Decls) ∧
    ParseFile.loop ParseExpr 1 trailingState = .ok trailingState :=
  ⟨rfl,
   (ParseFile_stops_at_other_literal ParseExpr 20 (NewParser trailingSrc 17)).2.2
      trailingState.File trailingState rfl,
   (ParseFile_stops_at_other_literal ParseExpr 0 trailingState).1 (Or.inr (by decide))⟩

/-- C17 fails on the code: in `greet("GopherCon")` the identifier `greet` starts at
offset 0; `parseExpr` stamps it with position 1, `parseIdent` with position 6, the
offset of the following `(` plus one. In the program of `TestParser` the function
name `greet` at offset 3 gets position 9. -/
theorem parseIdent_position_of_next_token :
    (parseExpr (NewParser callSrc 18)).map (fun r => r.1)
      = .ok (.Ident { NamePos := 1, Name := "greet" }) ∧
    (parseIdent (NewParser callSrc 18)).map (fun r => r.1)
      = .ok { NamePos := 6, Name := "greet" } ∧
    (parseIdent (NewParser testSrc 108).next).map (fun r => r.1)
      = .ok { NamePos := 9, Name := "greet" } :=
  ⟨rfl, rfl, rfl⟩

/-- C19 on two programs. The four tokens of `var x = 5` and the tokens of the
unfinished switch hold no end-of-input token; with 27 units of fuel or more
`ParseFile` returns the same result on the first as with 27, and it returns a
unit; with 97 or more it fails on the second with the panic `oh no`, the same as
with 97: it does not loop at the end of the input. -/
theorem ParseFile_terminates_witness :
    (∀ t ∈ varSrc, t.Tok ≠ scanner.EOF) ∧
    (∀ fuel, 27 ≤ fuel →
      ParseFile ParseExpr fuel (NewParser varSrc 9) ≠ .error .outOfFuel ∧
      ParseFile ParseExpr fuel (NewParser varSrc 9) =
        ParseFile ParseExpr 27 (NewParser varSrc 9)) ∧
    (ParseFile ParseExpr 27 (NewParser varSrc 9)).map (fun r => r.1.Decls)
      = .ok [.GenDecl varDecl] ∧
    (∀ t ∈ switchOneClauseSrc, t.Tok ≠ scanner.EOF) ∧
    (∀ fuel, 97 ≤ fuel →
      ParseFile ParseExpr fuel (NewParser switchOneClauseSrc 46) ≠ .error .outOfFuel ∧
      ParseFile ParseExpr fuel (NewParser switchOneClauseSrc 46) =
        ParseFile ParseExpr 97 (NewParser switchOneClauseSrc 46)) ∧
    ParseFile ParseExpr 97 (NewParser switchOneClauseSrc 46) = .error (.panic "oh no") :=
  ⟨by decide,
   (ParseFile_terminates ParseExpr varSrc 9 (by decide)).1,
   rfl,
   by decide,
   (ParseFile_terminates ParseExpr switchOneClauseSrc 46 (by decide)).1,
   rfl⟩

/-- C21 fails on the code: a `switch` or `case` keyword followed directly by a
line break or by the end of the input leaves the header text empty, and the
slice `str[:len(str)-1]` is then out of range. After `switch` and after `case`
the cursor is on the line break (the literal `;`), `fromHereToEndOfLine` returns
the empty string, and `ParseFile` aborts with the runtime error, not with a
syntax error; the same when the input ends with `switch`. -/
theorem header_truncation_out_of_range :
    ((NewParser switchBareSrc 28).advance 7).Curr = { Tok := scanner.Ident, Lit := ";" } ∧
    (fromHereToEndOfLine 5 ((NewParser switchBareSrc 28).advance 7)).map (fun r => r.1)
      = .ok "" ∧
    parseSwitchStmt ParseExpr 5 ((NewParser switchBareSrc 28).advance 6) = .error .sliceBounds ∧
    ParseFile ParseExpr 30 (NewParser switchBareSrc 28) = .error .sliceBounds ∧
    ((NewParser switchAtEndSrc 24).advance 7).Curr = { Tok := scanner.EOF, Lit := "" } ∧
    ParseFile ParseExpr 30 (NewParser switchAtEndSrc 24) = .error .sliceBounds ∧
    ((NewParser caseBareSrc 44).advance 11).Curr = { Tok := scanner.Ident, Lit := ";" } ∧
    parseCaseClause ParseExpr 5 ((NewParser caseBareSrc 44).advance 10) = .error .sliceBounds ∧
    ParseFile ParseExpr 30 (NewParser caseBareSrc 44) = .error .sliceBounds :=
  ⟨rfl, rfl, rfl, rfl, rfl, rfl, rfl, rfl, rfl⟩

/-- C18 fails on the code: in the unit of the test program the position fields,
listed in source order, are not in non-decreasing order although the offsets of
the tokens are. The name `greet` has position 9 and the body opens at 23, and the
identifiers `fmt` and `Printf` that the parser puts in place of `printf` inside
that body carry position 0. -/
theorem positions_not_monotone :
    ParseFile ParseExpr 20 (NewParser testSrc 108) = .ok (testFile, endState 108 testFile) ∧
    (testSrc.map (fun t => t.Offset)).Pairwise (fun a b => a ≤ b) ∧
    ast.File.stamps testFile =
      [0, 0, 0, 4, 9, 9, 15, 21, 21, 23, 0, 0, 38, 39, 54, 58, 61,
       70, 74, 74, 75, 77, 91, 91, 92, 103, 106] ∧
    ¬ (ast.File.stamps testFile).Pairwise (fun a b => a ≤ b) :=
  ⟨rfl, by decide, rfl, by decide⟩

/-- The amended C18 on the test program: the offsets of its tokens are in order and
at most 108, and the positions of its unit that were read from the scanner are in
non-decreasing order. -/
theorem ParseFile_positions_ordered_witness :
    (testSrc.map (fun t => t.Offset)).Pairwise (fun a b => a ≤ b) ∧
    (∀ t ∈ testSrc, t.Offset ≤ 108) ∧
    stamped (ast.File.stamps testFile) =
      [4, 9, 9, 15, 21, 21, 23, 38, 39, 54, 58, 61,
       70, 74, 74, 75, 77, 91, 91, 92, 103, 106] ∧
    (stamped (ast.File.stamps testFile)).Pairwise (fun a b => a ≤ b) :=
  ⟨by decide, by decide, rfl,
   ParseFile_positions_ordered ParseExpr testSrc 108 (by decide) (by decide) 20 testFile
     (endState 108 testFile) rfl⟩

end examples


/-! ## The text handed to the expression parser (C20) -/

namespace baker

theorem isPlain_of_ender {ch : Char} (h : text.isIdentRune [10, 13, 59] ch = false) :
    text.isPlain ch = true := by
  unfold text.isIdentRune at h
  simp only [decide_eq_false_iff_not, not_not, List.mem_cons, List.mem_singleton,
    List.not_mem_nil, or_false] at h
  have hc : ch = Char.ofNat ch.toNat := (Char.ofNat_toNat ch).symm
  rcases h with h | h | h
  · have : ch.toNat = 10 := by exact_mod_cast h
    rw [this] at hc
    rw [hc]
    decide
  · have : ch.toNat = 13 := by exact_mod_cast h
    rw [this] at hc
    rw [hc]
    decide
  · have : ch.toNat = 59 := by exact_mod_cast h
    rw [this] at hc
    rw [hc]
    decide

theorem ender_toNat {ch : Char} (h : text.isIdentRune [10, 13, 59] ch = false) :
    (ch.toNat : Int) = 59 ∨ (ch.toNat : Int) = 10 ∨ (ch.toNat : Int) = 13 := by
  unfold text.isIdentRune at h
  simp only [decide_eq_false_iff_not, not_not, List.mem_cons, List.mem_singleton,
    List.not_mem_nil, or_false] at h
  rcases h with h | h | h
  · exact Or.inr (Or.inl h)
  · exact Or.inr (Or.inr h)
  · exact Or.inl h

theorem isIdentRune_of_isWhitespace {ch : Char} (h : text.isWhitespace ch = true) :
    text.isIdentRune [10, 13, 59] ch = true := by
  unfold text.isWhitespace at h
  simp only [Bool.or_eq_true, decide_eq_true_eq] at h
  rcases h with h | h <;> (rw [h]; decide)

theorem dropWhile_head {α : Type} (P : α → Bool) :
    ∀ l : List α, ∀ c r, l.dropWhile P = c :: r → P c = false := by
  intro l
  induction l with
  | nil => intro c r h; simp at h
  | cons a t ih =>
    intro c r h
    rw [List.dropWhile_cons] at h
    split at h
    · exact ih c r h
    · rename_i hp
      cases h
      simpa using hp

section
variable (scanGo : text.Source → Rune × text.Source)

theorem Scan_skip_eof {s : text.Source} (hm : s.IsIdentRune = some [10, 13, 59])
    (hd : s.src.dropWhile text.isWhitespace = []) :
    (s.Scan scanGo).1 = scanner.EOF ∧ (s.Scan scanGo).2.tokText = "" ∧
      (s.Scan scanGo).2.src = [] ∧ (s.Scan scanGo).2.IsIdentRune = some [10, 13, 59] := by
  unfold text.Source.Scan
  rw [hm]
  simp only [hd]
  and_intros <;> first | trivial | rfl

theorem Scan_skip_ident {s : text.Source} (hm : s.IsIdentRune = some [10, 13, 59])
    {ch : Char} {rest : List Char} (hd : s.src.dropWhile text.isWhitespace = ch :: rest)
    (hc : text.isIdentRune [10, 13, 59] ch = true) :
    (s.Scan scanGo).1 = scanner.Ident ∧
      (s.Scan scanGo).2.tokText = String.mk (chars.lineOf (ch :: rest)) ∧
      (s.Scan scanGo).2.src = (ch :: rest).dropWhile (text.isIdentRune [10, 13, 59]) ∧
      (s.Scan scanGo).2.IsIdentRune = some [10, 13, 59] := by
  unfold text.Source.Scan
  rw [hm]
  simp only [hd, hc, if_true]
  and_intros <;> first | trivial | rfl

theorem Scan_skip_ender {s : text.Source} (hm : s.IsIdentRune = some [10, 13, 59])
    {ch : Char} {rest : List Char} (hd : s.src.dropWhile text.isWhitespace = ch :: rest)
    (hc : text.isIdentRune [10, 13, 59] ch = false) :
    (s.Scan scanGo).1 = (ch.toNat : Int) ∧
      (s.Scan scanGo).2.IsIdentRune = some [10, 13, 59] := by
  unfold text.Source.Scan
  rw [hm]
  simp only [hd, hc, isPlain_of_ender hc, if_true, Bool.false_eq_true, if_false]
  and_intros <;> first | trivial | rfl

/-- In the stop-at-delimiter mode, when only white space stands between the cursor
and the end of the statement, `next` moves the cursor to the terminator. -/
theorem next_skip_terminator {p : chars.Parser}
    (hm : p.GoScanner.scnr.IsIdentRune = some [10, 13, 59])
    (ht : p.Curr.Tok ≠ scanner.EOF)
    (hd : chars.lineOf (p.GoScanner.scnr.src.dropWhile text.isWhitespace) = []) :
    ((p.next scanGo).Curr.Tok = scanner.EOF ∨ (p.next scanGo).Curr.Lit = ";") ∧
      (p.next scanGo).GoScanner.scnr.IsIdentRune = some [10, 13, 59] := by
  unfold chars.Parser.next
  rw [if_neg ht]
  cases hs : p.GoScanner.scnr.src.dropWhile text.isWhitespace with
  | nil =>
    obtain ⟨h1, _, _, h4⟩ := Scan_skip_eof scanGo hm hs
    simp only [h1]
    rw [if_neg (by decide)]
    exact ⟨Or.inl rfl, h4⟩
  | cons ch rest =>
    have hc : text.isIdentRune [10, 13, 59] ch = false := by
      rw [hs] at hd
      unfold chars.lineOf at hd
      rw [List.takeWhile_cons] at hd
      split at hd
      · cases hd
      · rename_i h
        simpa using h
    obtain ⟨h1, h4⟩ := Scan_skip_ender scanGo hm hs hc
    simp only [h1]
    rw [if_pos (ender_toNat hc)]
    exact ⟨Or.inr rfl, h4⟩

theorem next_skip_ident {p : chars.Parser}
    (hm : p.GoScanner.scnr.IsIdentRune = some [10, 13, 59])
    (ht : p.Curr.Tok ≠ scanner.EOF) {ch : Char} {rest : List Char}
    (hs : p.GoScanner.scnr.src.dropWhile text.isWhitespace = ch :: rest)
    (hc : text.isIdentRune [10, 13, 59] ch = true) :
    (p.next scanGo).Curr = { Tok := scanner.Ident, Lit := String.mk (chars.lineOf (ch :: rest)) } ∧
      (p.next scanGo).GoScanner.scnr.src =
        (ch :: rest).dropWhile (text.isIdentRune [10, 13, 59]) ∧
      (p.next scanGo).GoScanner.scnr.IsIdentRune = some [10, 13, 59] := by
  unfold chars.Parser.next
  rw [if_neg ht]
  obtain ⟨h1, h2, h3, h4⟩ := Scan_skip_ident scanGo hm hs hc
  simp only [h1, text.Source.TokenText, h2]
  rw [if_neg (by decide)]
  exact ⟨rfl, h3, h4⟩

theorem lineOf_dropWhile_ident (l : List Char) :
    chars.lineOf ((l.dropWhile (text.isIdentRune [10, 13, 59])).dropWhile text.isWhitespace)
      = [] := by
  cases hd : l.dropWhile (text.isIdentRune [10, 13, 59]) with
  | nil => rfl
  | cons c r =>
    have hc := dropWhile_head _ l c r hd
    have hw : text.isWhitespace c = false := by
      cases hx : text.isWhitespace c with
      | false => rfl
      | true =>
        rw [isIdentRune_of_isWhitespace hx] at hc
        cases hc
    rw [List.dropWhile_cons, hw]
    simp only [Bool.false_eq_true, if_false]
    unfold chars.lineOf
    rw [List.takeWhile_cons, hc]
    simp

theorem lineOf_ne_semicolon (l : List Char) : String.mk (chars.lineOf l) ≠ ";" := by
  intro h
  have hl : chars.lineOf l = [Char.ofNat 59] := by
    have := congrArg String.data h
    simpa using this
  have hm : Char.ofNat 59 ∈ chars.lineOf l := by
    rw [hl]
    exact List.mem_singleton.mpr rfl
  unfold chars.lineOf at hm
  have := List.mem_takeWhile_imp hm
  revert this
  decide

theorem lineOf_split (l : List Char) :
    chars.lineOf l =
      l.takeWhile text.isWhitespace ++ chars.lineOf (l.dropWhile text.isWhitespace) := by
  induction l with
  | nil => rfl
  | cons c r ih =>
    cases hw : text.isWhitespace c with
    | true =>
      have hc := isIdentRune_of_isWhitespace hw
      unfold chars.lineOf at ih ⊢
      rw [List.takeWhile_cons, hc, List.takeWhile_cons, hw, List.dropWhile_cons, hw]
      simp only [if_true, List.cons_append]
      rw [ih]
    | false =>
      rw [List.takeWhile_cons, hw, List.dropWhile_cons, hw]
      simp

/-- The text `fromHereToEndOfLine` collects, over the source text: from a cursor on
a token that is no terminator, it is the literal under the cursor followed by the
rest of the statement without the white space in front of it, while the source
text of the statement has that white space; the cursor is left on the terminator
and the stop-at-delimiter mode is left switched off. -/
theorem fromHereToEndOfLine_handed (p : chars.Parser) (fuel : Nat)
    (h1 : p.Curr.Tok ≠ scanner.EOF) (h2 : p.Curr.Lit ≠ ";") :
    (∃ q, chars.fromHereToEndOfLine scanGo (fuel + 3) p =
        .ok (p.Curr.Lit ++
          String.mk (chars.lineOf (p.GoScanner.scnr.src.dropWhile text.isWhitespace)), q) ∧
      (q.Curr.Tok = scanner.EOF ∨ q.Curr.Lit = ";") ∧
      q.GoScanner.scnr.IsIdentRune = none) ∧
    p.statementText =
      p.Curr.Lit ++ String.mk (p.GoScanner.scnr.src.takeWhile text.isWhitespace) ++
        String.mk (chars.lineOf (p.GoScanner.scnr.src.dropWhile text.isWhitespace)) := by
  refine ⟨?_, ?_⟩
  · have hfin : ∀ (q : chars.Parser) (str : String) (n : Nat),
        (q.Curr.Tok = scanner.EOF ∨ q.Curr.Lit = ";") →
        chars.fromHereToEndOfLine.loop scanGo (n + 1) q str = .ok (str, q) := by
      intro q str n hq
      unfold chars.fromHereToEndOfLine.loop
      rw [if_neg (by
        intro h
        rcases hq with hq | hq
        · exact h.1 hq
        · exact h.2 hq)]
    have hmode : ∀ q : chars.Parser,
        (chars.GoScanner.SetSkipUntil q.GoScanner []).scnr.IsIdentRune = none := by
      intro q
      rfl
    unfold chars.fromHereToEndOfLine
    generalize hp0 :
      ({ p with GoScanner := p.GoScanner.SetSkipUntil [10, 13, 59] } : chars.Parser) = p0
    have hm0 : p0.GoScanner.scnr.IsIdentRune = some [10, 13, 59] := by
      rw [← hp0]
      rfl
    have hs0 : p0.GoScanner.scnr.src = p.GoScanner.scnr.src := by
      rw [← hp0]
      rfl
    have hc0 : p0.Curr = p.Curr := by
      rw [← hp0]
    have ht0 : p0.Curr.Tok ≠ scanner.EOF := by rw [hc0]; exact h1
    have hl0 : p0.Curr.Lit ≠ ";" := by rw [hc0]; exact h2
    have hstep : chars.fromHereToEndOfLine.loop scanGo (fuel + 3) p0 "" =
        chars.fromHereToEndOfLine.loop scanGo (fuel + 2) (p0.next scanGo) ("" ++ p0.Curr.Lit) := by
      rw [chars.fromHereToEndOfLine.loop, if_pos ⟨ht0, hl0⟩]
    rw [← hs0, ← hc0]
    cases hd : chars.lineOf (p0.GoScanner.scnr.src.dropWhile text.isWhitespace) with
    | nil =>
      obtain ⟨ht1, _⟩ := next_skip_terminator scanGo hm0 ht0 hd
      refine ⟨{ p0.next scanGo with
        GoScanner := (p0.next scanGo).GoScanner.SetSkipUntil [] }, ?_, ht1, hmode _⟩
      simp only [hstep, hfin _ _ _ ht1, bind, Except.bind, pure, Except.pure]
      simp
    | cons c r =>
      cases hs : p0.GoScanner.scnr.src.dropWhile text.isWhitespace with
      | nil =>
        rw [hs] at hd
        cases hd
      | cons ch rest =>
        have hc : text.isIdentRune [10, 13, 59] ch = true := by
          rw [hs] at hd
          unfold chars.lineOf at hd
          rw [List.takeWhile_cons] at hd
          split at hd
          · rename_i h
            exact h
          · cases hd
        obtain ⟨hq1, hq2, hq3⟩ := next_skip_ident scanGo hm0 ht0 hs hc
        have htq : (p0.next scanGo).Curr.Tok ≠ scanner.EOF := by
          rw [hq1]
          show scanner.Ident ≠ scanner.EOF
          decide
        have hlq : (p0.next scanGo).Curr.Lit ≠ ";" := by
          rw [hq1]
          exact lineOf_ne_semicolon _
        have hdq : chars.lineOf
            ((p0.next scanGo).GoScanner.scnr.src.dropWhile text.isWhitespace) = [] := by
          rw [hq2]
          exact lineOf_dropWhile_ident _
        obtain ⟨ht2, _⟩ := next_skip_terminator scanGo hq3 htq hdq
        have hstep2 : chars.fromHereToEndOfLine.loop scanGo (fuel + 2) (p0.next scanGo)
            ("" ++ p0.Curr.Lit) =
            chars.fromHereToEndOfLine.loop scanGo (fuel + 1)
              ((p0.next scanGo).next scanGo) ("" ++ p0.Curr.Lit ++ (p0.next scanGo).Curr.Lit) := by
          rw [chars.fromHereToEndOfLine.loop, if_pos ⟨htq, hlq⟩]
        refine ⟨{ (p0.next scanGo).next scanGo with
          GoScanner := ((p0.next scanGo).next scanGo).GoScanner.SetSkipUntil [] },
          ?_, ht2, hmode _⟩
        simp only [hstep, hstep2, hfin _ _ _ ht2, bind, Except.bind, pure, Except.pure]
        rw [hq1, ← hd, hs]
        simp
  · unfold chars.Parser.statementText
    rw [lineOf_split p.GoScanner.scnr.src, String.append_assoc]
    congr 1

end

end baker

namespace examples

open baker

/-- C20 fails on the code: the text handed to the expression parser is not the
source text when a blank follows the first token of the value. The first token is
under the cursor before `fromHereToEndOfLine` switches the stop-at-delimiter mode
on, and the next `Scan` skips the white space in front of the rest of the line.
In `var x = a b` the source text of the value is `a b`, the text collected is `ab`,
and the expression parser returns the identifier `ab`; in `return 1 + 2` the
source text `1 + 2` is collected as `1+ 2`, the blanks inside the rest of the line
kept. Whatever the scanner does outside the mode (`scanGo`). The tokens the scanner
delivers for `var x = a b` parse to a declaration with the value `ab`. -/
theorem fromHereToEndOfLine_drops_blank :
    ∀ scanGo : text.Source → Rune × text.Source,
      blankState.statementText = "a b" ∧
      (chars.fromHereToEndOfLine scanGo 5 blankState).map (fun r => r.1) = .ok "ab" ∧
      (chars.parseValueToEndOfLine scanGo ParseExpr 5 blankState).map (fun r => r.1)
        = .ok (.Ident { NamePos := 1, Name := "ab" }) ∧
      sumState.statementText = "1 + 2" ∧
      (chars.fromHereToEndOfLine scanGo 5 sumState).map (fun r => r.1) = .ok "1+ 2" ∧
      (chars.fromHereToEndOfLine scanGo 5 sumState).map
          (fun r => (r.2.Curr, r.2.GoScanner.scnr.IsIdentRune, r.2.GoScanner.scnr.src))
        = .ok ({ Tok := scanner.Ident, Lit := ";" }, none, ['e', 'n', 'd']) ∧
      (parseVarDecl ParseExpr 20 (NewParser blankSrc 11)).map (fun r => r.1.Specs)
        = .ok [.ValueSpec [{ NamePos := 7, Name := "x" }] none
            [.Ident { NamePos := 1, Name := "ab" }]] :=
  fun _ => ⟨by decide, rfl, rfl, by decide, rfl, rfl, rfl⟩

end examples
